import Mathlib

/-!
# arch/arm64/mm/mmu.c : kernel page-table construction and teardown

A shallow embedding of the translation-table manager of `arch/arm64/mm/mmu.c`
for the 4 KiB granule with four levels of tables (`VA_BITS = 48`).

* Machine words are natural numbers; every C operation that can overflow is
  written with an explicit `% 2 ^ 64`.
* A table is a function from the slot index to the slot.  A slot of a non-leaf
  table carries the raw descriptor (`val`) and the next-level table that the
  descriptor owns (`tbl`): dereferencing the table pointer stored in a
  descriptor is reading `tbl`.  A table level is owned by exactly one parent
  entry, so tables never alias.
* Everything outside the tables (the page provider behind the table-level
  allocators, the bytes of physical memory, and the log of externally visible
  calls) is threaded explicitly as a `Machine`.
* `BUG()`/`BUG_ON()` and a pointer that is stepped past the last slot of its
  table end the run with a `Halt`.
-/

namespace Arm64Mmu

/-! ## Machine words -/

/-- Addition of two `unsigned long` values. -/
def add64 (a b : Nat) : Nat := (a + b) % 2 ^ 64

/-- Subtraction of two `unsigned long` values. -/
def sub64 (a b : Nat) : Nat := (a + 2 ^ 64 - b % 2 ^ 64) % 2 ^ 64

/-- Bitwise complement of an `unsigned long` value. -/
def not64 (a : Nat) : Nat := 2 ^ 64 - 1 - a % 2 ^ 64

/-- Arithmetic right shift of a `long` held in an `unsigned long`. -/
def asr64 (a k : Nat) : Nat :=
  if a < 2 ^ 63 then a >>> k else (a >>> k) ||| (2 ^ 64 - 2 ^ (64 - k))

/-! ## Constants of the 4 KiB granule, four-level configuration -/

/-- Modelled from the spec: `PAGE_SHIFT` of asm/page-def.h (absent from src/), 4 KiB granule. -/
def PAGE_SHIFT : Nat := 12
/-- Modelled from the spec: `PAGE_SIZE` of asm/page-def.h (absent from src/). -/
def PAGE_SIZE : Nat := 2 ^ 12
/-- Modelled from the spec: `PAGE_MASK` of asm/page-def.h (absent from src/), `~(PAGE_SIZE-1)`. -/
def PAGE_MASK : Nat := 2 ^ 64 - 2 ^ 12
/-- Modelled from the spec: `PMD_SHIFT` of asm/pgtable-hwdef.h (absent from src/). -/
def PMD_SHIFT : Nat := 21
/-- Modelled from the spec: `PMD_SIZE` of asm/pgtable-hwdef.h (absent from src/), 2 MiB. -/
def PMD_SIZE : Nat := 2 ^ 21
/-- Modelled from the spec: `PMD_MASK` of asm/pgtable-hwdef.h (absent from src/). -/
def PMD_MASK : Nat := 2 ^ 64 - 2 ^ 21
/-- Modelled from the spec: `SECTION_MASK` of asm/pgtable-hwdef.h (absent from src/); a section is a
middle-level block. -/
def SECTION_MASK : Nat := 2 ^ 64 - 2 ^ 21
/-- Modelled from the spec: `PUD_SHIFT` of asm/pgtable-hwdef.h (absent from src/). -/
def PUD_SHIFT : Nat := 30
/-- Modelled from the spec: `PUD_SIZE` of asm/pgtable-hwdef.h (absent from src/), 1 GiB. -/
def PUD_SIZE : Nat := 2 ^ 30
/-- Modelled from the spec: `PUD_MASK` of asm/pgtable-hwdef.h (absent from src/). -/
def PUD_MASK : Nat := 2 ^ 64 - 2 ^ 30
/-- Modelled from the spec: `PGDIR_SHIFT` of asm/pgtable-hwdef.h (absent from src/). -/
def PGDIR_SHIFT : Nat := 39
/-- Modelled from the spec: `PGDIR_SIZE` of asm/pgtable-hwdef.h (absent from src/), 512 GiB. -/
def PGDIR_SIZE : Nat := 2 ^ 39
/-- Modelled from the spec: `PGDIR_MASK` of asm/pgtable-hwdef.h (absent from src/). -/
def PGDIR_MASK : Nat := 2 ^ 64 - 2 ^ 39
/-- Modelled from the spec: `PTRS_PER_PTE` of asm/pgtable-hwdef.h (absent from src/). -/
def PTRS_PER_PTE : Nat := 512
/-- Modelled from the spec: `PTRS_PER_PMD` of asm/pgtable-hwdef.h (absent from src/). -/
def PTRS_PER_PMD : Nat := 512
/-- Modelled from the spec: `PTRS_PER_PUD` of asm/pgtable-hwdef.h (absent from src/). -/
def PTRS_PER_PUD : Nat := 512
/-- Modelled from the spec: `PTRS_PER_PGD` of asm/pgtable-hwdef.h (absent from src/). -/
def PTRS_PER_PGD : Nat := 512
/-- Modelled from the spec: `VA_BITS` of asm/memory.h (absent from src/). -/
def VA_BITS : Nat := 48
/-- Modelled from the spec: `PHYS_MASK` of asm/pgtable-hwdef.h (absent from src/), 48 address bits. -/
def PHYS_MASK : Nat := 2 ^ 48 - 1

/-- Modelled from the spec: `PTE_TABLE_BIT` of asm/pgtable-hwdef.h (absent from src/). -/
def PTE_TABLE_BIT : Nat := 2
/-- Modelled from the spec: `PMD_TYPE_MASK` of asm/pgtable-hwdef.h (absent from src/). -/
def PMD_TYPE_MASK : Nat := 3
/-- Modelled from the spec: `PMD_TYPE_TABLE` of asm/pgtable-hwdef.h (absent from src/). -/
def PMD_TYPE_TABLE : Nat := 3
/-- Modelled from the spec: `PMD_TYPE_SECT` of asm/pgtable-hwdef.h (absent from src/). -/
def PMD_TYPE_SECT : Nat := 1
/-- Modelled from the spec: `PMD_TABLE_BIT` of asm/pgtable-hwdef.h (absent from src/). -/
def PMD_TABLE_BIT : Nat := 2
/-- Modelled from the spec: `PUD_TYPE_MASK` of asm/pgtable-hwdef.h (absent from src/). -/
def PUD_TYPE_MASK : Nat := 3
/-- Modelled from the spec: `PUD_TYPE_TABLE` of asm/pgtable-hwdef.h (absent from src/). -/
def PUD_TYPE_TABLE : Nat := 3
/-- Modelled from the spec: `PUD_TYPE_SECT` of asm/pgtable-hwdef.h (absent from src/). -/
def PUD_TYPE_SECT : Nat := 1
/-- Modelled from the spec: `PUD_TABLE_BIT` of asm/pgtable-hwdef.h (absent from src/). -/
def PUD_TABLE_BIT : Nat := 2
/-- Modelled from the spec: `PTE_VALID` of asm/pgtable-hwdef.h (absent from src/). -/
def PTE_VALID : Nat := 1
/-- Modelled from the spec: `PTE_PROT_NONE` of asm/pgtable-prot.h (absent from src/), bit 58. -/
def PTE_PROT_NONE : Nat := 2 ^ 58
/-- Modelled from the spec: `PTE_RDONLY` of asm/pgtable-hwdef.h (absent from src/), bit 7. -/
def PTE_RDONLY : Nat := 2 ^ 7
/-- Modelled from the spec: `PTE_PXN` of asm/pgtable-hwdef.h (absent from src/), bit 53. -/
def PTE_PXN : Nat := 2 ^ 53

/-- Modelled from the spec: `PAGE_KERNEL_EXEC` of asm/pgtable-prot.h (absent from src/): a valid,
accessed, inner-shareable, normal-memory, writable page that the kernel may execute
(`PTE_TYPE_PAGE | PTE_AF | PTE_SHARED | PTE_ATTRINDX(MT_NORMAL) | PTE_UXN | PTE_DIRTY | PTE_WRITE`). -/
def PAGE_KERNEL_EXEC : Nat := 0x00C8000000000713
/-- Modelled from the spec: `PAGE_KERNEL` of asm/pgtable-prot.h (absent from src/):
`PAGE_KERNEL_EXEC | PTE_PXN`, read/write/no-execute. -/
def PAGE_KERNEL : Nat := 0x00E8000000000713
/-- Modelled from the spec: `PAGE_KERNEL_RO` of asm/pgtable-prot.h (absent from src/): read-only,
no-execute. -/
def PAGE_KERNEL_RO : Nat := 0x00E0000000000793

/-- Fill value of vacated bytes (`#define PAGE_INUSE 0xFD`). -/
def PAGE_INUSE : Nat := 0xFD

/-! ## Descriptor accessors (asm/pgtable.h) -/

/-- Modelled from the spec: `PAGE_ALIGN` of linux/mm.h (absent from src/): round up to a page. -/
def PAGE_ALIGN (x : Nat) : Nat := ((x + (PAGE_SIZE - 1)) % 2 ^ 64) &&& PAGE_MASK
/-- Modelled from the spec: `PAGE_ALIGNED` of linux/mm.h (absent from src/). -/
def PAGE_ALIGNED (x : Nat) : Bool := x &&& (PAGE_SIZE - 1) == 0

/-- Modelled from the spec: `pte_none` of asm/pgtable.h (absent from src/): the empty entry. -/
def pte_none (pte : Nat) : Bool := pte == 0
/-- Modelled from the spec: `pte_present` of asm/pgtable.h (absent from src/). -/
def pte_present (pte : Nat) : Bool := pte &&& (PTE_VALID ||| PTE_PROT_NONE) != 0
/-- Modelled from the spec: `pte_pfn` of asm/pgtable.h (absent from src/). -/
def pte_pfn (pte : Nat) : Nat := (pte &&& PHYS_MASK) >>> PAGE_SHIFT
/-- Modelled from the spec: `pfn_pte` of asm/pgtable.h (absent from src/): the page entry of a frame. -/
def pfn_pte (pfn prot : Nat) : Nat := ((pfn <<< PAGE_SHIFT) % 2 ^ 64) ||| prot
/-- Modelled from the spec: `mk_sect_prot` of asm/pgtable.h (absent from src/). -/
def mk_sect_prot (prot : Nat) : Nat := prot &&& not64 PTE_TABLE_BIT
/-- Modelled from the spec: `__phys_to_pfn` of asm/memory.h (absent from src/). -/
def __phys_to_pfn (phys : Nat) : Nat := phys >>> PAGE_SHIFT

/-- Modelled from the spec: `pmd_none` of asm/pgtable.h (absent from src/). -/
def pmd_none (pmd : Nat) : Bool := pmd == 0
/-- Modelled from the spec: `pmd_present` of asm/pgtable.h (absent from src/):
`pte_present(pmd_pte(pmd))`. -/
def pmd_present (pmd : Nat) : Bool := pte_present pmd
/-- Modelled from the spec: `pmd_bad` of asm/pgtable.h (absent from src/). -/
def pmd_bad (pmd : Nat) : Bool := pmd &&& PMD_TABLE_BIT == 0
/-- Modelled from the spec: `pmd_table` of asm/pgtable.h (absent from src/). -/
def pmd_table (pmd : Nat) : Bool := pmd &&& PMD_TYPE_MASK == PMD_TYPE_TABLE
/-- Modelled from the spec: `pmd_sect` of asm/pgtable.h (absent from src/): a middle-level block. -/
def pmd_sect (pmd : Nat) : Bool := pmd &&& PMD_TYPE_MASK == PMD_TYPE_SECT
/-- Modelled from the spec: `pmd_pfn` of asm/pgtable.h (absent from src/). -/
def pmd_pfn (pmd : Nat) : Nat := ((pmd &&& PMD_MASK) &&& PHYS_MASK) >>> PAGE_SHIFT
/-- Modelled from the spec: `pmd_page_paddr` of asm/pgtable.h (absent from src/). -/
def pmd_page_paddr (pmd : Nat) : Nat := (pmd &&& PHYS_MASK) &&& PAGE_MASK

/-- Modelled from the spec: `pud_none` of asm/pgtable.h (absent from src/). -/
def pud_none (pud : Nat) : Bool := pud == 0
/-- Modelled from the spec: `pud_present` of asm/pgtable.h (absent from src/). -/
def pud_present (pud : Nat) : Bool := pud != 0
/-- Modelled from the spec: `pud_bad` of asm/pgtable.h (absent from src/). -/
def pud_bad (pud : Nat) : Bool := pud &&& PUD_TABLE_BIT == 0
/-- Modelled from the spec: `pud_table` of asm/pgtable.h (absent from src/), 4 KiB granule. -/
def pud_table (pud : Nat) : Bool := pud &&& PUD_TYPE_MASK == PUD_TYPE_TABLE
/-- Modelled from the spec: `pud_sect` of asm/pgtable.h (absent from src/), 4 KiB granule: an
upper-level block. -/
def pud_sect (pud : Nat) : Bool := pud &&& PUD_TYPE_MASK == PUD_TYPE_SECT
/-- Modelled from the spec: `pud_pfn` of asm/pgtable.h (absent from src/). -/
def pud_pfn (pud : Nat) : Nat := ((pud &&& PUD_MASK) &&& PHYS_MASK) >>> PAGE_SHIFT
/-- Modelled from the spec: `pud_page_paddr` of asm/pgtable.h (absent from src/). -/
def pud_page_paddr (pud : Nat) : Nat := (pud &&& PHYS_MASK) &&& PAGE_MASK

/-- Modelled from the spec: `pgd_none` of asm/pgtable.h (absent from src/). -/
def pgd_none (pgd : Nat) : Bool := pgd == 0
/-- Modelled from the spec: `pgd_bad` of asm/pgtable.h (absent from src/). -/
def pgd_bad (pgd : Nat) : Bool := pgd &&& 2 == 0
/-- Modelled from the spec: `pgd_page_paddr` of asm/pgtable.h (absent from src/). -/
def pgd_page_paddr (pgd : Nat) : Nat := (pgd &&& PHYS_MASK) &&& PAGE_MASK

/-- Modelled from the spec: `pte_index` of asm/pgtable.h (absent from src/). -/
def pte_index (addr : Nat) : Nat := (addr >>> PAGE_SHIFT) &&& (PTRS_PER_PTE - 1)
/-- Modelled from the spec: `pmd_index` of asm/pgtable.h (absent from src/). -/
def pmd_index (addr : Nat) : Nat := (addr >>> PMD_SHIFT) &&& (PTRS_PER_PMD - 1)
/-- Modelled from the spec: `pud_index` of asm/pgtable.h (absent from src/). -/
def pud_index (addr : Nat) : Nat := (addr >>> PUD_SHIFT) &&& (PTRS_PER_PUD - 1)
/-- Modelled from the spec: `pgd_index` of asm/pgtable.h (absent from src/). -/
def pgd_index (addr : Nat) : Nat := (addr >>> PGDIR_SHIFT) &&& (PTRS_PER_PGD - 1)

/-- Modelled from the spec: `pmd_addr_end` of asm-generic/pgtable.h (absent from src/): the end of
the middle-level entry that holds `addr`, or `end_` when that comes first. -/
def pmd_addr_end (addr end_ : Nat) : Nat :=
  let boundary := (add64 addr PMD_SIZE) &&& PMD_MASK
  if sub64 boundary 1 < sub64 end_ 1 then boundary else end_
/-- Modelled from the spec: `pud_addr_end` of asm-generic/pgtable.h (absent from src/). -/
def pud_addr_end (addr end_ : Nat) : Nat :=
  let boundary := (add64 addr PUD_SIZE) &&& PUD_MASK
  if sub64 boundary 1 < sub64 end_ 1 then boundary else end_
/-- Modelled from the spec: `pgd_addr_end` of asm-generic/pgtable.h (absent from src/). -/
def pgd_addr_end (addr end_ : Nat) : Nat :=
  let boundary := (add64 addr PGDIR_SIZE) &&& PGDIR_MASK
  if sub64 boundary 1 < sub64 end_ 1 then boundary else end_

/-! ## Tables -/

/-- A leaf table: slot index to raw page entry. -/
abbrev PteTable := Nat → Nat

/-- A middle-level slot: the raw `pmd_t` and the leaf table it owns. -/
structure PmdEnt where
  val : Nat
  tbl : PteTable

/-- A middle-level table. -/
abbrev PmdTable := Nat → PmdEnt

/-- An upper-level slot: the raw `pud_t` and the middle-level table it owns. -/
structure PudEnt where
  val : Nat
  tbl : PmdTable

/-- An upper-level table. -/
abbrev PudTable := Nat → PudEnt

/-- A root slot: the raw `pgd_t` and the upper-level table it owns. -/
structure PgdEnt where
  val : Nat
  tbl : PudTable

/-- A root table (`pgd_t *pgdir`). -/
abbrev PgdTable := Nat → PgdEnt

/-- A zero-filled page seen as a leaf table. -/
def zero_pte_table : PteTable := fun _ => 0
/-- A zero-filled page seen as a middle-level table. -/
def zero_pmd_table : PmdTable := fun _ => ⟨0, zero_pte_table⟩
/-- A zero-filled page seen as an upper-level table. -/
def zero_pud_table : PudTable := fun _ => ⟨0, zero_pmd_table⟩
/-- A zero-filled page seen as a root table. -/
def zero_pgd_table : PgdTable := fun _ => ⟨0, zero_pud_table⟩

/-! ## The machine around the tables -/

/-- A translation root that can be installed in `TTBR1`: the permanent root `swapper_pg_dir`, or
the root table in the page at physical address `pa`. -/
inductive Root where
  | swapper_pg_dir
  | page (pa : Nat)
  deriving DecidableEq, Repr

/-- Calls that are visible outside the tables, in the order they are made. -/
inductive Event where
  | warn
  | page_alloc (pa : Nat)
  | set_pte (old new : Nat)
  | set_pmd (old new : Nat)
  | set_pud (old new : Nat)
  | set_pgd (old new : Nat)
  | flush_tlb_all
  | memblock_free (pa size : Nat)
  | free_pagetable (pfn order : Nat) (direct : Bool)
  | memset (pa len : Nat)
  | memblock_reserve (pa size : Nat)
  | pgd_set_fixmap (pa : Nat)
  | pgd_clear_fixmap
  | cpu_replace_ttbr1 (root : Root)
  | free_pages (pa order : Nat)
  | flush_tlb_kernel_range (start end_ : Nat)
  deriving DecidableEq, Repr

/-- Ways a run ends without returning. -/
inductive Halt where
  | bug
  | panic
  | overrun
  | fault
  deriving DecidableEq, Repr

/-- The state outside the tables.  `supply n` is the physical address of the page that the `n`-th
request to the page provider (`memblock_alloc`, `__get_free_page`) returns, `0` when it has none;
`ctor_ok` is the outcome of `pgtable_page_ctor` on a page; `slab` is `slab_is_available()`;
`bytes` is the content of physical memory, byte by byte; `trace` is the log, newest first;
`ttbr1` is the translation root that is active for the kernel half. -/
structure Machine where
  supply : Nat → Nat
  ctor_ok : Nat → Bool
  slab : Bool
  nalloc : Nat
  bytes : Nat → Nat
  trace : List Event
  ttbr1 : Root := .swapper_pg_dir

/-- Append one event to the log. -/
def Machine.log (m : Machine) (e : Event) : Machine := { m with trace := e :: m.trace }

/-- One request to the page provider. -/
def Machine.take (m : Machine) : Nat × Machine :=
  (m.supply m.nalloc, { m with nalloc := m.nalloc + 1 })

/-- The three table-level allocators that the file passes as `pgtable_alloc`. -/
inductive Allocator where
  | early_pgtable_alloc
  | pgd_pgtable_alloc
  | early_pgd_pgtable_alloc
  deriving DecidableEq, Repr

/-- Allocator `early_pgtable_alloc`: a page of `memblock_alloc` (which panics when it has none),
zeroed through the `FIX_PTE` slot. -/
def early_pgtable_alloc (m : Machine) : Except Halt (Nat × Machine) :=
  let (phys, m) := m.take
  if phys == 0 then .error .panic else .ok (phys, m.log (.page_alloc phys))

/-- Allocator `pgd_pgtable_alloc`: a zeroed page of `__get_free_page`, registered as a table page;
`BUG()` when there is no page or the registration fails. -/
def pgd_pgtable_alloc (m : Machine) : Except Halt (Nat × Machine) :=
  let (ptr, m) := m.take
  if ptr == 0 || !m.ctor_ok ptr then .error .bug else .ok (ptr, m.log (.page_alloc ptr))

/-- Allocator `early_pgd_pgtable_alloc`: a page of `memblock_alloc`, `BUG_ON(!phys)`, zeroed. -/
def early_pgd_pgtable_alloc (m : Machine) : Except Halt (Nat × Machine) :=
  let (phys, m) := m.take
  if phys == 0 then .error .bug else .ok (phys, m.log (.page_alloc phys))

/-- A call through the `pgtable_alloc` function pointer. -/
def Allocator.call : Allocator → Machine → Except Halt (Nat × Machine)
  | .early_pgtable_alloc => Arm64Mmu.early_pgtable_alloc
  | .pgd_pgtable_alloc => Arm64Mmu.pgd_pgtable_alloc
  | .early_pgd_pgtable_alloc => Arm64Mmu.early_pgd_pgtable_alloc

/-! ## Split engine and mapping engine -/

/-- The loop of `split_pmd`: `set_pte(pte, pfn_pte(pfn, PAGE_KERNEL_EXEC)); pfn++;` repeated
`while (pte++, i++, i < PTRS_PER_PTE)`.  The first argument bounds the number of passes. -/
def split_pmd_loop : Nat → Machine → PteTable → Nat → Nat → PteTable × Machine
  | 0, m, pte, _, _ => (pte, m)
  | n + 1, m, pte, i, pfn =>
    let m := m.log (.set_pte (pte i) (pfn_pte pfn PAGE_KERNEL_EXEC))
    let pte := Function.update pte i (pfn_pte pfn PAGE_KERNEL_EXEC)
    if i + 1 < PTRS_PER_PTE then split_pmd_loop n m pte (i + 1) ((pfn + 1) % 2 ^ 64)
    else (pte, m)

/-- Function `split_pmd(pmd, pte)`: fill the new leaf table `pte` from the block entry `pmd`. -/
def split_pmd (m : Machine) (pmd : Nat) (pte : PteTable) : PteTable × Machine :=
  split_pmd_loop PTRS_PER_PTE m pte 0 (pmd_pfn pmd)

/-- The loop of `alloc_init_pte`: `set_pte(pte, pfn_pte(pfn, prot)); pfn++;` repeated
`while (pte++, addr += PAGE_SIZE, addr != end)`.  `room` is the number of slots from `pte` to the
end of the table; stepping past the table is `Halt.overrun`. -/
def alloc_init_pte_loop : Nat → Machine → PteTable → Nat → Nat → Nat → Nat → Nat →
    Except Halt (PteTable × Machine)
  | 0, _, _, _, _, _, _, _ => .error .overrun
  | room + 1, m, pte, i, addr, end_, pfn, prot =>
    let m := m.log (.set_pte (pte i) (pfn_pte pfn prot))
    let pte := Function.update pte i (pfn_pte pfn prot)
    let addr := add64 addr PAGE_SIZE
    if addr != end_ then
      alloc_init_pte_loop room m pte (i + 1) addr end_ ((pfn + 1) % 2 ^ 64) prot
    else .ok (pte, m)

/-- Function `alloc_init_pte(pmd, addr, end, pfn, prot, pgtable_alloc)`. -/
def alloc_init_pte (m : Machine) (pmd : PmdEnt) (addr end_ pfn prot : Nat)
    (pgtable_alloc : Option Allocator) : Except Halt (PmdEnt × Machine) :=
  let prepared : Except Halt (PmdEnt × Machine) :=
    if pmd_none pmd.val || pmd_sect pmd.val then
      match pgtable_alloc with
      | none => .error .bug
      | some alloc =>
        match alloc.call m with
        | .error h => .error h
        | .ok (pte_phys, m) =>
          let (pte, m) :=
            if pmd_sect pmd.val then split_pmd m pmd.val zero_pte_table
            else (zero_pte_table, m)
          let m := m.log (.set_pmd pmd.val (pte_phys ||| PMD_TYPE_TABLE))
          let m := m.log .flush_tlb_all
          .ok (⟨pte_phys ||| PMD_TYPE_TABLE, pte⟩, m)
    else .ok (pmd, m)
  match prepared with
  | .error h => .error h
  | .ok (pmd, m) =>
    if pmd_bad pmd.val then .error .bug
    else
      match alloc_init_pte_loop (PTRS_PER_PTE - pte_index addr) m pmd.tbl (pte_index addr)
          addr end_ pfn prot with
      | .error h => .error h
      | .ok (pte, m) => .ok (⟨pmd.val, pte⟩, m)

/-- The loop of `split_pud`: `set_pmd(pmd, __pmd(addr | pgprot_val(prot))); addr += PMD_SIZE;`
repeated `while (pmd++, i++, i < PTRS_PER_PMD)`. -/
def split_pud_loop : Nat → Machine → PmdTable → Nat → Nat → Nat → PmdTable × Machine
  | 0, m, pmd, _, _, _ => (pmd, m)
  | n + 1, m, pmd, i, addr, prot =>
    let m := m.log (.set_pmd (pmd i).val (addr ||| prot))
    let pmd := Function.update pmd i ⟨addr ||| prot, (pmd i).tbl⟩
    if i + 1 < PTRS_PER_PMD then split_pud_loop n m pmd (i + 1) (add64 addr PMD_SIZE) prot
    else (pmd, m)

/-- Function `split_pud(old_pud, pmd)`: fill the new middle-level table `pmd` from the block entry
`old_pud`. -/
def split_pud (m : Machine) (old_pud : Nat) (pmd : PmdTable) : PmdTable × Machine :=
  let addr := (pud_pfn old_pud <<< PAGE_SHIFT) % 2 ^ 64
  let prot := old_pud ^^^ addr
  split_pud_loop PTRS_PER_PMD m pmd 0 addr prot

/-- Function `pmd_set_huge(pmd, phys, prot)`: `BUG_ON(phys & ~PMD_MASK)`, then store the block
entry.  Returns the stored value. -/
def pmd_set_huge (m : Machine) (old phys prot : Nat) : Except Halt (Nat × Machine) :=
  if phys &&& not64 PMD_MASK != 0 then .error .bug
  else
    let v := phys ||| PMD_TYPE_SECT ||| mk_sect_prot prot
    .ok (v, m.log (.set_pmd old v))

/-- Function `pud_set_huge(pud, phys, prot)`: `BUG_ON(phys & ~PUD_MASK)`, then store the block
entry.  Returns the stored value. -/
def pud_set_huge (m : Machine) (old phys prot : Nat) : Except Halt (Nat × Machine) :=
  if phys &&& not64 PUD_MASK != 0 then .error .bug
  else
    let v := phys ||| PUD_TYPE_SECT ||| mk_sect_prot prot
    .ok (v, m.log (.set_pud old v))

/-- One pass of the body of the loop of `alloc_init_pmd` on the slot `pmd` for `[addr, next)`:
a section when `addr`, `next` and `phys` are section aligned and blocks are allowed, a leaf table
otherwise. -/
def alloc_init_pmd_body (m : Machine) (pmd : PmdEnt) (addr next phys prot : Nat)
    (pgtable_alloc : Option Allocator) (allow_block_mappings : Bool) :
    Except Halt (PmdEnt × Machine) :=
  if ((addr ||| next ||| phys) &&& not64 SECTION_MASK == 0) && allow_block_mappings then
    let old_pmd := pmd.val
    match pmd_set_huge m old_pmd phys prot with
    | .error h => .error h
    | .ok (v, m) =>
      let m :=
        if !pmd_none old_pmd then
          let m := m.log .flush_tlb_all
          if pmd_table old_pmd then
            let table := pmd_page_paddr old_pmd
            if !m.slab then m.log (.memblock_free table PAGE_SIZE) else m.log .warn
          else m
        else m
      .ok (⟨v, pmd.tbl⟩, m)
  else alloc_init_pte m pmd addr next (__phys_to_pfn phys) prot pgtable_alloc

/-- The loop of `alloc_init_pmd`: `next = pmd_addr_end(addr, end); ...; phys += next - addr;`
repeated `while (pmd++, addr = next, addr != end)`.  `room` is the number of slots from `pmd` to
the end of the table. -/
def alloc_init_pmd_loop : Nat → Machine → PmdTable → Nat → Nat → Nat → Nat → Nat →
    Option Allocator → Bool → Except Halt (PmdTable × Machine)
  | 0, _, _, _, _, _, _, _, _, _ => .error .overrun
  | room + 1, m, pmd, i, addr, end_, phys, prot, pgtable_alloc, allow_block_mappings =>
    let next := pmd_addr_end addr end_
    match alloc_init_pmd_body m (pmd i) addr next phys prot pgtable_alloc
        allow_block_mappings with
    | .error h => .error h
    | .ok (e, m) =>
      let pmd := Function.update pmd i e
      let phys := add64 phys (sub64 next addr)
      if next != end_ then
        alloc_init_pmd_loop room m pmd (i + 1) next end_ phys prot pgtable_alloc
          allow_block_mappings
      else .ok (pmd, m)

/-- Function `alloc_init_pmd(pud, addr, end, phys, prot, pgtable_alloc, allow_block_mappings)`. -/
def alloc_init_pmd (m : Machine) (pud : PudEnt) (addr end_ phys prot : Nat)
    (pgtable_alloc : Option Allocator) (allow_block_mappings : Bool) :
    Except Halt (PudEnt × Machine) :=
  let prepared : Except Halt (PudEnt × Machine) :=
    if pud_none pud.val || pud_sect pud.val then
      match pgtable_alloc with
      | none => .error .bug
      | some alloc =>
        match alloc.call m with
        | .error h => .error h
        | .ok (pmd_phys, m) =>
          let (pmd, m) :=
            if pud_sect pud.val then split_pud m pud.val zero_pmd_table
            else (zero_pmd_table, m)
          let m := m.log (.set_pud pud.val (pmd_phys ||| PUD_TYPE_TABLE))
          let m := m.log .flush_tlb_all
          .ok (⟨pmd_phys ||| PUD_TYPE_TABLE, pmd⟩, m)
    else .ok (pud, m)
  match prepared with
  | .error h => .error h
  | .ok (pud, m) =>
    if pud_bad pud.val then .error .bug
    else
      match alloc_init_pmd_loop (PTRS_PER_PMD - pmd_index addr) m pud.tbl (pmd_index addr)
          addr end_ phys prot pgtable_alloc allow_block_mappings with
      | .error h => .error h
      | .ok (pmd, m) => .ok (⟨pud.val, pmd⟩, m)

/-- Function `use_1G_block(addr, next, phys)`; `PAGE_SHIFT` is 12 in this configuration. -/
def use_1G_block (addr next phys : Nat) : Bool :=
  if PAGE_SHIFT != 12 then false
  else if (addr ||| next ||| phys) &&& not64 PUD_MASK != 0 then false
  else true

/-- One pass of the body of the loop of `alloc_init_pud` on the slot `pud` for `[addr, next)`. -/
def alloc_init_pud_body (m : Machine) (pud : PudEnt) (addr next phys prot : Nat)
    (pgtable_alloc : Option Allocator) (allow_block_mappings : Bool) :
    Except Halt (PudEnt × Machine) :=
  if use_1G_block addr next phys && allow_block_mappings then
    let old_pud := pud.val
    match pud_set_huge m old_pud phys prot with
    | .error h => .error h
    | .ok (v, m) =>
      let m :=
        if !pud_none old_pud then
          let m := m.log .flush_tlb_all
          if pud_table old_pud then
            let table := pud_page_paddr old_pud
            if !m.slab then m.log (.memblock_free table PAGE_SIZE) else m.log .warn
          else m
        else m
      .ok (⟨v, pud.tbl⟩, m)
  else alloc_init_pmd m pud addr next phys prot pgtable_alloc allow_block_mappings

/-- The loop of `alloc_init_pud`: `next = pud_addr_end(addr, end); ...; phys += next - addr;`
repeated `while (pud++, addr = next, addr != end)`. -/
def alloc_init_pud_loop : Nat → Machine → PudTable → Nat → Nat → Nat → Nat → Nat →
    Option Allocator → Bool → Except Halt (PudTable × Machine)
  | 0, _, _, _, _, _, _, _, _, _ => .error .overrun
  | room + 1, m, pud, i, addr, end_, phys, prot, pgtable_alloc, allow_block_mappings =>
    let next := pud_addr_end addr end_
    match alloc_init_pud_body m (pud i) addr next phys prot pgtable_alloc
        allow_block_mappings with
    | .error h => .error h
    | .ok (e, m) =>
      let pud := Function.update pud i e
      let phys := add64 phys (sub64 next addr)
      if next != end_ then
        alloc_init_pud_loop room m pud (i + 1) next end_ phys prot pgtable_alloc
          allow_block_mappings
      else .ok (pud, m)

/-- Function `alloc_init_pud(pgd, addr, end, phys, prot, pgtable_alloc, allow_block_mappings)`. -/
def alloc_init_pud (m : Machine) (pgd : PgdEnt) (addr end_ phys prot : Nat)
    (pgtable_alloc : Option Allocator) (allow_block_mappings : Bool) :
    Except Halt (PgdEnt × Machine) :=
  let prepared : Except Halt (PgdEnt × Machine) :=
    if pgd_none pgd.val then
      match pgtable_alloc with
      | none => .error .bug
      | some alloc =>
        match alloc.call m with
        | .error h => .error h
        | .ok (pud_phys, m) =>
          let m := m.log (.set_pgd pgd.val (pud_phys ||| PUD_TYPE_TABLE))
          .ok (⟨pud_phys ||| PUD_TYPE_TABLE, zero_pud_table⟩, m)
    else .ok (pgd, m)
  match prepared with
  | .error h => .error h
  | .ok (pgd, m) =>
    if pgd_bad pgd.val then .error .bug
    else
      match alloc_init_pud_loop (PTRS_PER_PUD - pud_index addr) m pgd.tbl (pud_index addr)
          addr end_ phys prot pgtable_alloc allow_block_mappings with
      | .error h => .error h
      | .ok (pud, m) => .ok (⟨pgd.val, pud⟩, m)

/-- The loop of `__create_pgd_mapping`: `next = pgd_addr_end(addr, end); alloc_init_pud(...);
phys += next - addr;` repeated `while (pgd++, addr = next, addr != end)`. -/
def create_pgd_mapping_loop : Nat → Machine → PgdTable → Nat → Nat → Nat → Nat → Nat →
    Option Allocator → Bool → Except Halt (PgdTable × Machine)
  | 0, _, _, _, _, _, _, _, _, _ => .error .overrun
  | room + 1, m, pgd, i, addr, end_, phys, prot, pgtable_alloc, allow_block_mappings =>
    let next := pgd_addr_end addr end_
    match alloc_init_pud m (pgd i) addr next phys prot pgtable_alloc allow_block_mappings with
    | .error h => .error h
    | .ok (e, m) =>
      let pgd := Function.update pgd i e
      let phys := add64 phys (sub64 next addr)
      if next != end_ then
        create_pgd_mapping_loop room m pgd (i + 1) next end_ phys prot pgtable_alloc
          allow_block_mappings
      else .ok (pgd, m)

/-- Function `__create_pgd_mapping(pgdir, phys, virt, size, prot, pgtable_alloc,
allow_block_mappings)`. -/
def __create_pgd_mapping (m : Machine) (pgdir : PgdTable) (phys virt size prot : Nat)
    (pgtable_alloc : Option Allocator) (allow_block_mappings : Bool) :
    Except Halt (PgdTable × Machine) :=
  if (phys ^^^ virt) &&& not64 PAGE_MASK != 0 then .ok (pgdir, m.log .warn)
  else
    let phys := phys &&& PAGE_MASK
    let addr := virt &&& PAGE_MASK
    let length := PAGE_ALIGN (add64 size (virt &&& not64 PAGE_MASK))
    let end_ := add64 addr length
    create_pgd_mapping_loop (PTRS_PER_PGD - pgd_index virt) m pgdir (pgd_index virt)
      addr end_ phys prot pgtable_alloc allow_block_mappings

/-! ## Address validity query and table walk -/

/-- Function `kern_addr_valid(addr)` on the kernel root `init_pgd` (`init_mm.pgd`); `pfn_valid`
tells which frames are tracked pages.  The result is whether the C function returns non-zero. -/
def kern_addr_valid (pfn_valid : Nat → Bool) (init_pgd : PgdTable) (addr : Nat) : Bool :=
  if asr64 addr VA_BITS != 2 ^ 64 - 1 then false
  else
    let pgd := init_pgd (pgd_index addr)
    if pgd_none pgd.val then false
    else
      let pud := pgd.tbl (pud_index addr)
      if pud_none pud.val then false
      else if pud_sect pud.val then pfn_valid (pud_pfn pud.val)
      else
        let pmd := pud.tbl (pmd_index addr)
        if pmd_none pmd.val then false
        else if pmd_sect pmd.val then pfn_valid (pmd_pfn pmd.val)
        else
          let pte := pmd.tbl (pte_index addr)
          if pte_none pte then false
          else pfn_valid (pte_pfn pte)

/-- The entry a walk ends at: the level it was found at (1 for an upper-level block, 2 for a
middle-level block, 3 for a leaf page entry) and its raw value. -/
structure Terminal where
  level : Nat
  val : Nat
  deriving DecidableEq, Repr

/-- Walk below a middle-level slot, in the order `kern_addr_valid` tests the entries. -/
def PmdEnt.lookup (e : PmdEnt) (addr : Nat) : Option Terminal :=
  if pmd_none e.val then none
  else if pmd_sect e.val then some ⟨2, e.val⟩
  else if pte_none (e.tbl (pte_index addr)) then none
  else some ⟨3, e.tbl (pte_index addr)⟩

/-- Walk below an upper-level slot. -/
def PudEnt.lookup (e : PudEnt) (addr : Nat) : Option Terminal :=
  if pud_none e.val then none
  else if pud_sect e.val then some ⟨1, e.val⟩
  else (e.tbl (pmd_index addr)).lookup addr

/-- Walk below a root slot. -/
def PgdEnt.lookup (e : PgdEnt) (addr : Nat) : Option Terminal :=
  if pgd_none e.val then none
  else (e.tbl (pud_index addr)).lookup addr

/-- The full walk of `addr` from the root `pgd`: the terminal entry, if the walk meets no empty
entry. -/
def lookup (pgd : PgdTable) (addr : Nat) : Option Terminal :=
  (pgd (pgd_index addr)).lookup addr

/-- The frame number held by a terminal entry (`pud_pfn`, `pmd_pfn`, `pte_pfn`). -/
def Terminal.pfn (t : Terminal) : Nat :=
  if t.level = 1 then pud_pfn t.val else if t.level = 2 then pmd_pfn t.val else pte_pfn t.val

/-- The physical address that `addr` resolves to through a terminal entry: the output address of
the entry plus the offset of `addr` in the block or page. -/
def Terminal.phys (t : Terminal) (addr : Nat) : Nat :=
  if t.level = 1 then (pud_pfn t.val <<< PAGE_SHIFT) + (addr &&& not64 PUD_MASK)
  else if t.level = 2 then (pmd_pfn t.val <<< PAGE_SHIFT) + (addr &&& not64 PMD_MASK)
  else (pte_pfn t.val <<< PAGE_SHIFT) + (addr &&& not64 PAGE_MASK)

/-- The bits of a descriptor that are neither output address (bits 47..12) nor descriptor type
(bits 1..0): the upper and lower attribute fields. -/
def ATTR_MASK : Nat := 0xFFFF000000000FFC

/-- The output-address bits of a descriptor, bits 47..12. -/
def ADDR_MASK : Nat := 2 ^ 48 - 2 ^ 12

/-- The protection attributes carried by a terminal entry. -/
def Terminal.attrs (t : Terminal) : Nat := t.val &&& ATTR_MASK

/-! ## What a request is to leave in the tables -/

/-- The naturally aligned block of size `S` around `a` lies inside `[addr, end_)` and its physical
image is aligned to `S`. -/
def fits (S addr end_ phys a : Nat) : Bool :=
  decide (addr ≤ a / S * S) && decide (a / S * S + S ≤ end_) &&
    decide ((phys + (a / S * S - addr)) % S = 0)

/-- The leaf entry for `a` of a request that maps `addr` to `phys`. -/
def target_pte (addr phys prot a : Nat) : Terminal :=
  ⟨3, pfn_pte ((phys + (a - addr)) / PAGE_SIZE) prot⟩

/-- The terminal entry below an upper-level slot for `a`: a section if one fits and blocks are
allowed, else the leaf entry. -/
def target_pmd (allow : Bool) (addr end_ phys prot a : Nat) : Terminal :=
  if allow && fits PMD_SIZE addr end_ phys a then
    ⟨2, ((phys + (a - addr)) / PMD_SIZE * PMD_SIZE) ||| PMD_TYPE_SECT ||| mk_sect_prot prot⟩
  else target_pte addr phys prot a

/-- The terminal entry for `a`: a 1 GiB block if one fits and blocks are allowed, else what
`target_pmd` gives. -/
def target (allow : Bool) (addr end_ phys prot a : Nat) : Terminal :=
  if allow && fits PUD_SIZE addr end_ phys a then
    ⟨1, ((phys + (a - addr)) / PUD_SIZE * PUD_SIZE) ||| PUD_TYPE_SECT ||| mk_sect_prot prot⟩
  else target_pmd allow addr end_ phys prot a

/-- The leaf table that `alloc_init_pte` starts from under the slot `e`: a zeroed page under an
empty slot, the split of the block under a section, the existing table otherwise. -/
def pte_base (e : PmdEnt) : PteTable :=
  if pmd_none e.val then zero_pte_table
  else if pmd_sect e.val then
    fun j => if j < PTRS_PER_PTE then pfn_pte (pmd_pfn e.val + j) PAGE_KERNEL_EXEC else 0
  else e.tbl

/-! ## Well-formed tables -/

/-- A middle-level slot is empty, a section, or a table whose leaf entries all satisfy `Q`. -/
def PmdEnt.WF (Q : Nat → Prop) (e : PmdEnt) : Prop :=
  pmd_none e.val = true ∨ pmd_sect e.val = true ∨ (pmd_table e.val = true ∧ ∀ j, Q (e.tbl j))

/-- An upper-level slot is empty, a block, or a table of well-formed slots. -/
def PudEnt.WF (Q : Nat → Prop) (e : PudEnt) : Prop :=
  pud_none e.val = true ∨ pud_sect e.val = true ∨
    (pud_table e.val = true ∧ ∀ j, (e.tbl j).WF Q)

/-- A root slot is empty or a table (not `pgd_bad`) of well-formed slots. -/
def PgdEnt.WF (Q : Nat → Prop) (e : PgdEnt) : Prop :=
  pgd_none e.val = true ∨ (pgd_bad e.val = false ∧ ∀ j, (e.tbl j).WF Q)

/-- Every slot of the root table is well formed. -/
def WF (Q : Nat → Prop) (pgd : PgdTable) : Prop := ∀ i, (pgd i).WF Q

/-- The table-level allocators never fail: the page provider always has a page and
`pgtable_page_ctor` succeeds on it. -/
def Machine.alloc_ok (m : Machine) : Prop :=
  ∀ n, m.supply n ≠ 0 ∧ m.ctor_ok (m.supply n) = true

/-- Machine `m2` is a later state of `m1`: same page provider, same platform, same memory
content, and no fewer pages handed out. -/
def Machine.ext (m1 m2 : Machine) : Prop :=
  m2.supply = m1.supply ∧ m2.ctor_ok = m1.ctor_ok ∧ m2.slab = m1.slab ∧ m2.bytes = m1.bytes ∧
    m1.nalloc ≤ m2.nalloc

/-! ## The common shape of the three upper loops -/

/-- The shape shared by the loops of `alloc_init_pmd`, `alloc_init_pud` and `__create_pgd_mapping`:
`do { next = addr_end(addr, end); body(slot, addr, next, phys); phys += next - addr; }
while (slot++, addr = next, addr != end)`.  Used to reason about the three loops at once. -/
def range_loop {E : Type} (addr_end : Nat → Nat → Nat)
    (body : Machine → E → Nat → Nat → Nat → Except Halt (E × Machine)) :
    Nat → Machine → (Nat → E) → Nat → Nat → Nat → Nat → Except Halt ((Nat → E) × Machine)
  | 0, _, _, _, _, _, _ => .error .overrun
  | room + 1, m, tbl, i, addr, end_, phys =>
    let next := addr_end addr end_
    match body m (tbl i) addr next phys with
    | .error h => .error h
    | .ok (e, m) =>
      let tbl := Function.update tbl i e
      let phys := add64 phys (sub64 next addr)
      if next != end_ then range_loop addr_end body room m tbl (i + 1) next end_ phys
      else .ok (tbl, m)

/-- The way a level cuts addresses into the ranges of its slots: `c a` numbers the slot range
that holds `a`, `base a` is where that range starts and `bnd a` where it ends; `addr_end` is the
level's `p?d_addr_end`. -/
structure Cut (addr_end : Nat → Nat → Nat) (c base bnd : Nat → Nat) : Prop where
  addr_end_eq : ∀ a e, a < e → e < 2 ^ 64 → addr_end a e = if bnd a < e then bnd a else e
  lt_bnd : ∀ a, a < bnd a
  base_le : ∀ a, base a ≤ a
  c_bnd : ∀ a, c (bnd a) = c a + 1
  c_mono : ∀ a x, a ≤ x → c a ≤ c x
  same : ∀ a x, a ≤ x → x < bnd a → c x = c a ∧ bnd x = bnd a ∧ base x ≤ a
  later : ∀ x a, bnd x ≤ a → bnd x ≤ base a

/-- The pieces of a request are page aligned and its physical side does not wrap. -/
def Aligned (a n p : Nat) : Prop :=
  a % 2 ^ 12 = 0 ∧ n % 2 ^ 12 = 0 ∧ p % 2 ^ 12 = 0 ∧ p + (n - a) ≤ 2 ^ 64

/-- The middle-level slot `e` is well formed and resolves every address of `[a, n)` as a request
that maps `a` to `p` with `prot` is to leave it. -/
def PmdEnt.Maps (Q : Nat → Prop) (allow : Bool) (prot a n p : Nat) (e : PmdEnt) : Prop :=
  e.WF Q ∧ ∀ x, a ≤ x → x < n → e.lookup x = some (target_pmd allow a n p prot x)

/-- The upper-level slot `e` is well formed and resolves every address of `[a, n)` as a request
that maps `a` to `p` with `prot` is to leave it. -/
def PudEnt.Maps (Q : Nat → Prop) (allow : Bool) (prot a n p : Nat) (e : PudEnt) : Prop :=
  e.WF Q ∧ ∀ x, a ≤ x → x < n → e.lookup x = some (target allow a n p prot x)

/-- The root slot `e` is well formed and resolves every address of `[a, n)` as a request that
maps `a` to `p` with `prot` is to leave it. -/
def PgdEnt.Maps (Q : Nat → Prop) (allow : Bool) (prot a n p : Nat) (e : PgdEnt) : Prop :=
  e.WF Q ∧ ∀ x, a ≤ x → x < n → e.lookup x = some (target allow a n p prot x)

/-- The middle-level table that `alloc_init_pmd` starts from under the slot `e`: a zeroed page
under an empty slot, the split of the block under a 1 GiB block, the existing table otherwise. -/
def pmd_base (e : PudEnt) : PmdTable :=
  if pud_none e.val then zero_pmd_table
  else if pud_sect e.val then
    fun j => if j < 512 then
        ⟨(e.val % 2 ^ 48 / 2 ^ 30 * 2 ^ 30 + j * 2 ^ 21) |||
          (e.val ^^^ (e.val % 2 ^ 48 / 2 ^ 30 * 2 ^ 30)), zero_pte_table⟩
      else ⟨0, zero_pte_table⟩
  else e.tbl

/-- The upper-level table that `alloc_init_pud` starts from under the root slot `e`: a zeroed page
under an empty slot, the existing table otherwise. -/
def pud_base (e : PgdEnt) : PudTable :=
  if pgd_none e.val then zero_pud_table else e.tbl

/-! ## Concrete inputs -/

/-- A machine at boot: the page provider hands out the pages from `0x8000_0000` upwards,
`pgtable_page_ctor` succeeds, the slab allocator is not up yet, memory is zero, the log empty. -/
def boot_machine : Machine :=
  { supply := fun n => 0x80000000 + n * 4096
    ctor_ok := fun _ => true
    slab := false
    nalloc := 0
    bytes := fun _ => 0
    trace := [] }

/-- Every frame is a tracked page. -/
def all_tracked : Nat → Bool := fun _ => true

/-! ## Teardown engine -/

/-- Modelled from the spec: `pte_page` of asm/pgtable.h (absent from src/): the page of the frame
of a leaf entry, named by its frame number. -/
def pte_page (pte : Nat) : Nat := pte_pfn pte
/-- Modelled from the spec: `pmd_page` of asm/pgtable.h (absent from src/):
`pfn_to_page(__phys_to_pfn(pmd_val(pmd) & PHYS_MASK))`, named by its frame number. -/
def pmd_page (pmd : Nat) : Nat := (pmd &&& PHYS_MASK) >>> PAGE_SHIFT
/-- Modelled from the spec: `pud_page` of asm/pgtable.h (absent from src/), named by its frame
number. -/
def pud_page (pud : Nat) : Nat := (pud &&& PHYS_MASK) >>> PAGE_SHIFT
/-- Modelled from the spec: `pgd_page` of asm/pgtable.h (absent from src/), named by its frame
number. -/
def pgd_page (pgd : Nat) : Nat := (pgd &&& PHYS_MASK) >>> PAGE_SHIFT
/-- The position of the highest set bit among the low `n` bits of `x`, counting from 1; 0 when
there is none. -/
def fls_bits : Nat → Nat → Nat
  | 0, _ => 0
  | n + 1, x => if x = 0 then 0 else fls_bits n (x / 2) + 1
/-- Modelled from the spec: `fls64` of asm-generic/bitops (absent from src/). -/
def fls64 (x : Nat) : Nat := fls_bits 64 x
/-- Modelled from the spec: `get_order` of asm-generic/getorder.h (absent from src/):
`size--; size >>= PAGE_SHIFT; return fls64(size);`. -/
def get_order (size : Nat) : Nat := fls64 (sub64 size 1 >>> PAGE_SHIFT)

/-- Call `memset(p, c, len)` on the physical bytes `[pa, pa + len)`. -/
def Machine.memset (m : Machine) (pa c len : Nat) : Machine :=
  { m with
    bytes := fun b => if pa ≤ b ∧ b < pa + len then c else m.bytes b
    trace := .memset pa len :: m.trace }

/-- The scan of `memchr_inv`: whether each of the `len` bytes from `pa` on is `c`, looking at them
from the first on and stopping at the first that is not. -/
def all_bytes (bytes : Nat → Nat) (c : Nat) : Nat → Nat → Bool
  | 0, _ => true
  | len + 1, pa => bytes pa == c && all_bytes bytes c len (pa + 1)

/-- Whether `memchr_inv(p, c, len)` returns `NULL`: every byte of `[pa, pa + len)` is `c`. -/
def Machine.memchr_inv_null (m : Machine) (pa c len : Nat) : Bool :=
  all_bytes m.bytes c len pa

/-- Function `free_pagetable(page, order, direct)`: the page goes back to the allocator it came
from; which one is page-lifecycle bookkeeping outside this file. -/
def free_pagetable (m : Machine) (page order : Nat) (direct : Bool) : Machine :=
  m.log (.free_pagetable page order direct)

/-- Function `free_pte_table(pmd, direct)`: if no entry of the leaf table is occupied, free the
table page and clear `pmd`. -/
def free_pte_table (m : Machine) (pmd : PmdEnt) (direct : Bool) : PmdEnt × Machine :=
  if (List.range PTRS_PER_PTE).all (fun i => pte_none (pmd.tbl i)) then
    let m := free_pagetable m (pmd_page pmd.val) 0 direct
    (⟨0, pmd.tbl⟩, m.log (.set_pmd pmd.val 0))
  else (pmd, m)

/-- Function `free_pmd_table(pud, direct)`. -/
def free_pmd_table (m : Machine) (pud : PudEnt) (direct : Bool) : PudEnt × Machine :=
  if (List.range PTRS_PER_PMD).all (fun i => pmd_none (pud.tbl i).val) then
    let m := free_pagetable m (pud_page pud.val) 0 direct
    (⟨0, pud.tbl⟩, m.log (.set_pud pud.val 0))
  else (pud, m)

/-- Function `free_pud_table(pgd, direct)` (`CONFIG_PGTABLE_LEVELS > 3`). -/
def free_pud_table (m : Machine) (pgd : PgdEnt) (direct : Bool) : PgdEnt × Machine :=
  if (List.range PTRS_PER_PUD).all (fun i => pud_none (pgd.tbl i).val) then
    let m := free_pagetable m (pgd_page pgd.val) 0 direct
    (⟨0, pgd.tbl⟩, m.log (.set_pgd pgd.val 0))
  else (pgd, m)

/-- The loop of `remove_pte_table`: `for (; addr < end; addr = next, pte++)`.  `room` is the
number of slots from `pte` to the end of the table.  The bytes that `memset((void *)addr, ...)`
writes are those of the frame of `*pte`, the entry that maps `addr`. -/
def remove_pte_table_loop : Nat → Machine → PteTable → Nat → Nat → Nat → Bool →
    Except Halt (PteTable × Machine)
  | 0, m, pte, _, addr, end_, _ => if addr < end_ then .error .overrun else .ok (pte, m)
  | room + 1, m, pte, i, addr, end_, direct =>
    if addr < end_ then
      let next := (add64 addr PAGE_SIZE) &&& PAGE_MASK
      let next := if next > end_ then end_ else next
      if !pte_present (pte i) then
        remove_pte_table_loop room m pte (i + 1) next end_ direct
      else if PAGE_ALIGNED addr && PAGE_ALIGNED next then
        let m := if !direct then free_pagetable m (pte_page (pte i)) 0 direct else m
        let m := m.log (.set_pte (pte i) 0)
        remove_pte_table_loop room m (Function.update pte i 0) (i + 1) next end_ direct
      else
        let m := m.memset (pte_pfn (pte i) * PAGE_SIZE + (addr &&& not64 PAGE_MASK)) PAGE_INUSE
          (sub64 next addr)
        if m.memchr_inv_null (pte_page (pte i) * PAGE_SIZE) PAGE_INUSE PAGE_SIZE then
          let m := free_pagetable m (pte_page (pte i)) 0 direct
          let m := m.log (.set_pte (pte i) 0)
          remove_pte_table_loop room m (Function.update pte i 0) (i + 1) next end_ direct
        else remove_pte_table_loop room m pte (i + 1) next end_ direct
    else .ok (pte, m)

/-- Function `remove_pte_table(pte, addr, end, direct)`; `pte` points at slot `i` of the table. -/
def remove_pte_table (m : Machine) (pte : PteTable) (i addr end_ : Nat) (direct : Bool) :
    Except Halt (PteTable × Machine) :=
  match remove_pte_table_loop (PTRS_PER_PTE - i) m pte i addr end_ direct with
  | .error h => .error h
  | .ok (pte, m) => .ok (pte, m.log .flush_tlb_all)

/-- One pass of the body of the loop of `remove_pmd_table` on a present slot. -/
def remove_pmd_table_body (m : Machine) (pmd : PmdEnt) (addr next : Nat) (direct : Bool) :
    Except Halt (PmdEnt × Machine) :=
  if pmd_sect pmd.val then
    if PAGE_ALIGNED addr && PAGE_ALIGNED next then
      let m := if !direct then free_pagetable m (pmd_page pmd.val) (get_order PMD_SIZE) direct
        else m
      .ok (⟨0, pmd.tbl⟩, m.log (.set_pmd pmd.val 0))
    else
      let m := m.memset (pmd_pfn pmd.val * PAGE_SIZE + (addr &&& not64 PMD_MASK)) PAGE_INUSE
        (sub64 next addr)
      if m.memchr_inv_null (pmd_page pmd.val * PAGE_SIZE) PAGE_INUSE PMD_SIZE then
        let m := free_pagetable m (pmd_page pmd.val) (get_order PMD_SIZE) direct
        .ok (⟨0, pmd.tbl⟩, m.log (.set_pmd pmd.val 0))
      else .ok (pmd, m)
  else if !pmd_table pmd.val then .error .bug
  else
    match remove_pte_table m pmd.tbl (pte_index addr) addr next direct with
    | .error h => .error h
    | .ok (pte, m) => .ok (free_pte_table m ⟨pmd.val, pte⟩ direct)

/-- The loop of `remove_pmd_table`: `for (; addr < end; addr = next, pmd++)`. -/
def remove_pmd_table_loop : Nat → Machine → PmdTable → Nat → Nat → Nat → Bool →
    Except Halt (PmdTable × Machine)
  | 0, m, pmd, _, addr, end_, _ => if addr < end_ then .error .overrun else .ok (pmd, m)
  | room + 1, m, pmd, i, addr, end_, direct =>
    if addr < end_ then
      let next := pmd_addr_end addr end_
      if !pmd_present (pmd i).val then
        remove_pmd_table_loop room m pmd (i + 1) next end_ direct
      else
        match remove_pmd_table_body m (pmd i) addr next direct with
        | .error h => .error h
        | .ok (e, m) =>
          remove_pmd_table_loop room m (Function.update pmd i e) (i + 1) next end_ direct
    else .ok (pmd, m)

/-- Function `remove_pmd_table(pmd, addr, end, direct)`; `pmd` points at slot `i` of the table. -/
def remove_pmd_table (m : Machine) (pmd : PmdTable) (i addr end_ : Nat) (direct : Bool) :
    Except Halt (PmdTable × Machine) :=
  remove_pmd_table_loop (PTRS_PER_PMD - i) m pmd i addr end_ direct

/-- One pass of the body of the loop of `remove_pud_table` on a present slot. -/
def remove_pud_table_body (m : Machine) (pud : PudEnt) (addr next : Nat) (direct : Bool) :
    Except Halt (PudEnt × Machine) :=
  if pud_sect pud.val then
    if PAGE_ALIGNED addr && PAGE_ALIGNED next then
      let m := if !direct then free_pagetable m (pud_page pud.val) (get_order PUD_SIZE) direct
        else m
      .ok (⟨0, pud.tbl⟩, m.log (.set_pud pud.val 0))
    else
      let m := m.memset (pud_pfn pud.val * PAGE_SIZE + (addr &&& not64 PUD_MASK)) PAGE_INUSE
        (sub64 next addr)
      if m.memchr_inv_null (pud_page pud.val * PAGE_SIZE) PAGE_INUSE PUD_SIZE then
        let m := free_pagetable m (pud_page pud.val) (get_order PUD_SIZE) direct
        .ok (⟨0, pud.tbl⟩, m.log (.set_pud pud.val 0))
      else .ok (pud, m)
  else if !pud_table pud.val then .error .bug
  else
    match remove_pmd_table m pud.tbl (pmd_index addr) addr next direct with
    | .error h => .error h
    | .ok (pmd, m) => .ok (free_pmd_table m ⟨pud.val, pmd⟩ direct)

/-- The loop of `remove_pud_table`: `for (; addr < end; addr = next, pud++)`. -/
def remove_pud_table_loop : Nat → Machine → PudTable → Nat → Nat → Nat → Bool →
    Except Halt (PudTable × Machine)
  | 0, m, pud, _, addr, end_, _ => if addr < end_ then .error .overrun else .ok (pud, m)
  | room + 1, m, pud, i, addr, end_, direct =>
    if addr < end_ then
      let next := pud_addr_end addr end_
      if !pud_present (pud i).val then
        remove_pud_table_loop room m pud (i + 1) next end_ direct
      else
        match remove_pud_table_body m (pud i) addr next direct with
        | .error h => .error h
        | .ok (e, m) =>
          remove_pud_table_loop room m (Function.update pud i e) (i + 1) next end_ direct
    else .ok (pud, m)

/-- Function `remove_pud_table(pud, addr, end, direct)`; `pud` points at slot `i` of the table. -/
def remove_pud_table (m : Machine) (pud : PudTable) (i addr end_ : Nat) (direct : Bool) :
    Except Halt (PudTable × Machine) :=
  remove_pud_table_loop (PTRS_PER_PUD - i) m pud i addr end_ direct

/-- One pass of the body of the loop of `remove_pagetable` on the root slot of `addr`. -/
def remove_pagetable_body (m : Machine) (pgd : PgdEnt) (addr next : Nat) (direct : Bool) :
    Except Halt (PgdEnt × Machine) :=
  if pgd_none pgd.val then .ok (pgd, m)
  else
    match remove_pud_table m pgd.tbl (pud_index addr) addr next direct with
    | .error h => .error h
    | .ok (pud, m) => .ok (free_pud_table m ⟨pgd.val, pud⟩ direct)

/-- The loop of `remove_pagetable`: `for (addr = start; addr < end; addr = next)` with
`pgd = pgd_offset_k(addr)` taken afresh on every pass.  The first argument bounds the number of
passes; `Halt.overrun` when it does not suffice. -/
def remove_pagetable_loop : Nat → Machine → PgdTable → Nat → Nat → Bool →
    Except Halt (PgdTable × Machine)
  | 0, m, pgd, addr, end_, _ => if addr < end_ then .error .overrun else .ok (pgd, m)
  | fuel + 1, m, pgd, addr, end_, direct =>
    if addr < end_ then
      let next := pgd_addr_end addr end_
      match remove_pagetable_body m (pgd (pgd_index addr)) addr next direct with
      | .error h => .error h
      | .ok (e, m) =>
        remove_pagetable_loop fuel m (Function.update pgd (pgd_index addr) e) next end_ direct
    else .ok (pgd, m)

/-- Function `remove_pagetable(start, end, direct)` on the kernel root `init_pgd`.  A 64-bit
address range spans at most `2 ^ 25` root slots, which bounds the passes of the loop. -/
def remove_pagetable (m : Machine) (init_pgd : PgdTable) (start end_ : Nat) (direct : Bool) :
    Except Halt (PgdTable × Machine) :=
  match remove_pagetable_loop (2 ^ 25 + 1) m init_pgd start end_ direct with
  | .error h => .error h
  | .ok (pgd, m) => .ok (pgd, m.log .flush_tlb_all)

/-- A run of calls `remove_pte_table(pte, addr, end, direct)` on the slot `i`, one call for each
region `(addr, end)` of the list, in order. -/
def remove_regions (m : Machine) (pte : PteTable) (i : Nat) (direct : Bool) :
    List (Nat × Nat) → Except Halt (PteTable × Machine)
  | [] => .ok (pte, m)
  | r :: rest =>
    match remove_pte_table m pte i r.1 r.2 direct with
    | .error h => .error h
    | .ok (pte, m) => remove_regions m pte i direct rest

/-- How many times the log shows `page` handed to `free_pagetable`. -/
def Machine.freed (m : Machine) (page : Nat) : Nat :=
  (m.trace.filter (fun ev =>
    match ev with
    | .free_pagetable p _ _ => p == page
    | _ => false)).length

/-- A leaf table whose slot 0 maps the frame `0x12345` read/write and whose other slots are
empty. -/
def one_page_table : PteTable := fun j => if j = 0 then pfn_pte 0x12345 PAGE_KERNEL else 0

/-! ## The slots a range touches -/

/-- Slot `j` of a table whose slots span `S` bytes each is one that the range `[a, n)` touches;
`i0` is the slot of `a`. -/
def in_slots (S i0 a n j : Nat) : Prop := i0 ≤ j ∧ j ≤ i0 + ((n - 1) / S - a / S)

instance (S i0 a n j : Nat) : Decidable (in_slots S i0 a n j) :=
  inferInstanceAs (Decidable (i0 ≤ j ∧ j ≤ i0 + ((n - 1) / S - a / S)))

/-- Where the part of `[a, n)` that falls in slot `j` starts. -/
def slot_lo (S i0 a j : Nat) : Nat := max a ((a / S + (j - i0)) * S)

/-- Where the part of `[a, n)` that falls in slot `j` ends. -/
def slot_hi (S i0 a n j : Nat) : Nat := min n ((a / S + (j - i0) + 1) * S)

/-- Leaf slot `j` is one that the page-aligned range `[a, n)` touches. -/
def in_ptes (a n j : Nat) : Prop := pte_index a ≤ j ∧ j < pte_index a + (n - a) / 2 ^ 12

instance (a n j : Nat) : Decidable (in_ptes a n j) :=
  inferInstanceAs (Decidable (pte_index a ≤ j ∧ j < pte_index a + (n - a) / 2 ^ 12))

/-! ## What a mapping request leaves, slot by slot -/

/-- The middle-level slot `e1` is what mapping `[a, n)` to `p` leaves of the slot `e0`: a section
when the range is the whole aligned 2 MiB of the slot, or a leaf table that holds the page
entries of the range in the slots the range touches and is the table `alloc_init_pte` started
from elsewhere. -/
def MapRel_pmd (prot a n p : Nat) (e0 e1 : PmdEnt) : Prop :=
  (pmd_sect e1.val = true ∧ a % 2 ^ 21 = 0 ∧ n = a + 2 ^ 21) ∨
    (pmd_table e1.val = true ∧
      ∀ j, e1.tbl j =
        if in_ptes a n j then pfn_pte (p / 2 ^ 12 + (j - pte_index a)) prot else pte_base e0 j)

/-- The upper-level slot `e1` is what mapping `[a, n)` to `p` leaves of the slot `e0`: a block
when the range is the whole aligned 1 GiB of the slot, or a middle-level table. -/
def MapRel_pud (prot a n p : Nat) (e0 e1 : PudEnt) : Prop :=
  (pud_sect e1.val = true ∧ a % 2 ^ 30 = 0 ∧ n = a + 2 ^ 30) ∨
    (pud_table e1.val = true ∧
      ∀ j, (in_slots (2 ^ 21) (pmd_index a) a n j →
          MapRel_pmd prot (slot_lo (2 ^ 21) (pmd_index a) a j)
            (slot_hi (2 ^ 21) (pmd_index a) a n j)
            (p + (slot_lo (2 ^ 21) (pmd_index a) a j - a)) (pmd_base e0 j) (e1.tbl j)) ∧
        (¬ in_slots (2 ^ 21) (pmd_index a) a n j → e1.tbl j = pmd_base e0 j))

/-- The root slot `e1` is what mapping `[a, n)` to `p` leaves of the slot `e0`. -/
def MapRel_pgd (prot a n p : Nat) (e0 e1 : PgdEnt) : Prop :=
  pgd_none e1.val = false ∧
    ∀ j, (in_slots (2 ^ 30) (pud_index a) a n j →
        MapRel_pud prot (slot_lo (2 ^ 30) (pud_index a) a j)
          (slot_hi (2 ^ 30) (pud_index a) a n j)
          (p + (slot_lo (2 ^ 30) (pud_index a) a j - a)) (pud_base e0 j) (e1.tbl j)) ∧
      (¬ in_slots (2 ^ 30) (pud_index a) a n j → e1.tbl j = pud_base e0 j)

/-- The root table `pgd1` is what mapping `[a, n)` to `p` leaves of the root table `pgd0`. -/
def MapRel (prot a n p : Nat) (pgd0 pgd1 : PgdTable) : Prop :=
  ∀ i, (in_slots (2 ^ 39) (pgd_index a) a n i →
      MapRel_pgd prot (slot_lo (2 ^ 39) (pgd_index a) a i)
        (slot_hi (2 ^ 39) (pgd_index a) a n i)
        (p + (slot_lo (2 ^ 39) (pgd_index a) a i - a)) (pgd0 i) (pgd1 i)) ∧
    (¬ in_slots (2 ^ 39) (pgd_index a) a n i → pgd1 i = pgd0 i)

/-! ## What removing a page-aligned range leaves, slot by slot -/

/-- The leaf table after `remove_pte_table` over the page-aligned range `[a, n)`: the present
entries of the slots the range touches are cleared. -/
def rm_pte (t : PteTable) (a n : Nat) : PteTable :=
  fun j => if in_ptes a n j ∧ pte_present (t j) = true then 0 else t j

/-- The middle-level slot after one pass of the loop of `remove_pmd_table` over the page-aligned
range `[a, n)`: a slot that is not present is skipped, a section is cleared, a leaf table is
emptied over the range and, when nothing is left in it, freed and the slot cleared. -/
def rm_pmd_slot (e : PmdEnt) (a n : Nat) : PmdEnt :=
  if pmd_present e.val = false then e
  else if pmd_sect e.val then ⟨0, e.tbl⟩
  else if (List.range PTRS_PER_PTE).all (fun i => pte_none (rm_pte e.tbl a n i)) then
    ⟨0, rm_pte e.tbl a n⟩
  else ⟨e.val, rm_pte e.tbl a n⟩

/-- The middle-level table after `remove_pmd_table` over the page-aligned range `[a, n)`. -/
def rm_pmd (t : PmdTable) (a n : Nat) : PmdTable :=
  fun j => if in_slots (2 ^ 21) (pmd_index a) a n j then
      rm_pmd_slot (t j) (slot_lo (2 ^ 21) (pmd_index a) a j) (slot_hi (2 ^ 21) (pmd_index a) a n j)
    else t j

/-- The upper-level slot after one pass of the loop of `remove_pud_table`. -/
def rm_pud_slot (e : PudEnt) (a n : Nat) : PudEnt :=
  if pud_present e.val = false then e
  else if pud_sect e.val then ⟨0, e.tbl⟩
  else if (List.range PTRS_PER_PMD).all (fun i => pmd_none (rm_pmd e.tbl a n i).val) then
    ⟨0, rm_pmd e.tbl a n⟩
  else ⟨e.val, rm_pmd e.tbl a n⟩

/-- The upper-level table after `remove_pud_table` over the page-aligned range `[a, n)`. -/
def rm_pud (t : PudTable) (a n : Nat) : PudTable :=
  fun j => if in_slots (2 ^ 30) (pud_index a) a n j then
      rm_pud_slot (t j) (slot_lo (2 ^ 30) (pud_index a) a j) (slot_hi (2 ^ 30) (pud_index a) a n j)
    else t j

/-- The root slot after one pass of the loop of `remove_pagetable`. -/
def rm_pgd_slot (e : PgdEnt) (a n : Nat) : PgdEnt :=
  if pgd_none e.val then e
  else if (List.range PTRS_PER_PUD).all (fun i => pud_none (rm_pud e.tbl a n i).val) then
    ⟨0, rm_pud e.tbl a n⟩
  else ⟨e.val, rm_pud e.tbl a n⟩

/-- The root table after `remove_pagetable` over the page-aligned range `[a, n)`. -/
def rm_pgd (t : PgdTable) (a n : Nat) : PgdTable :=
  fun j => if in_slots (2 ^ 39) (pgd_index a) a n j then
      rm_pgd_slot (t j) (slot_lo (2 ^ 39) (pgd_index a) a j) (slot_hi (2 ^ 39) (pgd_index a) a n j)
    else t j

/-! ## Occupancy -/

/-- Every occupied slot below the middle-level slot `e2` is occupied below `e0`. -/
def Within_pmd (e2 e0 : PmdEnt) : Prop :=
  e2.val ≠ 0 → e0.val ≠ 0 ∧ ∀ l, e2.tbl l ≠ 0 → e0.tbl l ≠ 0

/-- Every occupied slot below the upper-level slot `e2` is occupied below `e0`. -/
def Within_pud (e2 e0 : PudEnt) : Prop :=
  e2.val ≠ 0 → e0.val ≠ 0 ∧ ∀ k, Within_pmd (e2.tbl k) (e0.tbl k)

/-- Every occupied slot below the root slot `e2` is occupied below `e0`. -/
def Within_pgd (e2 e0 : PgdEnt) : Prop :=
  e2.val ≠ 0 → e0.val ≠ 0 ∧ ∀ j, Within_pud (e2.tbl j) (e0.tbl j)

/-- The occupancy of the tables `pgd2` is within that of `pgd0`: every slot, at every level, that
is occupied in `pgd2` is occupied in `pgd0`.  No table has been added. -/
def Within (pgd2 pgd0 : PgdTable) : Prop := ∀ i, Within_pgd (pgd2 i) (pgd0 i)

/-- The shape of the loops of `remove_pmd_table` and `remove_pud_table`:
`for (; addr < end; addr = next, slot++) { next = addr_end(addr, end); step(slot, addr, next); }`
where `step` includes the test that skips a slot that is not present. -/
def for_loop {E : Type} (addr_end : Nat → Nat → Nat)
    (step : Machine → E → Nat → Nat → Except Halt (E × Machine)) :
    Nat → Machine → (Nat → E) → Nat → Nat → Nat → Except Halt ((Nat → E) × Machine)
  | 0, m, tbl, _, addr, end_ => if addr < end_ then .error .overrun else .ok (tbl, m)
  | room + 1, m, tbl, i, addr, end_ =>
    if addr < end_ then
      match step m (tbl i) addr (addr_end addr end_) with
      | .error h => .error h
      | .ok (e, m) =>
        for_loop addr_end step room m (Function.update tbl i e) (i + 1) (addr_end addr end_) end_
    else .ok (tbl, m)

/-! ## Map, then remove -/

/-- Call `__create_pgd_mapping(pgdir, phys, virt, size, prot, alloc, allow)`, then
`remove_pagetable(virt, virt + size, direct)` on the tables it leaves, then
`kern_addr_valid(x)`: the answer of the query, or `none` when one of the two calls halts. -/
def valid_after_round_trip (pfn_valid : Nat → Bool) (m : Machine) (pgdir : PgdTable)
    (phys virt size prot : Nat) (al : Allocator) (allow direct : Bool) (x : Nat) : Option Bool :=
  match __create_pgd_mapping m pgdir phys virt size prot (some al) allow with
  | .error _ => none
  | .ok (pgd1, m1) =>
    match remove_pagetable m1 pgd1 virt (virt + size) direct with
    | .error _ => none
    | .ok (pgd2, _) => some (kern_addr_valid pfn_valid pgd2 x)

/-- The log that a call on the root table leaves, when the call returns. -/
def trace_of (r : Except Halt (PgdTable × Machine)) : Option (List Event) :=
  match r with
  | .ok (_, m) => some m.trace
  | .error _ => none

/-! ## Entry points of the mapping engine -/

/-- Modelled from the spec: `VMALLOC_START` of asm/pgtable.h (absent from src/): `MODULES_END`,
which is `VA_START + SZ_128M` for `VA_BITS = 48` without KASAN. -/
def VMALLOC_START : Nat := 0xffff000008000000

/-- Function `create_mapping_noalloc(phys, virt, size, prot)` on the kernel root `init_pgd`
(`init_mm.pgd`); `pr_warn` is logged as a warning. -/
def create_mapping_noalloc (m : Machine) (init_pgd : PgdTable) (phys virt size prot : Nat) :
    Except Halt (PgdTable × Machine) :=
  if virt < VMALLOC_START then .ok (init_pgd, m.log .warn)
  else
    __create_pgd_mapping m init_pgd phys virt size prot (some .early_pgd_pgtable_alloc) true

/-- Function `create_pgd_mapping(mm, phys, virt, size, prot, allow_block_mappings)`; `is_init_mm`
is `mm == &init_mm` and `pgd` is `mm->pgd`. -/
def create_pgd_mapping (m : Machine) (is_init_mm : Bool) (pgd : PgdTable)
    (phys virt size prot : Nat) (allow_block_mappings : Bool) :
    Except Halt (PgdTable × Machine) :=
  if is_init_mm then .error .bug
  else
    __create_pgd_mapping m pgd phys virt size prot (some .pgd_pgtable_alloc)
      allow_block_mappings

/-- Function `create_mapping_late(phys, virt, size, prot)` on the kernel root `init_pgd`;
`debug_pagealloc` is `debug_pagealloc_enabled()`. -/
def create_mapping_late (m : Machine) (init_pgd : PgdTable) (phys virt size prot : Nat)
    (debug_pagealloc : Bool) : Except Halt (PgdTable × Machine) :=
  if virt < VMALLOC_START then .ok (init_pgd, m.log .warn)
  else __create_pgd_mapping m init_pgd phys virt size prot none (!debug_pagealloc)

/-! ## Boot blob (flattened device tree) -/

/-- Modelled from the spec: `FIXADDR_TOP` of asm/fixmap.h (absent from src/):
`PCI_IO_START - SZ_2M`, for `VA_BITS = 48`, 4 KiB pages, no KASAN. -/
def FIXADDR_TOP : Nat := 0xffff7dfffec00000
/-- Modelled from the spec: `FIX_FDT` of asm/fixmap.h (absent from src/):
`FIX_FDT_END + SZ_4M / PAGE_SIZE - 1` with `FIX_FDT_END = 1`. -/
def FIX_FDT : Nat := 1024
/-- Modelled from the spec: `__fix_to_virt` of asm-generic/fixmap.h (absent from src/):
`FIXADDR_TOP - (x << PAGE_SHIFT)`. -/
def __fix_to_virt (x : Nat) : Nat := sub64 FIXADDR_TOP ((x <<< PAGE_SHIFT) % 2 ^ 64)
/-- Modelled from the spec: `MIN_FDT_ALIGN` of asm/boot.h (absent from src/). -/
def MIN_FDT_ALIGN : Nat := 8
/-- Modelled from the spec: `MAX_FDT_SIZE` of asm/boot.h (absent from src/), `SZ_2M`. -/
def MAX_FDT_SIZE : Nat := 2 ^ 21
/-- Modelled from the spec: `SWAPPER_BLOCK_SIZE` of asm/kernel-pgtable.h (absent from src/):
`SECTION_SIZE` with 4 KiB pages. -/
def SWAPPER_BLOCK_SIZE : Nat := 2 ^ 21
/-- Modelled from the spec: `FDT_MAGIC` of libfdt (absent from src/). -/
def FDT_MAGIC : Nat := 0xd00dfeed
/-- Modelled from the spec: `round_down` of linux/kernel.h (absent from src/), for `y` a power
of two: `x & ~(y - 1)`. -/
def round_down (x y : Nat) : Nat := x &&& not64 (y - 1)
/-- Modelled from the spec: `round_up` of linux/kernel.h (absent from src/), for `y` a power of
two and `x` a positive `int`: `((x - 1) | (y - 1)) + 1`. -/
def round_up (x y : Nat) : Nat := ((x - 1) ||| (y - 1)) + 1

/-- The conversion of a `u32` to `int` (`*size = fdt_totalsize(dt_virt)`). -/
def to_int32 (x : Nat) : Int :=
  if x % 2 ^ 32 < 2 ^ 31 then ((x % 2 ^ 32 : Nat) : Int) else ((x % 2 ^ 32 : Nat) : Int) - 2 ^ 32

/-- The conversion of an `int` to `phys_addr_t` (the `size` argument of `memblock_reserve`). -/
def int_to_u64 (x : Int) : Nat := (x % 2 ^ 64).toNat

/-- A big-endian 32-bit load from the four bytes at the physical address `pa`. -/
def be32 (bytes : Nat → Nat) (pa : Nat) : Nat :=
  bytes pa % 256 * 2 ^ 24 + bytes (pa + 1) % 256 * 2 ^ 16 + bytes (pa + 2) % 256 * 2 ^ 8 +
    bytes (pa + 3) % 256

/-- A big-endian 32-bit load through the kernel tables at the virtual address `va`; a
translation fault when the walk of `va` meets an empty entry. -/
def load_be32 (m : Machine) (pgd : PgdTable) (va : Nat) : Except Halt Nat :=
  match lookup pgd va with
  | none => .error .fault
  | some t => .ok (be32 m.bytes (t.phys va))

/-- Modelled from the spec: `fdt_magic` of libfdt (absent from src/): the big-endian word at
offset 0 of the header. -/
def fdt_magic (m : Machine) (pgd : PgdTable) (dt_virt : Nat) : Except Halt Nat :=
  load_be32 m pgd dt_virt
/-- Modelled from the spec: `fdt_totalsize` of libfdt (absent from src/): the big-endian word at
offset 4 of the header. -/
def fdt_totalsize (m : Machine) (pgd : PgdTable) (dt_virt : Nat) : Except Halt Nat :=
  load_be32 m pgd (add64 dt_virt 4)

/-- What `__fixmap_remap_fdt` leaves: its return value (`none` is `NULL`), the value written to
`*size` if any, the kernel tables and the machine. -/
structure FdtOut where
  ret : Option Nat
  size : Option Int
  pgd : PgdTable
  m : Machine

/-- Function `__fixmap_remap_fdt(dt_phys, size, prot)` on the kernel root `init_pgd`. -/
def __fixmap_remap_fdt (m : Machine) (init_pgd : PgdTable) (dt_phys prot : Nat) :
    Except Halt FdtOut :=
  let dt_virt_base := __fix_to_virt FIX_FDT
  if dt_phys == 0 || dt_phys % MIN_FDT_ALIGN != 0 then .ok ⟨none, none, init_pgd, m⟩
  else
    let offset := dt_phys % SWAPPER_BLOCK_SIZE
    let dt_virt := add64 dt_virt_base offset
    match create_mapping_noalloc m init_pgd (round_down dt_phys SWAPPER_BLOCK_SIZE) dt_virt_base
        SWAPPER_BLOCK_SIZE prot with
    | .error h => .error h
    | .ok (pgd, m) =>
      match fdt_magic m pgd dt_virt with
      | .error h => .error h
      | .ok magic =>
        if magic != FDT_MAGIC then .ok ⟨none, none, pgd, m⟩
        else
          match fdt_totalsize m pgd dt_virt with
          | .error h => .error h
          | .ok total =>
            let size := to_int32 total
            if size > (MAX_FDT_SIZE : Int) then .ok ⟨none, some size, pgd, m⟩
            else if (offset : Int) + size > (SWAPPER_BLOCK_SIZE : Int) then
              match create_mapping_noalloc m pgd (round_down dt_phys SWAPPER_BLOCK_SIZE)
                  dt_virt_base (round_up ((offset : Int) + size).toNat SWAPPER_BLOCK_SIZE)
                  prot with
              | .error h => .error h
              | .ok (pgd, m) => .ok ⟨some dt_virt, some size, pgd, m⟩
            else .ok ⟨some dt_virt, some size, pgd, m⟩

/-- Function `fixmap_remap_fdt(dt_phys)`: the return value (`none` is `NULL`), the kernel tables
and the machine. -/
def fixmap_remap_fdt (m : Machine) (init_pgd : PgdTable) (dt_phys : Nat) :
    Except Halt (Option Nat × PgdTable × Machine) :=
  match __fixmap_remap_fdt m init_pgd dt_phys PAGE_KERNEL_RO with
  | .error h => .error h
  | .ok out =>
    match out.ret with
    | none => .ok (none, out.pgd, out.m)
    | some dt_virt =>
      .ok (some dt_virt, out.pgd,
        out.m.log (.memblock_reserve dt_phys (int_to_u64 (out.size.getD 0))))

/-- A machine at boot whose memory holds, at the physical address `pa`, the first two words of
a blob header: the magic `FDT_MAGIC` and the total size `total`, both big-endian. -/
def blob_machine (pa total : Nat) : Machine :=
  { boot_machine with
    bytes := fun b =>
      if b = pa then 0xd0 else if b = pa + 1 then 0x0d else if b = pa + 2 then 0xfe
      else if b = pa + 3 then 0xed else if b = pa + 4 then total / 2 ^ 24 % 256
      else if b = pa + 5 then total / 2 ^ 16 % 256 else if b = pa + 6 then total / 2 ^ 8 % 256
      else if b = pa + 7 then total % 256 else 0 }

/-! ## Memory hotplug -/

/-- Modelled from the spec: `PAGE_OFFSET` of asm/memory.h (absent from src/), the start of the
linear map: `0xffffffffffffffff << (VA_BITS - 1)`. -/
def PAGE_OFFSET : Nat := 0xffff800000000000

/-- Modelled from the spec: `__phys_to_virt` of asm/memory.h (absent from src/):
`((x) - PHYS_OFFSET) | PAGE_OFFSET`; `memstart` is `PHYS_OFFSET` (`memstart_addr`). -/
def __phys_to_virt (memstart x : Nat) : Nat := sub64 x memstart ||| PAGE_OFFSET

/-- Modelled from the spec: `cpu_replace_ttbr1` of asm/mmu_context.h (absent from src/), the
root-install primitive: `root` becomes the active translation root of the kernel half. -/
def cpu_replace_ttbr1 (m : Machine) (root : Root) : Machine :=
  { m with ttbr1 := root, trace := .cpu_replace_ttbr1 root :: m.trace }

/-- What `hotplug_paging` leaves: the content of the permanent root `swapper_pg_dir` and the
machine. -/
structure HotplugOut where
  swapper : PgdTable
  m : Machine

/-- Function `hotplug_paging(start, size)`; `swapper_pg_dir` is the content of the permanent
root.  `memcpy(pgd, swapper_pg_dir, PAGE_SIZE)` makes the shadow root a copy of the permanent
one, `memcpy(swapper_pg_dir, pgd, PAGE_SIZE)` copies it back; the tables below the root entries
are reached through both roots. -/
def hotplug_paging (m : Machine) (swapper_pg_dir : PgdTable) (memstart start size : Nat) :
    Except Halt HotplugOut :=
  match pgd_pgtable_alloc m with
  | .error h => .error h
  | .ok (pgd_phys, m) =>
    let m := m.log (.pgd_set_fixmap pgd_phys)
    let pgd := swapper_pg_dir
    match __create_pgd_mapping m pgd start (__phys_to_virt memstart start) size PAGE_KERNEL
        (some .pgd_pgtable_alloc) false with
    | .error h => .error h
    | .ok (pgd, m) =>
      let m := cpu_replace_ttbr1 m (.page pgd_phys)
      let swapper_pg_dir := pgd
      let m := cpu_replace_ttbr1 m .swapper_pg_dir
      let m := m.log .pgd_clear_fixmap
      let m := m.log (.free_pages pgd_phys 0)
      .ok ⟨swapper_pg_dir, m⟩

/-- A machine at boot whose page provider has no page left. -/
def dry_machine : Machine := { boot_machine with supply := fun _ => 0 }

/-- The roots handed to the root-install primitive, newest first, as the log shows them. -/
def root_installs : List Event → List Root
  | [] => []
  | .cpu_replace_ttbr1 r :: rest => r :: root_installs rest
  | _ :: rest => root_installs rest

/-! ## What a run adds to the log -/

/-- The log of `m'` is the log of `m` with events in front that all satisfy `P`. -/
def Machine.adds (P : Event → Prop) (m m' : Machine) : Prop :=
  ∃ new, m'.trace = new ++ m.trace ∧ ∀ ev ∈ new, P ev

/-- The event brings a table level into being: a page taken from the page provider, or a
descriptor of table type stored in a middle-level, upper-level or root slot. -/
def Event.installs_table : Event → Bool
  | .page_alloc _ => true
  | .set_pmd _ new => !pmd_sect new
  | .set_pud _ new => !pud_sect new
  | .set_pgd _ _ => true
  | _ => false

/-- The event is one that the mapping engine logs. -/
def Event.of_mapping : Event → Bool
  | .warn => true
  | .page_alloc _ => true
  | .set_pte _ _ => true
  | .set_pmd _ _ => true
  | .set_pud _ _ => true
  | .set_pgd _ _ => true
  | .flush_tlb_all => true
  | .memblock_free _ _ => true
  | _ => false

/-! ## Requests that need no new table -/

/-- The middle-level slot `e` needs no new table for `[a, n)`: a section goes there, or the slot
holds a leaf table already. -/
def Ready_pmd (allow : Bool) (a n p : Nat) (e : PmdEnt) : Prop :=
  (((a ||| n ||| p) &&& not64 SECTION_MASK == 0) && allow) = true ∨ pmd_table e.val = true

/-- The upper-level slot `e` needs no new table for `[a, n)`: a 1 GiB block goes there, or the
slot holds a middle-level table whose slots need none. -/
def Ready_pud (allow : Bool) (a n p : Nat) (e : PudEnt) : Prop :=
  (use_1G_block a n p && allow) = true ∨
    (pud_table e.val = true ∧
      ∀ j, in_slots (2 ^ 21) (pmd_index a) a n j →
        Ready_pmd allow (slot_lo (2 ^ 21) (pmd_index a) a j)
          (slot_hi (2 ^ 21) (pmd_index a) a n j)
          (p + (slot_lo (2 ^ 21) (pmd_index a) a j - a)) (e.tbl j))

/-- The root slot `e` needs no new table for `[a, n)`. -/
def Ready_pgd (allow : Bool) (a n p : Nat) (e : PgdEnt) : Prop :=
  pgd_none e.val = false ∧
    ∀ j, in_slots (2 ^ 30) (pud_index a) a n j →
      Ready_pud allow (slot_lo (2 ^ 30) (pud_index a) a j)
        (slot_hi (2 ^ 30) (pud_index a) a n j)
        (p + (slot_lo (2 ^ 30) (pud_index a) a j - a)) (e.tbl j)

/-- Every table level that mapping `[a, n)` to `p` needs exists in `pgd`. -/
def Ready (allow : Bool) (a n p : Nat) (pgd : PgdTable) : Prop :=
  ∀ i, in_slots (2 ^ 39) (pgd_index a) a n i →
    Ready_pgd allow (slot_lo (2 ^ 39) (pgd_index a) a i)
      (slot_hi (2 ^ 39) (pgd_index a) a n i)
      (p + (slot_lo (2 ^ 39) (pgd_index a) a i - a)) (pgd i)

/-! ## The log of a teardown -/

/-- The shape of what a teardown over page-aligned ranges adds to the log, newest event first.
Every entry that is cleared shows as one `set_p??(old, 0)`.  A leaf or block entry is cleared
alone when `direct` is set, and right after exactly one `free_pagetable` of the page or block it
mapped when `direct` is clear.  A table entry is cleared right after one `free_pagetable`, of
order 0, of the table page.  Nothing else is logged but `flush_tlb_all`. -/
inductive RemovalLog (direct : Bool) : List Event → Prop
  | nil : RemovalLog direct []
  | flush (l : List Event) : RemovalLog direct l → RemovalLog direct (.flush_tlb_all :: l)
  | leaf_kept (v : Nat) (l : List Event) : direct = true → pte_present v = true →
      RemovalLog direct l → RemovalLog direct (.set_pte v 0 :: l)
  | leaf_freed (v : Nat) (l : List Event) : direct = false → pte_present v = true →
      RemovalLog direct l →
      RemovalLog direct (.set_pte v 0 :: .free_pagetable (pte_page v) 0 false :: l)
  | pmd_block_kept (v : Nat) (l : List Event) : direct = true → pmd_sect v = true →
      RemovalLog direct l → RemovalLog direct (.set_pmd v 0 :: l)
  | pmd_block_freed (v : Nat) (l : List Event) : direct = false → pmd_sect v = true →
      RemovalLog direct l →
      RemovalLog direct
        (.set_pmd v 0 :: .free_pagetable (pmd_page v) (get_order PMD_SIZE) false :: l)
  | pud_block_kept (v : Nat) (l : List Event) : direct = true → pud_sect v = true →
      RemovalLog direct l → RemovalLog direct (.set_pud v 0 :: l)
  | pud_block_freed (v : Nat) (l : List Event) : direct = false → pud_sect v = true →
      RemovalLog direct l →
      RemovalLog direct
        (.set_pud v 0 :: .free_pagetable (pud_page v) (get_order PUD_SIZE) false :: l)
  | pte_table_freed (v : Nat) (l : List Event) : pmd_table v = true → RemovalLog direct l →
      RemovalLog direct (.set_pmd v 0 :: .free_pagetable (pmd_page v) 0 direct :: l)
  | pmd_table_freed (v : Nat) (l : List Event) : pud_table v = true → RemovalLog direct l →
      RemovalLog direct (.set_pud v 0 :: .free_pagetable (pud_page v) 0 direct :: l)
  | pud_table_freed (v : Nat) (l : List Event) : v ≠ 0 → RemovalLog direct l →
      RemovalLog direct (.set_pgd v 0 :: .free_pagetable (pgd_page v) 0 direct :: l)

/-- Machine `m'` is `m` after a run that logged only events satisfying `P`, left the active root
alone and, when `fixed` holds, took no page from the page provider. -/
def Machine.grows (P : Event → Prop) (fixed : Prop) (m m' : Machine) : Prop :=
  m.adds P m' ∧ m'.ttbr1 = m.ttbr1 ∧ (fixed → m'.nalloc = m.nalloc)

/-- Every event that the mapping engine can log with the allocator handle `pa` satisfies `P`:
without a handle the engine logs no page request and stores no descriptor of table type. -/
structure MappingEvents (P : Event → Prop) (pa : Option Allocator) : Prop where
  warn : P .warn
  flush : P .flush_tlb_all
  memblock_free : ∀ a s, P (.memblock_free a s)
  set_pte : ∀ o n, P (.set_pte o n)
  pmd_block : ∀ o n, pmd_sect n = true → P (.set_pmd o n)
  pud_block : ∀ o n, pud_sect n = true → P (.set_pud o n)
  page_alloc : pa ≠ none → ∀ x, P (.page_alloc x)
  set_pmd : pa ≠ none → ∀ o n, P (.set_pmd o n)
  set_pud : pa ≠ none → ∀ o n, P (.set_pud o n)
  set_pgd : pa ≠ none → ∀ o n, P (.set_pgd o n)

/-! ## Tables with every level in place -/

/-- A root table in which slot 0 of every level holds a table: the root slot points to an
upper-level table, its slot 0 to a middle-level table, and its slot 0 to an empty leaf table. -/
def leaf_tree : PgdTable := fun i =>
  if i = 0 then
    ⟨0x80000003, fun j =>
      if j = 0 then
        ⟨0x80001003, fun k =>
          if k = 0 then ⟨0x80002003, zero_pte_table⟩ else ⟨0, zero_pte_table⟩⟩
      else ⟨0, zero_pmd_table⟩⟩
  else ⟨0, zero_pud_table⟩

/-- Machine `m'` is `m` after a teardown over page-aligned ranges: what the log gained has the
shape `RemovalLog direct`. -/
def Machine.removes (direct : Bool) (m m' : Machine) : Prop :=
  ∃ new, m'.trace = new ++ m.trace ∧ RemovalLog direct new

/-! ## Temporary mapping facility (fixmap) -/

/-- Modelled from the spec: `FIX_HOLE` of asm/fixmap.h (absent from src/), the first enumerator of
`enum fixed_addresses`. -/
def FIX_HOLE : Nat := 0

/-- Modelled from the spec: `__end_of_fixed_addresses` of asm/fixmap.h (absent from src/), the
last enumerator of `enum fixed_addresses`.  Its value depends on the configuration; this is the
one with `FIX_EARLYCON_MEM_BASE` and `FIX_TEXT_POKE0` as the only permanent slots after the FDT
window, 7 boot-ioremap slots of 64 pages, and `FIX_PTE`, `FIX_PMD`, `FIX_PUD`, `FIX_PGD`. -/
def __end_of_fixed_addresses : Nat := 1479

/-- Function `fixmap_pte(addr)`: `&bm_pte[pte_index(addr)]`, given as the index of the slot in the
reserved leaf table `bm_pte`. -/
def fixmap_pte (addr : Nat) : Nat := pte_index addr

/-- Function `__set_fixmap(idx, phys, flags)` on the reserved leaf table `bm_pte`:
`BUG_ON(idx <= FIX_HOLE || idx >= __end_of_fixed_addresses)`, then `set_pte` of the page entry
when `pgprot_val(flags)` is non-zero, `pte_clear` and `flush_tlb_kernel_range` otherwise. -/
def __set_fixmap (m : Machine) (bm_pte : PteTable) (idx phys flags : Nat) :
    Except Halt (PteTable × Machine) :=
  let addr := __fix_to_virt idx
  if idx ≤ FIX_HOLE || idx ≥ __end_of_fixed_addresses then .error .bug
  else
    let pte := fixmap_pte addr
    if flags != 0 then
      let v := pfn_pte (phys >>> PAGE_SHIFT) flags
      .ok (Function.update bm_pte pte v, m.log (.set_pte (bm_pte pte) v))
    else
      let m := m.log (.set_pte (bm_pte pte) 0)
      .ok (Function.update bm_pte pte 0,
        m.log (.flush_tlb_kernel_range addr (add64 addr PAGE_SIZE)))

/-! ## Order of release and clearing -/

/-- How many `flush_tlb_all` the log `l` shows. -/
def flushes (l : List Event) : Nat := l.count Event.flush_tlb_all

/-- The sum of `f slot addr next` over the passes of a loop
`for (; addr < end; addr = next, slot++)` with `next = addr_end(addr, end)`, on the table `tbl`
from slot `i` on; `room` is the number of slots from `i` to the end of the table. -/
def for_sum {E : Type} (addr_end : Nat → Nat → Nat) (f : E → Nat → Nat → Nat) :
    Nat → (Nat → E) → Nat → Nat → Nat → Nat
  | 0, _, _, _, _ => 0
  | room + 1, tbl, i, addr, end_ =>
    if addr < end_ then
      f (tbl i) addr (addr_end addr end_) +
        for_sum addr_end f room tbl (i + 1) (addr_end addr end_) end_
    else 0

/-- The number of leaf tables that `remove_pmd_table(pmd, addr, end)` walks: the slots that the
loop passes and finds present and not a section. -/
def leaf_tables_pmd (t : PmdTable) (a n : Nat) : Nat :=
  for_sum pmd_addr_end (fun e _ _ => if pmd_present e.val && !pmd_sect e.val then 1 else 0)
    (PTRS_PER_PMD - pmd_index a) t (pmd_index a) a n

/-- The number of leaf tables that `remove_pud_table(pud, addr, end)` walks, below the slots
that the loop passes and finds present and not a block. -/
def leaf_tables_pud (t : PudTable) (a n : Nat) : Nat :=
  for_sum pud_addr_end
    (fun e a n => if pud_present e.val && !pud_sect e.val then leaf_tables_pmd e.tbl a n else 0)
    (PTRS_PER_PUD - pud_index a) t (pud_index a) a n

/-- The number of leaf tables that `remove_pagetable(start, end)` walks. -/
def leaf_tables (t : PgdTable) (a n : Nat) : Nat :=
  for_sum pgd_addr_end
    (fun e a n => if pgd_none e.val then 0 else leaf_tables_pud e.tbl a n)
    (PTRS_PER_PGD - pgd_index a) t (pgd_index a) a n

/-! ## Addresses outside a request -/

/-- What a request over `[a, n)` may do to the walk of an address `x` outside the range, from the
result `o0` of the walk before to the result `o1` after: the walk ends as before, or it ended at
a block that reaches into the range, which the request had to split, and now ends at an entry
of a lower table that gives `x` the same physical address. -/
def Kept (a n x : Nat) (o0 o1 : Option Terminal) : Prop :=
  o1 = o0 ∨
    ∃ t t', o0 = some t ∧ o1 = some t' ∧ t'.phys x = t.phys x ∧ t.level < t'.level ∧
      ((t.level = 2 ∧ x / 2 ^ 21 * 2 ^ 21 < n ∧ a < x / 2 ^ 21 * 2 ^ 21 + 2 ^ 21) ∨
        (t.level = 1 ∧ x / 2 ^ 30 * 2 ^ 30 < n ∧ a < x / 2 ^ 30 * 2 ^ 30 + 2 ^ 30))

/-! ## Walks after a call -/

/-- The walk of `x` in the tables that a call on the root table returns; `none` when the call
does not return. -/
def walk_after (r : Except Halt (PgdTable × Machine)) (x : Nat) : Option (Option Terminal) :=
  match r with
  | .ok (pgd, _) => some (lookup pgd x)
  | .error _ => none

/-- A root table in which slot 0 of the root and of the upper level hold a table and slot 0 of
the middle level holds the 2 MiB section of the frames from `0x4000_0000`, read/write: the first
2 MiB of the window `0xffff_0000_0000_0000` are mapped by one block. -/
def sect_tree : PgdTable := fun i =>
  if i = 0 then
    ⟨0x80000003, fun j =>
      if j = 0 then
        ⟨0x80001003, fun k =>
          if k = 0 then ⟨0x00E8000040000711, zero_pte_table⟩ else ⟨0, zero_pte_table⟩⟩
      else ⟨0, zero_pmd_table⟩⟩
  else ⟨0, zero_pud_table⟩

/-! ## The linear map of a memory bank -/

/-- Function `__map_memblock(pgd, start, end)`.  `kernel_start` and `kernel_end` are
`__pa_symbol(_text)` and `__pa_symbol(__init_begin)`, `memstart` is `PHYS_OFFSET`,
`debug_pagealloc` is `debug_pagealloc_enabled()`. -/
def __map_memblock (m : Machine) (pgd : PgdTable)
    (memstart kernel_start kernel_end start end_ : Nat) (debug_pagealloc : Bool) :
    Except Halt (PgdTable × Machine) :=
  if end_ < kernel_start || start ≥ kernel_end then
    __create_pgd_mapping m pgd start (__phys_to_virt memstart start) (sub64 end_ start)
      PAGE_KERNEL (some .early_pgtable_alloc) (!debug_pagealloc)
  else
    let r1 : Except Halt (PgdTable × Machine) :=
      if start < kernel_start then
        __create_pgd_mapping m pgd start (__phys_to_virt memstart start)
          (sub64 kernel_start start) PAGE_KERNEL (some .early_pgtable_alloc) (!debug_pagealloc)
      else .ok (pgd, m)
    match r1 with
    | .error h => .error h
    | .ok (pgd, m) =>
      let r2 : Except Halt (PgdTable × Machine) :=
        if kernel_end < end_ then
          __create_pgd_mapping m pgd kernel_end (__phys_to_virt memstart kernel_end)
            (sub64 end_ kernel_end) PAGE_KERNEL (some .early_pgtable_alloc) (!debug_pagealloc)
        else .ok (pgd, m)
      match r2 with
      | .error h => .error h
      | .ok (pgd, m) =>
        __create_pgd_mapping m pgd kernel_start (__phys_to_virt memstart kernel_start)
          (sub64 kernel_end kernel_start) PAGE_KERNEL_RO (some .early_pgtable_alloc)
          (!debug_pagealloc)

/-- The naturally aligned block that the terminal entry `t` maps around `x` lies inside
`[lo, hi)`; nothing is asked of a page entry. -/
def Terminal.within (t : Terminal) (x lo hi : Nat) : Prop :=
  (t.level = 1 → lo ≤ x / 2 ^ 30 * 2 ^ 30 ∧ x / 2 ^ 30 * 2 ^ 30 + 2 ^ 30 ≤ hi) ∧
    (t.level = 2 → lo ≤ x / 2 ^ 21 * 2 ^ 21 ∧ x / 2 ^ 21 * 2 ^ 21 + 2 ^ 21 ≤ hi)

/-- The physical address `x` is mapped in the linear map of `pgd` with the attributes of `prot`,
through an entry whose block lies inside the linear alias of `[lo, hi)`. -/
def LinearMapped (memstart prot lo hi : Nat) (pgd : PgdTable) (x : Nat) : Prop :=
  ∃ t, lookup pgd (__phys_to_virt memstart x) = some t ∧
    t.phys (__phys_to_virt memstart x) = x ∧ t.attrs = prot &&& ATTR_MASK ∧
    t.within (__phys_to_virt memstart x) (__phys_to_virt memstart lo)
      (__phys_to_virt memstart hi) ∧
    (t.level = 1 → t.val % 2 ^ 30 < 2 ^ 12)

/-! ## Counting leaf stores -/

/-- The event is a store to a leaf entry (`set_pte`). -/
def Event.is_leaf_store : Event → Bool
  | .set_pte _ _ => true
  | _ => false

/-- The event is a store to a middle-level entry that held a section: where `alloc_init_pte`
replaces a section by the leaf table that `split_pmd` has filled. -/
def Event.splits_section : Event → Bool
  | .set_pmd o _ => pmd_sect o
  | _ => false

/-- The number of leaf stores in a log. -/
def leaf_stores (l : List Event) : Nat := l.countP Event.is_leaf_store

/-- The number of sections replaced by a leaf table in a log. -/
def sections_split (l : List Event) : Nat := l.countP Event.splits_section

/-- From `m` to `m'` the log gained `k` leaf stores besides the 512 that `split_pmd` makes for
each section that was replaced by a leaf table. -/
def Counted (k : Nat) (m m' : Machine) : Prop :=
  leaf_stores m'.trace + 512 * sections_split m.trace =
    leaf_stores m.trace + 512 * sections_split m'.trace + k

/-- A page-aligned, non-empty range that ends below 2^64. -/
def PageRange (a n : Nat) : Prop := a % 2 ^ 12 = 0 ∧ n % 2 ^ 12 = 0 ∧ a < n ∧ n < 2 ^ 64

/-! # Theorems -/

/-! ## Words and masks -/

theorem land_mask_hi (x k : Nat) (hx : x < 2 ^ 64) (hk : k ≤ 64) :
    x &&& (2 ^ 64 - 2 ^ k) = x / 2 ^ k * 2 ^ k := by
  apply Nat.eq_of_testBit_eq
  intro i
  have h1 : 2 ^ 64 - 2 ^ k = 2 ^ 64 - ((2 ^ k - 1) + 1) := by
    have : 0 < 2 ^ k := Nat.pos_pow_of_pos _ (by norm_num)
    omega
  have h2 : 2 ^ k - 1 < 2 ^ 64 := by
    have : 2 ^ k ≤ 2 ^ 64 := Nat.pow_le_pow_right (by norm_num) hk
    omega
  rw [Nat.testBit_and, h1, Nat.testBit_two_pow_sub_succ h2, Nat.testBit_two_pow_sub_one,
    Nat.mul_comm, Nat.testBit_mul_pow_two, ← Nat.shiftRight_eq_div_pow, Nat.testBit_shiftRight]
  by_cases hik : i < k
  · simp [hik, Nat.not_le.mpr hik]
  · have hki : k ≤ i := Nat.le_of_not_lt hik
    simp only [hik, decide_False, Bool.not_false, Bool.and_true, ge_iff_le, hki, decide_True,
      Bool.true_and]
    by_cases hi : i < 64
    · simp [hi, Nat.add_sub_cancel' hki]
    · have : x.testBit i = false :=
        Nat.testBit_lt_two_pow
          (lt_of_lt_of_le hx (Nat.pow_le_pow_right (by norm_num) (Nat.le_of_not_lt hi)))
      simp [hi, this, Nat.add_sub_cancel' hki]

theorem lor_land_lo (a b k : Nat) :
    (a ||| b) &&& (2 ^ k - 1) = 0 ↔ a % 2 ^ k = 0 ∧ b % 2 ^ k = 0 := by
  rw [Nat.and_pow_two_sub_one_eq_mod]
  constructor
  · intro h
    constructor
    · apply Nat.eq_of_testBit_eq; intro i
      have := congrArg (fun t => Nat.testBit t i) h
      simp only [Nat.testBit_mod_two_pow, Nat.testBit_or, Nat.zero_testBit] at this ⊢
      revert this; cases decide (i < k) <;> cases a.testBit i <;> simp
    · apply Nat.eq_of_testBit_eq; intro i
      have := congrArg (fun t => Nat.testBit t i) h
      simp only [Nat.testBit_mod_two_pow, Nat.testBit_or, Nat.zero_testBit] at this ⊢
      revert this; cases decide (i < k) <;> cases a.testBit i <;> simp
  · rintro ⟨ha, hb⟩
    apply Nat.eq_of_testBit_eq; intro i
    have h1 := congrArg (fun t => Nat.testBit t i) ha
    have h2 := congrArg (fun t => Nat.testBit t i) hb
    simp only [Nat.testBit_mod_two_pow, Nat.testBit_or, Nat.zero_testBit] at h1 h2 ⊢
    revert h1 h2; cases decide (i < k) <;> cases a.testBit i <;> simp

theorem lor_mod (a b k : Nat) : (a ||| b) % 2 ^ k = (a % 2 ^ k) ||| (b % 2 ^ k) := by
  apply Nat.eq_of_testBit_eq; intro i
  simp only [Nat.testBit_mod_two_pow, Nat.testBit_or]
  cases decide (i < k) <;> simp

theorem land_mod (a b k : Nat) : (a &&& b) % 2 ^ k = (a % 2 ^ k) &&& (b % 2 ^ k) := by
  apply Nat.eq_of_testBit_eq; intro i
  simp only [Nat.testBit_mod_two_pow, Nat.testBit_and]
  cases decide (i < k) <;> simp

theorem xor_mod (a b k : Nat) : (a ^^^ b) % 2 ^ k = (a % 2 ^ k) ^^^ (b % 2 ^ k) := by
  apply Nat.eq_of_testBit_eq; intro i
  simp only [Nat.testBit_mod_two_pow, Nat.testBit_xor]
  cases decide (i < k) <;> simp

theorem land_three (v : Nat) : v &&& 3 = v % 4 := Nat.and_pow_two_sub_one_eq_mod v 2

theorem land_two (v : Nat) : v &&& 2 = (v % 4) &&& 2 := by
  have h : (v &&& 2) % 2 ^ 2 = (v % 2 ^ 2) &&& (2 % 2 ^ 2) := land_mod v 2 2
  have h2 : v &&& 2 ≤ 2 := Nat.and_le_right
  have h3 : (v &&& 2) % 2 ^ 2 = v &&& 2 := Nat.mod_eq_of_lt (by omega)
  rw [h3] at h
  exact h

theorem pmd_sect_iff (v : Nat) : pmd_sect v = true ↔ v % 4 = 1 := by
  simp [pmd_sect, PMD_TYPE_MASK, PMD_TYPE_SECT, land_three]

theorem pmd_table_iff (v : Nat) : pmd_table v = true ↔ v % 4 = 3 := by
  simp [pmd_table, PMD_TYPE_MASK, PMD_TYPE_TABLE, land_three]

theorem pmd_bad_iff (v : Nat) : pmd_bad v = true ↔ v % 4 < 2 := by
  simp only [pmd_bad, PMD_TABLE_BIT, beq_iff_eq]
  rw [land_two]
  have h : v % 4 < 4 := Nat.mod_lt _ (by norm_num)
  generalize v % 4 = r at h ⊢
  interval_cases r <;> decide

theorem pmd_none_iff (v : Nat) : pmd_none v = true ↔ v = 0 := by simp [pmd_none]

theorem lor_three_mod (pa : Nat) : (pa ||| 3) % 4 = 3 := by
  have h := lor_mod pa 3 2
  have h4 : pa % 4 < 4 := Nat.mod_lt _ (by norm_num)
  simp only [show (2:Nat) ^ 2 = 4 by norm_num, show (3 : Nat) % 4 = 3 by norm_num] at h
  rw [h]
  generalize pa % 4 = r at h4
  interval_cases r <;> decide

theorem sect_val_mod (p prot : Nat) (hp : p % 4 = 0) : (p ||| 1 ||| mk_sect_prot prot) % 4 = 1 := by
  have h1 := lor_mod (p ||| 1) (mk_sect_prot prot) 2
  have h2 := lor_mod p 1 2
  have h3 := land_mod prot (not64 PTE_TABLE_BIT) 2
  have h4 : prot % 4 < 4 := Nat.mod_lt _ (by norm_num)
  have h5 : not64 PTE_TABLE_BIT % 2 ^ 2 = 1 := by decide
  simp only [show (2:Nat) ^ 2 = 4 by norm_num] at h1 h2 h3 h5
  unfold mk_sect_prot at h1
  rw [h3, h2, hp, h5] at h1
  unfold mk_sect_prot
  rw [h1]
  generalize prot % 4 = r at h4
  interval_cases r <;> decide

theorem align3 (a n p k : Nat) :
    ((a ||| n ||| p) &&& (2 ^ k - 1) == 0) = true ↔
      a % 2 ^ k = 0 ∧ n % 2 ^ k = 0 ∧ p % 2 ^ k = 0 := by
  rw [beq_iff_eq, lor_land_lo, ← Nat.and_pow_two_sub_one_eq_mod (a ||| n), lor_land_lo]
  tauto

/-! ## The machine -/

theorem not64_PAGE_MASK : not64 PAGE_MASK = 2 ^ 12 - 1 := by decide
theorem not64_PMD_MASK : not64 PMD_MASK = 2 ^ 21 - 1 := by decide
theorem not64_SECTION_MASK : not64 SECTION_MASK = 2 ^ 21 - 1 := by decide
theorem not64_PUD_MASK : not64 PUD_MASK = 2 ^ 30 - 1 := by decide

theorem pte_index_eq (a : Nat) : pte_index a = a / 2 ^ 12 % 2 ^ 9 := by
  unfold pte_index PAGE_SHIFT PTRS_PER_PTE
  rw [Nat.shiftRight_eq_div_pow, show (512 - 1 : Nat) = 2 ^ 9 - 1 by norm_num,
    Nat.and_pow_two_sub_one_eq_mod]

theorem Machine.ext_refl (m : Machine) : m.ext m := ⟨rfl, rfl, rfl, rfl, le_refl _⟩

theorem Machine.ext_trans {a b c : Machine} (h1 : a.ext b) (h2 : b.ext c) : a.ext c := by
  obtain ⟨h11, h12, h13, h14, h15⟩ := h1
  obtain ⟨h21, h22, h23, h24, h25⟩ := h2
  exact ⟨h21.trans h11, h22.trans h12, h23.trans h13, h24.trans h14, le_trans h15 h25⟩

theorem Machine.ext_log (m : Machine) (e : Event) : m.ext (m.log e) := ⟨rfl, rfl, rfl, rfl, le_refl _⟩

theorem alloc_init_pte_loop_spec (n : Nat) :
    ∀ (room : Nat) (m : Machine) (pte : PteTable) (i addr end_ pfn prot : Nat),
      0 < n → n ≤ room → end_ = addr + n * PAGE_SIZE → end_ < 2 ^ 64 → pfn + n ≤ 2 ^ 64 →
      ∃ pte' m', alloc_init_pte_loop room m pte i addr end_ pfn prot = .ok (pte', m') ∧
        m.ext m' ∧
        ∀ j, pte' j = if i ≤ j ∧ j < i + n then pfn_pte (pfn + (j - i)) prot else pte j := by
  induction n with
  | zero => intro _ _ _ _ _ _ _ _ h; exact absurd h (lt_irrefl 0)
  | succ k ih =>
    intro room m pte i addr end_ pfn prot _ hroom hend hlt hpfn
    obtain ⟨r, rfl⟩ : ∃ r, room = r + 1 := ⟨room - 1, by omega⟩
    rw [alloc_init_pte_loop]
    simp only [PAGE_SIZE] at hend
    have hadd : add64 addr PAGE_SIZE = addr + 2 ^ 12 := by
      unfold add64 PAGE_SIZE; apply Nat.mod_eq_of_lt; omega
    simp only [hadd]
    by_cases hk : k = 0
    · subst hk
      have : addr + 2 ^ 12 = end_ := by omega
      simp only [this, bne_self_eq_false, Bool.false_eq_true, ↓reduceIte]
      refine ⟨_, _, rfl, Machine.ext_log _ _, ?_⟩
      intro j
      by_cases hj : j = i
      · subst hj; simp
      · have : ¬ (i ≤ j ∧ j < i + (0 + 1)) := by omega
        simp [this, Function.update_noteq hj]
    · have hne : (addr + 2 ^ 12 != end_) = true := by
        simp only [bne_iff_ne, ne_eq]; omega
      simp only [hne, ↓reduceIte]
      have hp : (pfn + 1) % 2 ^ 64 = pfn + 1 := by apply Nat.mod_eq_of_lt; omega
      rw [hp]
      obtain ⟨pte', m', h1, h2, h3⟩ := ih r (m.log (.set_pte (pte i) (pfn_pte pfn prot)))
        (Function.update pte i (pfn_pte pfn prot)) (i + 1) (addr + 2 ^ 12) end_ (pfn + 1) prot
        (by omega) (by omega) (by simp only [PAGE_SIZE]; omega) hlt (by omega)
      refine ⟨pte', m', h1, Machine.ext_trans (Machine.ext_log _ _) h2, ?_⟩
      intro j
      rw [h3 j]
      by_cases hj : j = i
      · subst hj
        have : ¬ (j + 1 ≤ j ∧ j < j + 1 + k) := by omega
        simp [this]
      · by_cases hr : i + 1 ≤ j ∧ j < i + 1 + k
        · have hr' : i ≤ j ∧ j < i + (k + 1) := by omega
          have : pfn + 1 + (j - (i + 1)) = pfn + (j - i) := by omega
          simp [hr, hr', this]
        · have hr' : ¬ (i ≤ j ∧ j < i + (k + 1)) := by omega
          simp [hr, hr', Function.update_noteq hj]

/-! ## The loop over the slots of a table -/

theorem range_loop_spec {E : Type} {addr_end : Nat → Nat → Nat} {c base bnd : Nat → Nat}
    (hcut : Cut addr_end c base bnd)
    (body : Machine → E → Nat → Nat → Nat → Except Halt (E × Machine))
    (MP : Machine → Prop) (P : E → Prop) (A : Nat → Nat → Nat → Prop)
    (R : Nat → Nat → Nat → E → E → Prop)
    (hAw : ∀ a n p, A a n p → p + (n - a) ≤ 2 ^ 64)
    (hAs : ∀ a e p, A a e p → bnd a < e → A a (bnd a) p ∧ A (bnd a) e (p + (bnd a - a)))
    (hMP : ∀ m m', MP m → m.ext m' → MP m')
    (hRP : ∀ a n p e e', R a n p e e' → P e')
    (hbody : ∀ m e a n p, MP m → P e → a < n → n ≤ bnd a → n < 2 ^ 64 → A a n p →
      ∃ e' m', body m e a n p = .ok (e', m') ∧ m.ext m' ∧ R a n p e e') :
    ∀ (room : Nat) (m : Machine) (tbl : Nat → E) (i addr end_ phys : Nat),
      MP m → (∀ j, P (tbl j)) → addr < end_ → end_ < 2 ^ 64 →
      c (end_ - 1) - c addr < room → A addr end_ phys →
      ∃ tbl' m', range_loop addr_end body room m tbl i addr end_ phys = .ok (tbl', m') ∧
        m.ext m' ∧ (∀ j, P (tbl' j)) ∧
        (∀ j, j < i ∨ i + (c (end_ - 1) - c addr) < j → tbl' j = tbl j) ∧
        (∀ a, addr ≤ a → a < end_ →
          R (max addr (base a)) (min end_ (bnd a)) (phys + (max addr (base a) - addr))
            (tbl (i + (c a - c addr))) (tbl' (i + (c a - c addr)))) := by
  intro room
  induction room with
  | zero => intro _ _ _ _ _ _ _ _ _ _ h; exact absurd h (Nat.not_lt_zero _)
  | succ r ih =>
    intro m tbl i addr end_ phys hm hP hlt hend hroom hphys
    rw [range_loop]
    have hw := hAw _ _ _ hphys
    have hae := hcut.addr_end_eq addr end_ hlt hend
    have hlb := hcut.lt_bnd addr
    by_cases hb : bnd addr < end_
    · -- the range goes on past the slot of `addr`
      rw [if_pos hb] at hae
      simp only [hae]
      obtain ⟨hA1, hA2⟩ := hAs _ _ _ hphys hb
      obtain ⟨e', m1, hb1, hx1, hR1⟩ := hbody m (tbl i) addr (bnd addr) phys hm (hP i) hlb
        (le_refl _) (by omega) hA1
      simp only [hb1]
      have hne : (bnd addr != end_) = true := by simp only [bne_iff_ne, ne_eq]; omega
      simp only [hne, if_true]
      have hph : add64 phys (sub64 (bnd addr) addr) = phys + (bnd addr - addr) := by
        unfold add64 sub64
        have h1 : addr % 2 ^ 64 = addr := Nat.mod_eq_of_lt (by omega)
        have h2 : (bnd addr + 2 ^ 64 - addr) % 2 ^ 64 = bnd addr - addr := by
          have : bnd addr + 2 ^ 64 - addr = (bnd addr - addr) + 2 ^ 64 := by omega
          rw [this, Nat.add_mod_right]; exact Nat.mod_eq_of_lt (by omega)
        rw [h1, h2]; exact Nat.mod_eq_of_lt (by omega)
      rw [hph]
      have hc1 := hcut.c_bnd addr
      have hc2 : c (bnd addr) ≤ c (end_ - 1) := hcut.c_mono _ _ (by omega)
      have hP1 : ∀ j, P (Function.update tbl i e' j) := by
        intro j
        by_cases hj : j = i
        · subst hj; rw [Function.update_same]; exact hRP _ _ _ _ _ hR1
        · rw [Function.update_noteq hj]; exact hP j
      obtain ⟨tbl', m', h1, h2, h3, h4, h5⟩ := ih m1 (Function.update tbl i e') (i + 1)
        (bnd addr) end_ (phys + (bnd addr - addr)) (hMP _ _ hm hx1) hP1 hb hend
        (by omega) hA2
      refine ⟨tbl', m', h1, Machine.ext_trans hx1 h2, h3, ?_, ?_⟩
      · intro j hj
        rw [h4 j (by omega)]
        exact Function.update_noteq (by omega) _ _
      · intro a ha1 ha2
        by_cases hab : a < bnd addr
        · obtain ⟨s1, s2, s3⟩ := hcut.same addr a ha1 hab
          have hi : tbl' i = e' := by
            rw [h4 i (Or.inl (by omega))]; exact Function.update_same _ _ _
          have e1 : max addr (base a) = addr := max_eq_left s3
          have e2 : min end_ (bnd a) = bnd addr := by rw [s2]; exact min_eq_right (le_of_lt hb)
          rw [s1, e1, e2, Nat.sub_self, Nat.add_zero, Nat.sub_self, Nat.add_zero, hi]
          exact hR1
        · have hab' : bnd addr ≤ a := Nat.le_of_not_lt hab
          have s1 := hcut.later addr a hab'
          have s2 := hcut.c_mono _ _ hab'
          have := h5 a hab' ha2
          have e1 : max (bnd addr) (base a) = base a := max_eq_right s1
          have e2 : max addr (base a) = base a := max_eq_right (by omega)
          have e3 : i + 1 + (c a - c (bnd addr)) = i + (c a - c addr) := by omega
          have e4 : phys + (bnd addr - addr) + (base a - bnd addr) = phys + (base a - addr) := by
            omega
          rw [e1, e3, e4] at this
          rw [e2]
          rw [Function.update_noteq (by omega)] at this
          exact this
    · -- the range ends in the slot of `addr`
      rw [if_neg hb] at hae
      simp only [hae]
      obtain ⟨e', m1, hb1, hx1, hR1⟩ := hbody m (tbl i) addr end_ phys hm (hP i) hlt
        (by omega) hend hphys
      simp only [hb1, bne_self_eq_false, Bool.false_eq_true, if_false]
      have hP1 : ∀ j, P (Function.update tbl i e' j) := by
        intro j
        by_cases hj : j = i
        · subst hj; rw [Function.update_same]; exact hRP _ _ _ _ _ hR1
        · rw [Function.update_noteq hj]; exact hP j
      refine ⟨_, m1, rfl, hx1, hP1, ?_, ?_⟩
      · intro j hj
        exact Function.update_noteq (by omega) _ _
      · intro a ha1 ha2
        obtain ⟨s1, s2, s3⟩ := hcut.same addr a ha1 (by omega)
        have e1 : max addr (base a) = addr := max_eq_left s3
        have e2 : min end_ (bnd a) = end_ := by rw [s2]; exact min_eq_left (by omega)
        rw [s1, e1, e2, Nat.sub_self, Nat.add_zero, Nat.sub_self, Nat.add_zero,
          Function.update_same]
        exact hR1

/-! ## The three cuts -/

theorem pmd_addr_end_eq (a e : Nat) (h1 : a < e) (h2 : e < 2 ^ 64) :
    pmd_addr_end a e =
      if a / 2 ^ 21 * 2 ^ 21 + 2 ^ 21 < e then a / 2 ^ 21 * 2 ^ 21 + 2 ^ 21 else e := by
  unfold pmd_addr_end add64 PMD_SIZE PMD_MASK
  have hm := land_mask_hi ((a + 2 ^ 21) % 2 ^ 64) 21 (Nat.mod_lt _ (by norm_num)) (by norm_num)
  simp only [hm]
  have he : sub64 e 1 = e - 1 := by unfold sub64; omega
  rw [he]
  by_cases hw : a + 2 ^ 21 < 2 ^ 64
  · have hb : (a + 2 ^ 21) % 2 ^ 64 / 2 ^ 21 * 2 ^ 21 = a / 2 ^ 21 * 2 ^ 21 + 2 ^ 21 := by omega
    rw [hb]
    have hs : sub64 (a / 2 ^ 21 * 2 ^ 21 + 2 ^ 21) 1 = a / 2 ^ 21 * 2 ^ 21 + 2 ^ 21 - 1 := by
      unfold sub64; omega
    rw [hs]
    by_cases hc : a / 2 ^ 21 * 2 ^ 21 + 2 ^ 21 < e
    · rw [if_pos hc, if_pos (by omega)]
    · rw [if_neg hc, if_neg (by omega)]
  · have hb : (a + 2 ^ 21) % 2 ^ 64 / 2 ^ 21 * 2 ^ 21 = 0 := by omega
    rw [hb]
    have hs : sub64 0 1 = 2 ^ 64 - 1 := by decide
    rw [hs, if_neg (by omega), if_neg (by omega)]

theorem pud_addr_end_eq (a e : Nat) (h1 : a < e) (h2 : e < 2 ^ 64) :
    pud_addr_end a e =
      if a / 2 ^ 30 * 2 ^ 30 + 2 ^ 30 < e then a / 2 ^ 30 * 2 ^ 30 + 2 ^ 30 else e := by
  unfold pud_addr_end add64 PUD_SIZE PUD_MASK
  have hm := land_mask_hi ((a + 2 ^ 30) % 2 ^ 64) 30 (Nat.mod_lt _ (by norm_num)) (by norm_num)
  simp only [hm]
  have he : sub64 e 1 = e - 1 := by unfold sub64; omega
  rw [he]
  by_cases hw : a + 2 ^ 30 < 2 ^ 64
  · have hb : (a + 2 ^ 30) % 2 ^ 64 / 2 ^ 30 * 2 ^ 30 = a / 2 ^ 30 * 2 ^ 30 + 2 ^ 30 := by omega
    rw [hb]
    have hs : sub64 (a / 2 ^ 30 * 2 ^ 30 + 2 ^ 30) 1 = a / 2 ^ 30 * 2 ^ 30 + 2 ^ 30 - 1 := by
      unfold sub64; omega
    rw [hs]
    by_cases hc : a / 2 ^ 30 * 2 ^ 30 + 2 ^ 30 < e
    · rw [if_pos hc, if_pos (by omega)]
    · rw [if_neg hc, if_neg (by omega)]
  · have hb : (a + 2 ^ 30) % 2 ^ 64 / 2 ^ 30 * 2 ^ 30 = 0 := by omega
    rw [hb]
    have hs : sub64 0 1 = 2 ^ 64 - 1 := by decide
    rw [hs, if_neg (by omega), if_neg (by omega)]

theorem pgd_addr_end_eq (a e : Nat) (h1 : a < e) (h2 : e < 2 ^ 64) :
    pgd_addr_end a e =
      if a / 2 ^ 39 * 2 ^ 39 + 2 ^ 39 < e then a / 2 ^ 39 * 2 ^ 39 + 2 ^ 39 else e := by
  unfold pgd_addr_end add64 PGDIR_SIZE PGDIR_MASK
  have hm := land_mask_hi ((a + 2 ^ 39) % 2 ^ 64) 39 (Nat.mod_lt _ (by norm_num)) (by norm_num)
  simp only [hm]
  have he : sub64 e 1 = e - 1 := by unfold sub64; omega
  rw [he]
  by_cases hw : a + 2 ^ 39 < 2 ^ 64
  · have hb : (a + 2 ^ 39) % 2 ^ 64 / 2 ^ 39 * 2 ^ 39 = a / 2 ^ 39 * 2 ^ 39 + 2 ^ 39 := by omega
    rw [hb]
    have hs : sub64 (a / 2 ^ 39 * 2 ^ 39 + 2 ^ 39) 1 = a / 2 ^ 39 * 2 ^ 39 + 2 ^ 39 - 1 := by
      unfold sub64; omega
    rw [hs]
    by_cases hc : a / 2 ^ 39 * 2 ^ 39 + 2 ^ 39 < e
    · rw [if_pos hc, if_pos (by omega)]
    · rw [if_neg hc, if_neg (by omega)]
  · have hb : (a + 2 ^ 39) % 2 ^ 64 / 2 ^ 39 * 2 ^ 39 = 0 := by omega
    rw [hb]
    have hs : sub64 0 1 = 2 ^ 64 - 1 := by decide
    rw [hs, if_neg (by omega), if_neg (by omega)]

theorem cut_pmd : Cut pmd_addr_end (fun a => a / 2 ^ 21) (fun a => a / 2 ^ 21 * 2 ^ 21)
    (fun a => a / 2 ^ 21 * 2 ^ 21 + 2 ^ 21) where
  addr_end_eq := pmd_addr_end_eq
  lt_bnd := by intro a; show a < a / 2 ^ 21 * 2 ^ 21 + 2 ^ 21; omega
  base_le := by intro a; show a / 2 ^ 21 * 2 ^ 21 ≤ a; omega
  c_bnd := by intro a; show (a / 2 ^ 21 * 2 ^ 21 + 2 ^ 21) / 2 ^ 21 = a / 2 ^ 21 + 1; omega
  c_mono := by intro a x h; show a / 2 ^ 21 ≤ x / 2 ^ 21; omega
  same := by
    intro a x h1 h2
    show x / 2 ^ 21 = a / 2 ^ 21 ∧ x / 2 ^ 21 * 2 ^ 21 + 2 ^ 21 = a / 2 ^ 21 * 2 ^ 21 + 2 ^ 21 ∧
      x / 2 ^ 21 * 2 ^ 21 ≤ a
    have h3 : x < a / 2 ^ 21 * 2 ^ 21 + 2 ^ 21 := h2
    omega
  later := by
    intro x a h
    show x / 2 ^ 21 * 2 ^ 21 + 2 ^ 21 ≤ a / 2 ^ 21 * 2 ^ 21
    have h3 : x / 2 ^ 21 * 2 ^ 21 + 2 ^ 21 ≤ a := h
    omega

theorem cut_pud : Cut pud_addr_end (fun a => a / 2 ^ 30) (fun a => a / 2 ^ 30 * 2 ^ 30)
    (fun a => a / 2 ^ 30 * 2 ^ 30 + 2 ^ 30) where
  addr_end_eq := pud_addr_end_eq
  lt_bnd := by intro a; show a < a / 2 ^ 30 * 2 ^ 30 + 2 ^ 30; omega
  base_le := by intro a; show a / 2 ^ 30 * 2 ^ 30 ≤ a; omega
  c_bnd := by intro a; show (a / 2 ^ 30 * 2 ^ 30 + 2 ^ 30) / 2 ^ 30 = a / 2 ^ 30 + 1; omega
  c_mono := by intro a x h; show a / 2 ^ 30 ≤ x / 2 ^ 30; omega
  same := by
    intro a x h1 h2
    show x / 2 ^ 30 = a / 2 ^ 30 ∧ x / 2 ^ 30 * 2 ^ 30 + 2 ^ 30 = a / 2 ^ 30 * 2 ^ 30 + 2 ^ 30 ∧
      x / 2 ^ 30 * 2 ^ 30 ≤ a
    have h3 : x < a / 2 ^ 30 * 2 ^ 30 + 2 ^ 30 := h2
    omega
  later := by
    intro x a h
    show x / 2 ^ 30 * 2 ^ 30 + 2 ^ 30 ≤ a / 2 ^ 30 * 2 ^ 30
    have h3 : x / 2 ^ 30 * 2 ^ 30 + 2 ^ 30 ≤ a := h
    omega

theorem cut_pgd : Cut pgd_addr_end (fun a => a / 2 ^ 39) (fun a => a / 2 ^ 39 * 2 ^ 39)
    (fun a => a / 2 ^ 39 * 2 ^ 39 + 2 ^ 39) where
  addr_end_eq := pgd_addr_end_eq
  lt_bnd := by intro a; show a < a / 2 ^ 39 * 2 ^ 39 + 2 ^ 39; omega
  base_le := by intro a; show a / 2 ^ 39 * 2 ^ 39 ≤ a; omega
  c_bnd := by intro a; show (a / 2 ^ 39 * 2 ^ 39 + 2 ^ 39) / 2 ^ 39 = a / 2 ^ 39 + 1; omega
  c_mono := by intro a x h; show a / 2 ^ 39 ≤ x / 2 ^ 39; omega
  same := by
    intro a x h1 h2
    show x / 2 ^ 39 = a / 2 ^ 39 ∧ x / 2 ^ 39 * 2 ^ 39 + 2 ^ 39 = a / 2 ^ 39 * 2 ^ 39 + 2 ^ 39 ∧
      x / 2 ^ 39 * 2 ^ 39 ≤ a
    have h3 : x < a / 2 ^ 39 * 2 ^ 39 + 2 ^ 39 := h2
    omega
  later := by
    intro x a h
    show x / 2 ^ 39 * 2 ^ 39 + 2 ^ 39 ≤ a / 2 ^ 39 * 2 ^ 39
    have h3 : x / 2 ^ 39 * 2 ^ 39 + 2 ^ 39 ≤ a := h
    omega

/-! ## The loops of the source are instances of the common shape -/

theorem alloc_init_pmd_loop_eq (prot : Nat) (pa : Option Allocator) (allow : Bool) :
    ∀ (room : Nat) (m : Machine) (pmd : PmdTable) (i addr end_ phys : Nat),
      alloc_init_pmd_loop room m pmd i addr end_ phys prot pa allow =
        range_loop pmd_addr_end
          (fun m e a n p => alloc_init_pmd_body m e a n p prot pa allow)
          room m pmd i addr end_ phys := by
  intro room
  induction room with
  | zero => intros; rfl
  | succ r ih =>
    intro m pmd i addr end_ phys
    rw [alloc_init_pmd_loop, range_loop]
    cases alloc_init_pmd_body m (pmd i) addr (pmd_addr_end addr end_) phys prot pa allow with
    | error h => rfl
    | ok v =>
      obtain ⟨e, m1⟩ := v
      simp only [ih]

theorem alloc_init_pud_loop_eq (prot : Nat) (pa : Option Allocator) (allow : Bool) :
    ∀ (room : Nat) (m : Machine) (pud : PudTable) (i addr end_ phys : Nat),
      alloc_init_pud_loop room m pud i addr end_ phys prot pa allow =
        range_loop pud_addr_end
          (fun m e a n p => alloc_init_pud_body m e a n p prot pa allow)
          room m pud i addr end_ phys := by
  intro room
  induction room with
  | zero => intros; rfl
  | succ r ih =>
    intro m pud i addr end_ phys
    rw [alloc_init_pud_loop, range_loop]
    cases alloc_init_pud_body m (pud i) addr (pud_addr_end addr end_) phys prot pa allow with
    | error h => rfl
    | ok v =>
      obtain ⟨e, m1⟩ := v
      simp only [ih]

theorem create_pgd_mapping_loop_eq (prot : Nat) (pa : Option Allocator) (allow : Bool) :
    ∀ (room : Nat) (m : Machine) (pgd : PgdTable) (i addr end_ phys : Nat),
      create_pgd_mapping_loop room m pgd i addr end_ phys prot pa allow =
        range_loop pgd_addr_end
          (fun m e a n p => alloc_init_pud m e a n p prot pa allow)
          room m pgd i addr end_ phys := by
  intro room
  induction room with
  | zero => intros; rfl
  | succ r ih =>
    intro m pgd i addr end_ phys
    rw [create_pgd_mapping_loop, range_loop]
    cases alloc_init_pud m (pgd i) addr (pgd_addr_end addr end_) phys prot pa allow with
    | error h => rfl
    | ok v =>
      obtain ⟨e, m1⟩ := v
      simp only [ih]

/-! ## Allocators and splits -/

theorem Allocator.call_ok (al : Allocator) (m : Machine) (h : m.alloc_ok) :
    ∃ pa m', al.call m = .ok (pa, m') ∧ m.ext m' := by
  obtain ⟨h1, h2⟩ := h m.nalloc
  cases al <;>
    simp [Allocator.call, Arm64Mmu.early_pgtable_alloc, Arm64Mmu.pgd_pgtable_alloc,
      Arm64Mmu.early_pgd_pgtable_alloc, Machine.take, Machine.log, Machine.ext, h1, h2] <;>
    exact ⟨_, _, ⟨rfl, rfl⟩, rfl, rfl, rfl, rfl, Nat.le_succ _⟩

theorem alloc_ok_ext {m m' : Machine} (h : m.alloc_ok) (hx : m.ext m') : m'.alloc_ok := by
  obtain ⟨h1, h2, _, _, _⟩ := hx
  intro n
  rw [h1, h2]
  exact h n

theorem split_pmd_loop_spec (n : Nat) :
    ∀ (m : Machine) (pte : PteTable) (i pfn : Nat),
      0 < n → i + n = 512 → pfn + n ≤ 2 ^ 64 →
      ∃ pte' m', split_pmd_loop n m pte i pfn = (pte', m') ∧ m.ext m' ∧
        ∀ j, pte' j =
          if i ≤ j ∧ j < 512 then pfn_pte (pfn + (j - i)) PAGE_KERNEL_EXEC else pte j := by
  induction n with
  | zero => intro _ _ _ _ h; exact absurd h (lt_irrefl 0)
  | succ k ih =>
    intro m pte i pfn _ hi hpfn
    rw [split_pmd_loop]
    by_cases hk : k = 0
    · subst hk
      have : ¬ (i + 1 < PTRS_PER_PTE) := by unfold PTRS_PER_PTE; omega
      simp only [this, if_false]
      refine ⟨_, _, rfl, Machine.ext_log _ _, ?_⟩
      intro j
      by_cases hj : j = i
      · subst hj
        have : j ≤ j ∧ j < 512 := by omega
        simp [this]
      · have : ¬ (i ≤ j ∧ j < 512) := by omega
        simp [this, Function.update_noteq hj]
    · have : i + 1 < PTRS_PER_PTE := by unfold PTRS_PER_PTE; omega
      simp only [this, if_true]
      have hp : (pfn + 1) % 2 ^ 64 = pfn + 1 := Nat.mod_eq_of_lt (by omega)
      rw [hp]
      obtain ⟨pte', m', h1, h2, h3⟩ := ih
        (m.log (.set_pte (pte i) (pfn_pte pfn PAGE_KERNEL_EXEC)))
        (Function.update pte i (pfn_pte pfn PAGE_KERNEL_EXEC)) (i + 1) (pfn + 1)
        (by omega) (by omega) (by omega)
      refine ⟨pte', m', h1, Machine.ext_trans (Machine.ext_log _ _) h2, ?_⟩
      intro j
      rw [h3 j]
      by_cases hj : j = i
      · subst hj
        have h4 : ¬ (j + 1 ≤ j ∧ j < 512) := by omega
        have h5 : j ≤ j ∧ j < 512 := by omega
        simp [h4, h5]
      · by_cases hr : i + 1 ≤ j ∧ j < 512
        · have hr' : i ≤ j ∧ j < 512 := by omega
          have : pfn + 1 + (j - (i + 1)) = pfn + (j - i) := by omega
          simp [hr, hr', this]
        · have hr' : ¬ (i ≤ j ∧ j < 512) := by omega
          simp [hr, hr', Function.update_noteq hj]

theorem pmd_pfn_lt (v : Nat) : pmd_pfn v < 2 ^ 36 := by
  unfold pmd_pfn PHYS_MASK PAGE_SHIFT
  rw [Nat.and_pow_two_sub_one_eq_mod, Nat.shiftRight_eq_div_pow]
  have : (v &&& PMD_MASK) % 2 ^ 48 < 2 ^ 48 := Nat.mod_lt _ (by norm_num)
  omega

theorem split_pmd_spec (m : Machine) (v : Nat) :
    ∃ m', split_pmd m v zero_pte_table =
        (fun j => if j < PTRS_PER_PTE then pfn_pte (pmd_pfn v + j) PAGE_KERNEL_EXEC else 0, m') ∧
      m.ext m' := by
  have hp := pmd_pfn_lt v
  obtain ⟨pte', m', h1, h2, h3⟩ := split_pmd_loop_spec PTRS_PER_PTE m zero_pte_table 0
    (pmd_pfn v) (by decide) (by decide) (by unfold PTRS_PER_PTE; omega)
  have hf : pte' =
      fun j => if j < PTRS_PER_PTE then pfn_pte (pmd_pfn v + j) PAGE_KERNEL_EXEC else 0 := by
    funext j
    rw [h3 j]
    simp [zero_pte_table, PTRS_PER_PTE]
  refine ⟨m', ?_, h2⟩
  rw [split_pmd, h1, hf]

/-! ## Leaf level -/

theorem pmd_none_eq (v : Nat) : pmd_none v = decide (v = 0) := by
  rw [Bool.eq_iff_iff, pmd_none_iff, decide_eq_true_iff]

theorem pmd_sect_eq (v : Nat) : pmd_sect v = decide (v % 4 = 1) := by
  rw [Bool.eq_iff_iff, pmd_sect_iff, decide_eq_true_iff]

theorem pmd_table_eq (v : Nat) : pmd_table v = decide (v % 4 = 3) := by
  rw [Bool.eq_iff_iff, pmd_table_iff, decide_eq_true_iff]

theorem pmd_bad_eq (v : Nat) : pmd_bad v = decide (v % 4 < 2) := by
  rw [Bool.eq_iff_iff, pmd_bad_iff, decide_eq_true_iff]

theorem pmd_populated (pa : Nat) :
    pmd_none (pa ||| PMD_TYPE_TABLE) = false ∧ pmd_sect (pa ||| PMD_TYPE_TABLE) = false ∧
      pmd_table (pa ||| PMD_TYPE_TABLE) = true ∧ pmd_bad (pa ||| PMD_TYPE_TABLE) = false := by
  have h := lor_three_mod pa
  have h1 : pmd_sect (pa ||| 3) = false := by
    rw [pmd_sect_eq]; exact decide_eq_false (by omega)
  have h2 : pmd_bad (pa ||| 3) = false := by
    rw [pmd_bad_eq]; exact decide_eq_false (by omega)
  have h3 : pmd_none (pa ||| 3) = false := by
    rw [pmd_none_eq]; exact decide_eq_false (by omega)
  have h4 : pmd_table (pa ||| 3) = true := by rw [pmd_table_iff]; omega
  exact ⟨h3, h1, h4, h2⟩

theorem pte_base_table (e : PmdEnt) (h : pmd_table e.val = true) : pte_base e = e.tbl := by
  rw [pmd_table_iff] at h
  have h1 : pmd_none e.val = false := by
    rw [pmd_none_eq]; exact decide_eq_false (by omega)
  have h2 : pmd_sect e.val = false := by
    rw [pmd_sect_eq]; exact decide_eq_false (by omega)
  simp [pte_base, h1, h2]

theorem alloc_init_pte_spec (Q : Nat → Prop) (m : Machine) (e : PmdEnt) (a n p prot : Nat)
    (al : Allocator) (hm : m.alloc_ok) (hwf : e.WF Q) (han : a < n)
    (hn : n ≤ a / 2 ^ 21 * 2 ^ 21 + 2 ^ 21) (hn64 : n < 2 ^ 64) (hA : Aligned a n p) :
    ∃ e' m', alloc_init_pte m e a n (__phys_to_pfn p) prot (some al) = .ok (e', m') ∧
      m.ext m' ∧ pmd_table e'.val = true ∧
      ∀ j, e'.tbl j =
        if pte_index a ≤ j ∧ j < pte_index a + (n - a) / 2 ^ 12 then
          pfn_pte (p / 2 ^ 12 + (j - pte_index a)) prot
        else pte_base e j := by
  obtain ⟨ha, hna, hp, hw⟩ := hA
  have hidx := pte_index_eq a
  have hloop : ∀ (m1 : Machine) (t : PteTable),
      ∃ pte' m', alloc_init_pte_loop (PTRS_PER_PTE - pte_index a) m1 t (pte_index a) a n
          (__phys_to_pfn p) prot = .ok (pte', m') ∧ m1.ext m' ∧
        ∀ j, pte' j =
          if pte_index a ≤ j ∧ j < pte_index a + (n - a) / 2 ^ 12 then
            pfn_pte (p / 2 ^ 12 + (j - pte_index a)) prot
          else t j := by
    intro m1 t
    have hpfn : __phys_to_pfn p = p / 2 ^ 12 := by
      unfold __phys_to_pfn PAGE_SHIFT; exact Nat.shiftRight_eq_div_pow _ _
    rw [hpfn]
    exact alloc_init_pte_loop_spec ((n - a) / 2 ^ 12) _ m1 t _ a n _ prot (by omega)
      (by unfold PTRS_PER_PTE; omega) (by unfold PAGE_SIZE; omega) hn64 (by omega)
  rw [alloc_init_pte]
  rcases hwf with h0 | h1 | ⟨h2, _⟩
  · -- empty slot: a fresh zeroed table
    obtain ⟨pa, m1, hc, hx⟩ := al.call_ok m hm
    have hs : pmd_sect e.val = false := by
      rw [pmd_none_iff] at h0
      rw [pmd_sect_eq]; exact decide_eq_false (by omega)
    obtain ⟨q1, q2, q3, q4⟩ := pmd_populated pa
    simp only [h0, hs, Bool.true_or, if_true, hc, Bool.false_eq_true, if_false, q4]
    obtain ⟨pte', m2, l1, l2, l3⟩ := hloop
      ((m1.log (.set_pmd e.val (pa ||| PMD_TYPE_TABLE))).log .flush_tlb_all) zero_pte_table
    simp only [l1]
    refine ⟨_, _, rfl, ?_, q3, ?_⟩
    · exact Machine.ext_trans hx (Machine.ext_trans (Machine.ext_log _ _)
        (Machine.ext_trans (Machine.ext_log _ _) l2))
    · intro j
      simp only [l3 j, pte_base, h0, if_true]
  · -- a section: split it first
    obtain ⟨pa, m1, hc, hx⟩ := al.call_ok m hm
    obtain ⟨q1, q2, q3, q4⟩ := pmd_populated pa
    obtain ⟨m1', s1, s2⟩ := split_pmd_spec m1 e.val
    have h0 : pmd_none e.val = false := by
      have h1' := h1
      rw [pmd_sect_iff] at h1'
      rw [pmd_none_eq]; exact decide_eq_false (by omega)
    simp only [h0, h1, Bool.or_true, if_true, hc, s1, Bool.false_eq_true, if_false, q4]
    obtain ⟨pte', m2, l1, l2, l3⟩ := hloop
      ((m1'.log (.set_pmd e.val (pa ||| PMD_TYPE_TABLE))).log .flush_tlb_all)
      (fun j => if j < PTRS_PER_PTE then pfn_pte (pmd_pfn e.val + j) PAGE_KERNEL_EXEC else 0)
    simp only [l1]
    refine ⟨_, _, rfl, ?_, q3, ?_⟩
    · exact Machine.ext_trans hx (Machine.ext_trans s2 (Machine.ext_trans (Machine.ext_log _ _)
        (Machine.ext_trans (Machine.ext_log _ _) l2)))
    · intro j
      simp only [l3 j, pte_base, h0, h1, if_true, Bool.false_eq_true, if_false]
  · -- an existing table
    have h2' := h2
    rw [pmd_table_iff] at h2'
    have h0 : pmd_none e.val = false := by
      rw [pmd_none_eq]; exact decide_eq_false (by omega)
    have h1 : pmd_sect e.val = false := by
      rw [pmd_sect_eq]; exact decide_eq_false (by omega)
    have hb : pmd_bad e.val = false := by
      rw [pmd_bad_eq]; exact decide_eq_false (by omega)
    simp only [h0, h1, Bool.or_self, Bool.false_eq_true, if_false, hb]
    obtain ⟨pte', m2, l1, l2, l3⟩ := hloop m e.tbl
    simp only [l1]
    refine ⟨_, _, rfl, l2, h2, ?_⟩
    intro j
    simp only [l3 j, pte_base_table e h2]

/-! ## Middle level -/

theorem lor_ne_zero_right (a b : Nat) (h : b ≠ 0) : a ||| b ≠ 0 := by
  intro h0
  apply h
  apply Nat.eq_of_testBit_eq; intro i
  have := congrArg (fun t => Nat.testBit t i) h0
  simp only [Nat.testBit_or, Nat.zero_testBit, Bool.or_eq_false_iff] at this
  rw [Nat.zero_testBit]; exact this.2

theorem pte_base_Q (Q : Nat → Prop) (hQ0 : Q 0) (hQx : ∀ pfn, Q (pfn_pte pfn PAGE_KERNEL_EXEC))
    (e : PmdEnt) (hwf : e.WF Q) (j : Nat) : Q (pte_base e j) := by
  unfold pte_base
  rcases hwf with h0 | h1 | ⟨h2, h3⟩
  · simp only [h0, if_true]; exact hQ0
  · have h0 : pmd_none e.val = false := by
      have h1' := h1
      rw [pmd_sect_iff] at h1'
      rw [pmd_none_eq]; exact decide_eq_false (by omega)
    simp only [h0, h1, if_true, Bool.false_eq_true, if_false]
    split
    · exact hQx _
    · exact hQ0
  · rw [← pte_base, pte_base_table e h2]; exact h3 j

theorem pmd_free_old_ext (m : Machine) (old : Nat) :
    m.ext (if (!pmd_none old) = true then
        if pmd_table old = true then
          if (!(m.log Event.flush_tlb_all).slab) = true then
            (m.log Event.flush_tlb_all).log (Event.memblock_free (pmd_page_paddr old) PAGE_SIZE)
          else (m.log Event.flush_tlb_all).log Event.warn
        else m.log Event.flush_tlb_all
      else m) := by
  split_ifs
  · exact Machine.ext_trans (Machine.ext_log _ _) (Machine.ext_log _ _)
  · exact Machine.ext_trans (Machine.ext_log _ _) (Machine.ext_log _ _)
  · exact Machine.ext_log _ _
  · exact Machine.ext_refl _

theorem alloc_init_pmd_body_spec (Q : Nat → Prop) (prot : Nat) (al : Allocator) (allow : Bool)
    (hQ0 : Q 0) (hQx : ∀ pfn, Q (pfn_pte pfn PAGE_KERNEL_EXEC)) (hQp : ∀ pfn, Q (pfn_pte pfn prot))
    (hprot : prot ≠ 0)
    (m : Machine) (e : PmdEnt) (a n p : Nat) (hm : m.alloc_ok) (hwf : e.WF Q) (han : a < n)
    (hn : n ≤ a / 2 ^ 21 * 2 ^ 21 + 2 ^ 21) (hn64 : n < 2 ^ 64) (hA : Aligned a n p) :
    ∃ e' m', alloc_init_pmd_body m e a n p prot (some al) allow = .ok (e', m') ∧ m.ext m' ∧
      e'.Maps Q allow prot a n p ∧ MapRel_pmd prot a n p e e' := by
  rw [alloc_init_pmd_body]
  obtain ⟨ha, hna, hp, hw⟩ := hA
  by_cases hc : (((a ||| n ||| p) &&& not64 SECTION_MASK == 0) && allow) = true
  · -- a section
    rw [if_pos hc]
    rw [Bool.and_eq_true, not64_SECTION_MASK, align3] at hc
    obtain ⟨⟨ca, cn, cp⟩, hallow⟩ := hc
    have hbug : (p &&& not64 PMD_MASK != 0) = false := by
      rw [not64_PMD_MASK, Nat.and_pow_two_sub_one_eq_mod, cp]; rfl
    simp only [pmd_set_huge, hbug, Bool.false_eq_true, if_false]
    have hv : (p ||| PMD_TYPE_SECT ||| mk_sect_prot prot) % 4 = 1 :=
      sect_val_mod p prot (by omega)
    have hs : pmd_sect (p ||| PMD_TYPE_SECT ||| mk_sect_prot prot) = true := by
      rw [pmd_sect_iff]; exact hv
    have h0 : pmd_none (p ||| PMD_TYPE_SECT ||| mk_sect_prot prot) = false := by
      rw [pmd_none_eq]; exact decide_eq_false (by omega)
    refine ⟨_, _, rfl, ?_, ⟨?_, ?_⟩, Or.inl ⟨hs, ca, by omega⟩⟩
    · exact Machine.ext_trans (Machine.ext_log _ _) (pmd_free_old_ext _ _)
    · exact Or.inr (Or.inl hs)
    · intro x hx1 hx2
      simp only [PmdEnt.lookup, h0, hs, Bool.false_eq_true, if_false, if_true]
      have hf : fits PMD_SIZE a n p x = true := by
        simp only [fits, PMD_SIZE, Bool.and_eq_true, decide_eq_true_eq]
        omega
      have hb : (p + (x - a)) / PMD_SIZE * PMD_SIZE = p := by
        simp only [PMD_SIZE]; omega
      simp only [target_pmd, hallow, hf, Bool.and_self, if_true, hb]
  · -- a leaf table
    rw [if_neg hc]
    obtain ⟨e', m', h1, h2, h3, h4⟩ := alloc_init_pte_spec Q m e a n p prot al hm hwf han hn hn64
      ⟨ha, hna, hp, hw⟩
    have h3' := h3
    rw [pmd_table_iff] at h3'
    have hidx := pte_index_eq a
    refine ⟨e', m', h1, h2, ⟨?_, ?_⟩, Or.inr ⟨h3, h4⟩⟩
    · refine Or.inr (Or.inr ⟨h3, ?_⟩)
      intro j
      rw [h4 j]
      split
      · exact hQp _
      · exact pte_base_Q Q hQ0 hQx e hwf j
    · intro x hx1 hx2
      have hidx' := pte_index_eq x
      have hn0 : pmd_none e'.val = false := by
        rw [pmd_none_eq]; exact decide_eq_false (by omega)
      have hs0 : pmd_sect e'.val = false := by
        rw [pmd_sect_eq]; exact decide_eq_false (by omega)
      have hin : pte_index a ≤ pte_index x ∧ pte_index x < pte_index a + (n - a) / 2 ^ 12 := by
        omega
      have hpf : p / 2 ^ 12 + (pte_index x - pte_index a) = (p + (x - a)) / PAGE_SIZE := by
        simp only [PAGE_SIZE]; omega
      have hne : pte_none (pfn_pte ((p + (x - a)) / PAGE_SIZE) prot) = false := by
        simp only [pte_none, pfn_pte, beq_eq_false_iff_ne]
        exact lor_ne_zero_right _ _ hprot
      have hnf : (allow && fits PMD_SIZE a n p x) = false := by
        rw [Bool.and_eq_false_iff]
        rw [Bool.and_eq_true, not64_SECTION_MASK, align3] at hc
        by_cases hal : allow = true
        · right
          have hc' : ¬ (a % 2 ^ 21 = 0 ∧ n % 2 ^ 21 = 0 ∧ p % 2 ^ 21 = 0) := fun h => hc ⟨h, hal⟩
          by_contra hf
          simp only [Bool.not_eq_false, fits, PMD_SIZE, Bool.and_eq_true, decide_eq_true_eq] at hf
          omega
        · left; simpa using hal
      simp only [PmdEnt.lookup, hn0, hs0, Bool.false_eq_true, if_false, h4, hin, and_self,
        if_true, hpf, hne, target_pmd, hnf, target_pte]

/-! ## Indices, kinds of descriptors, frame numbers -/

theorem pmd_index_eq (a : Nat) : pmd_index a = a / 2 ^ 21 % 2 ^ 9 := by
  unfold pmd_index PMD_SHIFT PTRS_PER_PMD
  rw [Nat.shiftRight_eq_div_pow, show (512 - 1 : Nat) = 2 ^ 9 - 1 by norm_num,
    Nat.and_pow_two_sub_one_eq_mod]

theorem pud_index_eq (a : Nat) : pud_index a = a / 2 ^ 30 % 2 ^ 9 := by
  unfold pud_index PUD_SHIFT PTRS_PER_PUD
  rw [Nat.shiftRight_eq_div_pow, show (512 - 1 : Nat) = 2 ^ 9 - 1 by norm_num,
    Nat.and_pow_two_sub_one_eq_mod]

theorem pgd_index_eq (a : Nat) : pgd_index a = a / 2 ^ 39 % 2 ^ 9 := by
  unfold pgd_index PGDIR_SHIFT PTRS_PER_PGD
  rw [Nat.shiftRight_eq_div_pow, show (512 - 1 : Nat) = 2 ^ 9 - 1 by norm_num,
    Nat.and_pow_two_sub_one_eq_mod]

theorem pud_none_eq (v : Nat) : pud_none v = decide (v = 0) := by
  rw [Bool.eq_iff_iff, decide_eq_true_iff]; simp [pud_none]

theorem pud_sect_eq (v : Nat) : pud_sect v = decide (v % 4 = 1) := by
  rw [Bool.eq_iff_iff, decide_eq_true_iff]
  simp [pud_sect, PUD_TYPE_MASK, PUD_TYPE_SECT, land_three]

theorem pud_table_eq (v : Nat) : pud_table v = decide (v % 4 = 3) := by
  rw [Bool.eq_iff_iff, decide_eq_true_iff]
  simp [pud_table, PUD_TYPE_MASK, PUD_TYPE_TABLE, land_three]

theorem pud_bad_eq (v : Nat) : pud_bad v = decide (v % 4 < 2) := by
  have h := pmd_bad_eq v
  simpa [pmd_bad, pud_bad, PMD_TABLE_BIT, PUD_TABLE_BIT] using h

theorem pgd_none_eq (v : Nat) : pgd_none v = decide (v = 0) := by
  rw [Bool.eq_iff_iff, decide_eq_true_iff]; simp [pgd_none]

theorem pgd_bad_eq (v : Nat) : pgd_bad v = decide (v % 4 < 2) := by
  have h := pmd_bad_eq v
  simpa [pmd_bad, pgd_bad, PMD_TABLE_BIT] using h

theorem land_field (x hi lo : Nat) (h : lo ≤ hi) :
    x &&& (2 ^ hi - 2 ^ lo) = x % 2 ^ hi / 2 ^ lo * 2 ^ lo := by
  apply Nat.eq_of_testBit_eq
  intro i
  have h1 : 2 ^ hi - 2 ^ lo = 2 ^ hi - ((2 ^ lo - 1) + 1) := by
    have : 0 < 2 ^ lo := Nat.pos_pow_of_pos _ (by norm_num)
    omega
  have h2 : 2 ^ lo - 1 < 2 ^ hi := by
    have : 2 ^ lo ≤ 2 ^ hi := Nat.pow_le_pow_right (by norm_num) h
    have : 0 < 2 ^ lo := Nat.pos_pow_of_pos _ (by norm_num)
    omega
  rw [Nat.testBit_and, h1, Nat.testBit_two_pow_sub_succ h2, Nat.testBit_two_pow_sub_one,
    Nat.mul_comm, Nat.testBit_mul_pow_two, ← Nat.shiftRight_eq_div_pow, Nat.testBit_shiftRight,
    Nat.testBit_mod_two_pow]
  by_cases hil : i < lo
  · simp [hil, Nat.not_le.mpr hil]
  · have hli : lo ≤ i := Nat.le_of_not_lt hil
    simp only [hil, decide_False, Bool.not_false, Bool.and_true, ge_iff_le, hli, decide_True,
      Bool.true_and, Nat.add_sub_cancel' hli]
    exact Bool.and_comm _ _

theorem pud_pfn_eq (v : Nat) : pud_pfn v = v % 2 ^ 48 / 2 ^ 30 * 2 ^ 18 := by
  unfold pud_pfn PHYS_MASK PAGE_SHIFT PUD_MASK
  rw [Nat.land_assoc, show (2 ^ 64 - 2 ^ 30 : Nat) &&& (2 ^ 48 - 1) = 2 ^ 48 - 2 ^ 30 by decide,
    land_field v 48 30 (by norm_num), Nat.shiftRight_eq_div_pow]
  omega

theorem pmd_pfn_eq (v : Nat) : pmd_pfn v = v % 2 ^ 48 / 2 ^ 21 * 2 ^ 9 := by
  unfold pmd_pfn PHYS_MASK PAGE_SHIFT PMD_MASK
  rw [Nat.land_assoc, show (2 ^ 64 - 2 ^ 21 : Nat) &&& (2 ^ 48 - 1) = 2 ^ 48 - 2 ^ 21 by decide,
    land_field v 48 21 (by norm_num), Nat.shiftRight_eq_div_pow]
  omega

theorem pte_pfn_eq (v : Nat) : pte_pfn v = v % 2 ^ 48 / 2 ^ 12 := by
  unfold pte_pfn PHYS_MASK PAGE_SHIFT
  rw [Nat.and_pow_two_sub_one_eq_mod, Nat.shiftRight_eq_div_pow]

/-! ## Upper level -/

theorem split_pud_loop_spec (n : Nat) :
    ∀ (m : Machine) (pmd : PmdTable) (i addr prot : Nat),
      0 < n → i + n = 512 → addr + n * 2 ^ 21 ≤ 2 ^ 64 →
      ∃ pmd' m', split_pud_loop n m pmd i addr prot = (pmd', m') ∧ m.ext m' ∧
        ∀ j, pmd' j =
          if i ≤ j ∧ j < 512 then ⟨(addr + (j - i) * 2 ^ 21) ||| prot, (pmd j).tbl⟩
          else pmd j := by
  induction n with
  | zero => intro _ _ _ _ _ h; exact absurd h (lt_irrefl 0)
  | succ k ih =>
    intro m pmd i addr prot _ hi haddr
    rw [split_pud_loop]
    by_cases hk : k = 0
    · subst hk
      have : ¬ (i + 1 < PTRS_PER_PMD) := by unfold PTRS_PER_PMD; omega
      simp only [this, if_false]
      refine ⟨_, _, rfl, Machine.ext_log _ _, ?_⟩
      intro j
      by_cases hj : j = i
      · subst hj
        have : j ≤ j ∧ j < 512 := by omega
        simp [this]
      · have : ¬ (i ≤ j ∧ j < 512) := by omega
        simp [this, Function.update_noteq hj]
    · have : i + 1 < PTRS_PER_PMD := by unfold PTRS_PER_PMD; omega
      simp only [this, if_true]
      have hp : add64 addr PMD_SIZE = addr + 2 ^ 21 := by
        unfold add64 PMD_SIZE; exact Nat.mod_eq_of_lt (by omega)
      rw [hp]
      obtain ⟨pmd', m', h1, h2, h3⟩ := ih
        (m.log (.set_pmd (pmd i).val (addr ||| prot)))
        (Function.update pmd i ⟨addr ||| prot, (pmd i).tbl⟩) (i + 1) (addr + 2 ^ 21) prot
        (by omega) (by omega) (by omega)
      refine ⟨pmd', m', h1, Machine.ext_trans (Machine.ext_log _ _) h2, ?_⟩
      intro j
      rw [h3 j]
      by_cases hj : j = i
      · subst hj
        have h4 : ¬ (j + 1 ≤ j ∧ j < 512) := by omega
        have h5 : j ≤ j ∧ j < 512 := by omega
        simp [h4, h5]
      · by_cases hr : i + 1 ≤ j ∧ j < 512
        · have hr' : i ≤ j ∧ j < 512 := by omega
          have : addr + 2 ^ 21 + (j - (i + 1)) * 2 ^ 21 = addr + (j - i) * 2 ^ 21 := by omega
          rw [this, if_pos hr, if_pos hr', Function.update_noteq hj]
        · have hr' : ¬ (i ≤ j ∧ j < 512) := by omega
          simp [hr, hr', Function.update_noteq hj]

/-- The block address that `split_pud` starts from. -/
theorem split_pud_base (v : Nat) :
    (pud_pfn v <<< PAGE_SHIFT) % 2 ^ 64 = v % 2 ^ 48 / 2 ^ 30 * 2 ^ 30 := by
  rw [pud_pfn_eq, Nat.shiftLeft_eq]
  unfold PAGE_SHIFT
  omega

theorem split_pud_spec (m : Machine) (v : Nat) :
    ∃ m', split_pud m v zero_pmd_table =
        (fun j => if j < 512 then
            ⟨(v % 2 ^ 48 / 2 ^ 30 * 2 ^ 30 + j * 2 ^ 21) |||
              (v ^^^ (v % 2 ^ 48 / 2 ^ 30 * 2 ^ 30)), zero_pte_table⟩
          else ⟨0, zero_pte_table⟩, m') ∧
      m.ext m' := by
  have hb := split_pud_base v
  obtain ⟨pmd', m', h1, h2, h3⟩ := split_pud_loop_spec PTRS_PER_PMD m zero_pmd_table 0
    (v % 2 ^ 48 / 2 ^ 30 * 2 ^ 30) (v ^^^ (v % 2 ^ 48 / 2 ^ 30 * 2 ^ 30))
    (by decide) (by decide) (by unfold PTRS_PER_PMD; omega)
  have hf : pmd' = fun j => if j < 512 then
      ⟨(v % 2 ^ 48 / 2 ^ 30 * 2 ^ 30 + j * 2 ^ 21) ||| (v ^^^ (v % 2 ^ 48 / 2 ^ 30 * 2 ^ 30)),
        zero_pte_table⟩
      else ⟨0, zero_pte_table⟩ := by
    funext j
    rw [h3 j]
    simp [zero_pmd_table]
  refine ⟨m', ?_, h2⟩
  rw [split_pud]
  simp only [hb]
  rw [h1, hf]

theorem split_pud_entry_sect (v j : Nat) (hv : v % 4 = 1) :
    ((v % 2 ^ 48 / 2 ^ 30 * 2 ^ 30 + j * 2 ^ 21) ||| (v ^^^ (v % 2 ^ 48 / 2 ^ 30 * 2 ^ 30))) % 4
      = 1 := by
  have h1 := lor_mod (v % 2 ^ 48 / 2 ^ 30 * 2 ^ 30 + j * 2 ^ 21)
    (v ^^^ (v % 2 ^ 48 / 2 ^ 30 * 2 ^ 30)) 2
  have h2 := xor_mod v (v % 2 ^ 48 / 2 ^ 30 * 2 ^ 30) 2
  have h3 : (v % 2 ^ 48 / 2 ^ 30 * 2 ^ 30 + j * 2 ^ 21) % 4 = 0 := by omega
  have h4 : (v % 2 ^ 48 / 2 ^ 30 * 2 ^ 30) % 4 = 0 := by omega
  simp only [show (2 : Nat) ^ 2 = 4 by norm_num] at h1 h2
  rw [h1, h2, h3, h4, hv]
  decide

/-- Cutting a request at the range of one middle-level slot does not change what it is to leave
for the addresses of that slot. -/
theorem target_pmd_restrict (allow : Bool) (a n p prot x : Nat) (h1 : a ≤ x) :
    target_pmd allow (max a (x / 2 ^ 21 * 2 ^ 21)) (min n (x / 2 ^ 21 * 2 ^ 21 + 2 ^ 21))
        (p + (max a (x / 2 ^ 21 * 2 ^ 21) - a)) prot x =
      target_pmd allow a n p prot x := by
  have e1 : p + (max a (x / 2 ^ 21 * 2 ^ 21) - a) + (x - max a (x / 2 ^ 21 * 2 ^ 21)) =
      p + (x - a) := by omega
  have e2 : fits PMD_SIZE (max a (x / 2 ^ 21 * 2 ^ 21)) (min n (x / 2 ^ 21 * 2 ^ 21 + 2 ^ 21))
      (p + (max a (x / 2 ^ 21 * 2 ^ 21) - a)) x = fits PMD_SIZE a n p x := by
    rw [Bool.eq_iff_iff]
    simp only [fits, PMD_SIZE, Bool.and_eq_true, decide_eq_true_eq]
    constructor
    · rintro ⟨⟨q1, q2⟩, q3⟩
      have q4 : max a (x / 2 ^ 21 * 2 ^ 21) = x / 2 ^ 21 * 2 ^ 21 := by omega
      rw [q4] at q3
      refine ⟨⟨by omega, by omega⟩, ?_⟩
      have : p + (x / 2 ^ 21 * 2 ^ 21 - a) + (x / 2 ^ 21 * 2 ^ 21 - x / 2 ^ 21 * 2 ^ 21) =
        p + (x / 2 ^ 21 * 2 ^ 21 - a) := by omega
      rw [this] at q3
      exact q3
    · rintro ⟨⟨q1, q2⟩, q3⟩
      have q4 : max a (x / 2 ^ 21 * 2 ^ 21) = x / 2 ^ 21 * 2 ^ 21 := by omega
      rw [q4]
      refine ⟨⟨by omega, by omega⟩, ?_⟩
      have : p + (x / 2 ^ 21 * 2 ^ 21 - a) + (x / 2 ^ 21 * 2 ^ 21 - x / 2 ^ 21 * 2 ^ 21) =
        p + (x / 2 ^ 21 * 2 ^ 21 - a) := by omega
      rw [this]
      exact q3
  simp only [target_pmd, target_pte, e1, e2]

theorem pud_populated (pa : Nat) :
    pud_none (pa ||| PUD_TYPE_TABLE) = false ∧ pud_sect (pa ||| PUD_TYPE_TABLE) = false ∧
      pud_table (pa ||| PUD_TYPE_TABLE) = true ∧ pud_bad (pa ||| PUD_TYPE_TABLE) = false := by
  have h := lor_three_mod pa
  have h1 : pud_sect (pa ||| 3) = false := by
    rw [pud_sect_eq]; exact decide_eq_false (by omega)
  have h2 : pud_bad (pa ||| 3) = false := by
    rw [pud_bad_eq]; exact decide_eq_false (by omega)
  have h3 : pud_none (pa ||| 3) = false := by
    rw [pud_none_eq]; exact decide_eq_false (by omega)
  have h4 : pud_table (pa ||| 3) = true := by
    rw [pud_table_eq]; exact decide_eq_true (by omega)
  exact ⟨h3, h1, h4, h2⟩

theorem aligned_step21 (a e p : Nat) (h : Aligned a e p)
    (hb : a / 2 ^ 21 * 2 ^ 21 + 2 ^ 21 < e) :
    Aligned a (a / 2 ^ 21 * 2 ^ 21 + 2 ^ 21) p ∧
      Aligned (a / 2 ^ 21 * 2 ^ 21 + 2 ^ 21) e (p + (a / 2 ^ 21 * 2 ^ 21 + 2 ^ 21 - a)) := by
  obtain ⟨h1, h2, h3, h4⟩ := h
  unfold Aligned
  omega

theorem zero_pmd_WF (Q : Nat → Prop) (j : Nat) : (zero_pmd_table j).WF Q := Or.inl rfl

theorem pmd_base_WF (Q : Nat → Prop) (e : PudEnt) (hwf : e.WF Q) (j : Nat) :
    (pmd_base e j).WF Q := by
  unfold pmd_base
  rcases hwf with h0 | h1 | ⟨h2, h3⟩
  · simp only [h0, if_true]; exact zero_pmd_WF Q j
  · have h1' : e.val % 4 = 1 := by simpa [pud_sect_eq] using h1
    have h0 : pud_none e.val = false := by
      rw [pud_none_eq]; exact decide_eq_false (by omega)
    simp only [h0, h1, if_true, Bool.false_eq_true, if_false]
    split
    · refine Or.inr (Or.inl ?_)
      rw [pmd_sect_iff]
      exact split_pud_entry_sect e.val j h1'
    · exact Or.inl rfl
  · have h2' : e.val % 4 = 3 := by simpa [pud_table_eq] using h2
    have h0 : pud_none e.val = false := by
      rw [pud_none_eq]; exact decide_eq_false (by omega)
    have h1 : pud_sect e.val = false := by
      rw [pud_sect_eq]; exact decide_eq_false (by omega)
    simp only [h0, h1, Bool.false_eq_true, if_false]
    exact h3 j

theorem alloc_init_pmd_spec (Q : Nat → Prop) (prot : Nat) (al : Allocator) (allow : Bool)
    (hQ0 : Q 0) (hQx : ∀ pfn, Q (pfn_pte pfn PAGE_KERNEL_EXEC)) (hQp : ∀ pfn, Q (pfn_pte pfn prot))
    (hprot : prot ≠ 0)
    (m : Machine) (e : PudEnt) (a n p : Nat) (hm : m.alloc_ok) (hwf : e.WF Q) (han : a < n)
    (hn : n ≤ a / 2 ^ 30 * 2 ^ 30 + 2 ^ 30) (hn64 : n < 2 ^ 64) (hA : Aligned a n p) :
    ∃ e' m', alloc_init_pmd m e a n p prot (some al) allow = .ok (e', m') ∧ m.ext m' ∧
      pud_table e'.val = true ∧ (∀ j, (e'.tbl j).WF Q) ∧
      (∀ j, j < pmd_index a ∨ pmd_index a + ((n - 1) / 2 ^ 21 - a / 2 ^ 21) < j →
        e'.tbl j = pmd_base e j) ∧
      (∀ x, a ≤ x → x < n →
        (e'.tbl (pmd_index x)).lookup x = some (target_pmd allow a n p prot x)) ∧
      ∀ j, in_slots (2 ^ 21) (pmd_index a) a n j →
        MapRel_pmd prot (slot_lo (2 ^ 21) (pmd_index a) a j) (slot_hi (2 ^ 21) (pmd_index a) a n j)
          (p + (slot_lo (2 ^ 21) (pmd_index a) a j - a)) (pmd_base e j) (e'.tbl j) := by
  have hidx := pmd_index_eq a
  have hloop : ∀ (m1 : Machine) (t : PmdTable), m1.alloc_ok → (∀ j, (t j).WF Q) →
      ∃ tbl' m', alloc_init_pmd_loop (PTRS_PER_PMD - pmd_index a) m1 t (pmd_index a) a n p prot
          (some al) allow = .ok (tbl', m') ∧ m1.ext m' ∧ (∀ j, (tbl' j).WF Q) ∧
        (∀ j, j < pmd_index a ∨ pmd_index a + ((n - 1) / 2 ^ 21 - a / 2 ^ 21) < j →
          tbl' j = t j) ∧
        (∀ x, a ≤ x → x < n →
          (tbl' (pmd_index x)).lookup x = some (target_pmd allow a n p prot x)) ∧
        ∀ j, in_slots (2 ^ 21) (pmd_index a) a n j →
          MapRel_pmd prot (slot_lo (2 ^ 21) (pmd_index a) a j)
            (slot_hi (2 ^ 21) (pmd_index a) a n j)
            (p + (slot_lo (2 ^ 21) (pmd_index a) a j - a)) (t j) (tbl' j) := by
    intro m1 t hm1 ht
    rw [alloc_init_pmd_loop_eq]
    obtain ⟨tbl', m', r1, r2, r3, r4, r5⟩ := range_loop_spec cut_pmd
      (fun m e a n p => alloc_init_pmd_body m e a n p prot (some al) allow)
      Machine.alloc_ok (PmdEnt.WF Q) Aligned
      (fun a n p e0 e' => e'.Maps Q allow prot a n p ∧ MapRel_pmd prot a n p e0 e')
      (fun a n p h => h.2.2.2) aligned_step21 (fun _ _ h hx => alloc_ok_ext h hx)
      (fun _ _ _ _ _ h => h.1.1)
      (fun m e a n p hm he han hn hn64 hA =>
        alloc_init_pmd_body_spec Q prot al allow hQ0 hQx hQp hprot m e a n p hm he han hn hn64 hA)
      (PTRS_PER_PMD - pmd_index a) m1 t (pmd_index a) a n p hm1 ht han hn64
      (by show (n - 1) / 2 ^ 21 - a / 2 ^ 21 < PTRS_PER_PMD - pmd_index a
          unfold PTRS_PER_PMD; omega) hA
    refine ⟨tbl', m', r1, r2, r3, r4, ?_, ?_⟩
    · intro x hx1 hx2
      have hix : pmd_index x = pmd_index a + (x / 2 ^ 21 - a / 2 ^ 21) := by
        have := pmd_index_eq x
        omega
      have h5 := (r5 x hx1 hx2).1.2 x (by show max a (x / 2 ^ 21 * 2 ^ 21) ≤ x; omega)
        (by show x < min n (x / 2 ^ 21 * 2 ^ 21 + 2 ^ 21); omega)
      rw [hix]
      rw [← target_pmd_restrict allow a n p prot x hx1]
      exact h5
    · intro j hj
      unfold in_slots at hj
      have hx := (r5 (slot_lo (2 ^ 21) (pmd_index a) a j) (by unfold slot_lo; omega)
        (by unfold slot_lo; omega)).2
      have e1 : pmd_index a + (slot_lo (2 ^ 21) (pmd_index a) a j / 2 ^ 21 - a / 2 ^ 21) = j := by
        unfold slot_lo; omega
      have e2 : max a (slot_lo (2 ^ 21) (pmd_index a) a j / 2 ^ 21 * 2 ^ 21) =
          slot_lo (2 ^ 21) (pmd_index a) a j := by unfold slot_lo; omega
      have e3 : min n (slot_lo (2 ^ 21) (pmd_index a) a j / 2 ^ 21 * 2 ^ 21 + 2 ^ 21) =
          slot_hi (2 ^ 21) (pmd_index a) a n j := by unfold slot_lo slot_hi; omega
      simp only [e1, e2, e3] at hx
      exact hx
  rw [alloc_init_pmd]
  rcases hwf with h0 | h1 | ⟨h2, h3⟩
  · -- empty slot: a fresh zeroed table
    obtain ⟨pa, m1, hc, hx⟩ := al.call_ok m hm
    have h0' : e.val = 0 := by simpa [pud_none_eq] using h0
    have hs : pud_sect e.val = false := by
      rw [pud_sect_eq]; exact decide_eq_false (by omega)
    obtain ⟨q1, q2, q3, q4⟩ := pud_populated pa
    simp only [h0, hs, Bool.true_or, if_true, hc, Bool.false_eq_true, if_false, q4]
    obtain ⟨tbl', m2, l1, l2, l3, l4, l5, l6⟩ := hloop
      ((m1.log (.set_pud e.val (pa ||| PUD_TYPE_TABLE))).log .flush_tlb_all) zero_pmd_table
      (alloc_ok_ext hm (Machine.ext_trans hx (Machine.ext_trans (Machine.ext_log _ _)
        (Machine.ext_log _ _)))) (zero_pmd_WF Q)
    simp only [l1]
    have hbe : pmd_base e = zero_pmd_table := by simp only [pmd_base, h0, if_true]
    refine ⟨_, _, rfl, ?_, q3, l3, ?_, l5, ?_⟩
    · exact Machine.ext_trans hx (Machine.ext_trans (Machine.ext_log _ _)
        (Machine.ext_trans (Machine.ext_log _ _) l2))
    · intro j hj
      simp only [l4 j hj, pmd_base, h0, if_true]
    · intro j hj
      rw [hbe]; exact l6 j hj
  · -- a 1 GiB block: split it first
    obtain ⟨pa, m1, hc, hx⟩ := al.call_ok m hm
    obtain ⟨q1, q2, q3, q4⟩ := pud_populated pa
    obtain ⟨m1', s1, s2⟩ := split_pud_spec m1 e.val
    have h1' : e.val % 4 = 1 := by simpa [pud_sect_eq] using h1
    have h0 : pud_none e.val = false := by
      rw [pud_none_eq]; exact decide_eq_false (by omega)
    have hb := pmd_base_WF Q e (Or.inr (Or.inl h1))
    have hbe : pmd_base e = fun j => if j < 512 then
        ⟨(e.val % 2 ^ 48 / 2 ^ 30 * 2 ^ 30 + j * 2 ^ 21) |||
          (e.val ^^^ (e.val % 2 ^ 48 / 2 ^ 30 * 2 ^ 30)), zero_pte_table⟩
        else ⟨0, zero_pte_table⟩ := by
      simp only [pmd_base, h0, h1, if_true, Bool.false_eq_true, if_false]
    simp only [h0, h1, Bool.or_true, if_true, hc, s1, Bool.false_eq_true, if_false, q4]
    rw [← hbe]
    obtain ⟨tbl', m2, l1, l2, l3, l4, l5, l6⟩ := hloop
      ((m1'.log (.set_pud e.val (pa ||| PUD_TYPE_TABLE))).log .flush_tlb_all) (pmd_base e)
      (alloc_ok_ext hm (Machine.ext_trans hx (Machine.ext_trans s2
        (Machine.ext_trans (Machine.ext_log _ _) (Machine.ext_log _ _))))) hb
    simp only [l1]
    refine ⟨_, _, rfl, ?_, q3, l3, l4, l5, l6⟩
    exact Machine.ext_trans hx (Machine.ext_trans s2 (Machine.ext_trans (Machine.ext_log _ _)
      (Machine.ext_trans (Machine.ext_log _ _) l2)))
  · -- an existing table
    have h2' : e.val % 4 = 3 := by simpa [pud_table_eq] using h2
    have h0 : pud_none e.val = false := by
      rw [pud_none_eq]; exact decide_eq_false (by omega)
    have h1 : pud_sect e.val = false := by
      rw [pud_sect_eq]; exact decide_eq_false (by omega)
    have hb : pud_bad e.val = false := by
      rw [pud_bad_eq]; exact decide_eq_false (by omega)
    simp only [h0, h1, Bool.or_self, Bool.false_eq_true, if_false, hb]
    obtain ⟨tbl', m2, l1, l2, l3, l4, l5, l6⟩ := hloop m e.tbl hm h3
    simp only [l1]
    have hbe : pmd_base e = e.tbl := by
      simp only [pmd_base, h0, h1, Bool.false_eq_true, if_false]
    refine ⟨_, _, rfl, l2, h2, l3, ?_, l5, ?_⟩
    · intro j hj
      simp only [l4 j hj, pmd_base, h0, h1, Bool.false_eq_true, if_false]
    · intro j hj
      rw [hbe]; exact l6 j hj

theorem pud_free_old_ext (m : Machine) (old : Nat) :
    m.ext (if (!pud_none old) = true then
        if pud_table old = true then
          if (!(m.log Event.flush_tlb_all).slab) = true then
            (m.log Event.flush_tlb_all).log (Event.memblock_free (pud_page_paddr old) PAGE_SIZE)
          else (m.log Event.flush_tlb_all).log Event.warn
        else m.log Event.flush_tlb_all
      else m) := by
  split_ifs
  · exact Machine.ext_trans (Machine.ext_log _ _) (Machine.ext_log _ _)
  · exact Machine.ext_trans (Machine.ext_log _ _) (Machine.ext_log _ _)
  · exact Machine.ext_log _ _
  · exact Machine.ext_refl _

theorem use_1G_block_iff (a n p : Nat) :
    use_1G_block a n p = true ↔ a % 2 ^ 30 = 0 ∧ n % 2 ^ 30 = 0 ∧ p % 2 ^ 30 = 0 := by
  have h := align3 a n p 30
  unfold use_1G_block
  rw [not64_PUD_MASK]
  simp only [PAGE_SHIFT, bne_self_eq_false, Bool.false_eq_true, if_false]
  rw [← h]
  by_cases hc : ((a ||| n ||| p) &&& (2 ^ 30 - 1) == 0) = true
  · simp [hc, bne]
  · simp [hc, bne]

theorem alloc_init_pud_body_spec (Q : Nat → Prop) (prot : Nat) (al : Allocator) (allow : Bool)
    (hQ0 : Q 0) (hQx : ∀ pfn, Q (pfn_pte pfn PAGE_KERNEL_EXEC)) (hQp : ∀ pfn, Q (pfn_pte pfn prot))
    (hprot : prot ≠ 0)
    (m : Machine) (e : PudEnt) (a n p : Nat) (hm : m.alloc_ok) (hwf : e.WF Q) (han : a < n)
    (hn : n ≤ a / 2 ^ 30 * 2 ^ 30 + 2 ^ 30) (hn64 : n < 2 ^ 64) (hA : Aligned a n p) :
    ∃ e' m', alloc_init_pud_body m e a n p prot (some al) allow = .ok (e', m') ∧ m.ext m' ∧
      e'.Maps Q allow prot a n p ∧ MapRel_pud prot a n p e e' := by
  rw [alloc_init_pud_body]
  by_cases hc : (use_1G_block a n p && allow) = true
  · -- a 1 GiB block
    rw [if_pos hc]
    rw [Bool.and_eq_true, use_1G_block_iff] at hc
    obtain ⟨⟨ca, cn, cp⟩, hallow⟩ := hc
    have hbug : (p &&& not64 PUD_MASK != 0) = false := by
      rw [not64_PUD_MASK, Nat.and_pow_two_sub_one_eq_mod, cp]; rfl
    simp only [pud_set_huge, hbug, Bool.false_eq_true, if_false]
    have hv : (p ||| PUD_TYPE_SECT ||| mk_sect_prot prot) % 4 = 1 :=
      sect_val_mod p prot (by omega)
    have hs : pud_sect (p ||| PUD_TYPE_SECT ||| mk_sect_prot prot) = true := by
      rw [pud_sect_eq]; exact decide_eq_true hv
    have h0 : pud_none (p ||| PUD_TYPE_SECT ||| mk_sect_prot prot) = false := by
      rw [pud_none_eq]; exact decide_eq_false (by omega)
    refine ⟨_, _, rfl, ?_, ⟨?_, ?_⟩, Or.inl ⟨hs, ca, by omega⟩⟩
    · exact Machine.ext_trans (Machine.ext_log _ _) (pud_free_old_ext _ _)
    · exact Or.inr (Or.inl hs)
    · intro x hx1 hx2
      simp only [PudEnt.lookup, h0, hs, Bool.false_eq_true, if_false, if_true]
      have hf : fits PUD_SIZE a n p x = true := by
        simp only [fits, PUD_SIZE, Bool.and_eq_true, decide_eq_true_eq]
        omega
      have hb : (p + (x - a)) / PUD_SIZE * PUD_SIZE = p := by
        simp only [PUD_SIZE]; omega
      simp only [target, hallow, hf, Bool.and_self, if_true, hb]
  · -- a middle-level table
    rw [if_neg hc]
    obtain ⟨e', m', h1, h2, h3, h4, h5, h6, h7⟩ := alloc_init_pmd_spec Q prot al allow hQ0 hQx
      hQp hprot m e a n p hm hwf han hn hn64 hA
    have h3' : e'.val % 4 = 3 := by simpa [pud_table_eq] using h3
    refine ⟨e', m', h1, h2, ⟨Or.inr (Or.inr ⟨h3, h4⟩), ?_⟩, Or.inr ⟨h3, fun j => ⟨h7 j,
      fun hj => h5 j (by unfold in_slots at hj; omega)⟩⟩⟩
    intro x hx1 hx2
    have hn0 : pud_none e'.val = false := by
      rw [pud_none_eq]; exact decide_eq_false (by omega)
    have hs0 : pud_sect e'.val = false := by
      rw [pud_sect_eq]; exact decide_eq_false (by omega)
    have hnf : (allow && fits PUD_SIZE a n p x) = false := by
      rw [Bool.and_eq_false_iff]
      rw [Bool.and_eq_true, use_1G_block_iff] at hc
      obtain ⟨ha, hna, hp, hw⟩ := hA
      by_cases hal : allow = true
      · right
        have hc' : ¬ (a % 2 ^ 30 = 0 ∧ n % 2 ^ 30 = 0 ∧ p % 2 ^ 30 = 0) := fun h => hc ⟨h, hal⟩
        by_contra hf
        simp only [Bool.not_eq_false, fits, PUD_SIZE, Bool.and_eq_true, decide_eq_true_eq] at hf
        omega
      · left; simpa using hal
    simp only [PudEnt.lookup, hn0, hs0, Bool.false_eq_true, if_false, h6 x hx1 hx2, target, hnf]

/-! ## Root level -/

theorem fits_restrict (S T : Nat) (a n p x lo hi : Nat)
    (hlo : lo = max a (x / T * T)) (hhi : hi = min n (x / T * T + T))
    (h1 : x / T * T ≤ x / S * S) (h2 : x / S * S + S ≤ x / T * T + T) :
    fits S lo hi (p + (lo - a)) x = fits S a n p x := by
  rw [Bool.eq_iff_iff]
  simp only [fits, Bool.and_eq_true, decide_eq_true_eq]
  generalize x / T * T = bT at *
  generalize x / S * S = bS at *
  subst hlo hhi
  constructor
  · rintro ⟨⟨q1, q2⟩, q3⟩
    have e : p + (max a bT - a) + (bS - max a bT) = p + (bS - a) := by omega
    rw [e] at q3
    exact ⟨⟨by omega, by omega⟩, q3⟩
  · rintro ⟨⟨q1, q2⟩, q3⟩
    have e : p + (max a bT - a) + (bS - max a bT) = p + (bS - a) := by omega
    rw [e]
    exact ⟨⟨by omega, by omega⟩, q3⟩

theorem target_restrict30 (allow : Bool) (a n p prot x : Nat) (h1 : a ≤ x) :
    target allow (max a (x / 2 ^ 30 * 2 ^ 30)) (min n (x / 2 ^ 30 * 2 ^ 30 + 2 ^ 30))
        (p + (max a (x / 2 ^ 30 * 2 ^ 30) - a)) prot x =
      target allow a n p prot x := by
  have e1 : p + (max a (x / 2 ^ 30 * 2 ^ 30) - a) + (x - max a (x / 2 ^ 30 * 2 ^ 30)) =
      p + (x - a) := by omega
  have e2 := fits_restrict PUD_SIZE (2 ^ 30) a n p x _ _ rfl rfl
    (by unfold PUD_SIZE; omega) (by unfold PUD_SIZE; omega)
  have e3 := fits_restrict PMD_SIZE (2 ^ 30) a n p x _ _ rfl rfl
    (by unfold PMD_SIZE; omega) (by unfold PMD_SIZE; omega)
  simp only [target, target_pmd, target_pte, e1, e2, e3]

theorem target_restrict39 (allow : Bool) (a n p prot x : Nat) (h1 : a ≤ x) :
    target allow (max a (x / 2 ^ 39 * 2 ^ 39)) (min n (x / 2 ^ 39 * 2 ^ 39 + 2 ^ 39))
        (p + (max a (x / 2 ^ 39 * 2 ^ 39) - a)) prot x =
      target allow a n p prot x := by
  have e1 : p + (max a (x / 2 ^ 39 * 2 ^ 39) - a) + (x - max a (x / 2 ^ 39 * 2 ^ 39)) =
      p + (x - a) := by omega
  have e2 := fits_restrict PUD_SIZE (2 ^ 39) a n p x _ _ rfl rfl
    (by unfold PUD_SIZE; omega) (by unfold PUD_SIZE; omega)
  have e3 := fits_restrict PMD_SIZE (2 ^ 39) a n p x _ _ rfl rfl
    (by unfold PMD_SIZE; omega) (by unfold PMD_SIZE; omega)
  simp only [target, target_pmd, target_pte, e1, e2, e3]

theorem aligned_step30 (a e p : Nat) (h : Aligned a e p)
    (hb : a / 2 ^ 30 * 2 ^ 30 + 2 ^ 30 < e) :
    Aligned a (a / 2 ^ 30 * 2 ^ 30 + 2 ^ 30) p ∧
      Aligned (a / 2 ^ 30 * 2 ^ 30 + 2 ^ 30) e (p + (a / 2 ^ 30 * 2 ^ 30 + 2 ^ 30 - a)) := by
  obtain ⟨h1, h2, h3, h4⟩ := h
  unfold Aligned
  omega

theorem aligned_step39 (a e p : Nat) (h : Aligned a e p)
    (hb : a / 2 ^ 39 * 2 ^ 39 + 2 ^ 39 < e) :
    Aligned a (a / 2 ^ 39 * 2 ^ 39 + 2 ^ 39) p ∧
      Aligned (a / 2 ^ 39 * 2 ^ 39 + 2 ^ 39) e (p + (a / 2 ^ 39 * 2 ^ 39 + 2 ^ 39 - a)) := by
  obtain ⟨h1, h2, h3, h4⟩ := h
  unfold Aligned
  omega

theorem zero_pud_WF (Q : Nat → Prop) (j : Nat) : (zero_pud_table j).WF Q := Or.inl rfl

theorem zero_pgd_WF (Q : Nat → Prop) : WF Q zero_pgd_table := fun _ => Or.inl rfl

theorem alloc_init_pud_spec (Q : Nat → Prop) (prot : Nat) (al : Allocator) (allow : Bool)
    (hQ0 : Q 0) (hQx : ∀ pfn, Q (pfn_pte pfn PAGE_KERNEL_EXEC)) (hQp : ∀ pfn, Q (pfn_pte pfn prot))
    (hprot : prot ≠ 0)
    (m : Machine) (e : PgdEnt) (a n p : Nat) (hm : m.alloc_ok) (hwf : e.WF Q) (han : a < n)
    (hn : n ≤ a / 2 ^ 39 * 2 ^ 39 + 2 ^ 39) (hn64 : n < 2 ^ 64) (hA : Aligned a n p) :
    ∃ e' m', alloc_init_pud m e a n p prot (some al) allow = .ok (e', m') ∧ m.ext m' ∧
      e'.Maps Q allow prot a n p ∧ pgd_none e'.val = false ∧
      (∀ j, j < pud_index a ∨ pud_index a + ((n - 1) / 2 ^ 30 - a / 2 ^ 30) < j →
        e'.tbl j = pud_base e j) ∧ MapRel_pgd prot a n p e e' := by
  have hidx := pud_index_eq a
  have hloop : ∀ (m1 : Machine) (t : PudTable), m1.alloc_ok → (∀ j, (t j).WF Q) →
      ∃ tbl' m', alloc_init_pud_loop (PTRS_PER_PUD - pud_index a) m1 t (pud_index a) a n p prot
          (some al) allow = .ok (tbl', m') ∧ m1.ext m' ∧ (∀ j, (tbl' j).WF Q) ∧
        (∀ j, j < pud_index a ∨ pud_index a + ((n - 1) / 2 ^ 30 - a / 2 ^ 30) < j →
          tbl' j = t j) ∧
        (∀ x, a ≤ x → x < n →
          (tbl' (pud_index x)).lookup x = some (target allow a n p prot x)) ∧
        ∀ j, in_slots (2 ^ 30) (pud_index a) a n j →
          MapRel_pud prot (slot_lo (2 ^ 30) (pud_index a) a j)
            (slot_hi (2 ^ 30) (pud_index a) a n j)
            (p + (slot_lo (2 ^ 30) (pud_index a) a j - a)) (t j) (tbl' j) := by
    intro m1 t hm1 ht
    rw [alloc_init_pud_loop_eq]
    obtain ⟨tbl', m', r1, r2, r3, r4, r5⟩ := range_loop_spec cut_pud
      (fun m e a n p => alloc_init_pud_body m e a n p prot (some al) allow)
      Machine.alloc_ok (PudEnt.WF Q) Aligned
      (fun a n p e0 e' => e'.Maps Q allow prot a n p ∧ MapRel_pud prot a n p e0 e')
      (fun a n p h => h.2.2.2) aligned_step30 (fun _ _ h hx => alloc_ok_ext h hx)
      (fun _ _ _ _ _ h => h.1.1)
      (fun m e a n p hm he han hn hn64 hA =>
        alloc_init_pud_body_spec Q prot al allow hQ0 hQx hQp hprot m e a n p hm he han hn hn64 hA)
      (PTRS_PER_PUD - pud_index a) m1 t (pud_index a) a n p hm1 ht han hn64
      (by show (n - 1) / 2 ^ 30 - a / 2 ^ 30 < PTRS_PER_PUD - pud_index a
          unfold PTRS_PER_PUD; omega) hA
    refine ⟨tbl', m', r1, r2, r3, r4, ?_, ?_⟩
    · intro x hx1 hx2
      have hix : pud_index x = pud_index a + (x / 2 ^ 30 - a / 2 ^ 30) := by
        have := pud_index_eq x
        omega
      have h5 := (r5 x hx1 hx2).1.2 x (by show max a (x / 2 ^ 30 * 2 ^ 30) ≤ x; omega)
        (by show x < min n (x / 2 ^ 30 * 2 ^ 30 + 2 ^ 30); omega)
      rw [hix]
      rw [← target_restrict30 allow a n p prot x hx1]
      exact h5
    · intro j hj
      unfold in_slots at hj
      have hx := (r5 (slot_lo (2 ^ 30) (pud_index a) a j) (by unfold slot_lo; omega)
        (by unfold slot_lo; omega)).2
      have e1 : pud_index a + (slot_lo (2 ^ 30) (pud_index a) a j / 2 ^ 30 - a / 2 ^ 30) = j := by
        unfold slot_lo; omega
      have e2 : max a (slot_lo (2 ^ 30) (pud_index a) a j / 2 ^ 30 * 2 ^ 30) =
          slot_lo (2 ^ 30) (pud_index a) a j := by unfold slot_lo; omega
      have e3 : min n (slot_lo (2 ^ 30) (pud_index a) a j / 2 ^ 30 * 2 ^ 30 + 2 ^ 30) =
          slot_hi (2 ^ 30) (pud_index a) a n j := by unfold slot_lo slot_hi; omega
      simp only [e1, e2, e3] at hx
      exact hx
  rw [alloc_init_pud]
  rcases hwf with h0 | ⟨h2, h3⟩
  · -- empty slot: a fresh zeroed table
    obtain ⟨pa, m1, hc, hx⟩ := al.call_ok m hm
    have hv := lor_three_mod pa
    have q0 : pgd_none (pa ||| PUD_TYPE_TABLE) = false := by
      rw [pgd_none_eq]; exact decide_eq_false (by unfold PUD_TYPE_TABLE; omega)
    have q4 : pgd_bad (pa ||| PUD_TYPE_TABLE) = false := by
      rw [pgd_bad_eq]; exact decide_eq_false (by unfold PUD_TYPE_TABLE; omega)
    simp only [h0, if_true, hc, Bool.false_eq_true, if_false, q4]
    obtain ⟨tbl', m2, l1, l2, l3, l4, l5, l6⟩ := hloop
      (m1.log (.set_pgd e.val (pa ||| PUD_TYPE_TABLE))) zero_pud_table
      (alloc_ok_ext hm (Machine.ext_trans hx (Machine.ext_log _ _))) (zero_pud_WF Q)
    simp only [l1]
    have hbe : pud_base e = zero_pud_table := by simp only [pud_base, h0, if_true]
    refine ⟨_, _, rfl, ?_, ⟨Or.inr ⟨q4, l3⟩, ?_⟩, q0, ?_, q0, fun j => ⟨?_, ?_⟩⟩
    · exact Machine.ext_trans hx (Machine.ext_trans (Machine.ext_log _ _) l2)
    · intro x hx1 hx2
      simp only [PgdEnt.lookup, q0, Bool.false_eq_true, if_false, l5 x hx1 hx2]
    · intro j hj
      simp only [l4 j hj, pud_base, h0, if_true]
    · intro hj
      rw [hbe]; exact l6 j hj
    · intro hj
      rw [hbe]; exact l4 j (by unfold in_slots at hj; omega)
  · -- an existing table
    have h2' : ¬ e.val % 4 < 2 := by simpa [pgd_bad_eq] using h2
    have h0 : pgd_none e.val = false := by
      rw [pgd_none_eq]; exact decide_eq_false (by omega)
    simp only [h0, Bool.false_eq_true, if_false, h2]
    obtain ⟨tbl', m2, l1, l2, l3, l4, l5, l6⟩ := hloop m e.tbl hm h3
    simp only [l1]
    have hbe : pud_base e = e.tbl := by simp only [pud_base, h0, Bool.false_eq_true, if_false]
    refine ⟨_, _, rfl, l2, ⟨Or.inr ⟨h2, l3⟩, ?_⟩, h0, ?_, h0, fun j => ⟨?_, ?_⟩⟩
    · intro x hx1 hx2
      simp only [PgdEnt.lookup, h0, Bool.false_eq_true, if_false, l5 x hx1 hx2]
    · intro j hj
      simp only [l4 j hj, pud_base, h0, Bool.false_eq_true, if_false]
    · intro hj
      rw [hbe]; exact l6 j hj
    · intro hj
      rw [hbe]; exact l4 j (by unfold in_slots at hj; omega)

theorem create_pgd_mapping_loop_spec (Q : Nat → Prop) (prot : Nat) (al : Allocator)
    (allow : Bool) (hQ0 : Q 0) (hQx : ∀ pfn, Q (pfn_pte pfn PAGE_KERNEL_EXEC))
    (hQp : ∀ pfn, Q (pfn_pte pfn prot)) (hprot : prot ≠ 0)
    (m : Machine) (pgd : PgdTable) (a n p : Nat) (hm : m.alloc_ok) (hwf : WF Q pgd)
    (han : a < n) (hn64 : n < 2 ^ 64) (hwin : a / 2 ^ 48 = (n - 1) / 2 ^ 48)
    (hA : Aligned a n p) :
    ∃ pgd' m', create_pgd_mapping_loop (PTRS_PER_PGD - pgd_index a) m pgd (pgd_index a) a n p
        prot (some al) allow = .ok (pgd', m') ∧ m.ext m' ∧ WF Q pgd' ∧
      (∀ j, j < pgd_index a ∨ pgd_index a + ((n - 1) / 2 ^ 39 - a / 2 ^ 39) < j →
        pgd' j = pgd j) ∧
      (∀ x, a ≤ x → x < n → lookup pgd' x = some (target allow a n p prot x)) ∧
      MapRel prot a n p pgd pgd' := by
  have hidx := pgd_index_eq a
  rw [create_pgd_mapping_loop_eq]
  obtain ⟨tbl', m', r1, r2, r3, r4, r5⟩ := range_loop_spec cut_pgd
    (fun m e a n p => alloc_init_pud m e a n p prot (some al) allow)
    Machine.alloc_ok (PgdEnt.WF Q) Aligned
    (fun a n p e0 e' => e'.Maps Q allow prot a n p ∧ MapRel_pgd prot a n p e0 e')
    (fun a n p h => h.2.2.2) aligned_step39 (fun _ _ h hx => alloc_ok_ext h hx)
    (fun _ _ _ _ _ h => h.1.1)
    (fun m e a n p hm he han hn hn64 hA => by
      obtain ⟨e', m', h1, h2, h3, _, _, h6⟩ :=
        alloc_init_pud_spec Q prot al allow hQ0 hQx hQp hprot m e a n p hm he han hn hn64 hA
      exact ⟨e', m', h1, h2, h3, h6⟩)
    (PTRS_PER_PGD - pgd_index a) m pgd (pgd_index a) a n p hm hwf han hn64
    (by show (n - 1) / 2 ^ 39 - a / 2 ^ 39 < PTRS_PER_PGD - pgd_index a
        unfold PTRS_PER_PGD; omega) hA
  refine ⟨tbl', m', r1, r2, r3, r4, ?_, fun j => ⟨?_, ?_⟩⟩
  · intro x hx1 hx2
    have hix : pgd_index x = pgd_index a + (x / 2 ^ 39 - a / 2 ^ 39) := by
      have := pgd_index_eq x
      omega
    have h5 := (r5 x hx1 hx2).1.2 x (by show max a (x / 2 ^ 39 * 2 ^ 39) ≤ x; omega)
      (by show x < min n (x / 2 ^ 39 * 2 ^ 39 + 2 ^ 39); omega)
    unfold lookup
    rw [hix, ← target_restrict39 allow a n p prot x hx1]
    exact h5
  · intro hj
    unfold in_slots at hj
    have hx := (r5 (slot_lo (2 ^ 39) (pgd_index a) a j) (by unfold slot_lo; omega)
      (by unfold slot_lo; omega)).2
    have e1 : pgd_index a + (slot_lo (2 ^ 39) (pgd_index a) a j / 2 ^ 39 - a / 2 ^ 39) = j := by
      unfold slot_lo; omega
    have e2 : max a (slot_lo (2 ^ 39) (pgd_index a) a j / 2 ^ 39 * 2 ^ 39) =
        slot_lo (2 ^ 39) (pgd_index a) a j := by unfold slot_lo; omega
    have e3 : min n (slot_lo (2 ^ 39) (pgd_index a) a j / 2 ^ 39 * 2 ^ 39 + 2 ^ 39) =
        slot_hi (2 ^ 39) (pgd_index a) a n j := by unfold slot_lo slot_hi; omega
    simp only [e1, e2, e3] at hx
    exact hx
  · intro hj
    exact r4 j (by unfold in_slots at hj; omega)

theorem same_offset_iff (phys virt : Nat) :
    (phys ^^^ virt) &&& not64 PAGE_MASK = 0 ↔ phys % 2 ^ 12 = virt % 2 ^ 12 := by
  rw [not64_PAGE_MASK, Nat.and_pow_two_sub_one_eq_mod, xor_mod, Nat.xor_eq_zero]

/-- The page-rounded request that `__create_pgd_mapping` works on. -/
theorem create_pgd_mapping_spec (Q : Nat → Prop) (prot : Nat) (al : Allocator)
    (allow : Bool) (hQ0 : Q 0) (hQx : ∀ pfn, Q (pfn_pte pfn PAGE_KERNEL_EXEC))
    (hQp : ∀ pfn, Q (pfn_pte pfn prot)) (hprot : prot ≠ 0)
    (m : Machine) (pgdir : PgdTable) (phys virt size : Nat) (hm : m.alloc_ok)
    (hwf : WF Q pgdir) (hoff : (phys ^^^ virt) &&& not64 PAGE_MASK = 0) (hsize : 0 < size)
    (hv : virt + size + 2 ^ 12 ≤ 2 ^ 64) (hp : phys + size + 2 ^ 12 ≤ 2 ^ 64)
    (hwin : virt / 2 ^ 48 = (virt + size - 1) / 2 ^ 48) :
    ∃ pgd' m', __create_pgd_mapping m pgdir phys virt size prot (some al) allow =
        .ok (pgd', m') ∧ m.ext m' ∧ WF Q pgd' ∧
      (∀ x, virt / 2 ^ 12 * 2 ^ 12 ≤ x → x < (virt + size + (2 ^ 12 - 1)) / 2 ^ 12 * 2 ^ 12 →
        lookup pgd' x = some (target allow (virt / 2 ^ 12 * 2 ^ 12)
          ((virt + size + (2 ^ 12 - 1)) / 2 ^ 12 * 2 ^ 12) (phys / 2 ^ 12 * 2 ^ 12) prot x)) ∧
      MapRel prot (virt / 2 ^ 12 * 2 ^ 12) ((virt + size + (2 ^ 12 - 1)) / 2 ^ 12 * 2 ^ 12)
        (phys / 2 ^ 12 * 2 ^ 12) pgdir pgd' := by
  have hoff' := (same_offset_iff phys virt).mp hoff
  rw [__create_pgd_mapping]
  have hc : ((phys ^^^ virt) &&& not64 PAGE_MASK != 0) = false := by rw [hoff]; rfl
  simp only [hc, Bool.false_eq_true, if_false]
  have e1 : phys &&& PAGE_MASK = phys / 2 ^ 12 * 2 ^ 12 :=
    land_mask_hi phys 12 (by omega) (by norm_num)
  have e2 : virt &&& PAGE_MASK = virt / 2 ^ 12 * 2 ^ 12 :=
    land_mask_hi virt 12 (by omega) (by norm_num)
  have e3 : virt &&& not64 PAGE_MASK = virt % 2 ^ 12 := by
    rw [not64_PAGE_MASK, Nat.and_pow_two_sub_one_eq_mod]
  have e4 : add64 size (virt % 2 ^ 12) = size + virt % 2 ^ 12 := by
    unfold add64; exact Nat.mod_eq_of_lt (by omega)
  have e5 : PAGE_ALIGN (size + virt % 2 ^ 12) =
      (size + virt % 2 ^ 12 + (2 ^ 12 - 1)) / 2 ^ 12 * 2 ^ 12 := by
    unfold PAGE_ALIGN PAGE_SIZE
    have : (size + virt % 2 ^ 12 + (2 ^ 12 - 1)) % 2 ^ 64 = size + virt % 2 ^ 12 + (2 ^ 12 - 1) :=
      Nat.mod_eq_of_lt (by omega)
    rw [this]
    exact land_mask_hi _ 12 (by omega) (by norm_num)
  have e6 : add64 (virt / 2 ^ 12 * 2 ^ 12)
      ((size + virt % 2 ^ 12 + (2 ^ 12 - 1)) / 2 ^ 12 * 2 ^ 12) =
      (virt + size + (2 ^ 12 - 1)) / 2 ^ 12 * 2 ^ 12 := by
    unfold add64
    rw [Nat.mod_eq_of_lt (by omega)]
    omega
  have e7 : pgd_index virt = pgd_index (virt / 2 ^ 12 * 2 ^ 12) := by
    rw [pgd_index_eq, pgd_index_eq]; omega
  rw [e1, e2, e3, e4, e5, e6, e7]
  obtain ⟨pgd', m', r1, r2, r3, _, r5, r6⟩ := create_pgd_mapping_loop_spec Q prot al allow hQ0
    hQx hQp hprot m pgdir (virt / 2 ^ 12 * 2 ^ 12)
    ((virt + size + (2 ^ 12 - 1)) / 2 ^ 12 * 2 ^ 12)
    (phys / 2 ^ 12 * 2 ^ 12) hm hwf (by omega) (by omega) (by omega)
    (by unfold Aligned; omega)
  exact ⟨pgd', m', r1, r2, r3, r5, r6⟩

/-! ## Reading a terminal entry -/

theorem land_ATTR_MASK (v : Nat) :
    v &&& ATTR_MASK = (v % 2 ^ 64 / 2 ^ 48 * 2 ^ 48) ||| (v % 2 ^ 12 / 2 ^ 2 * 2 ^ 2) := by
  have h : ATTR_MASK = (2 ^ 64 - 2 ^ 48) ||| (2 ^ 12 - 2 ^ 2) := by decide
  rw [h, Nat.and_or_distrib_left, land_field v 64 48 (by norm_num),
    land_field v 12 2 (by norm_num)]

theorem lor_div (a b k : Nat) : (a ||| b) / 2 ^ k = a / 2 ^ k ||| b / 2 ^ k := by
  apply Nat.eq_of_testBit_eq; intro i
  simp only [← Nat.shiftRight_eq_div_pow, Nat.testBit_shiftRight, Nat.testBit_or]

/-- An aligned output address and attribute bits do not overlap: the address field of the
descriptor is the address. -/
theorem desc_addr (B c : Nat) (hB : B < 2 ^ 48) (hB12 : B % 2 ^ 12 = 0)
    (hc : c % 2 ^ 48 < 2 ^ 12) : (B ||| c) % 2 ^ 48 = B + c % 2 ^ 48 := by
  rw [lor_mod, Nat.mod_eq_of_lt hB]
  have h := Nat.mul_add_lt_is_or hc (B / 2 ^ 12)
  have e : 2 ^ 12 * (B / 2 ^ 12) = B := by omega
  rw [e] at h
  exact h.symm

/-- The attribute bits of a descriptor are those of its attribute part. -/
theorem desc_attrs (B c : Nat) (hB : B < 2 ^ 48) (hB12 : B % 2 ^ 12 = 0) :
    (B ||| c) &&& ATTR_MASK = c &&& ATTR_MASK := by
  rw [land_ATTR_MASK, land_ATTR_MASK, lor_mod, lor_mod, lor_div, lor_div]
  have h1 : B % 2 ^ 64 / 2 ^ 48 = 0 := by omega
  have h2 : B % 2 ^ 12 / 2 ^ 2 = 0 := by omega
  rw [h1, h2, Nat.zero_or, Nat.zero_or]

theorem prot_low (prot : Nat) (h : prot &&& ADDR_MASK = 0) : prot % 2 ^ 48 < 2 ^ 12 := by
  unfold ADDR_MASK at h
  rw [land_field prot 48 12 (by norm_num)] at h
  omega

theorem sect_prot_low (prot : Nat) (h : prot &&& ADDR_MASK = 0) :
    (1 ||| mk_sect_prot prot) % 2 ^ 48 < 2 ^ 12 := by
  have h1 := prot_low prot h
  rw [lor_mod]
  apply Nat.or_lt_two_pow
  · norm_num
  · unfold mk_sect_prot
    rw [land_mod]
    exact lt_of_le_of_lt Nat.and_le_left h1

theorem sect_prot_attrs (prot : Nat) :
    (1 ||| mk_sect_prot prot) &&& ATTR_MASK = prot &&& ATTR_MASK := by
  unfold mk_sect_prot
  rw [Nat.and_comm, Nat.and_or_distrib_left, Nat.and_comm ATTR_MASK 1,
    Nat.and_comm ATTR_MASK (prot &&& not64 PTE_TABLE_BIT), Nat.land_assoc,
    show (1 : Nat) &&& ATTR_MASK = 0 by decide,
    show not64 PTE_TABLE_BIT &&& ATTR_MASK = ATTR_MASK by decide, Nat.zero_or]

/-- What `target` means: the address resolves to its physical image with the requested
attributes, through an entry whose frame lies in the physical range of the request. -/
theorem target_reads (allow : Bool) (a n p prot x : Nat) (hA : Aligned a n p)
    (hax : a ≤ x) (hxn : x < n) (hp48 : p + (n - a) ≤ 2 ^ 48) (hprot : prot &&& ADDR_MASK = 0) :
    (target allow a n p prot x).phys x = p + (x - a) ∧
      (target allow a n p prot x).attrs = prot &&& ATTR_MASK ∧
      p / 2 ^ 12 ≤ (target allow a n p prot x).pfn ∧
      (target allow a n p prot x).pfn < (p + (n - a)) / 2 ^ 12 := by
  obtain ⟨ha, hn, hp, _⟩ := hA
  have hpl := prot_low prot hprot
  have hsl := sect_prot_low prot hprot
  unfold target
  by_cases h1 : (allow && fits PUD_SIZE a n p x) = true
  · -- a 1 GiB block
    rw [if_pos h1]
    rw [Bool.and_eq_true] at h1
    have hf := h1.2
    simp only [fits, PUD_SIZE, Bool.and_eq_true, decide_eq_true_eq] at hf
    have hB : (p + (x - a)) / 2 ^ 30 * 2 ^ 30 < 2 ^ 48 := by omega
    have hv := desc_addr ((p + (x - a)) / 2 ^ 30 * 2 ^ 30) (1 ||| mk_sect_prot prot) hB
      (by omega) hsl
    have hat := desc_attrs ((p + (x - a)) / 2 ^ 30 * 2 ^ 30) (1 ||| mk_sect_prot prot) hB
      (by omega)
    rw [← Nat.lor_assoc] at hv hat
    simp only [Terminal.phys, Terminal.pfn, Terminal.attrs, PUD_SIZE, PUD_TYPE_SECT, if_true,
      pud_pfn_eq, hv, hat, sect_prot_attrs, not64_PUD_MASK, Nat.and_pow_two_sub_one_eq_mod,
      Nat.shiftLeft_eq, PAGE_SHIFT]
    refine ⟨by omega, trivial, by omega, by omega⟩
  · rw [if_neg h1]
    unfold target_pmd
    by_cases h2 : (allow && fits PMD_SIZE a n p x) = true
    · -- a section
      rw [if_pos h2]
      rw [Bool.and_eq_true] at h2
      have hf := h2.2
      simp only [fits, PMD_SIZE, Bool.and_eq_true, decide_eq_true_eq] at hf
      have hB : (p + (x - a)) / 2 ^ 21 * 2 ^ 21 < 2 ^ 48 := by omega
      have hv := desc_addr ((p + (x - a)) / 2 ^ 21 * 2 ^ 21) (1 ||| mk_sect_prot prot) hB
        (by omega) hsl
      have hat := desc_attrs ((p + (x - a)) / 2 ^ 21 * 2 ^ 21) (1 ||| mk_sect_prot prot) hB
        (by omega)
      rw [← Nat.lor_assoc] at hv hat
      simp only [Terminal.phys, Terminal.pfn, Terminal.attrs, PMD_SIZE, PMD_TYPE_SECT, if_true,
        pmd_pfn_eq, hv, hat, sect_prot_attrs, not64_PMD_MASK, Nat.and_pow_two_sub_one_eq_mod,
        Nat.shiftLeft_eq, PAGE_SHIFT, show (2 : Nat) ≠ 1 by decide, if_false]
      refine ⟨by omega, trivial, by omega, by omega⟩
    · -- a page
      rw [if_neg h2]
      unfold target_pte pfn_pte
      have hq : (((p + (x - a)) / PAGE_SIZE) <<< PAGE_SHIFT) % 2 ^ 64 =
          (p + (x - a)) / 2 ^ 12 * 2 ^ 12 := by
        rw [Nat.shiftLeft_eq]; unfold PAGE_SIZE PAGE_SHIFT
        exact Nat.mod_eq_of_lt (by omega)
      rw [hq]
      have hB : (p + (x - a)) / 2 ^ 12 * 2 ^ 12 < 2 ^ 48 := by omega
      have hv := desc_addr ((p + (x - a)) / 2 ^ 12 * 2 ^ 12) prot hB (by omega) hpl
      have hat := desc_attrs ((p + (x - a)) / 2 ^ 12 * 2 ^ 12) prot hB (by omega)
      simp only [Terminal.phys, Terminal.pfn, Terminal.attrs, pte_pfn_eq, hv, hat,
        not64_PAGE_MASK, Nat.and_pow_two_sub_one_eq_mod, Nat.shiftLeft_eq, PAGE_SHIFT,
        show (3 : Nat) ≠ 1 by decide, show (3 : Nat) ≠ 2 by decide, if_false]
      refine ⟨by omega, trivial, by omega, by omega⟩

/-! ## The validity query -/

theorem asr64_kernel (addr : Nat) (h : addr < 2 ^ 64) :
    asr64 addr VA_BITS = 2 ^ 64 - 1 ↔ 2 ^ 64 - 2 ^ 48 ≤ addr := by
  unfold asr64 VA_BITS
  by_cases h63 : addr < 2 ^ 63
  · rw [if_pos h63, Nat.shiftRight_eq_div_pow]
    constructor
    · intro h1; omega
    · intro h1; omega
  · rw [if_neg h63, Nat.shiftRight_eq_div_pow]
    have hlt : addr / 2 ^ 48 < 2 ^ 16 := by omega
    have hor := Nat.mul_add_lt_is_or hlt (2 ^ 48 - 1)
    have e : 2 ^ 16 * (2 ^ 48 - 1) = 2 ^ 64 - 2 ^ (64 - 48) := by norm_num
    rw [e] at hor
    rw [Nat.lor_comm, ← hor]
    constructor
    · intro h1
      have : (2 : Nat) ^ 64 - 2 ^ (64 - 48) = 2 ^ 64 - 2 ^ 16 := by norm_num
      omega
    · intro h1
      have : (2 : Nat) ^ 64 - 2 ^ (64 - 48) = 2 ^ 64 - 2 ^ 16 := by norm_num
      omega

/-- Function `kern_addr_valid` is the full walk followed by `pfn_valid` on the frame of the
terminal entry. -/
theorem kern_addr_valid_lookup (pfn_valid : Nat → Bool) (init_pgd : PgdTable) (addr : Nat)
    (h : addr < 2 ^ 64) :
    kern_addr_valid pfn_valid init_pgd addr = true ↔
      2 ^ 64 - 2 ^ 48 ≤ addr ∧ ∃ t, lookup init_pgd addr = some t ∧ pfn_valid t.pfn = true := by
  unfold kern_addr_valid
  by_cases hk : 2 ^ 64 - 2 ^ 48 ≤ addr
  · have hk' : (asr64 addr VA_BITS != 2 ^ 64 - 1) = false := by
      rw [(asr64_kernel addr h).mpr hk]; rfl
    simp only [hk', Bool.false_eq_true, if_false, hk, true_and, lookup, PgdEnt.lookup,
      PudEnt.lookup, PmdEnt.lookup]
    split_ifs <;> simp [Terminal.pfn]
  · have hk' : (asr64 addr VA_BITS != 2 ^ 64 - 1) = true := by
      rw [bne_iff_ne]; intro hh; exact hk ((asr64_kernel addr h).mp hh)
    rw [if_pos hk']
    constructor
    · intro hh; exact absurd hh (by decide)
    · intro hh; exact absurd hh.1 hk

/-! ## Claims on the mapping engine -/

theorem boot_machine_alloc_ok : boot_machine.alloc_ok := by
  intro n
  refine ⟨?_, rfl⟩
  show 0x80000000 + n * 4096 ≠ 0
  omega

/-- C1: for every request with matching page offsets in the kernel half, on well-formed tables
and with an allocator that never fails, `__create_pgd_mapping` returns, and afterwards every
address of `[virt, virt + size)` is valid for `kern_addr_valid` (its frames being tracked) and the
full walk resolves it to `phys + (addr - virt)` with the attribute bits of `prot`. -/
theorem C1_create_pgd_mapping_resolves (pfn_valid : Nat → Bool) (m : Machine) (pgdir : PgdTable)
    (phys virt size prot : Nat) (al : Allocator) (allow : Bool)
    (hm : m.alloc_ok) (hwf : WF (fun _ => True) pgdir)
    (hoff : (phys ^^^ virt) &&& not64 PAGE_MASK = 0) (hsize : 0 < size)
    (hkern : 2 ^ 64 - 2 ^ 48 ≤ virt) (hv : virt + size + 2 ^ 12 ≤ 2 ^ 64)
    (hp : phys + size + 2 ^ 12 ≤ 2 ^ 48)
    (hprot0 : prot ≠ 0) (hprot : prot &&& ADDR_MASK = 0)
    (htracked : ∀ q, phys / 2 ^ 12 ≤ q → q < (phys + size + (2 ^ 12 - 1)) / 2 ^ 12 →
      pfn_valid q = true) :
    ∃ pgd' m', __create_pgd_mapping m pgdir phys virt size prot (some al) allow =
        .ok (pgd', m') ∧
      ∀ x, virt ≤ x → x < virt + size →
        kern_addr_valid pfn_valid pgd' x = true ∧
        ∃ t, lookup pgd' x = some t ∧ t.phys x = phys + (x - virt) ∧
          t.attrs = prot &&& ATTR_MASK := by
  have hoff' := (same_offset_iff phys virt).mp hoff
  obtain ⟨pgd', m', h1, _, _, h4, _⟩ := create_pgd_mapping_spec (fun _ => True) prot al allow
    trivial (fun _ => trivial) (fun _ => trivial) hprot0 m pgdir phys virt size hm hwf hoff hsize
    hv (by omega) (by omega)
  refine ⟨pgd', m', h1, ?_⟩
  intro x hx1 hx2
  have hl := h4 x (by omega) (by omega)
  obtain ⟨r1, r2, r3, r4⟩ := target_reads allow (virt / 2 ^ 12 * 2 ^ 12)
    ((virt + size + (2 ^ 12 - 1)) / 2 ^ 12 * 2 ^ 12) (phys / 2 ^ 12 * 2 ^ 12) prot x
    (by unfold Aligned; omega) (by omega) (by omega) (by omega) hprot
  refine ⟨?_, _, hl, by omega, r2⟩
  rw [kern_addr_valid_lookup pfn_valid pgd' x (by omega)]
  refine ⟨by omega, _, hl, htracked _ (by omega) (by omega)⟩

theorem C1_create_pgd_mapping_resolves_witness :
    (0x40000000 ^^^ 0xffff000000000000) &&& not64 PAGE_MASK = 0 ∧
    ∃ pgd' m', __create_pgd_mapping boot_machine zero_pgd_table 0x40000000 0xffff000000000000
        0x200000 PAGE_KERNEL (some Allocator.early_pgtable_alloc) true = .ok (pgd', m') ∧
      ∀ x, 0xffff000000000000 ≤ x → x < 0xffff000000000000 + 0x200000 →
        kern_addr_valid all_tracked pgd' x = true ∧
        ∃ t, lookup pgd' x = some t ∧ t.phys x = 0x40000000 + (x - 0xffff000000000000) ∧
          t.attrs = PAGE_KERNEL &&& ATTR_MASK :=
  ⟨by decide,
    C1_create_pgd_mapping_resolves all_tracked boot_machine zero_pgd_table 0x40000000
      0xffff000000000000 0x200000 PAGE_KERNEL Allocator.early_pgtable_alloc true
      boot_machine_alloc_ok (zero_pgd_WF _) (by decide) (by decide) (by decide) (by decide)
      (by decide) (by decide) (by decide) (fun _ _ _ => rfl)⟩

/-- C2: a request whose physical and virtual start differ in their offset within a page is
rejected with no side effect: the tables come back as they were, no page is requested from the
allocator, and the only thing added to the log is the warning. -/
theorem C2_mismatched_offset_rejected (m : Machine) (pgdir : PgdTable)
    (phys virt size prot : Nat) (pgtable_alloc : Option Allocator) (allow : Bool)
    (h : (phys ^^^ virt) &&& not64 PAGE_MASK ≠ 0) :
    ∃ m', __create_pgd_mapping m pgdir phys virt size prot pgtable_alloc allow =
        .ok (pgdir, m') ∧
      m'.nalloc = m.nalloc ∧ m'.trace = Event.warn :: m.trace := by
  refine ⟨m.log .warn, ?_, rfl, rfl⟩
  rw [__create_pgd_mapping]
  have hc : ((phys ^^^ virt) &&& not64 PAGE_MASK != 0) = true := by
    rw [bne_iff_ne]; exact h
  rw [if_pos hc]

theorem C2_mismatched_offset_rejected_witness :
    (0x40000001 ^^^ 0xffff000000000000) &&& not64 PAGE_MASK ≠ 0 ∧
    ∃ m', __create_pgd_mapping boot_machine zero_pgd_table 0x40000001 0xffff000000000000
        0x1000 PAGE_KERNEL (some Allocator.early_pgtable_alloc) true =
        .ok (zero_pgd_table, m') ∧
      m'.nalloc = boot_machine.nalloc ∧ m'.trace = Event.warn :: boot_machine.trace :=
  ⟨by decide,
    C2_mismatched_offset_rejected boot_machine zero_pgd_table 0x40000001 0xffff000000000000
      0x1000 PAGE_KERNEL (some Allocator.early_pgtable_alloc) true (by decide)⟩

/-! ## Claims on the split engine -/

theorem pte_pfn_pfn_pte (q prot : Nat) (hq : q < 2 ^ 36) (hprot : prot &&& ADDR_MASK = 0) :
    pte_pfn (pfn_pte q prot) = q := by
  have hpl := prot_low prot hprot
  have hv := desc_addr (q * 2 ^ 12) prot (by omega) (by omega) hpl
  have e : (q <<< PAGE_SHIFT) % 2 ^ 64 = q * 2 ^ 12 := by
    rw [Nat.shiftLeft_eq]; unfold PAGE_SHIFT; exact Nat.mod_eq_of_lt (by omega)
  unfold pfn_pte
  rw [pte_pfn_eq, e, hv]
  omega

/-- C3, the claim as stated fails: the read-only, never-executable section
`0x00E0000040000791` is split into leaf entries that carry `PAGE_KERNEL_EXEC`, so the first leaf
entry has other attribute bits than the section had (it is writable and executable). -/
theorem C3_split_pmd_attrs_counterexample :
    pmd_sect 0x00E0000040000791 = true ∧
    Terminal.attrs ⟨3, (split_pmd boot_machine 0x00E0000040000791 zero_pte_table).1 0⟩ ≠
      Terminal.attrs ⟨2, 0x00E0000040000791⟩ ∧
    (split_pmd boot_machine 0x00E0000040000791 zero_pte_table).1 0 &&& PTE_RDONLY = 0 ∧
    0x00E0000040000791 &&& PTE_RDONLY ≠ 0 := by
  obtain ⟨m', h, _⟩ := split_pmd_spec boot_machine 0x00E0000040000791
  have h0 : (split_pmd boot_machine 0x00E0000040000791 zero_pte_table).1 0 =
      pfn_pte (pmd_pfn 0x00E0000040000791 + 0) PAGE_KERNEL_EXEC := by
    rw [h]; rfl
  rw [h0]
  decide

/-- C3, amended: after `split_pmd` every address of the block resolves through the new leaf
table to the physical address it resolved to through the block entry, and every new leaf entry
carries the attributes `PAGE_KERNEL_EXEC`, whatever attributes the block entry had. -/
theorem C3_split_pmd_keeps_address (m : Machine) (pmd x : Nat) :
    Terminal.phys ⟨3, (split_pmd m pmd zero_pte_table).1 (pte_index x)⟩ x =
      Terminal.phys ⟨2, pmd⟩ x ∧
    Terminal.attrs ⟨3, (split_pmd m pmd zero_pte_table).1 (pte_index x)⟩ =
      PAGE_KERNEL_EXEC &&& ATTR_MASK ∧
    (split_pmd m pmd zero_pte_table).1 (pte_index x) =
      pfn_pte (pmd_pfn pmd + pte_index x) PAGE_KERNEL_EXEC := by
  obtain ⟨m', h, _⟩ := split_pmd_spec m pmd
  have hidx := pte_index_eq x
  have hlt : pte_index x < PTRS_PER_PTE := by unfold PTRS_PER_PTE; omega
  have hpf := pmd_pfn_eq pmd
  have hq : pmd_pfn pmd + pte_index x < 2 ^ 36 := by omega
  have hx : PAGE_KERNEL_EXEC &&& ADDR_MASK = 0 := by decide
  have h1 := pte_pfn_pfn_pte _ _ hq hx
  have hat : pfn_pte (pmd_pfn pmd + pte_index x) PAGE_KERNEL_EXEC &&& ATTR_MASK =
      PAGE_KERNEL_EXEC &&& ATTR_MASK := by
    have e : ((pmd_pfn pmd + pte_index x) <<< PAGE_SHIFT) % 2 ^ 64 =
        (pmd_pfn pmd + pte_index x) * 2 ^ 12 := by
      rw [Nat.shiftLeft_eq]; unfold PAGE_SHIFT; exact Nat.mod_eq_of_lt (by omega)
    unfold pfn_pte
    rw [e]
    exact desc_attrs _ _ (by omega) (by omega)
  rw [h]
  simp only [hlt, if_true, Terminal.phys, Terminal.attrs, show (3 : Nat) ≠ 1 by decide,
    show (3 : Nat) ≠ 2 by decide, show (2 : Nat) ≠ 1 by decide, if_false, h1, hat,
    not64_PAGE_MASK, not64_PMD_MASK, Nat.and_pow_two_sub_one_eq_mod, Nat.shiftLeft_eq,
    PAGE_SHIFT]
  refine ⟨by omega, trivial, trivial⟩

theorem xor_div (a b k : Nat) : (a ^^^ b) / 2 ^ k = a / 2 ^ k ^^^ b / 2 ^ k := by
  apply Nat.eq_of_testBit_eq; intro i
  simp only [← Nat.shiftRight_eq_div_pow, Nat.testBit_shiftRight, Nat.testBit_xor]

/-- The attribute part that `split_pud` keeps: the descriptor without its block address. -/
theorem split_pud_prot_mod (v : Nat) :
    (v ^^^ (v % 2 ^ 48 / 2 ^ 30 * 2 ^ 30)) % 2 ^ 48 = v % 2 ^ 30 := by
  rw [← land_field v 48 30 (by norm_num)]
  apply Nat.eq_of_testBit_eq; intro i
  have e2 : (2 : Nat) ^ 48 - 2 ^ 30 = 2 ^ 48 - ((2 ^ 30 - 1) + 1) := by norm_num
  rw [Nat.testBit_mod_two_pow, Nat.testBit_mod_two_pow, Nat.testBit_xor, Nat.testBit_and, e2,
    Nat.testBit_two_pow_sub_succ (by norm_num), Nat.testBit_two_pow_sub_one]
  by_cases h30 : i < 30
  · have h48 : i < 48 := by omega
    simp [h30, h48]
  · by_cases h48 : i < 48
    · simp [h30, h48]
    · simp [h30, h48]

theorem split_pud_prot_attrs (v : Nat) :
    (v ^^^ (v % 2 ^ 48 / 2 ^ 30 * 2 ^ 30)) &&& ATTR_MASK = v &&& ATTR_MASK := by
  rw [land_ATTR_MASK, land_ATTR_MASK]
  have h1 : (v ^^^ (v % 2 ^ 48 / 2 ^ 30 * 2 ^ 30)) % 2 ^ 12 = v % 2 ^ 12 := by
    rw [xor_mod]
    have : v % 2 ^ 48 / 2 ^ 30 * 2 ^ 30 % 2 ^ 12 = 0 := by omega
    rw [this, Nat.xor_zero]
  have h2 : (v ^^^ (v % 2 ^ 48 / 2 ^ 30 * 2 ^ 30)) / 2 ^ 48 = v / 2 ^ 48 := by
    rw [xor_div]
    have : v % 2 ^ 48 / 2 ^ 30 * 2 ^ 30 / 2 ^ 48 = 0 := by omega
    rw [this, Nat.xor_zero]
  have h3 : ∀ c : Nat, c % 2 ^ 64 / 2 ^ 48 = c / 2 ^ 48 % 2 ^ 16 := by intro c; omega
  rw [h1, h3, h3 v, h2]

/-- C4: for every upper-level block entry whose output address is aligned to the block size,
`split_pud` leaves in every slot `i` of the new middle-level table a section for the physical
address `base + i * PMD_SIZE` with exactly the attribute bits of the original entry, and every
address resolves through the new table to the physical address it resolved to through the
block. -/
theorem C4_split_pud_equivalent (m : Machine) (pud i x : Nat) (hs : pud_sect pud = true)
    (hal : (pud &&& ADDR_MASK) % PUD_SIZE = 0) (hi : i < PTRS_PER_PMD) :
    pmd_sect ((split_pud m pud zero_pmd_table).1 i).val = true ∧
    pmd_pfn ((split_pud m pud zero_pmd_table).1 i).val <<< PAGE_SHIFT =
      (pud_pfn pud <<< PAGE_SHIFT) + i * PMD_SIZE ∧
    Terminal.attrs ⟨2, ((split_pud m pud zero_pmd_table).1 i).val⟩ = Terminal.attrs ⟨1, pud⟩ ∧
    Terminal.phys ⟨2, ((split_pud m pud zero_pmd_table).1 (pmd_index x)).val⟩ x =
      Terminal.phys ⟨1, pud⟩ x := by
  obtain ⟨m', h, _⟩ := split_pud_spec m pud
  have hs' : pud % 4 = 1 := by simpa [pud_sect_eq] using hs
  have hlow : pud % 2 ^ 30 < 2 ^ 12 := by
    unfold ADDR_MASK PUD_SIZE at hal
    rw [land_field pud 48 12 (by norm_num)] at hal
    omega
  have hc := split_pud_prot_mod pud
  have hidx := pmd_index_eq x
  unfold PTRS_PER_PMD at hi
  have key : ∀ j, j < 512 →
      ((pud % 2 ^ 48 / 2 ^ 30 * 2 ^ 30 + j * 2 ^ 21) |||
        (pud ^^^ (pud % 2 ^ 48 / 2 ^ 30 * 2 ^ 30))) % 2 ^ 48 =
      pud % 2 ^ 48 / 2 ^ 30 * 2 ^ 30 + j * 2 ^ 21 + pud % 2 ^ 30 := by
    intro j hj
    have := desc_addr (pud % 2 ^ 48 / 2 ^ 30 * 2 ^ 30 + j * 2 ^ 21)
      (pud ^^^ (pud % 2 ^ 48 / 2 ^ 30 * 2 ^ 30)) (by omega) (by omega) (by omega)
    rw [this, hc]
  have hat := desc_attrs (pud % 2 ^ 48 / 2 ^ 30 * 2 ^ 30 + i * 2 ^ 21)
    (pud ^^^ (pud % 2 ^ 48 / 2 ^ 30 * 2 ^ 30)) (by omega) (by omega)
  rw [h]
  have hx : pmd_index x < 512 := by omega
  simp only [hi, hx, if_true, Terminal.phys, Terminal.attrs, show (2 : Nat) ≠ 1 by decide,
    if_false, pmd_pfn_eq, pud_pfn_eq, key i hi, key _ hx, hat, split_pud_prot_attrs,
    not64_PMD_MASK, not64_PUD_MASK, Nat.and_pow_two_sub_one_eq_mod, Nat.shiftLeft_eq, PAGE_SHIFT,
    PMD_SIZE]
  refine ⟨?_, by omega, trivial, by omega⟩
  rw [pmd_sect_iff]
  exact split_pud_entry_sect pud i hs'

theorem C4_split_pud_equivalent_witness :
    pud_sect 0x00E8000040000711 = true ∧ (0x00E8000040000711 &&& ADDR_MASK) % PUD_SIZE = 0 ∧
    pmd_sect ((split_pud boot_machine 0x00E8000040000711 zero_pmd_table).1 5).val = true ∧
    pmd_pfn ((split_pud boot_machine 0x00E8000040000711 zero_pmd_table).1 5).val <<< PAGE_SHIFT =
      (pud_pfn 0x00E8000040000711 <<< PAGE_SHIFT) + 5 * PMD_SIZE ∧
    Terminal.attrs ⟨2, ((split_pud boot_machine 0x00E8000040000711 zero_pmd_table).1 5).val⟩ =
      Terminal.attrs ⟨1, 0x00E8000040000711⟩ ∧
    Terminal.phys ⟨2, ((split_pud boot_machine 0x00E8000040000711 zero_pmd_table).1
        (pmd_index 0xffff000000a01234)).val⟩ 0xffff000000a01234 =
      Terminal.phys ⟨1, 0x00E8000040000711⟩ 0xffff000000a01234 :=
  ⟨by decide, by decide,
    C4_split_pud_equivalent boot_machine 0x00E8000040000711 5 0xffff000000a01234 (by decide)
      (by decide) (by decide)⟩

/-- C7: `kern_addr_valid` answers by reading only (it is a function of the tables and returns
no table), and it returns non-zero exactly when `addr` has all bits above `VA_BITS` set, no
entry met on the walk from the kernel root is empty, and the frame of the entry the walk ends
at (an upper-level block, a middle-level block, or a leaf entry) is a tracked page. -/
theorem C7_kern_addr_valid_iff (pfn_valid : Nat → Bool) (init_pgd : PgdTable) (addr : Nat)
    (h : addr < 2 ^ 64) :
    kern_addr_valid pfn_valid init_pgd addr = true ↔
      2 ^ 64 - 2 ^ VA_BITS ≤ addr ∧
      (init_pgd (pgd_index addr)).val ≠ 0 ∧
      (((init_pgd (pgd_index addr)).tbl (pud_index addr)).val ≠ 0 ∧
        ((pud_sect ((init_pgd (pgd_index addr)).tbl (pud_index addr)).val = true ∧
            pfn_valid (pud_pfn ((init_pgd (pgd_index addr)).tbl (pud_index addr)).val) = true) ∨
          (pud_sect ((init_pgd (pgd_index addr)).tbl (pud_index addr)).val = false ∧
            (((init_pgd (pgd_index addr)).tbl (pud_index addr)).tbl (pmd_index addr)).val ≠ 0 ∧
            ((pmd_sect (((init_pgd (pgd_index addr)).tbl (pud_index addr)).tbl
                  (pmd_index addr)).val = true ∧
                pfn_valid (pmd_pfn (((init_pgd (pgd_index addr)).tbl (pud_index addr)).tbl
                  (pmd_index addr)).val) = true) ∨
              (pmd_sect (((init_pgd (pgd_index addr)).tbl (pud_index addr)).tbl
                  (pmd_index addr)).val = false ∧
                (((init_pgd (pgd_index addr)).tbl (pud_index addr)).tbl
                  (pmd_index addr)).tbl (pte_index addr) ≠ 0 ∧
                pfn_valid (pte_pfn ((((init_pgd (pgd_index addr)).tbl (pud_index addr)).tbl
                  (pmd_index addr)).tbl (pte_index addr))) = true))))) := by
  unfold kern_addr_valid
  by_cases hk : 2 ^ 64 - 2 ^ 48 ≤ addr
  · have hk' : (asr64 addr VA_BITS != 2 ^ 64 - 1) = false := by
      rw [(asr64_kernel addr h).mpr hk]; rfl
    rw [if_neg (by rw [hk']; decide)]
    simp only [VA_BITS, hk, true_and, pgd_none, pud_none, pmd_none, pte_none]
    split_ifs <;> simp_all
  · have hk' : (asr64 addr VA_BITS != 2 ^ 64 - 1) = true := by
      rw [bne_iff_ne]; intro hh; exact hk ((asr64_kernel addr h).mp hh)
    rw [if_pos hk']
    constructor
    · intro hh; exact absurd hh (by decide)
    · intro hh; exact absurd hh.1 hk

theorem C7_kern_addr_valid_iff_witness :
    (0xffff000000000000 : Nat) < 2 ^ 64 ∧
    (kern_addr_valid all_tracked zero_pgd_table 0xffff000000000000 = true ↔
      2 ^ 64 - 2 ^ VA_BITS ≤ 0xffff000000000000 ∧
      (zero_pgd_table (pgd_index 0xffff000000000000)).val ≠ 0 ∧
      (((zero_pgd_table (pgd_index 0xffff000000000000)).tbl
          (pud_index 0xffff000000000000)).val ≠ 0 ∧
        ((pud_sect ((zero_pgd_table (pgd_index 0xffff000000000000)).tbl
              (pud_index 0xffff000000000000)).val = true ∧
            all_tracked (pud_pfn ((zero_pgd_table (pgd_index 0xffff000000000000)).tbl
              (pud_index 0xffff000000000000)).val) = true) ∨
          (pud_sect ((zero_pgd_table (pgd_index 0xffff000000000000)).tbl
              (pud_index 0xffff000000000000)).val = false ∧
            (((zero_pgd_table (pgd_index 0xffff000000000000)).tbl
              (pud_index 0xffff000000000000)).tbl (pmd_index 0xffff000000000000)).val ≠ 0 ∧
            ((pmd_sect (((zero_pgd_table (pgd_index 0xffff000000000000)).tbl
                  (pud_index 0xffff000000000000)).tbl
                  (pmd_index 0xffff000000000000)).val = true ∧
                all_tracked (pmd_pfn (((zero_pgd_table (pgd_index 0xffff000000000000)).tbl
                  (pud_index 0xffff000000000000)).tbl
                  (pmd_index 0xffff000000000000)).val) = true) ∨
              (pmd_sect (((zero_pgd_table (pgd_index 0xffff000000000000)).tbl
                  (pud_index 0xffff000000000000)).tbl
                  (pmd_index 0xffff000000000000)).val = false ∧
                (((zero_pgd_table (pgd_index 0xffff000000000000)).tbl
                  (pud_index 0xffff000000000000)).tbl
                  (pmd_index 0xffff000000000000)).tbl (pte_index 0xffff000000000000) ≠ 0 ∧
                all_tracked (pte_pfn ((((zero_pgd_table (pgd_index 0xffff000000000000)).tbl
                  (pud_index 0xffff000000000000)).tbl
                  (pmd_index 0xffff000000000000)).tbl
                  (pte_index 0xffff000000000000))) = true)))))) :=
  ⟨by decide, C7_kern_addr_valid_iff all_tracked zero_pgd_table 0xffff000000000000 (by decide)⟩

/-- C8: calling `__create_pgd_mapping` a second time with the same parameters on the tables the
first call left returns again, and every address of the range resolves through the same terminal
entry (hence to the same physical address with the same attributes) after the second call as
after the first, whether blocks are allowed or not. -/
theorem C8_create_pgd_mapping_idempotent (m : Machine) (pgdir : PgdTable)
    (phys virt size prot : Nat) (al : Allocator) (allow : Bool)
    (hm : m.alloc_ok) (hwf : WF (fun _ => True) pgdir)
    (hoff : (phys ^^^ virt) &&& not64 PAGE_MASK = 0) (hsize : 0 < size)
    (hv : virt + size + 2 ^ 12 ≤ 2 ^ 64) (hp : phys + size + 2 ^ 12 ≤ 2 ^ 64)
    (hwin : virt / 2 ^ 48 = (virt + size - 1) / 2 ^ 48) (hprot0 : prot ≠ 0) :
    ∃ pgd1 m1 pgd2 m2,
      __create_pgd_mapping m pgdir phys virt size prot (some al) allow = .ok (pgd1, m1) ∧
      __create_pgd_mapping m1 pgd1 phys virt size prot (some al) allow = .ok (pgd2, m2) ∧
      ∀ x, virt ≤ x → x < virt + size →
        lookup pgd2 x = lookup pgd1 x ∧ (lookup pgd1 x).isSome = true := by
  obtain ⟨pgd1, m1, h1, h2, h3, h4, _⟩ := create_pgd_mapping_spec (fun _ => True) prot al allow
    trivial (fun _ => trivial) (fun _ => trivial) hprot0 m pgdir phys virt size hm hwf hoff hsize
    hv hp hwin
  obtain ⟨pgd2, m2, k1, _, _, k4, _⟩ := create_pgd_mapping_spec (fun _ => True) prot al allow
    trivial (fun _ => trivial) (fun _ => trivial) hprot0 m1 pgd1 phys virt size
    (alloc_ok_ext hm h2) h3 hoff hsize hv hp hwin
  refine ⟨pgd1, m1, pgd2, m2, h1, k1, ?_⟩
  intro x hx1 hx2
  rw [h4 x (by omega) (by omega), k4 x (by omega) (by omega)]
  exact ⟨rfl, rfl⟩

theorem C8_create_pgd_mapping_idempotent_witness :
    (0x40000000 ^^^ 0xffff000000000000) &&& not64 PAGE_MASK = 0 ∧
    ∃ pgd1 m1 pgd2 m2,
      __create_pgd_mapping boot_machine zero_pgd_table 0x40000000 0xffff000000000000 0x201000
        PAGE_KERNEL (some Allocator.early_pgtable_alloc) true = .ok (pgd1, m1) ∧
      __create_pgd_mapping m1 pgd1 0x40000000 0xffff000000000000 0x201000
        PAGE_KERNEL (some Allocator.early_pgtable_alloc) true = .ok (pgd2, m2) ∧
      ∀ x, 0xffff000000000000 ≤ x → x < 0xffff000000000000 + 0x201000 →
        lookup pgd2 x = lookup pgd1 x ∧ (lookup pgd1 x).isSome = true :=
  ⟨by decide,
    C8_create_pgd_mapping_idempotent boot_machine zero_pgd_table 0x40000000 0xffff000000000000
      0x201000 PAGE_KERNEL Allocator.early_pgtable_alloc true boot_machine_alloc_ok
      (zero_pgd_WF _) (by decide) (by decide) (by decide) (by decide) (by decide) (by decide)⟩

/-- C10: with `allow_block_mappings` false the engine leaves no block for the requested range:
after the call every address of the page-rounded range resolves through a leaf page entry
(level 3), the page entry of its frame with the requested protection, whatever the alignment of
the range. -/
theorem C10_no_block_when_disallowed (m : Machine) (pgdir : PgdTable)
    (phys virt size prot : Nat) (al : Allocator)
    (hm : m.alloc_ok) (hwf : WF (fun _ => True) pgdir)
    (hoff : (phys ^^^ virt) &&& not64 PAGE_MASK = 0) (hsize : 0 < size)
    (hv : virt + size + 2 ^ 12 ≤ 2 ^ 64) (hp : phys + size + 2 ^ 12 ≤ 2 ^ 64)
    (hwin : virt / 2 ^ 48 = (virt + size - 1) / 2 ^ 48) (hprot0 : prot ≠ 0) :
    ∃ pgd' m', __create_pgd_mapping m pgdir phys virt size prot (some al) false =
        .ok (pgd', m') ∧
      ∀ x, virt / 2 ^ 12 * 2 ^ 12 ≤ x → x < (virt + size + (2 ^ 12 - 1)) / 2 ^ 12 * 2 ^ 12 →
        ∃ t, lookup pgd' x = some t ∧ t.level = 3 ∧
          t.val = pfn_pte ((phys / 2 ^ 12 * 2 ^ 12 + (x - virt / 2 ^ 12 * 2 ^ 12)) / PAGE_SIZE)
            prot := by
  obtain ⟨pgd', m', h1, _, _, h4, _⟩ := create_pgd_mapping_spec (fun _ => True) prot al false
    trivial (fun _ => trivial) (fun _ => trivial) hprot0 m pgdir phys virt size hm hwf hoff hsize
    hv hp hwin
  refine ⟨pgd', m', h1, ?_⟩
  intro x hx1 hx2
  refine ⟨_, h4 x hx1 hx2, ?_, ?_⟩ <;>
    simp [target, target_pmd, target_pte]

theorem C10_no_block_when_disallowed_witness :
    (0x40000000 ^^^ 0xffff000000000000) &&& not64 PAGE_MASK = 0 ∧
    ∃ pgd' m', __create_pgd_mapping boot_machine zero_pgd_table 0x40000000 0xffff000000000000
        0x200000 PAGE_KERNEL (some Allocator.pgd_pgtable_alloc) false = .ok (pgd', m') ∧
      ∀ x, 0xffff000000000000 / 2 ^ 12 * 2 ^ 12 ≤ x →
        x < (0xffff000000000000 + 0x200000 + (2 ^ 12 - 1)) / 2 ^ 12 * 2 ^ 12 →
        ∃ t, lookup pgd' x = some t ∧ t.level = 3 ∧
          t.val = pfn_pte ((0x40000000 / 2 ^ 12 * 2 ^ 12 +
            (x - 0xffff000000000000 / 2 ^ 12 * 2 ^ 12)) / PAGE_SIZE) PAGE_KERNEL :=
  ⟨by decide,
    C10_no_block_when_disallowed boot_machine zero_pgd_table 0x40000000 0xffff000000000000
      0x200000 PAGE_KERNEL Allocator.pgd_pgtable_alloc boot_machine_alloc_ok
      (zero_pgd_WF _) (by decide) (by decide) (by decide) (by decide) (by decide) (by decide)⟩

/-! ## Shared leaf pages -/

theorem page_next (va a en : Nat) (hva : va % 2 ^ 12 = 0) (h1 : va ≤ a) (h2 : a < en)
    (h3 : en ≤ va + 2 ^ 12) (h64 : va + 2 ^ 12 < 2 ^ 64) :
    (if add64 a PAGE_SIZE &&& PAGE_MASK > en then en else add64 a PAGE_SIZE &&& PAGE_MASK)
      = en := by
  have e1 : add64 a PAGE_SIZE = a + 2 ^ 12 := by
    unfold add64 PAGE_SIZE; exact Nat.mod_eq_of_lt (by omega)
  have e2 : (a + 2 ^ 12) &&& PAGE_MASK = va + 2 ^ 12 := by
    unfold PAGE_MASK
    rw [land_mask_hi _ 12 (by omega) (by norm_num)]
    omega
  rw [e1, e2]
  split
  · rfl
  · omega

theorem page_aligned_iff (x : Nat) : PAGE_ALIGNED x = true ↔ x % 2 ^ 12 = 0 := by
  unfold PAGE_ALIGNED PAGE_SIZE
  rw [beq_iff_eq, Nat.and_pow_two_sub_one_eq_mod]

theorem remove_pte_absent (m : Machine) (pte : PteTable) (i va a en : Nat) (direct : Bool)
    (hi : i < 512) (hp : pte_present (pte i) = false)
    (hva : va % 2 ^ 12 = 0) (h1 : va ≤ a) (h2 : a < en) (h3 : en ≤ va + 2 ^ 12)
    (h64 : va + 2 ^ 12 < 2 ^ 64) :
    remove_pte_table m pte i a en direct = .ok (pte, m.log .flush_tlb_all) := by
  obtain ⟨r, hr⟩ : ∃ r, PTRS_PER_PTE - i = r + 1 := ⟨511 - i, by unfold PTRS_PER_PTE; omega⟩
  have hn := page_next va a en hva h1 h2 h3 h64
  have hstop : ∀ (r : Nat) (m : Machine) (t : PteTable) (j : Nat),
      remove_pte_table_loop r m t j en en direct = .ok (t, m) := by
    intro r m t j
    cases r <;> simp [remove_pte_table_loop]
  rw [remove_pte_table, hr, remove_pte_table_loop]
  simp only [h2, if_true, hn, hp, Bool.not_false, hstop]

theorem remove_pte_partial (m : Machine) (pte : PteTable) (i va a en : Nat) (direct : Bool)
    (hi : i < 512) (hp : pte_present (pte i) = true)
    (hva : va % 2 ^ 12 = 0) (h1 : va ≤ a) (h2 : a < en) (h3 : en ≤ va + 2 ^ 12)
    (hpart : a ≠ va ∨ en ≠ va + 2 ^ 12) (h64 : va + 2 ^ 12 < 2 ^ 64) :
    remove_pte_table m pte i a en direct =
      if (m.memset (pte_pfn (pte i) * PAGE_SIZE + (a - va)) PAGE_INUSE (en - a)).memchr_inv_null
          (pte_page (pte i) * PAGE_SIZE) PAGE_INUSE PAGE_SIZE = true then
        .ok (Function.update pte i 0,
          ((free_pagetable (m.memset (pte_pfn (pte i) * PAGE_SIZE + (a - va)) PAGE_INUSE (en - a))
            (pte_page (pte i)) 0 direct).log (.set_pte (pte i) 0)).log .flush_tlb_all)
      else
        .ok (pte, (m.memset (pte_pfn (pte i) * PAGE_SIZE + (a - va)) PAGE_INUSE
          (en - a)).log .flush_tlb_all) := by
  obtain ⟨r, hr⟩ : ∃ r, PTRS_PER_PTE - i = r + 1 := ⟨511 - i, by unfold PTRS_PER_PTE; omega⟩
  have hn := page_next va a en hva h1 h2 h3 h64
  have hstop : ∀ (r : Nat) (m : Machine) (t : PteTable) (j : Nat),
      remove_pte_table_loop r m t j en en direct = .ok (t, m) := by
    intro r m t j
    cases r <;> simp [remove_pte_table_loop]
  have hal : (PAGE_ALIGNED a && PAGE_ALIGNED en) = false := by
    rw [Bool.and_eq_false_iff]
    rcases hpart with h | h
    · left
      rw [Bool.eq_false_iff]; intro hh; rw [page_aligned_iff] at hh; omega
    · right
      rw [Bool.eq_false_iff]; intro hh; rw [page_aligned_iff] at hh; omega
  have hoff : a &&& not64 PAGE_MASK = a - va := by
    rw [not64_PAGE_MASK, Nat.and_pow_two_sub_one_eq_mod]; omega
  have hlen : sub64 en a = en - a := by unfold sub64; omega
  rw [remove_pte_table, hr, remove_pte_table_loop]
  simp only [h2, if_true, hn, hp, Bool.not_true, Bool.false_eq_true, if_false, hal, hoff, hlen,
    hstop]
  split_ifs <;> simp only []

theorem freed_log (m : Machine) (e : Event) (page : Nat) :
    (m.log e).freed page =
      m.freed page + (match e with
        | .free_pagetable p _ _ => if p = page then 1 else 0
        | _ => 0) := by
  unfold Machine.freed Machine.log
  cases e <;> simp [List.filter_cons]
  split <;> simp

theorem freed_memset (m : Machine) (pa c len page : Nat) :
    (m.memset pa c len).freed page = m.freed page := by
  unfold Machine.freed Machine.memset
  simp [List.filter_cons]

/-- Once the slot is empty, further calls leave it, the bytes and the count of frees alone. -/
theorem remove_regions_absent (va i : Nat) (direct : Bool) (hi : i < 512)
    (hva : va % 2 ^ 12 = 0) (h64 : va + 2 ^ 12 < 2 ^ 64) (L : List (Nat × Nat)) :
    ∀ (m : Machine) (pte : PteTable), pte_present (pte i) = false →
      (∀ r ∈ L, va ≤ r.1 ∧ r.1 < r.2 ∧ r.2 ≤ va + 2 ^ 12) →
      ∃ m', remove_regions m pte i direct L = .ok (pte, m') ∧ m'.bytes = m.bytes ∧
        ∀ page, m'.freed page = m.freed page := by
  induction L with
  | nil => intro m pte _ _; exact ⟨m, rfl, rfl, fun _ => rfl⟩
  | cons r rest ih =>
    intro m pte hp hL
    obtain ⟨q1, q2, q3⟩ := hL r (List.mem_cons_self _ _)
    rw [remove_regions, remove_pte_absent m pte i va r.1 r.2 direct hi hp hva q1 q2 q3 h64]
    obtain ⟨m', k1, k2, k3⟩ := ih (m.log .flush_tlb_all) pte hp
      (fun r' hr' => hL r' (List.mem_cons_of_mem _ hr'))
    refine ⟨m', k1, k2, ?_⟩
    intro page
    rw [k3 page, freed_log]
    rfl

theorem all_bytes_iff (bytes : Nat → Nat) (c : Nat) :
    ∀ (len pa : Nat), all_bytes bytes c len pa = true ↔ ∀ b, b < len → bytes (pa + b) = c := by
  intro len
  induction len with
  | zero => intro pa; simp [all_bytes]
  | succ k ih =>
    intro pa
    rw [all_bytes, Bool.and_eq_true, beq_iff_eq, ih]
    constructor
    · rintro ⟨h0, h1⟩ b hb
      cases b with
      | zero => exact h0
      | succ b =>
        have := h1 b (by omega)
        rw [show pa + (b + 1) = pa + 1 + b by omega]
        exact this
    · intro h
      refine ⟨h 0 (by omega), fun b hb => ?_⟩
      have := h (b + 1) (by omega)
      rw [show pa + (b + 1) = pa + 1 + b by omega] at this
      exact this

theorem memchr_inv_null_iff (m : Machine) (pa c len : Nat) :
    m.memchr_inv_null pa c len = true ↔ ∀ b, b < len → m.bytes (pa + b) = c :=
  all_bytes_iff m.bytes c len pa

theorem memchr_log (m : Machine) (e : Event) (pa c len : Nat) :
    (m.log e).memchr_inv_null pa c len = m.memchr_inv_null pa c len := rfl

theorem memchr_of_bytes {m m' : Machine} (h : m'.bytes = m.bytes) (pa c len : Nat) :
    m'.memchr_inv_null pa c len = m.memchr_inv_null pa c len := by
  unfold Machine.memchr_inv_null; rw [h]

theorem remove_regions_spec (va i : Nat) (direct : Bool) (hi : i < 512)
    (hva : va % 2 ^ 12 = 0) (h64 : va + 2 ^ 12 < 2 ^ 64) (e : Nat)
    (he : pte_present e = true) (L : List (Nat × Nat)) :
    ∀ (m : Machine) (pte : PteTable), pte i = e →
      (∀ r ∈ L, va ≤ r.1 ∧ r.1 < r.2 ∧ r.2 ≤ va + 2 ^ 12 ∧ (r.1 ≠ va ∨ r.2 ≠ va + 2 ^ 12)) →
      ∃ pte' m', remove_regions m pte i direct L = .ok (pte', m') ∧
        ((m'.freed (pte_page e) = m.freed (pte_page e) ∧ pte' i = e ∧
            (∀ b, b < 2 ^ 12 →
              ((∃ r ∈ L, r.1 ≤ va + b ∧ va + b < r.2) ∨
                m.bytes (pte_page e * PAGE_SIZE + b) = PAGE_INUSE) →
              m'.bytes (pte_page e * PAGE_SIZE + b) = PAGE_INUSE) ∧
            (L ≠ [] →
              m'.memchr_inv_null (pte_page e * PAGE_SIZE) PAGE_INUSE PAGE_SIZE = false)) ∨
          (m'.freed (pte_page e) = m.freed (pte_page e) + 1 ∧ pte' i = 0 ∧
            m'.memchr_inv_null (pte_page e * PAGE_SIZE) PAGE_INUSE PAGE_SIZE = true)) := by
  induction L with
  | nil =>
    intro m pte hpe _
    refine ⟨pte, m, rfl, Or.inl ⟨rfl, hpe, ?_, fun h => absurd rfl h⟩⟩
    intro b _ hb
    rcases hb with ⟨r, hr, _⟩ | hb
    · exact absurd hr (List.not_mem_nil _)
    · exact hb
  | cons r rest ih =>
    intro m pte hpe hL
    obtain ⟨q1, q2, q3, q4⟩ := hL r (List.mem_cons_self _ _)
    have hrest : ∀ r' ∈ rest, va ≤ r'.1 ∧ r'.1 < r'.2 ∧ r'.2 ≤ va + 2 ^ 12 ∧
        (r'.1 ≠ va ∨ r'.2 ≠ va + 2 ^ 12) := fun r' hr' => hL r' (List.mem_cons_of_mem _ hr')
    have hp : pte_present (pte i) = true := by rw [hpe]; exact he
    rw [remove_regions, remove_pte_partial m pte i va r.1 r.2 direct hi hp hva q1 q2 q3 q4 h64,
      hpe]
    have hbytes : ∀ b, b < 2 ^ 12 →
        (m.memset (pte_pfn e * PAGE_SIZE + (r.1 - va)) PAGE_INUSE (r.2 - r.1)).bytes
          (pte_page e * PAGE_SIZE + b) =
        if r.1 ≤ va + b ∧ va + b < r.2 then PAGE_INUSE
        else m.bytes (pte_page e * PAGE_SIZE + b) := by
      intro b hb
      unfold Machine.memset pte_page
      simp only
      by_cases hc : r.1 ≤ va + b ∧ va + b < r.2
      · rw [if_pos hc, if_pos (by omega)]
      · rw [if_neg hc, if_neg (by omega)]
    by_cases hscan : (m.memset (pte_pfn e * PAGE_SIZE + (r.1 - va)) PAGE_INUSE
        (r.2 - r.1)).memchr_inv_null (pte_page e * PAGE_SIZE) PAGE_INUSE PAGE_SIZE = true
    · -- the page is all sentinel: freed now, and the remaining calls find the slot empty
      rw [if_pos hscan]
      simp only
      obtain ⟨m', k1, k2, k3⟩ := remove_regions_absent va i direct hi hva h64 rest
        (((free_pagetable (m.memset (pte_pfn e * PAGE_SIZE + (r.1 - va)) PAGE_INUSE (r.2 - r.1))
          (pte_page e) 0 direct).log (.set_pte e 0)).log .flush_tlb_all)
        (Function.update pte i 0) (by rw [Function.update_same]; decide)
        (fun r' hr' => ⟨(hrest r' hr').1, (hrest r' hr').2.1, (hrest r' hr').2.2.1⟩)
      refine ⟨_, m', k1, Or.inr ⟨?_, Function.update_same _ _ _, ?_⟩⟩
      · rw [k3, freed_log, freed_log, free_pagetable, freed_log, freed_memset]
        simp
      · rw [memchr_of_bytes k2]
        exact hscan
    · -- some byte is not the sentinel yet: nothing is freed
      rw [if_neg hscan]
      simp only
      have hscan' : (m.memset (pte_pfn e * PAGE_SIZE + (r.1 - va)) PAGE_INUSE
          (r.2 - r.1)).memchr_inv_null (pte_page e * PAGE_SIZE) PAGE_INUSE PAGE_SIZE = false := by
        simpa using hscan
      obtain ⟨pte', m', k1, k2⟩ := ih
        ((m.memset (pte_pfn e * PAGE_SIZE + (r.1 - va)) PAGE_INUSE (r.2 - r.1)).log
          .flush_tlb_all) pte hpe hrest
      refine ⟨pte', m', k1, ?_⟩
      rcases k2 with ⟨a1, a2, a3, a4⟩ | ⟨b1, b2, b3⟩
      · left
        refine ⟨?_, a2, ?_, ?_⟩
        · rw [a1, freed_log, freed_memset]
          rfl
        · intro b hb hcov
          apply a3 b hb
          rcases hcov with ⟨r', hr', c1, c2⟩ | hcov
          · rcases List.mem_cons.mp hr' with h | h
            · right
              show (m.memset _ _ _).bytes _ = _
              rw [hbytes b hb, if_pos (by rw [← h]; exact ⟨c1, c2⟩)]
            · exact Or.inl ⟨r', h, c1, c2⟩
          · right
            show (m.memset _ _ _).bytes _ = _
            rw [hbytes b hb]
            split
            · rfl
            · exact hcov
        · intro _
          by_cases hr : rest = []
          · subst hr
            simp only [remove_regions, Except.ok.injEq, Prod.mk.injEq] at k1
            rw [← k1.2, memchr_log]
            exact hscan'
          · exact a4 hr
      · right
        refine ⟨?_, b2, b3⟩
        rw [b1, freed_log, freed_memset]
        rfl

/-- C6: a leaf page is shared by sub-page regions that are removed by partial-range calls of
`remove_pte_table`, in any order and number.  As long as any byte of the page differs from the
fill value `0xFD` the page has not been freed and its leaf entry has not been cleared; the page
is freed at most once; and once the removed regions cover the page it has been freed exactly
once and the entry is empty. -/
theorem C6_shared_page_freed_once (m : Machine) (pte : PteTable) (i va : Nat) (direct : Bool)
    (L : List (Nat × Nat)) (hi : i < PTRS_PER_PTE) (hp : pte_present (pte i) = true)
    (hva : va % PAGE_SIZE = 0) (h64 : va + PAGE_SIZE < 2 ^ 64)
    (hL : ∀ r ∈ L, va ≤ r.1 ∧ r.1 < r.2 ∧ r.2 ≤ va + PAGE_SIZE ∧
      (r.1 ≠ va ∨ r.2 ≠ va + PAGE_SIZE)) :
    ∃ pte' m', remove_regions m pte i direct L = .ok (pte', m') ∧
      ((∃ b, b < PAGE_SIZE ∧ m'.bytes (pte_page (pte i) * PAGE_SIZE + b) ≠ PAGE_INUSE) →
        m'.freed (pte_page (pte i)) = m.freed (pte_page (pte i)) ∧ pte' i = pte i) ∧
      m'.freed (pte_page (pte i)) ≤ m.freed (pte_page (pte i)) + 1 ∧
      ((∀ b, b < PAGE_SIZE → ∃ r ∈ L, r.1 ≤ va + b ∧ va + b < r.2) →
        m'.freed (pte_page (pte i)) = m.freed (pte_page (pte i)) + 1 ∧ pte' i = 0) := by
  unfold PTRS_PER_PTE at hi
  unfold PAGE_SIZE at hva h64 hL
  obtain ⟨pte', m', h1, h2⟩ := remove_regions_spec va i direct hi hva h64 (pte i) hp L m pte rfl
    hL
  refine ⟨pte', m', h1, ?_⟩
  rcases h2 with ⟨a1, a2, a3, a4⟩ | ⟨b1, b2, b3⟩
  · refine ⟨fun _ => ⟨a1, a2⟩, by omega, ?_⟩
    intro hcov
    exfalso
    have hne : L ≠ [] := by
      obtain ⟨r, hr, _⟩ := hcov 0 (by decide)
      exact List.ne_nil_of_mem hr
    have hall : m'.memchr_inv_null (pte_page (pte i) * PAGE_SIZE) PAGE_INUSE PAGE_SIZE = true := by
      rw [memchr_inv_null_iff]
      intro b hb
      exact a3 b hb (Or.inl (hcov b hb))
    rw [a4 hne] at hall
    exact Bool.false_ne_true hall
  · refine ⟨?_, by omega, fun _ => ⟨b1, b2⟩⟩
    rintro ⟨b, hb, hne⟩
    exfalso
    rw [memchr_inv_null_iff] at b3
    exact hne (b3 b hb)

theorem C6_shared_page_freed_once_witness :
    pte_present (one_page_table 0) = true ∧
    ∃ pte' m', remove_regions boot_machine one_page_table 0 false
        [(0xffffffbdc0000000, 0xffffffbdc0000800), (0xffffffbdc0000800, 0xffffffbdc0001000)] =
        .ok (pte', m') ∧
      ((∃ b, b < PAGE_SIZE ∧
          m'.bytes (pte_page (one_page_table 0) * PAGE_SIZE + b) ≠ PAGE_INUSE) →
        m'.freed (pte_page (one_page_table 0)) = boot_machine.freed (pte_page (one_page_table 0)) ∧
          pte' 0 = one_page_table 0) ∧
      m'.freed (pte_page (one_page_table 0)) ≤
        boot_machine.freed (pte_page (one_page_table 0)) + 1 ∧
      ((∀ b, b < PAGE_SIZE → ∃ r ∈
          [(0xffffffbdc0000000, 0xffffffbdc0000800), (0xffffffbdc0000800, 0xffffffbdc0001000)],
          r.1 ≤ 0xffffffbdc0000000 + b ∧ 0xffffffbdc0000000 + b < r.2) →
        m'.freed (pte_page (one_page_table 0)) =
          boot_machine.freed (pte_page (one_page_table 0)) + 1 ∧ pte' 0 = 0) :=
  ⟨by decide,
    C6_shared_page_freed_once boot_machine one_page_table 0 0xffffffbdc0000000 false
      [(0xffffffbdc0000000, 0xffffffbdc0000800), (0xffffffbdc0000800, 0xffffffbdc0001000)]
      (by decide) (by decide) (by decide) (by decide)
      (by
        intro r hr
        simp only [List.mem_cons, List.mem_singleton, List.not_mem_nil, or_false] at hr
        rcases hr with rfl | rfl <;> decide)⟩

theorem present_of_odd (v : Nat) (h : v % 2 = 1) : pte_present v = true := by
  unfold pte_present
  simp only [bne_iff_ne, ne_eq]
  intro h0
  have h1 : (v &&& (PTE_VALID ||| PTE_PROT_NONE)).testBit 0 = true := by
    rw [Nat.testBit_land]
    have hv : v.testBit 0 = true := by
      rw [Nat.testBit_zero]; exact decide_eq_true h
    rw [hv]; decide
  rw [h0] at h1
  simp at h1

theorem for_loop_stop {E : Type} (addr_end : Nat → Nat → Nat)
    (step : Machine → E → Nat → Nat → Except Halt (E × Machine)) (room : Nat) (m : Machine)
    (tbl : Nat → E) (i n : Nat) : for_loop addr_end step room m tbl i n n = .ok (tbl, m) := by
  cases room <;> simp [for_loop]

theorem for_loop_range {E : Type} {addr_end : Nat → Nat → Nat} {c base bnd : Nat → Nat}
    (hcut : Cut addr_end c base bnd)
    (step : Machine → E → Nat → Nat → Except Halt (E × Machine)) :
    ∀ (room : Nat) (m : Machine) (tbl : Nat → E) (i a n p : Nat), a < n → n < 2 ^ 64 →
      for_loop addr_end step room m tbl i a n =
        range_loop addr_end (fun m e a n _ => step m e a n) room m tbl i a n p := by
  intro room
  induction room with
  | zero => intro m tbl i a n p h _; simp [for_loop, range_loop, h]
  | succ r ih =>
    intro m tbl i a n p hlt hn
    rw [for_loop, range_loop, if_pos hlt]
    have hae := hcut.addr_end_eq a n hlt hn
    have hlb := hcut.lt_bnd a
    cases hs : step m (tbl i) a (addr_end a n) with
    | error h => rfl
    | ok r1 =>
      obtain ⟨e, m1⟩ := r1
      simp only []
      by_cases hb : bnd a < n
      · rw [if_pos hb] at hae
        have hne : (addr_end a n != n) = true := by
          simp only [bne_iff_ne, ne_eq]; omega
        rw [if_pos hne]
        exact ih _ _ _ _ _ _ (by omega) hn
      · rw [if_neg hb] at hae
        have hne : ¬ ((addr_end a n != n) = true) := by
          simp only [bne_iff_ne, ne_eq, not_not]; exact hae
        rw [if_neg hne, hae, for_loop_stop]

theorem remove_pmd_table_loop_eq (direct : Bool) :
    ∀ (room : Nat) (m : Machine) (pmd : PmdTable) (i a n : Nat),
      remove_pmd_table_loop room m pmd i a n direct =
        for_loop pmd_addr_end (fun m e a n =>
          if !pmd_present e.val then .ok (e, m) else remove_pmd_table_body m e a n direct)
          room m pmd i a n := by
  intro room
  induction room with
  | zero => intro m pmd i a n; rw [remove_pmd_table_loop, for_loop]
  | succ r ih =>
    intro m pmd i a n
    rw [remove_pmd_table_loop, for_loop]
    by_cases hlt : a < n
    · rw [if_pos hlt, if_pos hlt]
      by_cases hp : (!pmd_present (pmd i).val) = true
      · simp only [hp, if_true, Function.update_eq_self]
        exact ih _ _ _ _ _
      · simp only [hp, if_false]
        cases remove_pmd_table_body m (pmd i) a (pmd_addr_end a n) direct with
        | error h => rfl
        | ok r1 => exact ih _ _ _ _ _
    · rw [if_neg hlt, if_neg hlt]

theorem remove_pud_table_loop_eq (direct : Bool) :
    ∀ (room : Nat) (m : Machine) (pud : PudTable) (i a n : Nat),
      remove_pud_table_loop room m pud i a n direct =
        for_loop pud_addr_end (fun m e a n =>
          if !pud_present e.val then .ok (e, m) else remove_pud_table_body m e a n direct)
          room m pud i a n := by
  intro room
  induction room with
  | zero => intro m pud i a n; rw [remove_pud_table_loop, for_loop]
  | succ r ih =>
    intro m pud i a n
    rw [remove_pud_table_loop, for_loop]
    by_cases hlt : a < n
    · rw [if_pos hlt, if_pos hlt]
      by_cases hp : (!pud_present (pud i).val) = true
      · simp only [hp, if_true, Function.update_eq_self]
        exact ih _ _ _ _ _
      · simp only [hp, if_false]
        cases remove_pud_table_body m (pud i) a (pud_addr_end a n) direct with
        | error h => rfl
        | ok r1 => exact ih _ _ _ _ _
    · rw [if_neg hlt, if_neg hlt]

theorem remove_pte_loop_aligned (direct : Bool) (k : Nat) :
    ∀ (room : Nat) (m : Machine) (t : PteTable) (i a : Nat),
      a % 2 ^ 12 = 0 → a + k * 2 ^ 12 < 2 ^ 64 → k ≤ room →
      ∃ m', remove_pte_table_loop room m t i a (a + k * 2 ^ 12) direct =
          .ok (fun j => if (i ≤ j ∧ j < i + k) ∧ pte_present (t j) = true then 0 else t j, m') ∧
        m.ext m' := by
  induction k with
  | zero =>
    intro room m t i a _ _ _
    refine ⟨m, ?_, Machine.ext_refl m⟩
    have ht : (fun j => if (i ≤ j ∧ j < i + 0) ∧ pte_present (t j) = true then 0 else t j) = t := by
      funext j
      rw [if_neg (by omega)]
    rw [ht]
    cases room <;> simp [remove_pte_table_loop]
  | succ k ih =>
    intro room m t i a ha h64 hroom
    obtain ⟨r, rfl⟩ : ∃ r, room = r + 1 := ⟨room - 1, by omega⟩
    have hlt : a < a + (k + 1) * 2 ^ 12 := by omega
    have e1 : add64 a PAGE_SIZE = a + 2 ^ 12 := by
      unfold add64 PAGE_SIZE; exact Nat.mod_eq_of_lt (by omega)
    have e2 : (a + 2 ^ 12) &&& PAGE_MASK = a + 2 ^ 12 := by
      unfold PAGE_MASK
      rw [land_mask_hi _ 12 (by omega) (by norm_num)]
      omega
    have hn : (if add64 a PAGE_SIZE &&& PAGE_MASK > a + (k + 1) * 2 ^ 12 then a + (k + 1) * 2 ^ 12
        else add64 a PAGE_SIZE &&& PAGE_MASK) = a + 2 ^ 12 := by
      rw [e1, e2]
      split
      · omega
      · rfl
    have hend : a + (k + 1) * 2 ^ 12 = (a + 2 ^ 12) + k * 2 ^ 12 := by ring
    rw [remove_pte_table_loop, if_pos hlt]
    simp only [hn]
    have hal1 : PAGE_ALIGNED a = true := (page_aligned_iff a).2 ha
    have hal2 : PAGE_ALIGNED (a + 2 ^ 12) = true := (page_aligned_iff _).2 (by omega)
    by_cases hp : pte_present (t i) = true
    · simp only [hp, Bool.not_true, Bool.false_eq_true, if_false, hal1, hal2, Bool.and_self,
        if_true]
      rw [hend]
      obtain ⟨m', h1, h2⟩ := ih r
        ((if (!direct) = true then free_pagetable m (pte_page (t i)) 0 direct else m).log
          (.set_pte (t i) 0)) (Function.update t i 0) (i + 1) (a + 2 ^ 12)
        (by omega) (by omega) (by omega)
      refine ⟨m', ?_, ?_⟩
      · rw [h1]
        have hf : (fun j => if (i + 1 ≤ j ∧ j < i + 1 + k) ∧
              pte_present (Function.update t i 0 j) = true then 0 else Function.update t i 0 j) =
            (fun j => if (i ≤ j ∧ j < i + (k + 1)) ∧ pte_present (t j) = true then 0 else t j) := by
          funext j
          by_cases hj : j = i
          · subst hj
            rw [Function.update_same, if_neg (by omega), if_pos ⟨by omega, hp⟩]
          · rw [Function.update_noteq hj]
            by_cases hc : (i + 1 ≤ j ∧ j < i + 1 + k) ∧ pte_present (t j) = true
            · rw [if_pos hc, if_pos ⟨by omega, hc.2⟩]
            · rw [if_neg hc, if_neg (by intro h; exact hc ⟨by omega, h.2⟩)]
        rw [hf]
      · refine Machine.ext_trans ?_ h2
        refine Machine.ext_trans ?_ (Machine.ext_log _ _)
        split
        · exact Machine.ext_log _ _
        · exact Machine.ext_refl _
    · simp only [hp, Bool.not_false, if_true]
      rw [hend]
      obtain ⟨m', h1, h2⟩ := ih r m t (i + 1) (a + 2 ^ 12) (by omega) (by omega) (by omega)
      refine ⟨m', ?_, h2⟩
      rw [h1]
      have hf : (fun j => if (i + 1 ≤ j ∧ j < i + 1 + k) ∧ pte_present (t j) = true then 0
            else t j) =
          (fun j => if (i ≤ j ∧ j < i + (k + 1)) ∧ pte_present (t j) = true then 0 else t j) := by
        funext j
        by_cases hj : j = i
        · subst hj
          rw [if_neg (by omega), if_neg (by intro h; exact hp h.2)]
        · by_cases hc : (i + 1 ≤ j ∧ j < i + 1 + k) ∧ pte_present (t j) = true
          · rw [if_pos hc, if_pos ⟨by omega, hc.2⟩]
          · rw [if_neg hc, if_neg (by intro h; exact hc ⟨by omega, h.2⟩)]
      rw [hf]

theorem remove_pte_table_aligned (direct : Bool) (m : Machine) (t : PteTable) (a n : Nat)
    (ha : a % 2 ^ 12 = 0) (hn : n % 2 ^ 12 = 0) (hle : a ≤ n)
    (hb : n ≤ a / 2 ^ 21 * 2 ^ 21 + 2 ^ 21) (h64 : n < 2 ^ 64) :
    ∃ m', remove_pte_table m t (pte_index a) a n direct = .ok (rm_pte t a n, m') ∧ m.ext m' := by
  have hi := pte_index_eq a
  obtain ⟨m', h1, h2⟩ := remove_pte_loop_aligned direct ((n - a) / 2 ^ 12)
    (PTRS_PER_PTE - pte_index a) m t (pte_index a) a ha (by omega)
    (by unfold PTRS_PER_PTE; omega)
  have hk : a + (n - a) / 2 ^ 12 * 2 ^ 12 = n := by omega
  rw [hk] at h1
  refine ⟨m'.log .flush_tlb_all, ?_, Machine.ext_trans h2 (Machine.ext_log _ _)⟩
  rw [remove_pte_table, h1]
  rfl

theorem rm_pte_Q (Q : Nat → Prop) (hQ0 : Q 0) (t : PteTable) (a n : Nat) (h : ∀ j, Q (t j))
    (j : Nat) : Q (rm_pte t a n j) := by
  unfold rm_pte
  split
  · exact hQ0
  · exact h j

theorem remove_pmd_body_aligned (Q : Nat → Prop) (hQ0 : Q 0) (direct : Bool) (m : Machine)
    (e : PmdEnt) (a n : Nat) (hwf : e.WF Q) (ha : a % 2 ^ 12 = 0) (hn : n % 2 ^ 12 = 0)
    (hlt : a < n) (hb : n ≤ a / 2 ^ 21 * 2 ^ 21 + 2 ^ 21) (h64 : n < 2 ^ 64) :
    ∃ m', (if !pmd_present e.val then .ok (e, m) else remove_pmd_table_body m e a n direct) =
        .ok (rm_pmd_slot e a n, m') ∧ m.ext m' ∧ (rm_pmd_slot e a n).WF Q := by
  rcases hwf with h0 | h1 | ⟨h2, h3⟩
  · have h0' : e.val = 0 := by simpa [pmd_none_eq] using h0
    have hp : pmd_present e.val = false := by rw [h0']; decide
    refine ⟨m, ?_, Machine.ext_refl m, ?_⟩
    · simp only [hp, Bool.not_false, if_true, rm_pmd_slot]
    · simp only [rm_pmd_slot, hp, if_true]; exact Or.inl h0
  · have h1' : e.val % 4 = 1 := by simpa [pmd_sect_eq] using h1
    have hp : pmd_present e.val = true := present_of_odd _ (by omega)
    have hal1 : PAGE_ALIGNED a = true := (page_aligned_iff a).2 ha
    have hal2 : PAGE_ALIGNED n = true := (page_aligned_iff n).2 hn
    refine ⟨(if (!direct) = true then free_pagetable m (pmd_page e.val) (get_order PMD_SIZE) direct
      else m).log (.set_pmd e.val 0), ?_, ?_, ?_⟩
    · simp only [hp, Bool.not_true, Bool.false_eq_true, if_false, remove_pmd_table_body, h1,
        if_true, hal1, hal2, Bool.and_self, rm_pmd_slot, Bool.true_eq_false]
    · refine Machine.ext_trans ?_ (Machine.ext_log _ _)
      split
      · exact Machine.ext_log _ _
      · exact Machine.ext_refl _
    · simp only [rm_pmd_slot, hp, Bool.true_eq_false, if_false, h1, if_true]; exact Or.inl rfl
  · have h2' : e.val % 4 = 3 := by simpa [pmd_table_eq] using h2
    have hp : pmd_present e.val = true := present_of_odd _ (by omega)
    have hs : pmd_sect e.val = false := by rw [pmd_sect_eq]; exact decide_eq_false (by omega)
    obtain ⟨m1, r1, r2⟩ := remove_pte_table_aligned direct m e.tbl a n ha hn (le_of_lt hlt) hb h64
    by_cases hall : (List.range PTRS_PER_PTE).all (fun i => pte_none (rm_pte e.tbl a n i)) = true
    · refine ⟨(free_pagetable m1 (pmd_page e.val) 0 direct).log (.set_pmd e.val 0), ?_, ?_, ?_⟩
      · simp only [hp, Bool.not_true, Bool.false_eq_true, if_false, remove_pmd_table_body, hs,
          h2, r1, free_pte_table, hall, if_true, rm_pmd_slot, Bool.true_eq_false]
      · exact Machine.ext_trans r2 (Machine.ext_trans (Machine.ext_log _ _)
          (Machine.ext_log _ _))
      · simp only [rm_pmd_slot, hp, Bool.true_eq_false, if_false, hs, hall, if_true]
        exact Or.inl rfl
    · refine ⟨m1, ?_, r2, ?_⟩
      · simp only [hp, Bool.not_true, Bool.false_eq_true, if_false, remove_pmd_table_body, hs,
          h2, r1, free_pte_table, hall, rm_pmd_slot, Bool.true_eq_false]
      · simp only [rm_pmd_slot, hp, Bool.true_eq_false, if_false, hs, hall,
          Bool.false_eq_true]
        exact Or.inr (Or.inr ⟨h2, rm_pte_Q Q hQ0 _ _ _ h3⟩)

theorem remove_pmd_table_aligned (Q : Nat → Prop) (hQ0 : Q 0) (direct : Bool) (m : Machine)
    (t : PmdTable) (a n : Nat) (hwf : ∀ j, (t j).WF Q) (ha : a % 2 ^ 12 = 0)
    (hn : n % 2 ^ 12 = 0) (hlt : a < n) (hb : n ≤ a / 2 ^ 30 * 2 ^ 30 + 2 ^ 30)
    (h64 : n < 2 ^ 64) :
    ∃ m', remove_pmd_table m t (pmd_index a) a n direct = .ok (rm_pmd t a n, m') ∧ m.ext m' ∧
      ∀ j, (rm_pmd t a n j).WF Q := by
  have hidx := pmd_index_eq a
  have hA : Aligned a n 0 := ⟨ha, hn, rfl, by omega⟩
  obtain ⟨tbl', m', r1, r2, r3, r4, r5⟩ := range_loop_spec cut_pmd
    (fun m e a n _ =>
      if !pmd_present e.val then .ok (e, m) else remove_pmd_table_body m e a n direct)
    (fun _ => True) (PmdEnt.WF Q) Aligned (fun a n _ e e' => e' = rm_pmd_slot e a n ∧ e'.WF Q)
    (fun a n p h => h.2.2.2) aligned_step21 (fun _ _ _ _ => trivial)
    (fun _ _ _ _ _ h => h.2)
    (fun m e a n p _ he han hn hn64 hA => by
      obtain ⟨m', h1, h2, h3⟩ := remove_pmd_body_aligned Q hQ0 direct m e a n he hA.1 hA.2.1
        han hn hn64
      exact ⟨_, m', h1, h2, rfl, h3⟩)
    (PTRS_PER_PMD - pmd_index a) m t (pmd_index a) a n 0 trivial hwf hlt h64
    (by show (n - 1) / 2 ^ 21 - a / 2 ^ 21 < PTRS_PER_PMD - pmd_index a
        unfold PTRS_PER_PMD; omega) hA
  have ht : tbl' = rm_pmd t a n := by
    funext j
    unfold rm_pmd
    by_cases hj : in_slots (2 ^ 21) (pmd_index a) a n j
    · rw [if_pos hj]
      unfold in_slots at hj
      have hx := (r5 (slot_lo (2 ^ 21) (pmd_index a) a j) (by unfold slot_lo; omega)
        (by unfold slot_lo; omega)).1
      have e1 : pmd_index a + (slot_lo (2 ^ 21) (pmd_index a) a j / 2 ^ 21 - a / 2 ^ 21) = j := by
        unfold slot_lo; omega
      have e2 : max a (slot_lo (2 ^ 21) (pmd_index a) a j / 2 ^ 21 * 2 ^ 21) =
          slot_lo (2 ^ 21) (pmd_index a) a j := by unfold slot_lo; omega
      have e3 : min n (slot_lo (2 ^ 21) (pmd_index a) a j / 2 ^ 21 * 2 ^ 21 + 2 ^ 21) =
          slot_hi (2 ^ 21) (pmd_index a) a n j := by unfold slot_lo slot_hi; omega
      simp only [e1, e2, e3] at hx
      exact hx
    · rw [if_neg hj]
      unfold in_slots at hj
      exact r4 j (by show j < pmd_index a ∨ pmd_index a + ((n - 1) / 2 ^ 21 - a / 2 ^ 21) < j
                     omega)
  subst ht
  refine ⟨m', ?_, r2, r3⟩
  rw [remove_pmd_table, remove_pmd_table_loop_eq,
    for_loop_range cut_pmd _ _ _ _ _ _ _ 0 hlt h64]
  exact r1

theorem remove_pud_body_aligned (Q : Nat → Prop) (hQ0 : Q 0) (direct : Bool) (m : Machine)
    (e : PudEnt) (a n : Nat) (hwf : e.WF Q) (ha : a % 2 ^ 12 = 0) (hn : n % 2 ^ 12 = 0)
    (hlt : a < n) (hb : n ≤ a / 2 ^ 30 * 2 ^ 30 + 2 ^ 30) (h64 : n < 2 ^ 64) :
    ∃ m', (if !pud_present e.val then .ok (e, m) else remove_pud_table_body m e a n direct) =
        .ok (rm_pud_slot e a n, m') ∧ m.ext m' ∧ (rm_pud_slot e a n).WF Q := by
  rcases hwf with h0 | h1 | ⟨h2, h3⟩
  · have h0' : e.val = 0 := by simpa [pud_none_eq] using h0
    have hp : pud_present e.val = false := by rw [h0']; decide
    refine ⟨m, ?_, Machine.ext_refl m, ?_⟩
    · simp only [hp, Bool.not_false, if_true, rm_pud_slot]
    · simp only [rm_pud_slot, hp, if_true]; exact Or.inl h0
  · have h1' : e.val % 4 = 1 := by simpa [pud_sect_eq] using h1
    have hp : pud_present e.val = true := by
      unfold pud_present; simp only [bne_iff_ne, ne_eq]; omega
    have hal1 : PAGE_ALIGNED a = true := (page_aligned_iff a).2 ha
    have hal2 : PAGE_ALIGNED n = true := (page_aligned_iff n).2 hn
    refine ⟨(if (!direct) = true then free_pagetable m (pud_page e.val) (get_order PUD_SIZE) direct
      else m).log (.set_pud e.val 0), ?_, ?_, ?_⟩
    · simp only [hp, Bool.not_true, Bool.false_eq_true, if_false, remove_pud_table_body, h1,
        if_true, hal1, hal2, Bool.and_self, rm_pud_slot, Bool.true_eq_false]
    · refine Machine.ext_trans ?_ (Machine.ext_log _ _)
      split
      · exact Machine.ext_log _ _
      · exact Machine.ext_refl _
    · simp only [rm_pud_slot, hp, Bool.true_eq_false, if_false, h1, if_true]; exact Or.inl rfl
  · have h2' : e.val % 4 = 3 := by simpa [pud_table_eq] using h2
    have hp : pud_present e.val = true := by
      unfold pud_present; simp only [bne_iff_ne, ne_eq]; omega
    have hs : pud_sect e.val = false := by rw [pud_sect_eq]; exact decide_eq_false (by omega)
    obtain ⟨m1, r1, r2, r3⟩ := remove_pmd_table_aligned Q hQ0 direct m e.tbl a n h3 ha hn hlt hb
      h64
    by_cases hall : (List.range PTRS_PER_PMD).all (fun i => pmd_none (rm_pmd e.tbl a n i).val)
        = true
    · refine ⟨(free_pagetable m1 (pud_page e.val) 0 direct).log (.set_pud e.val 0), ?_, ?_, ?_⟩
      · simp only [hp, Bool.not_true, Bool.false_eq_true, if_false, remove_pud_table_body, hs,
          h2, r1, free_pmd_table, hall, if_true, rm_pud_slot, Bool.true_eq_false]
      · exact Machine.ext_trans r2 (Machine.ext_trans (Machine.ext_log _ _)
          (Machine.ext_log _ _))
      · simp only [rm_pud_slot, hp, Bool.true_eq_false, if_false, hs, hall, if_true]
        exact Or.inl rfl
    · refine ⟨m1, ?_, r2, ?_⟩
      · simp only [hp, Bool.not_true, Bool.false_eq_true, if_false, remove_pud_table_body, hs,
          h2, r1, free_pmd_table, hall, rm_pud_slot, Bool.true_eq_false]
      · simp only [rm_pud_slot, hp, Bool.true_eq_false, if_false, hs, hall,
          Bool.false_eq_true]
        exact Or.inr (Or.inr ⟨h2, r3⟩)

theorem remove_pud_table_aligned (Q : Nat → Prop) (hQ0 : Q 0) (direct : Bool) (m : Machine)
    (t : PudTable) (a n : Nat) (hwf : ∀ j, (t j).WF Q) (ha : a % 2 ^ 12 = 0)
    (hn : n % 2 ^ 12 = 0) (hlt : a < n) (hb : n ≤ a / 2 ^ 39 * 2 ^ 39 + 2 ^ 39)
    (h64 : n < 2 ^ 64) :
    ∃ m', remove_pud_table m t (pud_index a) a n direct = .ok (rm_pud t a n, m') ∧ m.ext m' ∧
      ∀ j, (rm_pud t a n j).WF Q := by
  have hidx := pud_index_eq a
  have hA : Aligned a n 0 := ⟨ha, hn, rfl, by omega⟩
  obtain ⟨tbl', m', r1, r2, r3, r4, r5⟩ := range_loop_spec cut_pud
    (fun m e a n _ =>
      if !pud_present e.val then .ok (e, m) else remove_pud_table_body m e a n direct)
    (fun _ => True) (PudEnt.WF Q) Aligned (fun a n _ e e' => e' = rm_pud_slot e a n ∧ e'.WF Q)
    (fun a n p h => h.2.2.2) aligned_step30 (fun _ _ _ _ => trivial)
    (fun _ _ _ _ _ h => h.2)
    (fun m e a n p _ he han hn hn64 hA => by
      obtain ⟨m', h1, h2, h3⟩ := remove_pud_body_aligned Q hQ0 direct m e a n he hA.1 hA.2.1
        han hn hn64
      exact ⟨_, m', h1, h2, rfl, h3⟩)
    (PTRS_PER_PUD - pud_index a) m t (pud_index a) a n 0 trivial hwf hlt h64
    (by show (n - 1) / 2 ^ 30 - a / 2 ^ 30 < PTRS_PER_PUD - pud_index a
        unfold PTRS_PER_PUD; omega) hA
  have ht : tbl' = rm_pud t a n := by
    funext j
    unfold rm_pud
    by_cases hj : in_slots (2 ^ 30) (pud_index a) a n j
    · rw [if_pos hj]
      unfold in_slots at hj
      have hx := (r5 (slot_lo (2 ^ 30) (pud_index a) a j) (by unfold slot_lo; omega)
        (by unfold slot_lo; omega)).1
      have e1 : pud_index a + (slot_lo (2 ^ 30) (pud_index a) a j / 2 ^ 30 - a / 2 ^ 30) = j := by
        unfold slot_lo; omega
      have e2 : max a (slot_lo (2 ^ 30) (pud_index a) a j / 2 ^ 30 * 2 ^ 30) =
          slot_lo (2 ^ 30) (pud_index a) a j := by unfold slot_lo; omega
      have e3 : min n (slot_lo (2 ^ 30) (pud_index a) a j / 2 ^ 30 * 2 ^ 30 + 2 ^ 30) =
          slot_hi (2 ^ 30) (pud_index a) a n j := by unfold slot_lo slot_hi; omega
      simp only [e1, e2, e3] at hx
      exact hx
    · rw [if_neg hj]
      unfold in_slots at hj
      exact r4 j (by show j < pud_index a ∨ pud_index a + ((n - 1) / 2 ^ 30 - a / 2 ^ 30) < j
                     omega)
  subst ht
  refine ⟨m', ?_, r2, r3⟩
  rw [remove_pud_table, remove_pud_table_loop_eq,
    for_loop_range cut_pud _ _ _ _ _ _ _ 0 hlt h64]
  exact r1

theorem remove_pgd_body_aligned (Q : Nat → Prop) (hQ0 : Q 0) (direct : Bool) (m : Machine)
    (e : PgdEnt) (a n : Nat) (hwf : e.WF Q) (ha : a % 2 ^ 12 = 0) (hn : n % 2 ^ 12 = 0)
    (hlt : a < n) (hb : n ≤ a / 2 ^ 39 * 2 ^ 39 + 2 ^ 39) (h64 : n < 2 ^ 64) :
    ∃ m', remove_pagetable_body m e a n direct = .ok (rm_pgd_slot e a n, m') ∧ m.ext m' ∧
      (rm_pgd_slot e a n).WF Q := by
  rcases hwf with h0 | ⟨h2, h3⟩
  · refine ⟨m, ?_, Machine.ext_refl m, ?_⟩
    · simp only [remove_pagetable_body, h0, if_true, rm_pgd_slot]
    · simp only [rm_pgd_slot, h0, if_true]; exact Or.inl h0
  · have h2' : ¬ e.val % 4 < 2 := by simpa [pgd_bad_eq] using h2
    have h0 : pgd_none e.val = false := by rw [pgd_none_eq]; exact decide_eq_false (by omega)
    obtain ⟨m1, r1, r2, r3⟩ := remove_pud_table_aligned Q hQ0 direct m e.tbl a n h3 ha hn hlt hb
      h64
    by_cases hall : (List.range PTRS_PER_PUD).all (fun i => pud_none (rm_pud e.tbl a n i).val)
        = true
    · refine ⟨(free_pagetable m1 (pgd_page e.val) 0 direct).log (.set_pgd e.val 0), ?_, ?_, ?_⟩
      · simp only [remove_pagetable_body, h0, Bool.false_eq_true, if_false, r1, free_pud_table,
          hall, if_true, rm_pgd_slot]
      · exact Machine.ext_trans r2 (Machine.ext_trans (Machine.ext_log _ _)
          (Machine.ext_log _ _))
      · simp only [rm_pgd_slot, h0, Bool.false_eq_true, if_false, hall, if_true]
        exact Or.inl rfl
    · refine ⟨m1, ?_, r2, ?_⟩
      · simp only [remove_pagetable_body, h0, Bool.false_eq_true, if_false, r1, free_pud_table,
          hall, rm_pgd_slot]
      · simp only [rm_pgd_slot, h0, Bool.false_eq_true, if_false, hall]
        exact Or.inr ⟨h2, r3⟩

theorem remove_pagetable_loop_stop (direct : Bool) (fuel : Nat) (m : Machine) (pgd : PgdTable)
    (n : Nat) : remove_pagetable_loop fuel m pgd n n direct = .ok (pgd, m) := by
  cases fuel <;> simp [remove_pagetable_loop]

theorem remove_pagetable_loop_range (direct : Bool) :
    ∀ (room fuel : Nat) (m : Machine) (pgd : PgdTable) (a n p : Nat), room ≤ fuel → a < n →
      n < 2 ^ 64 → (n - 1) / 2 ^ 39 - a / 2 ^ 39 < room → room ≤ 512 - pgd_index a →
      remove_pagetable_loop fuel m pgd a n direct =
        range_loop pgd_addr_end (fun m e a n _ => remove_pagetable_body m e a n direct)
          room m pgd (pgd_index a) a n p := by
  intro room
  induction room with
  | zero => intro _ _ _ _ _ _ _ _ _ h; exact absurd h (Nat.not_lt_zero _)
  | succ r ih =>
    intro fuel m pgd a n p hf hlt hn hroom hidx
    obtain ⟨f, rfl⟩ : ∃ f, fuel = f + 1 := ⟨fuel - 1, by omega⟩
    rw [remove_pagetable_loop, range_loop, if_pos hlt]
    dsimp only
    have hae := pgd_addr_end_eq a n hlt hn
    cases hs : remove_pagetable_body m (pgd (pgd_index a)) a (pgd_addr_end a n) direct with
    | error h => rfl
    | ok r1 =>
      obtain ⟨e, m1⟩ := r1
      simp only []
      by_cases hb : a / 2 ^ 39 * 2 ^ 39 + 2 ^ 39 < n
      · rw [if_pos hb] at hae
        have hne : (pgd_addr_end a n != n) = true := by
          simp only [bne_iff_ne, ne_eq]; omega
        rw [if_pos hne]
        have hi1 : pgd_index (pgd_addr_end a n) = pgd_index a + 1 := by
          rw [hae]
          have h1 := pgd_index_eq a
          have h2 := pgd_index_eq (a / 2 ^ 39 * 2 ^ 39 + 2 ^ 39)
          omega
        rw [← hi1]
        refine ih f _ _ _ _ _ ?_ ?_ hn ?_ ?_ <;> omega
      · rw [if_neg hb] at hae
        have hne : ¬ ((pgd_addr_end a n != n) = true) := by
          simp only [bne_iff_ne, ne_eq, not_not]; exact hae
        rw [if_neg hne, hae, remove_pagetable_loop_stop]

theorem remove_pagetable_aligned (Q : Nat → Prop) (hQ0 : Q 0) (direct : Bool) (m : Machine)
    (t : PgdTable) (a n : Nat) (hwf : WF Q t) (ha : a % 2 ^ 12 = 0)
    (hn : n % 2 ^ 12 = 0) (hlt : a < n) (hb : a / 2 ^ 48 = (n - 1) / 2 ^ 48)
    (h64 : n < 2 ^ 64) :
    ∃ m', remove_pagetable m t a n direct = .ok (rm_pgd t a n, m') ∧ m.ext m' ∧
      WF Q (rm_pgd t a n) := by
  have hidx := pgd_index_eq a
  have hA : Aligned a n 0 := ⟨ha, hn, rfl, by omega⟩
  obtain ⟨tbl', m', r1, r2, r3, r4, r5⟩ := range_loop_spec cut_pgd
    (fun m e a n _ => remove_pagetable_body m e a n direct)
    (fun _ => True) (PgdEnt.WF Q) Aligned (fun a n _ e e' => e' = rm_pgd_slot e a n ∧ e'.WF Q)
    (fun a n p h => h.2.2.2) aligned_step39 (fun _ _ _ _ => trivial)
    (fun _ _ _ _ _ h => h.2)
    (fun m e a n p _ he han hn hn64 hA => by
      obtain ⟨m', h1, h2, h3⟩ := remove_pgd_body_aligned Q hQ0 direct m e a n he hA.1 hA.2.1
        han hn hn64
      exact ⟨_, m', h1, h2, rfl, h3⟩)
    (512 - pgd_index a) m t (pgd_index a) a n 0 trivial hwf hlt h64
    (by show (n - 1) / 2 ^ 39 - a / 2 ^ 39 < 512 - pgd_index a
        omega) hA
  have ht : tbl' = rm_pgd t a n := by
    funext j
    unfold rm_pgd
    by_cases hj : in_slots (2 ^ 39) (pgd_index a) a n j
    · rw [if_pos hj]
      unfold in_slots at hj
      have hx := (r5 (slot_lo (2 ^ 39) (pgd_index a) a j) (by unfold slot_lo; omega)
        (by unfold slot_lo; omega)).1
      have e1 : pgd_index a + (slot_lo (2 ^ 39) (pgd_index a) a j / 2 ^ 39 - a / 2 ^ 39) = j := by
        unfold slot_lo; omega
      have e2 : max a (slot_lo (2 ^ 39) (pgd_index a) a j / 2 ^ 39 * 2 ^ 39) =
          slot_lo (2 ^ 39) (pgd_index a) a j := by unfold slot_lo; omega
      have e3 : min n (slot_lo (2 ^ 39) (pgd_index a) a j / 2 ^ 39 * 2 ^ 39 + 2 ^ 39) =
          slot_hi (2 ^ 39) (pgd_index a) a n j := by unfold slot_lo slot_hi; omega
      simp only [e1, e2, e3] at hx
      exact hx
    · rw [if_neg hj]
      unfold in_slots at hj
      exact r4 j (by show j < pgd_index a ∨ pgd_index a + ((n - 1) / 2 ^ 39 - a / 2 ^ 39) < j
                     omega)
  subst ht
  refine ⟨m'.log .flush_tlb_all, ?_, Machine.ext_trans r2 (Machine.ext_log _ _), r3⟩
  rw [remove_pagetable, remove_pagetable_loop_range direct (512 - pgd_index a) (2 ^ 25 + 1)
    m t a n 0 (by omega) hlt h64 (by omega) (le_refl _), r1]

theorem present_lor (a b : Nat) (h : pte_present b = true) : pte_present (a ||| b) = true := by
  unfold pte_present at *
  simp only [bne_iff_ne, ne_eq] at *
  intro h0
  apply h
  apply Nat.eq_of_testBit_eq; intro i
  have := congrArg (fun t => Nat.testBit t i) h0
  simp only [Nat.testBit_and, Nat.testBit_or, Nat.zero_testBit] at this
  rw [Nat.testBit_and, Nat.zero_testBit]
  cases hb : b.testBit i
  · rfl
  · rw [hb, Bool.or_true, Bool.true_and] at this
    rw [Nat.testBit_or, this]; rfl

theorem all_none_iff (t : PteTable) :
    (List.range PTRS_PER_PTE).all (fun i => pte_none (t i)) = true ↔ ∀ i, i < 512 → t i = 0 := by
  simp only [List.all_eq_true, List.mem_range, PTRS_PER_PTE, pte_none, beq_iff_eq]

theorem round_trip_pmd (Q : Nat → Prop) (prot a n p : Nat) (e0 e1 : PmdEnt)
    (hpres : pte_present prot = true) (hwf : e0.WF Q)
    (hU : ∀ x, a ≤ x → x < n → e0.lookup x = none) (hR : MapRel_pmd prot a n p e0 e1)
    (ha : a % 2 ^ 12 = 0) (hn : n % 2 ^ 12 = 0) (hlt : a < n)
    (hb : n ≤ a / 2 ^ 21 * 2 ^ 21 + 2 ^ 21) :
    Within_pmd (rm_pmd_slot e1 a n) e0 ∧
      (∀ x, a ≤ x → x < n → (rm_pmd_slot e1 a n).lookup x = none) ∧
      (e0.val = 0 → (rm_pmd_slot e1 a n).val = 0) := by
  rcases hR with ⟨hs, _, _⟩ | ⟨ht, htbl⟩
  · have hs' : e1.val % 4 = 1 := by simpa [pmd_sect_eq] using hs
    have hp : pmd_present e1.val = true := present_of_odd _ (by omega)
    have hrm : rm_pmd_slot e1 a n = ⟨0, e1.tbl⟩ := by
      simp only [rm_pmd_slot, hp, Bool.true_eq_false, if_false, hs, if_true]
    rw [hrm]
    refine ⟨fun h => absurd rfl h, fun x _ _ => ?_, fun _ => rfl⟩
    simp [PmdEnt.lookup, pmd_none]
  · have ht' : e1.val % 4 = 3 := by simpa [pmd_table_eq] using ht
    have hp : pmd_present e1.val = true := present_of_odd _ (by omega)
    have hs : pmd_sect e1.val = false := by rw [pmd_sect_eq]; exact decide_eq_false (by omega)
    have ht2 : ∀ j, rm_pte e1.tbl a n j = if in_ptes a n j then 0 else pte_base e0 j := by
      intro j
      unfold rm_pte
      rw [htbl j]
      by_cases hj : in_ptes a n j
      · rw [if_pos hj, if_pos hj, if_pos ⟨hj, present_lor _ _ hpres⟩]
      · rw [if_neg hj, if_neg hj, if_neg (fun h => hj h.1)]
    have hin : ∀ x, a ≤ x → x < n → rm_pte e1.tbl a n (pte_index x) = 0 := by
      intro x hx1 hx2
      have h1 := pte_index_eq a
      have h2 := pte_index_eq x
      rw [ht2, if_pos (by unfold in_ptes; omega)]
    have hrm : rm_pmd_slot e1 a n =
        if (List.range PTRS_PER_PTE).all (fun i => pte_none (rm_pte e1.tbl a n i)) then
          ⟨0, rm_pte e1.tbl a n⟩ else ⟨e1.val, rm_pte e1.tbl a n⟩ := by
      simp only [rm_pmd_slot, hp, Bool.true_eq_false, if_false, hs, Bool.false_eq_true]
    have hlook : ∀ x, a ≤ x → x < n → (rm_pmd_slot e1 a n).lookup x = none := by
      intro x hx1 hx2
      rw [hrm]
      split
      · simp [PmdEnt.lookup, pmd_none]
      · simp only [PmdEnt.lookup, hin x hx1 hx2, hs, Bool.false_eq_true, if_false, pte_none,
          beq_self_eq_true, if_true, ite_self]
    rcases hwf with h0 | h1 | ⟨h2, _⟩
    · have hz : ∀ j, rm_pte e1.tbl a n j = 0 := by
        intro j
        rw [ht2]
        split
        · rfl
        · simp only [pte_base, h0, if_true, zero_pte_table]
      have hall : (List.range PTRS_PER_PTE).all (fun i => pte_none (rm_pte e1.tbl a n i))
          = true := (all_none_iff _).2 (fun i _ => hz i)
      rw [hall, if_pos rfl] at hrm
      refine ⟨?_, hlook, fun _ => by rw [hrm]⟩
      rw [hrm]
      exact fun h => absurd rfl h
    · exfalso
      have h1' : e0.val % 4 = 1 := by simpa [pmd_sect_eq] using h1
      have h0 : pmd_none e0.val = false := by
        rw [pmd_none_eq]; exact decide_eq_false (by omega)
      have := hU a (le_refl a) hlt
      simp [PmdEnt.lookup, h0, h1] at this
    · have h2' : e0.val % 4 = 3 := by simpa [pmd_table_eq] using h2
      have hbase := pte_base_table e0 h2
      refine ⟨?_, hlook, fun h => by omega⟩
      intro hv
      refine ⟨by omega, ?_⟩
      intro l hl
      have htl : (rm_pmd_slot e1 a n).tbl l = rm_pte e1.tbl a n l := by
        rw [hrm]; split <;> rfl
      rw [htl, ht2] at hl
      split at hl
      · exact absurd rfl hl
      · rw [hbase] at hl; exact hl

theorem slot21_facts (a n j : Nat) (ha : a % 2 ^ 12 = 0) (hn : n % 2 ^ 12 = 0) (hlt : a < n)
    (hb : n ≤ a / 2 ^ 30 * 2 ^ 30 + 2 ^ 30) (hj : in_slots (2 ^ 21) (pmd_index a) a n j) :
    slot_lo (2 ^ 21) (pmd_index a) a j % 2 ^ 12 = 0 ∧
      slot_hi (2 ^ 21) (pmd_index a) a n j % 2 ^ 12 = 0 ∧
      slot_lo (2 ^ 21) (pmd_index a) a j < slot_hi (2 ^ 21) (pmd_index a) a n j ∧
      slot_hi (2 ^ 21) (pmd_index a) a n j ≤
        slot_lo (2 ^ 21) (pmd_index a) a j / 2 ^ 21 * 2 ^ 21 + 2 ^ 21 ∧
      a ≤ slot_lo (2 ^ 21) (pmd_index a) a j ∧ slot_hi (2 ^ 21) (pmd_index a) a n j ≤ n ∧
      ∀ x, slot_lo (2 ^ 21) (pmd_index a) a j ≤ x → x < slot_hi (2 ^ 21) (pmd_index a) a n j →
        pmd_index x = j := by
  have hidx := pmd_index_eq a
  unfold in_slots at hj
  unfold slot_lo slot_hi
  refine ⟨by omega, by omega, by omega, by omega, by omega, by omega, ?_⟩
  intro x hx1 hx2
  have hix := pmd_index_eq x
  omega

theorem slot21_of (a n x : Nat) (hlt : a < n) (hb : n ≤ a / 2 ^ 30 * 2 ^ 30 + 2 ^ 30) (hx1 : a ≤ x) (hx2 : x < n) :
    in_slots (2 ^ 21) (pmd_index a) a n (pmd_index x) ∧
      slot_lo (2 ^ 21) (pmd_index a) a (pmd_index x) ≤ x ∧
      x < slot_hi (2 ^ 21) (pmd_index a) a n (pmd_index x) := by
  have hidx := pmd_index_eq a
  have hix := pmd_index_eq x
  unfold in_slots slot_lo slot_hi
  refine ⟨by omega, by omega, by omega⟩

theorem slot30_facts (a n j : Nat) (ha : a % 2 ^ 12 = 0) (hn : n % 2 ^ 12 = 0) (hlt : a < n)
    (hb : n ≤ a / 2 ^ 39 * 2 ^ 39 + 2 ^ 39) (hj : in_slots (2 ^ 30) (pud_index a) a n j) :
    slot_lo (2 ^ 30) (pud_index a) a j % 2 ^ 12 = 0 ∧
      slot_hi (2 ^ 30) (pud_index a) a n j % 2 ^ 12 = 0 ∧
      slot_lo (2 ^ 30) (pud_index a) a j < slot_hi (2 ^ 30) (pud_index a) a n j ∧
      slot_hi (2 ^ 30) (pud_index a) a n j ≤
        slot_lo (2 ^ 30) (pud_index a) a j / 2 ^ 30 * 2 ^ 30 + 2 ^ 30 ∧
      a ≤ slot_lo (2 ^ 30) (pud_index a) a j ∧ slot_hi (2 ^ 30) (pud_index a) a n j ≤ n ∧
      ∀ x, slot_lo (2 ^ 30) (pud_index a) a j ≤ x → x < slot_hi (2 ^ 30) (pud_index a) a n j →
        pud_index x = j := by
  have hidx := pud_index_eq a
  unfold in_slots at hj
  unfold slot_lo slot_hi
  refine ⟨by omega, by omega, by omega, by omega, by omega, by omega, ?_⟩
  intro x hx1 hx2
  have hix := pud_index_eq x
  omega

theorem slot30_of (a n x : Nat) (hlt : a < n) (hb : n ≤ a / 2 ^ 39 * 2 ^ 39 + 2 ^ 39) (hx1 : a ≤ x) (hx2 : x < n) :
    in_slots (2 ^ 30) (pud_index a) a n (pud_index x) ∧
      slot_lo (2 ^ 30) (pud_index a) a (pud_index x) ≤ x ∧
      x < slot_hi (2 ^ 30) (pud_index a) a n (pud_index x) := by
  have hidx := pud_index_eq a
  have hix := pud_index_eq x
  unfold in_slots slot_lo slot_hi
  refine ⟨by omega, by omega, by omega⟩

theorem slot39_facts (a n j : Nat) (ha : a % 2 ^ 12 = 0) (hn : n % 2 ^ 12 = 0) (hlt : a < n)
    (hb : a / 2 ^ 48 = (n - 1) / 2 ^ 48) (hj : in_slots (2 ^ 39) (pgd_index a) a n j) :
    slot_lo (2 ^ 39) (pgd_index a) a j % 2 ^ 12 = 0 ∧
      slot_hi (2 ^ 39) (pgd_index a) a n j % 2 ^ 12 = 0 ∧
      slot_lo (2 ^ 39) (pgd_index a) a j < slot_hi (2 ^ 39) (pgd_index a) a n j ∧
      slot_hi (2 ^ 39) (pgd_index a) a n j ≤
        slot_lo (2 ^ 39) (pgd_index a) a j / 2 ^ 39 * 2 ^ 39 + 2 ^ 39 ∧
      a ≤ slot_lo (2 ^ 39) (pgd_index a) a j ∧ slot_hi (2 ^ 39) (pgd_index a) a n j ≤ n ∧
      ∀ x, slot_lo (2 ^ 39) (pgd_index a) a j ≤ x → x < slot_hi (2 ^ 39) (pgd_index a) a n j →
        pgd_index x = j := by
  have hidx := pgd_index_eq a
  unfold in_slots at hj
  unfold slot_lo slot_hi
  refine ⟨by omega, by omega, by omega, by omega, by omega, by omega, ?_⟩
  intro x hx1 hx2
  have hix := pgd_index_eq x
  omega

theorem slot39_of (a n x : Nat) (_hlt : a < n) (hb : a / 2 ^ 48 = (n - 1) / 2 ^ 48) (hx1 : a ≤ x) (hx2 : x < n) :
    in_slots (2 ^ 39) (pgd_index a) a n (pgd_index x) ∧
      slot_lo (2 ^ 39) (pgd_index a) a (pgd_index x) ≤ x ∧
      x < slot_hi (2 ^ 39) (pgd_index a) a n (pgd_index x) := by
  have hidx := pgd_index_eq a
  have hix := pgd_index_eq x
  unfold in_slots slot_lo slot_hi
  refine ⟨by omega, by omega, by omega⟩

theorem all_pmd_none_iff (t : PmdTable) :
    (List.range PTRS_PER_PMD).all (fun i => pmd_none (t i).val) = true ↔
      ∀ i, i < 512 → (t i).val = 0 := by
  simp only [List.all_eq_true, List.mem_range, PTRS_PER_PMD, pmd_none, beq_iff_eq]

theorem all_pud_none_iff (t : PudTable) :
    (List.range PTRS_PER_PUD).all (fun i => pud_none (t i).val) = true ↔
      ∀ i, i < 512 → (t i).val = 0 := by
  simp only [List.all_eq_true, List.mem_range, PTRS_PER_PUD, pud_none, beq_iff_eq]

theorem round_trip_pud (Q : Nat → Prop) (prot a n p : Nat) (e0 e1 : PudEnt)
    (hpres : pte_present prot = true) (hwf : e0.WF Q)
    (hU : ∀ x, a ≤ x → x < n → e0.lookup x = none) (hR : MapRel_pud prot a n p e0 e1)
    (ha : a % 2 ^ 12 = 0) (hn : n % 2 ^ 12 = 0) (hlt : a < n)
    (hb : n ≤ a / 2 ^ 30 * 2 ^ 30 + 2 ^ 30) :
    Within_pud (rm_pud_slot e1 a n) e0 ∧
      (∀ x, a ≤ x → x < n → (rm_pud_slot e1 a n).lookup x = none) ∧
      (e0.val = 0 → (rm_pud_slot e1 a n).val = 0) := by
  rcases hR with ⟨hs, _, _⟩ | ⟨ht, hsl⟩
  · have hs' : e1.val % 4 = 1 := by simpa [pud_sect_eq] using hs
    have hp : pud_present e1.val = true := by
      unfold pud_present; simp only [bne_iff_ne, ne_eq]; omega
    have hrm : rm_pud_slot e1 a n = ⟨0, e1.tbl⟩ := by
      simp only [rm_pud_slot, hp, Bool.true_eq_false, if_false, hs, if_true]
    rw [hrm]
    refine ⟨fun h => absurd rfl h, fun x _ _ => ?_, fun _ => rfl⟩
    simp [PudEnt.lookup, pud_none]
  · have ht' : e1.val % 4 = 3 := by simpa [pud_table_eq] using ht
    have hp : pud_present e1.val = true := by
      unfold pud_present; simp only [bne_iff_ne, ne_eq]; omega
    have hs : pud_sect e1.val = false := by rw [pud_sect_eq]; exact decide_eq_false (by omega)
    have hn1 : pud_none e1.val = false := by rw [pud_none_eq]; exact decide_eq_false (by omega)
    have hrm : rm_pud_slot e1 a n =
        if (List.range PTRS_PER_PMD).all (fun i => pmd_none (rm_pmd e1.tbl a n i).val) then
          ⟨0, rm_pmd e1.tbl a n⟩ else ⟨e1.val, rm_pmd e1.tbl a n⟩ := by
      simp only [rm_pud_slot, hp, Bool.true_eq_false, if_false, hs, Bool.false_eq_true]
    have htl : (rm_pud_slot e1 a n).tbl = rm_pmd e1.tbl a n := by
      rw [hrm]; split <;> rfl
    -- the slot was not a block
    have hs0 : pud_sect e0.val = false := by
      cases h : pud_sect e0.val with
      | false => rfl
      | true =>
        exfalso
        have h1' : e0.val % 4 = 1 := by simpa [pud_sect_eq] using h
        have h0 : pud_none e0.val = false := by
          rw [pud_none_eq]; exact decide_eq_false (by omega)
        have := hU a (le_refl a) hlt
        simp [PudEnt.lookup, h0, h] at this
    -- nothing was mapped below the table the mapping started from
    have hbU : ∀ j, in_slots (2 ^ 21) (pmd_index a) a n j → ∀ x,
        slot_lo (2 ^ 21) (pmd_index a) a j ≤ x → x < slot_hi (2 ^ 21) (pmd_index a) a n j →
        (pmd_base e0 j).lookup x = none := by
      intro j hj x hx1 hx2
      obtain ⟨_, _, _, _, f5, f6, f7⟩ := slot21_facts a n j ha hn hlt hb hj
      by_cases h0 : pud_none e0.val = true
      · simp [pmd_base, h0, zero_pmd_table, PmdEnt.lookup, pmd_none]
      · have h0' : pud_none e0.val = false := by simpa using h0
        have := hU x (by omega) (by omega)
        simp only [PudEnt.lookup, h0', hs0, Bool.false_eq_true, if_false, f7 x hx1 hx2] at this
        simp only [pmd_base, h0', hs0, Bool.false_eq_true, if_false]
        exact this
    have hslot : ∀ j, in_slots (2 ^ 21) (pmd_index a) a n j →
        Within_pmd (rm_pmd e1.tbl a n j) (pmd_base e0 j) ∧
        (∀ x, slot_lo (2 ^ 21) (pmd_index a) a j ≤ x →
          x < slot_hi (2 ^ 21) (pmd_index a) a n j → (rm_pmd e1.tbl a n j).lookup x = none) ∧
        ((pmd_base e0 j).val = 0 → (rm_pmd e1.tbl a n j).val = 0) := by
      intro j hj
      obtain ⟨f1, f2, f3, f4, _, _, _⟩ := slot21_facts a n j ha hn hlt hb hj
      have := round_trip_pmd Q prot _ _ _ (pmd_base e0 j) (e1.tbl j) hpres
        (pmd_base_WF Q e0 hwf j) (hbU j hj) ((hsl j).1 hj) f1 f2 f3 f4
      unfold rm_pmd
      rw [if_pos hj]
      exact this
    have hout : ∀ j, ¬ in_slots (2 ^ 21) (pmd_index a) a n j →
        rm_pmd e1.tbl a n j = pmd_base e0 j := by
      intro j hj
      unfold rm_pmd
      rw [if_neg hj]
      exact (hsl j).2 hj
    have hlook : ∀ x, a ≤ x → x < n → (rm_pud_slot e1 a n).lookup x = none := by
      intro x hx1 hx2
      obtain ⟨g1, g2, g3⟩ := slot21_of a n x hlt hb hx1 hx2
      rw [hrm]
      split
      · simp [PudEnt.lookup, pud_none]
      · simp only [PudEnt.lookup, hn1, hs, Bool.false_eq_true, if_false]
        exact (hslot _ g1).2.1 x g2 g3
    have hzero : e0.val = 0 → (rm_pud_slot e1 a n).val = 0 := by
      intro h0
      have h0' : pud_none e0.val = true := by rw [pud_none_eq]; exact decide_eq_true h0
      have hbz : ∀ j, (pmd_base e0 j).val = 0 := by
        intro j; simp only [pmd_base, h0', if_true, zero_pmd_table]
      have hall : (List.range PTRS_PER_PMD).all (fun i => pmd_none (rm_pmd e1.tbl a n i).val)
          = true := by
        rw [all_pmd_none_iff]
        intro i _
        by_cases hi : in_slots (2 ^ 21) (pmd_index a) a n i
        · exact (hslot i hi).2.2 (hbz i)
        · rw [hout i hi]; exact hbz i
      rw [hrm, hall, if_pos rfl]
    refine ⟨?_, hlook, hzero⟩
    intro hv
    have hne : e0.val ≠ 0 := fun h => hv (hzero h)
    refine ⟨hne, ?_⟩
    intro k
    rw [htl]
    have h0' : pud_none e0.val = false := by
      rw [pud_none_eq]; exact decide_eq_false hne
    have hbe : pmd_base e0 = e0.tbl := by
      simp only [pmd_base, h0', hs0, Bool.false_eq_true, if_false]
    by_cases hk : in_slots (2 ^ 21) (pmd_index a) a n k
    · rw [← hbe]; exact (hslot k hk).1
    · rw [hout k hk, hbe]
      exact fun h => ⟨h, fun l hl => hl⟩

theorem pud_base_WF (Q : Nat → Prop) (e : PgdEnt) (hwf : e.WF Q) (j : Nat) :
    (pud_base e j).WF Q := by
  unfold pud_base
  rcases hwf with h0 | ⟨h2, h3⟩
  · simp only [h0, if_true]; exact zero_pud_WF Q j
  · have h2' : ¬ e.val % 4 < 2 := by simpa [pgd_bad_eq] using h2
    have h0 : pgd_none e.val = false := by rw [pgd_none_eq]; exact decide_eq_false (by omega)
    simp only [h0, Bool.false_eq_true, if_false]; exact h3 j

theorem round_trip_pgd (Q : Nat → Prop) (prot a n p : Nat) (e0 e1 : PgdEnt)
    (hpres : pte_present prot = true) (hwf : e0.WF Q)
    (hU : ∀ x, a ≤ x → x < n → e0.lookup x = none) (hR : MapRel_pgd prot a n p e0 e1)
    (ha : a % 2 ^ 12 = 0) (hn : n % 2 ^ 12 = 0) (hlt : a < n)
    (hb : n ≤ a / 2 ^ 39 * 2 ^ 39 + 2 ^ 39) :
    Within_pgd (rm_pgd_slot e1 a n) e0 ∧
      (∀ x, a ≤ x → x < n → (rm_pgd_slot e1 a n).lookup x = none) ∧
      (e0.val = 0 → (rm_pgd_slot e1 a n).val = 0) := by
  obtain ⟨hn1, hsl⟩ := hR
  have hrm : rm_pgd_slot e1 a n =
      if (List.range PTRS_PER_PUD).all (fun i => pud_none (rm_pud e1.tbl a n i).val) then
        ⟨0, rm_pud e1.tbl a n⟩ else ⟨e1.val, rm_pud e1.tbl a n⟩ := by
    simp only [rm_pgd_slot, hn1, Bool.false_eq_true, if_false]
  have htl : (rm_pgd_slot e1 a n).tbl = rm_pud e1.tbl a n := by
    rw [hrm]; split <;> rfl
  have hbU : ∀ j, in_slots (2 ^ 30) (pud_index a) a n j → ∀ x,
      slot_lo (2 ^ 30) (pud_index a) a j ≤ x → x < slot_hi (2 ^ 30) (pud_index a) a n j →
      (pud_base e0 j).lookup x = none := by
    intro j hj x hx1 hx2
    obtain ⟨_, _, _, _, f5, f6, f7⟩ := slot30_facts a n j ha hn hlt hb hj
    by_cases h0 : pgd_none e0.val = true
    · simp [pud_base, h0, zero_pud_table, PudEnt.lookup, pud_none]
    · have h0' : pgd_none e0.val = false := by simpa using h0
      have := hU x (by omega) (by omega)
      simp only [PgdEnt.lookup, h0', Bool.false_eq_true, if_false, f7 x hx1 hx2] at this
      simp only [pud_base, h0', Bool.false_eq_true, if_false]
      exact this
  have hslot : ∀ j, in_slots (2 ^ 30) (pud_index a) a n j →
      Within_pud (rm_pud e1.tbl a n j) (pud_base e0 j) ∧
      (∀ x, slot_lo (2 ^ 30) (pud_index a) a j ≤ x →
        x < slot_hi (2 ^ 30) (pud_index a) a n j → (rm_pud e1.tbl a n j).lookup x = none) ∧
      ((pud_base e0 j).val = 0 → (rm_pud e1.tbl a n j).val = 0) := by
    intro j hj
    obtain ⟨f1, f2, f3, f4, _, _, _⟩ := slot30_facts a n j ha hn hlt hb hj
    have := round_trip_pud Q prot _ _ _ (pud_base e0 j) (e1.tbl j) hpres
      (pud_base_WF Q e0 hwf j) (hbU j hj) ((hsl j).1 hj) f1 f2 f3 f4
    unfold rm_pud
    rw [if_pos hj]
    exact this
  have hout : ∀ j, ¬ in_slots (2 ^ 30) (pud_index a) a n j →
      rm_pud e1.tbl a n j = pud_base e0 j := by
    intro j hj
    unfold rm_pud
    rw [if_neg hj]
    exact (hsl j).2 hj
  have hlook : ∀ x, a ≤ x → x < n → (rm_pgd_slot e1 a n).lookup x = none := by
    intro x hx1 hx2
    obtain ⟨g1, g2, g3⟩ := slot30_of a n x hlt hb hx1 hx2
    rw [hrm]
    split
    · simp [PgdEnt.lookup, pgd_none]
    · simp only [PgdEnt.lookup, hn1, Bool.false_eq_true, if_false]
      exact (hslot _ g1).2.1 x g2 g3
  have hzero : e0.val = 0 → (rm_pgd_slot e1 a n).val = 0 := by
    intro h0
    have h0' : pgd_none e0.val = true := by rw [pgd_none_eq]; exact decide_eq_true h0
    have hbz : ∀ j, (pud_base e0 j).val = 0 := by
      intro j; simp only [pud_base, h0', if_true, zero_pud_table]
    have hall : (List.range PTRS_PER_PUD).all (fun i => pud_none (rm_pud e1.tbl a n i).val)
        = true := by
      rw [all_pud_none_iff]
      intro i _
      by_cases hi : in_slots (2 ^ 30) (pud_index a) a n i
      · exact (hslot i hi).2.2 (hbz i)
      · rw [hout i hi]; exact hbz i
    rw [hrm, hall, if_pos rfl]
  refine ⟨?_, hlook, hzero⟩
  intro hv
  have hne : e0.val ≠ 0 := fun h => hv (hzero h)
  refine ⟨hne, ?_⟩
  intro k
  rw [htl]
  have h0' : pgd_none e0.val = false := by
    rw [pgd_none_eq]; exact decide_eq_false hne
  have hbe : pud_base e0 = e0.tbl := by
    simp only [pud_base, h0', Bool.false_eq_true, if_false]
  by_cases hk : in_slots (2 ^ 30) (pud_index a) a n k
  · rw [← hbe]; exact (hslot k hk).1
  · rw [hout k hk, hbe]
    exact fun h => ⟨h, fun l => fun h2 => ⟨h2, fun l2 hl2 => hl2⟩⟩

/-- Mapping a page-aligned range that resolved nowhere and then removing it leaves tables in
which the range resolves nowhere and no slot is occupied that was not occupied before. -/
theorem round_trip (Q : Nat → Prop) (prot a n p : Nat) (pgd0 pgd1 : PgdTable)
    (hpres : pte_present prot = true) (hwf : WF Q pgd0)
    (hU : ∀ x, a ≤ x → x < n → lookup pgd0 x = none) (hR : MapRel prot a n p pgd0 pgd1)
    (ha : a % 2 ^ 12 = 0) (hn : n % 2 ^ 12 = 0) (hlt : a < n)
    (hb : a / 2 ^ 48 = (n - 1) / 2 ^ 48) :
    Within (rm_pgd pgd1 a n) pgd0 ∧ ∀ x, a ≤ x → x < n → lookup (rm_pgd pgd1 a n) x = none := by
  have hslot : ∀ j, in_slots (2 ^ 39) (pgd_index a) a n j →
      Within_pgd (rm_pgd pgd1 a n j) (pgd0 j) ∧
      (∀ x, slot_lo (2 ^ 39) (pgd_index a) a j ≤ x →
        x < slot_hi (2 ^ 39) (pgd_index a) a n j → (rm_pgd pgd1 a n j).lookup x = none) := by
    intro j hj
    obtain ⟨f1, f2, f3, f4, f5, f6, f7⟩ := slot39_facts a n j ha hn hlt hb hj
    have hUj : ∀ x, slot_lo (2 ^ 39) (pgd_index a) a j ≤ x →
        x < slot_hi (2 ^ 39) (pgd_index a) a n j → (pgd0 j).lookup x = none := by
      intro x hx1 hx2
      have := hU x (by omega) (by omega)
      unfold lookup at this
      rw [f7 x hx1 hx2] at this
      exact this
    have := round_trip_pgd Q prot _ _ _ (pgd0 j) (pgd1 j) hpres (hwf j) hUj ((hR j).1 hj)
      f1 f2 f3 f4
    unfold rm_pgd
    rw [if_pos hj]
    exact ⟨this.1, this.2.1⟩
  constructor
  · intro i
    by_cases hi : in_slots (2 ^ 39) (pgd_index a) a n i
    · exact (hslot i hi).1
    · have : rm_pgd pgd1 a n i = pgd0 i := by
        unfold rm_pgd
        rw [if_neg hi]
        exact (hR i).2 hi
      rw [this]
      exact fun h => ⟨h, fun l => fun h2 => ⟨h2, fun l2 => fun h3 => ⟨h3, fun l3 hl3 => hl3⟩⟩⟩
  · intro x hx1 hx2
    obtain ⟨g1, g2, g3⟩ := slot39_of a n x hlt hb hx1 hx2
    unfold lookup
    exact (hslot _ g1).2 x g2 g3

theorem valid_after_round_trip_some (pfn_valid : Nat → Bool) (m : Machine) (pgdir : PgdTable)
    (phys virt size prot : Nat) (al : Allocator) (allow direct : Bool) (x : Nat) (b : Bool)
    (h : valid_after_round_trip pfn_valid m pgdir phys virt size prot al allow direct x = some b) :
    ∃ pgd1 m1 pgd2 m2,
      __create_pgd_mapping m pgdir phys virt size prot (some al) allow = .ok (pgd1, m1) ∧
      remove_pagetable m1 pgd1 virt (virt + size) direct = .ok (pgd2, m2) ∧
      kern_addr_valid pfn_valid pgd2 x = b := by
  unfold valid_after_round_trip at h
  cases h1 : __create_pgd_mapping m pgdir phys virt size prot (some al) allow with
  | error e => rw [h1] at h; simp at h
  | ok r1 =>
    obtain ⟨pgd1, m1⟩ := r1
    rw [h1] at h
    simp only [] at h
    cases h2 : remove_pagetable m1 pgd1 virt (virt + size) direct with
    | error e => rw [h2] at h; simp at h
    | ok r2 =>
      obtain ⟨pgd2, m2⟩ := r2
      rw [h2] at h
      simp only [Option.some.injEq] at h
      exact ⟨pgd1, m1, pgd2, m2, rfl, h2, h⟩

theorem kern_addr_valid_of_none (pfn_valid : Nat → Bool) (pgd : PgdTable) (x : Nat)
    (hx : x < 2 ^ 64) (h : lookup pgd x = none) : kern_addr_valid pfn_valid pgd x = false := by
  cases hk : kern_addr_valid pfn_valid pgd x with
  | false => rfl
  | true =>
    obtain ⟨_, t, ht, _⟩ := (kern_addr_valid_lookup pfn_valid pgd x hx).1 hk
    rw [h] at ht
    exact absurd ht (by simp)

set_option maxRecDepth 1000000 in
/-- C5, as stated, fails on a range that is not page aligned: map the 32 bytes at
`0xffff_0000_0000_0010` of empty tables, then remove the same 32 bytes with `direct = false`.
The mapping installs the page entry of the whole page; the removal only poisons the 32 bytes,
finds the rest of the page not poisoned and leaves the entry: the address is still valid. -/
theorem C5_unaligned_range_stays_valid :
    (∀ x, lookup zero_pgd_table x = none) ∧
    ∃ pgd1 m1 pgd2 m2,
      __create_pgd_mapping boot_machine zero_pgd_table 0x40000010 0xffff000000000010 0x20
        PAGE_KERNEL (some Allocator.early_pgtable_alloc) true = .ok (pgd1, m1) ∧
      remove_pagetable m1 pgd1 0xffff000000000010 (0xffff000000000010 + 0x20) false =
        .ok (pgd2, m2) ∧
      kern_addr_valid all_tracked pgd2 0xffff000000000010 = true :=
  ⟨fun _ => rfl,
    valid_after_round_trip_some all_tracked boot_machine zero_pgd_table 0x40000010
      0xffff000000000010 0x20 PAGE_KERNEL Allocator.early_pgtable_alloc true false
      0xffff000000000010 true (by decide)⟩

/-- C5, amended: for every page-aligned range inside one 2^48 window that resolved nowhere
before, with attributes that make the entries present, on well-formed tables and with an
allocator that never fails, `__create_pgd_mapping` over the range followed by
`remove_pagetable` over the same range with `direct = false` both return, and afterwards no
address of the range resolves (`kern_addr_valid` is false for it) and no slot of any table, at
any level, is occupied that was not occupied before the mapping: every table the mapping
installed has had its parent entry cleared. -/
theorem C5_round_trip_page_aligned (pfn_valid : Nat → Bool) (m : Machine) (pgdir : PgdTable)
    (phys virt size prot : Nat) (al : Allocator) (allow : Bool)
    (hm : m.alloc_ok) (hwf : WF (fun _ => True) pgdir)
    (hva : virt % 2 ^ 12 = 0) (hsz : size % 2 ^ 12 = 0) (hpa : phys % 2 ^ 12 = 0)
    (hsize : 0 < size) (hv : virt + size + 2 ^ 12 ≤ 2 ^ 64) (hp : phys + size + 2 ^ 12 ≤ 2 ^ 64)
    (hwin : virt / 2 ^ 48 = (virt + size - 1) / 2 ^ 48)
    (hpres : pte_present prot = true)
    (hun : ∀ x, virt ≤ x → x < virt + size → lookup pgdir x = none) :
    ∃ pgd1 m1 pgd2 m2,
      __create_pgd_mapping m pgdir phys virt size prot (some al) allow = .ok (pgd1, m1) ∧
      remove_pagetable m1 pgd1 virt (virt + size) false = .ok (pgd2, m2) ∧
      (∀ x, virt ≤ x → x < virt + size →
        lookup pgd2 x = none ∧ kern_addr_valid pfn_valid pgd2 x = false) ∧
      Within pgd2 pgdir := by
  have hprot0 : prot ≠ 0 := by
    intro h; rw [h] at hpres; exact absurd hpres (by decide)
  have hoff : (phys ^^^ virt) &&& not64 PAGE_MASK = 0 :=
    (same_offset_iff phys virt).2 (by omega)
  obtain ⟨pgd1, m1, h1, h2, h3, _, h5⟩ := create_pgd_mapping_spec (fun _ => True) prot al allow
    trivial (fun _ => trivial) (fun _ => trivial) hprot0 m pgdir phys virt size hm hwf hoff hsize
    hv hp hwin
  have e1 : virt / 2 ^ 12 * 2 ^ 12 = virt := by omega
  have e2 : (virt + size + (2 ^ 12 - 1)) / 2 ^ 12 * 2 ^ 12 = virt + size := by omega
  have e3 : phys / 2 ^ 12 * 2 ^ 12 = phys := by omega
  rw [e1, e2, e3] at h5
  obtain ⟨m2, k1, _, _⟩ := remove_pagetable_aligned (fun _ => True) trivial false m1 pgd1 virt
    (virt + size) h3 hva (by omega) (by omega) hwin (by omega)
  obtain ⟨w1, w2⟩ := round_trip (fun _ => True) prot virt (virt + size) phys pgdir pgd1 hpres
    hwf hun h5 hva (by omega) (by omega) hwin
  refine ⟨pgd1, m1, _, m2, h1, k1, ?_, w1⟩
  intro x hx1 hx2
  exact ⟨w2 x hx1 hx2, kern_addr_valid_of_none pfn_valid _ x (by omega) (w2 x hx1 hx2)⟩

theorem C5_round_trip_page_aligned_witness :
    pte_present PAGE_KERNEL = true ∧
    ∃ pgd1 m1 pgd2 m2,
      __create_pgd_mapping boot_machine zero_pgd_table 0x40000000 0xffff000000000000 0x200000
        PAGE_KERNEL (some Allocator.early_pgtable_alloc) true = .ok (pgd1, m1) ∧
      remove_pagetable m1 pgd1 0xffff000000000000 (0xffff000000000000 + 0x200000) false =
        .ok (pgd2, m2) ∧
      (∀ x, 0xffff000000000000 ≤ x → x < 0xffff000000000000 + 0x200000 →
        lookup pgd2 x = none ∧ kern_addr_valid all_tracked pgd2 x = false) ∧
      Within pgd2 zero_pgd_table :=
  ⟨by decide,
    C5_round_trip_page_aligned all_tracked boot_machine zero_pgd_table 0x40000000
      0xffff000000000000 0x200000 PAGE_KERNEL Allocator.early_pgtable_alloc true
      boot_machine_alloc_ok (zero_pgd_WF _) (by decide) (by decide) (by decide) (by decide)
      (by decide) (by decide) (by decide) (by decide) (fun _ _ _ => rfl)⟩

theorem pmd_free_old_nalloc (m : Machine) (old : Nat) :
    (if (!pmd_none old) = true then
        if pmd_table old = true then
          if (!(m.log Event.flush_tlb_all).slab) = true then
            (m.log Event.flush_tlb_all).log (Event.memblock_free (pmd_page_paddr old) PAGE_SIZE)
          else (m.log Event.flush_tlb_all).log Event.warn
        else m.log Event.flush_tlb_all
      else m).nalloc = m.nalloc := by
  split_ifs <;> rfl

theorem pud_free_old_nalloc (m : Machine) (old : Nat) :
    (if (!pud_none old) = true then
        if pud_table old = true then
          if (!(m.log Event.flush_tlb_all).slab) = true then
            (m.log Event.flush_tlb_all).log (Event.memblock_free (pud_page_paddr old) PAGE_SIZE)
          else (m.log Event.flush_tlb_all).log Event.warn
        else m.log Event.flush_tlb_all
      else m).nalloc = m.nalloc := by
  split_ifs <;> rfl

/-- C9: with `allow_block_mappings` set, on well-formed tables and with an allocator that never
fails, `__create_pgd_mapping` returns, and every address of the page-rounded range whose
naturally aligned 1 GiB block lies in the range with a 1 GiB-aligned physical image resolves
through an upper-level block entry (level 1); every other address whose naturally aligned 2 MiB
block lies in the range with a 2 MiB-aligned physical image resolves through a middle-level
block entry (level 2).  On such a sub-range the engine does not descend: one pass of the loop of
`alloc_init_pud` on a sub-range for which `use_1G_block` holds, and one pass of the loop of
`alloc_init_pmd` on a section-aligned sub-range, store the block entry in the slot and return
without a call of the table allocator. -/
theorem C9_block_at_coarsest_level (m : Machine) (pgdir : PgdTable)
    (phys virt size prot : Nat) (al : Allocator)
    (hm : m.alloc_ok) (hwf : WF (fun _ => True) pgdir)
    (hoff : (phys ^^^ virt) &&& not64 PAGE_MASK = 0) (hsize : 0 < size)
    (hv : virt + size + 2 ^ 12 ≤ 2 ^ 64) (hp : phys + size + 2 ^ 12 ≤ 2 ^ 64)
    (hwin : virt / 2 ^ 48 = (virt + size - 1) / 2 ^ 48) (hprot0 : prot ≠ 0) :
    (∃ pgd' m', __create_pgd_mapping m pgdir phys virt size prot (some al) true =
        .ok (pgd', m') ∧
      ∀ x, virt / 2 ^ 12 * 2 ^ 12 ≤ x → x < (virt + size + (2 ^ 12 - 1)) / 2 ^ 12 * 2 ^ 12 →
        (fits PUD_SIZE (virt / 2 ^ 12 * 2 ^ 12) ((virt + size + (2 ^ 12 - 1)) / 2 ^ 12 * 2 ^ 12)
            (phys / 2 ^ 12 * 2 ^ 12) x = true →
          lookup pgd' x = some ⟨1,
            ((phys / 2 ^ 12 * 2 ^ 12 + (x - virt / 2 ^ 12 * 2 ^ 12)) / PUD_SIZE * PUD_SIZE) |||
              PUD_TYPE_SECT ||| mk_sect_prot prot⟩) ∧
        (fits PUD_SIZE (virt / 2 ^ 12 * 2 ^ 12) ((virt + size + (2 ^ 12 - 1)) / 2 ^ 12 * 2 ^ 12)
            (phys / 2 ^ 12 * 2 ^ 12) x = false →
          fits PMD_SIZE (virt / 2 ^ 12 * 2 ^ 12) ((virt + size + (2 ^ 12 - 1)) / 2 ^ 12 * 2 ^ 12)
            (phys / 2 ^ 12 * 2 ^ 12) x = true →
          lookup pgd' x = some ⟨2,
            ((phys / 2 ^ 12 * 2 ^ 12 + (x - virt / 2 ^ 12 * 2 ^ 12)) / PMD_SIZE * PMD_SIZE) |||
              PMD_TYPE_SECT ||| mk_sect_prot prot⟩)) ∧
    (∀ (m1 : Machine) (e : PudEnt) (a n p : Nat) (pa : Option Allocator),
      use_1G_block a n p = true →
      ∃ m2, alloc_init_pud_body m1 e a n p prot pa true =
          .ok (⟨p ||| PUD_TYPE_SECT ||| mk_sect_prot prot, e.tbl⟩, m2) ∧
        m2.nalloc = m1.nalloc) ∧
    (∀ (m1 : Machine) (e : PmdEnt) (a n p : Nat) (pa : Option Allocator),
      (a ||| n ||| p) &&& not64 SECTION_MASK = 0 →
      ∃ m2, alloc_init_pmd_body m1 e a n p prot pa true =
          .ok (⟨p ||| PMD_TYPE_SECT ||| mk_sect_prot prot, e.tbl⟩, m2) ∧
        m2.nalloc = m1.nalloc) := by
  refine ⟨?_, ?_, ?_⟩
  · obtain ⟨pgd', m', h1, _, _, h4, _⟩ := create_pgd_mapping_spec (fun _ => True) prot al true
      trivial (fun _ => trivial) (fun _ => trivial) hprot0 m pgdir phys virt size hm hwf hoff
      hsize hv hp hwin
    refine ⟨pgd', m', h1, ?_⟩
    intro x hx1 hx2
    have hl := h4 x hx1 hx2
    constructor
    · intro hf
      rw [hl]
      simp only [target, hf, Bool.and_self, if_true]
    · intro hf1 hf2
      rw [hl]
      simp only [target, hf1, Bool.and_false, Bool.false_eq_true, if_false, target_pmd, hf2,
        Bool.and_self, if_true]
  · intro m1 e a n p pa hc
    have hc' := (use_1G_block_iff a n p).1 hc
    have hbug : (p &&& not64 PUD_MASK != 0) = false := by
      rw [not64_PUD_MASK, Nat.and_pow_two_sub_one_eq_mod, hc'.2.2]; rfl
    rw [alloc_init_pud_body]
    simp only [hc, Bool.and_self, if_true, pud_set_huge, hbug, Bool.false_eq_true, if_false]
    exact ⟨_, rfl, pud_free_old_nalloc _ _⟩
  · intro m1 e a n p pa hc
    have hc' : ((a ||| n ||| p) &&& not64 SECTION_MASK == 0) = true := by
      rw [hc]; rfl
    have hc2 := hc
    rw [not64_SECTION_MASK, ← beq_iff_eq, align3] at hc2
    have hbug : (p &&& not64 PMD_MASK != 0) = false := by
      rw [not64_PMD_MASK, Nat.and_pow_two_sub_one_eq_mod, hc2.2.2]; rfl
    rw [alloc_init_pmd_body]
    simp only [hc', Bool.and_self, if_true, pmd_set_huge, hbug, Bool.false_eq_true, if_false]
    exact ⟨_, rfl, pmd_free_old_nalloc _ _⟩

set_option maxRecDepth 100000 in
theorem C9_block_at_coarsest_level_witness :
    (0x40000000 ^^^ 0xffff000000000000) &&& not64 PAGE_MASK = 0 ∧
    ∃ pgd' m', __create_pgd_mapping boot_machine zero_pgd_table 0x40000000 0xffff000000000000
        0x200000 PAGE_KERNEL (some Allocator.early_pgtable_alloc) true = .ok (pgd', m') ∧
      (∀ x, 0xffff000000000000 ≤ x → x < 0xffff000000000000 + 0x200000 →
        lookup pgd' x = some ⟨2, 0x40000000 ||| PMD_TYPE_SECT ||| mk_sect_prot PAGE_KERNEL⟩) ∧
      m'.trace = [.set_pmd 0 0x00E8000040000711, .flush_tlb_all, .set_pud 0 0x80001003,
        .page_alloc 0x80001000, .set_pgd 0 0x80000003, .page_alloc 0x80000000] := by
  obtain ⟨⟨pgd', m', h1, h2⟩, _, _⟩ := C9_block_at_coarsest_level boot_machine zero_pgd_table
    0x40000000 0xffff000000000000 0x200000 PAGE_KERNEL Allocator.early_pgtable_alloc
    boot_machine_alloc_ok (zero_pgd_WF _) (by decide) (by decide) (by decide) (by decide)
    (by decide) (by decide)
  refine ⟨by decide, pgd', m', h1, ?_, ?_⟩
  · intro x hx1 hx2
    have hf1 : fits PUD_SIZE (0xffff000000000000 / 2 ^ 12 * 2 ^ 12)
        ((0xffff000000000000 + 0x200000 + (2 ^ 12 - 1)) / 2 ^ 12 * 2 ^ 12)
        (0x40000000 / 2 ^ 12 * 2 ^ 12) x = false := by
      rw [Bool.eq_false_iff]
      simp only [ne_eq, fits, PUD_SIZE, Bool.and_eq_true, decide_eq_true_eq]
      omega
    have hf2 : fits PMD_SIZE (0xffff000000000000 / 2 ^ 12 * 2 ^ 12)
        ((0xffff000000000000 + 0x200000 + (2 ^ 12 - 1)) / 2 ^ 12 * 2 ^ 12)
        (0x40000000 / 2 ^ 12 * 2 ^ 12) x = true := by
      simp only [fits, PMD_SIZE, Bool.and_eq_true, decide_eq_true_eq]
      omega
    have e : (0x40000000 / 2 ^ 12 * 2 ^ 12 + (x - 0xffff000000000000 / 2 ^ 12 * 2 ^ 12)) /
        PMD_SIZE * PMD_SIZE = 0x40000000 := by
      unfold PMD_SIZE; omega
    have := (h2 x (by omega) (by omega)).2 hf1 hf2
    rw [e] at this
    exact this
  · have ht : trace_of (__create_pgd_mapping boot_machine zero_pgd_table 0x40000000
        0xffff000000000000 0x200000 PAGE_KERNEL (some Allocator.early_pgtable_alloc) true) =
        some [.set_pmd 0 0x00E8000040000711, .flush_tlb_all, .set_pud 0 0x80001003,
          .page_alloc 0x80001000, .set_pgd 0 0x80000003, .page_alloc 0x80000000] := by
      decide
    rw [h1] at ht
    exact Option.some.inj ht

/-! ## Claims on the entry points -/

set_option maxRecDepth 100000 in
/-- C11, the claim as stated fails for `create_pgd_mapping`: it makes no test of `virt`.  On the
empty tables of an address space other than the kernel's, a request for the page at the virtual
address `0x4000_0000`, which is below `VMALLOC_START`, takes three pages from the allocator and
writes a root, an upper-level, a middle-level and a leaf entry. -/
theorem C11_create_pgd_mapping_maps_below_vmalloc_start :
    0x40000000 < VMALLOC_START ∧
    trace_of (create_pgd_mapping boot_machine false zero_pgd_table 0x40000000 0x40000000 0x1000
        PAGE_KERNEL true) =
      some [.set_pte 0 0x00E8000040000713, .flush_tlb_all, .set_pmd 0 0x80002003,
        .page_alloc 0x80002000, .flush_tlb_all, .set_pud 0 0x80001003, .page_alloc 0x80001000,
        .set_pgd 0 0x80000003, .page_alloc 0x80000000] := by
  decide

/-- C11, amended: `create_mapping_noalloc` and `create_mapping_late` reject a request whose
`virt` is below `VMALLOC_START` as a no-op: they return the tables as they were, take no page
from the allocator, leave memory alone and add only the warning to the log.
(`create_pgd_mapping` tests only that the address space is not the kernel's.) -/
theorem C11_below_vmalloc_start_rejected (m : Machine) (init_pgd : PgdTable)
    (phys virt size prot : Nat) (debug_pagealloc : Bool) (h : virt < VMALLOC_START) :
    (∃ m', create_mapping_noalloc m init_pgd phys virt size prot = .ok (init_pgd, m') ∧
      m'.nalloc = m.nalloc ∧ m'.bytes = m.bytes ∧ m'.trace = Event.warn :: m.trace) ∧
    (∃ m', create_mapping_late m init_pgd phys virt size prot debug_pagealloc =
        .ok (init_pgd, m') ∧
      m'.nalloc = m.nalloc ∧ m'.bytes = m.bytes ∧ m'.trace = Event.warn :: m.trace) := by
  constructor
  · refine ⟨m.log .warn, ?_, rfl, rfl, rfl⟩
    rw [create_mapping_noalloc, if_pos h]
  · refine ⟨m.log .warn, ?_, rfl, rfl, rfl⟩
    rw [create_mapping_late, if_pos h]

theorem C11_below_vmalloc_start_rejected_witness :
    0xffff000000000000 < VMALLOC_START ∧
    (∃ m', create_mapping_noalloc boot_machine zero_pgd_table 0x40000000 0xffff000000000000
        0x200000 PAGE_KERNEL = .ok (zero_pgd_table, m') ∧
      m'.nalloc = boot_machine.nalloc ∧ m'.bytes = boot_machine.bytes ∧
      m'.trace = Event.warn :: boot_machine.trace) ∧
    (∃ m', create_mapping_late boot_machine zero_pgd_table 0x40000000 0xffff000000000000
        0x200000 PAGE_KERNEL false = .ok (zero_pgd_table, m') ∧
      m'.nalloc = boot_machine.nalloc ∧ m'.bytes = boot_machine.bytes ∧
      m'.trace = Event.warn :: boot_machine.trace) :=
  ⟨by decide,
    C11_below_vmalloc_start_rejected boot_machine zero_pgd_table 0x40000000 0xffff000000000000
      0x200000 PAGE_KERNEL false (by decide)⟩

/-! ## Claims on the boot blob -/

theorem fix_to_virt_fdt : __fix_to_virt FIX_FDT = 0xffff7dfffe800000 := by decide

theorem round_down_block (x : Nat) (h : x < 2 ^ 64) :
    round_down x SWAPPER_BLOCK_SIZE = x / 2 ^ 21 * 2 ^ 21 := by
  unfold round_down SWAPPER_BLOCK_SIZE
  rw [show not64 (2 ^ 21 - 1) = 2 ^ 64 - 2 ^ 21 by decide]
  exact land_mask_hi x 21 h (by norm_num)

/-- The first chunk of the blob: `create_mapping_noalloc` returns, and afterwards a load from
any address of the 2 MiB window at `__fix_to_virt(FIX_FDT)` reads the physical memory of the
2 MiB block around `dt_phys`. -/
theorem fdt_first_chunk (m : Machine) (init_pgd : PgdTable) (dt_phys prot : Nat)
    (hm : m.alloc_ok) (hwf : WF (fun _ => True) init_pgd) (hprot0 : prot ≠ 0)
    (hprot : prot &&& ADDR_MASK = 0) (h48 : dt_phys + 2 ^ 22 ≤ 2 ^ 48) :
    ∃ pgd' m', create_mapping_noalloc m init_pgd (round_down dt_phys SWAPPER_BLOCK_SIZE)
        (__fix_to_virt FIX_FDT) SWAPPER_BLOCK_SIZE prot = .ok (pgd', m') ∧
      m.ext m' ∧ WF (fun _ => True) pgd' ∧
      ∀ x, 0xffff7dfffe800000 ≤ x → x < 0xffff7dfffe800000 + 2 ^ 21 →
        load_be32 m' pgd' x =
          .ok (be32 m.bytes (dt_phys / 2 ^ 21 * 2 ^ 21 + (x - 0xffff7dfffe800000))) := by
  rw [round_down_block dt_phys (by omega), fix_to_virt_fdt]
  have hv : ¬ (0xffff7dfffe800000 < VMALLOC_START) := by decide
  rw [create_mapping_noalloc, if_neg hv]
  have hoff : ((dt_phys / 2 ^ 21 * 2 ^ 21) ^^^ 0xffff7dfffe800000) &&& not64 PAGE_MASK = 0 :=
    (same_offset_iff _ _).2 (by omega)
  obtain ⟨pgd', m', h1, h2, h3, h4, _⟩ := create_pgd_mapping_spec (fun _ => True) prot
    Allocator.early_pgd_pgtable_alloc true trivial (fun _ => trivial) (fun _ => trivial) hprot0
    m init_pgd (dt_phys / 2 ^ 21 * 2 ^ 21) 0xffff7dfffe800000 SWAPPER_BLOCK_SIZE hm hwf hoff
    (by decide) (by decide) (by unfold SWAPPER_BLOCK_SIZE; omega) (by decide)
  refine ⟨pgd', m', h1, h2, h3, ?_⟩
  intro x hx1 hx2
  unfold SWAPPER_BLOCK_SIZE at h4
  have hl := h4 x (by omega) (by omega)
  have e1 : (0xffff7dfffe800000 : Nat) / 2 ^ 12 * 2 ^ 12 = 0xffff7dfffe800000 := by decide
  have e2 : ((0xffff7dfffe800000 : Nat) + 2 ^ 21 + (2 ^ 12 - 1)) / 2 ^ 12 * 2 ^ 12 =
      0xffff7dfffe800000 + 2 ^ 21 := by decide
  have e3 : dt_phys / 2 ^ 21 * 2 ^ 21 / 2 ^ 12 * 2 ^ 12 = dt_phys / 2 ^ 21 * 2 ^ 21 := by omega
  rw [e1, e2, e3] at hl
  obtain ⟨r1, _, _, _⟩ := target_reads true 0xffff7dfffe800000 (0xffff7dfffe800000 + 2 ^ 21)
    (dt_phys / 2 ^ 21 * 2 ^ 21) prot x (by unfold Aligned; omega) hx1 hx2 (by omega) hprot
  rw [load_be32, hl]
  simp only [r1, h2.2.2.2.1]

theorem be32_lt (bytes : Nat → Nat) (pa : Nat) : be32 bytes pa < 2 ^ 32 := by
  unfold be32
  omega

/-- C17: for every `dt_phys` that is zero or not a multiple of `MIN_FDT_ALIGN`,
`__fixmap_remap_fdt` returns `NULL` at once: it does not halt, the tables and the machine are as
they were (no mapping is made) and `*size` is not written.  For a `dt_phys` that passes the test
(with a table allocator that does not fail, well-formed tables and a protection value without
address bits, so that mapping the first chunk returns), a blob whose magic word differs from
`FDT_MAGIC` yields `NULL` as well, `*size` still not written. -/
theorem C17_fdt_alignment_and_magic (m : Machine) (init_pgd : PgdTable) (dt_phys prot : Nat) :
    ((dt_phys = 0 ∨ dt_phys % MIN_FDT_ALIGN ≠ 0) →
      __fixmap_remap_fdt m init_pgd dt_phys prot = .ok ⟨none, none, init_pgd, m⟩) ∧
    (dt_phys ≠ 0 → dt_phys % MIN_FDT_ALIGN = 0 → m.alloc_ok → WF (fun _ => True) init_pgd →
      prot ≠ 0 → prot &&& ADDR_MASK = 0 → dt_phys + 2 ^ 22 ≤ 2 ^ 48 →
      be32 m.bytes dt_phys ≠ FDT_MAGIC →
      ∃ out, __fixmap_remap_fdt m init_pgd dt_phys prot = .ok out ∧ out.ret = none ∧
        out.size = none) := by
  constructor
  · intro h
    have hc : (dt_phys == 0 || dt_phys % MIN_FDT_ALIGN != 0) = true := by
      rcases h with h | h
      · simp [h]
      · simp [h]
    rw [__fixmap_remap_fdt]
    simp only [hc, if_true]
  · intro h0 ha hm hwf hprot0 hprot h48 hmagic
    have hc : (dt_phys == 0 || dt_phys % MIN_FDT_ALIGN != 0) = false := by
      simp [h0, ha]
    obtain ⟨pgd', m', r1, r2, r3, r4⟩ := fdt_first_chunk m init_pgd dt_phys prot hm hwf hprot0
      hprot h48
    unfold MIN_FDT_ALIGN at ha
    have hv : add64 (__fix_to_virt FIX_FDT) (dt_phys % SWAPPER_BLOCK_SIZE) =
        0xffff7dfffe800000 + dt_phys % 2 ^ 21 := by
      rw [fix_to_virt_fdt]; unfold add64 SWAPPER_BLOCK_SIZE
      exact Nat.mod_eq_of_lt (by omega)
    have hr := r4 (0xffff7dfffe800000 + dt_phys % 2 ^ 21) (by omega) (by omega)
    have e : dt_phys / 2 ^ 21 * 2 ^ 21 +
        (0xffff7dfffe800000 + dt_phys % 2 ^ 21 - 0xffff7dfffe800000) = dt_phys := by omega
    rw [e] at hr
    have hne : (be32 m.bytes dt_phys != FDT_MAGIC) = true := by
      rw [bne_iff_ne]; exact hmagic
    rw [__fixmap_remap_fdt]
    simp only [hc, Bool.false_eq_true, if_false, r1, fdt_magic, hv, hr, hne, if_true]
    exact ⟨_, rfl, rfl, rfl⟩

theorem C17_fdt_alignment_and_magic_witness :
    (0x40000004 % MIN_FDT_ALIGN ≠ 0 ∧
      __fixmap_remap_fdt boot_machine zero_pgd_table 0x40000004 PAGE_KERNEL_RO =
        .ok ⟨none, none, zero_pgd_table, boot_machine⟩) ∧
    (0x40000000 % MIN_FDT_ALIGN = 0 ∧ be32 boot_machine.bytes 0x40000000 ≠ FDT_MAGIC ∧
      ∃ out, __fixmap_remap_fdt boot_machine zero_pgd_table 0x40000000 PAGE_KERNEL_RO = .ok out ∧
        out.ret = none ∧ out.size = none) :=
  ⟨⟨by decide,
     (C17_fdt_alignment_and_magic boot_machine zero_pgd_table 0x40000004 PAGE_KERNEL_RO).1
       (Or.inr (by decide))⟩,
   ⟨by decide, by decide,
     (C17_fdt_alignment_and_magic boot_machine zero_pgd_table 0x40000000 PAGE_KERNEL_RO).2
       (by decide) (by decide) boot_machine_alloc_ok (zero_pgd_WF _) (by decide) (by decide)
       (by decide) (by decide)⟩⟩

theorem to_int32_small (x : Nat) (h : x < 2 ^ 31) : to_int32 x = (x : Int) := by
  unfold to_int32
  have e : x % 2 ^ 32 = x := Nat.mod_eq_of_lt (by omega)
  rw [e, if_pos h]

theorem to_int32_large (x : Nat) (h1 : 2 ^ 31 ≤ x) (h2 : x < 2 ^ 32) :
    to_int32 x = (x : Int) - 2 ^ 32 := by
  unfold to_int32
  have e : x % 2 ^ 32 = x := Nat.mod_eq_of_lt h2
  rw [e, if_neg (by omega)]

theorem int_to_u64_neg (x : Nat) (h1 : 2 ^ 31 ≤ x) (h2 : x < 2 ^ 32) :
    int_to_u64 ((x : Int) - 2 ^ 32) = x + (2 ^ 64 - 2 ^ 32) := by
  unfold int_to_u64
  omega

/-- The blob header as `__fixmap_remap_fdt` reads it after mapping the first chunk. -/
theorem fdt_header_reads (m : Machine) (init_pgd : PgdTable) (dt_phys prot : Nat)
    (ha : dt_phys % MIN_FDT_ALIGN = 0) (hm : m.alloc_ok)
    (hwf : WF (fun _ => True) init_pgd) (hprot0 : prot ≠ 0) (hprot : prot &&& ADDR_MASK = 0)
    (h48 : dt_phys + 2 ^ 22 ≤ 2 ^ 48) :
    ∃ pgd' m', create_mapping_noalloc m init_pgd (round_down dt_phys SWAPPER_BLOCK_SIZE)
        (__fix_to_virt FIX_FDT) SWAPPER_BLOCK_SIZE prot = .ok (pgd', m') ∧
      fdt_magic m' pgd' (add64 (__fix_to_virt FIX_FDT) (dt_phys % SWAPPER_BLOCK_SIZE)) =
        .ok (be32 m.bytes dt_phys) ∧
      fdt_totalsize m' pgd' (add64 (__fix_to_virt FIX_FDT) (dt_phys % SWAPPER_BLOCK_SIZE)) =
        .ok (be32 m.bytes (dt_phys + 4)) ∧
      add64 (__fix_to_virt FIX_FDT) (dt_phys % SWAPPER_BLOCK_SIZE) =
        __fix_to_virt FIX_FDT + dt_phys % SWAPPER_BLOCK_SIZE := by
  obtain ⟨pgd', m', r1, _, _, r4⟩ := fdt_first_chunk m init_pgd dt_phys prot hm hwf hprot0
    hprot h48
  unfold MIN_FDT_ALIGN at ha
  have hv : add64 (__fix_to_virt FIX_FDT) (dt_phys % SWAPPER_BLOCK_SIZE) =
      0xffff7dfffe800000 + dt_phys % 2 ^ 21 := by
    rw [fix_to_virt_fdt]; unfold add64 SWAPPER_BLOCK_SIZE
    exact Nat.mod_eq_of_lt (by omega)
  have hv4 : add64 (0xffff7dfffe800000 + dt_phys % 2 ^ 21) 4 =
      0xffff7dfffe800000 + dt_phys % 2 ^ 21 + 4 := by
    unfold add64; exact Nat.mod_eq_of_lt (by omega)
  have hr := r4 (0xffff7dfffe800000 + dt_phys % 2 ^ 21) (by omega) (by omega)
  have hr4 := r4 (0xffff7dfffe800000 + dt_phys % 2 ^ 21 + 4) (by omega) (by omega)
  have e : dt_phys / 2 ^ 21 * 2 ^ 21 +
      (0xffff7dfffe800000 + dt_phys % 2 ^ 21 - 0xffff7dfffe800000) = dt_phys := by omega
  have e4 : dt_phys / 2 ^ 21 * 2 ^ 21 +
      (0xffff7dfffe800000 + dt_phys % 2 ^ 21 + 4 - 0xffff7dfffe800000) = dt_phys + 4 := by omega
  rw [e] at hr
  rw [e4] at hr4
  refine ⟨pgd', m', r1, ?_, ?_, ?_⟩
  · rw [fdt_magic, hv]; exact hr
  · rw [fdt_totalsize, hv, hv4]; exact hr4
  · rw [hv, fix_to_virt_fdt]; rfl

/-- C16, what the code does: the total size is stored in an `int` before it is compared with
`MAX_FDT_SIZE`.  For a blob at a `dt_phys` that passes the alignment test, with the magic word
`FDT_MAGIC` (a table allocator that does not fail, well-formed tables): a declared total size
above `MAX_FDT_SIZE` and below `2 ^ 31` is rejected, `__fixmap_remap_fdt` returns `NULL` and
`fixmap_remap_fdt` returns `NULL` with the machine as `__fixmap_remap_fdt` left it, nothing
reserved; a declared total size of `2 ^ 31` or more becomes a negative `int`, passes the
comparison, `__fixmap_remap_fdt` returns the address of the blob, and `fixmap_remap_fdt`
reserves `dt_phys` with that negative size converted to `phys_addr_t`. -/
theorem C16_fdt_total_size_as_int (m : Machine) (init_pgd : PgdTable) (dt_phys : Nat)
    (h0 : dt_phys ≠ 0) (ha : dt_phys % MIN_FDT_ALIGN = 0) (hm : m.alloc_ok)
    (hwf : WF (fun _ => True) init_pgd) (h48 : dt_phys + 2 ^ 22 ≤ 2 ^ 48)
    (hmagic : be32 m.bytes dt_phys = FDT_MAGIC) :
    (MAX_FDT_SIZE < be32 m.bytes (dt_phys + 4) → be32 m.bytes (dt_phys + 4) < 2 ^ 31 →
      ∃ out, __fixmap_remap_fdt m init_pgd dt_phys PAGE_KERNEL_RO = .ok out ∧
        out.ret = none ∧ fixmap_remap_fdt m init_pgd dt_phys = .ok (none, out.pgd, out.m)) ∧
    (2 ^ 31 ≤ be32 m.bytes (dt_phys + 4) →
      ∃ out, __fixmap_remap_fdt m init_pgd dt_phys PAGE_KERNEL_RO = .ok out ∧
        out.ret = some (__fix_to_virt FIX_FDT + dt_phys % SWAPPER_BLOCK_SIZE) ∧
        out.size = some ((be32 m.bytes (dt_phys + 4) : Int) - 2 ^ 32) ∧
        fixmap_remap_fdt m init_pgd dt_phys =
          .ok (some (__fix_to_virt FIX_FDT + dt_phys % SWAPPER_BLOCK_SIZE), out.pgd,
            out.m.log (.memblock_reserve dt_phys
              (be32 m.bytes (dt_phys + 4) + (2 ^ 64 - 2 ^ 32))))) := by
  have hc : (dt_phys == 0 || dt_phys % MIN_FDT_ALIGN != 0) = false := by
    simp [h0, ha]
  obtain ⟨pgd', m', r1, r2, r3, r4⟩ := fdt_header_reads m init_pgd dt_phys PAGE_KERNEL_RO ha hm
    hwf (by decide) (by decide) h48
  have hlt := be32_lt m.bytes (dt_phys + 4)
  have hne : (be32 m.bytes dt_phys != FDT_MAGIC) = false := by
    rw [hmagic]; decide
  have hoff : dt_phys % SWAPPER_BLOCK_SIZE < 2 ^ 21 := by
    unfold SWAPPER_BLOCK_SIZE; omega
  rw [r4] at r2 r3
  constructor
  · intro h1 h2
    have hsz := to_int32_small _ h2
    have hgt : to_int32 (be32 m.bytes (dt_phys + 4)) > (MAX_FDT_SIZE : Int) := by
      rw [hsz]; exact_mod_cast h1
    have hrun : __fixmap_remap_fdt m init_pgd dt_phys PAGE_KERNEL_RO =
        .ok ⟨none, some (to_int32 (be32 m.bytes (dt_phys + 4))), pgd', m'⟩ := by
      rw [__fixmap_remap_fdt]
      simp only [hc, Bool.false_eq_true, if_false, r1, r4, r2, hne, r3]
      rw [if_pos hgt]
    refine ⟨_, hrun, rfl, ?_⟩
    rw [fixmap_remap_fdt, hrun]
  · intro h1
    have hsz := to_int32_large _ h1 hlt
    have hgt : ¬ (to_int32 (be32 m.bytes (dt_phys + 4)) > (MAX_FDT_SIZE : Int)) := by
      rw [hsz]; unfold MAX_FDT_SIZE; push_cast; omega
    have hgt2 : ¬ (((dt_phys % SWAPPER_BLOCK_SIZE : Nat) : Int) +
        to_int32 (be32 m.bytes (dt_phys + 4)) > (SWAPPER_BLOCK_SIZE : Int)) := by
      rw [hsz]; unfold SWAPPER_BLOCK_SIZE at *; push_cast; omega
    have hrun : __fixmap_remap_fdt m init_pgd dt_phys PAGE_KERNEL_RO =
        .ok ⟨some (__fix_to_virt FIX_FDT + dt_phys % SWAPPER_BLOCK_SIZE),
          some ((be32 m.bytes (dt_phys + 4) : Int) - 2 ^ 32), pgd', m'⟩ := by
      rw [__fixmap_remap_fdt]
      simp only [hc, Bool.false_eq_true, if_false, r1, r4, r2, hne, r3]
      rw [if_neg hgt, if_neg hgt2, hsz]
    refine ⟨_, hrun, rfl, rfl, ?_⟩
    rw [fixmap_remap_fdt, hrun]
    simp only [Option.getD_some, int_to_u64_neg _ h1 hlt]

set_option maxRecDepth 100000 in
theorem C16_fdt_total_size_as_int_witness :
    be32 (blob_machine 0x40000000 0x80000000).bytes 0x40000000 = FDT_MAGIC ∧
    MAX_FDT_SIZE < be32 (blob_machine 0x40000000 0x80000000).bytes (0x40000000 + 4) ∧
    ∃ out, __fixmap_remap_fdt (blob_machine 0x40000000 0x80000000) zero_pgd_table 0x40000000
        PAGE_KERNEL_RO = .ok out ∧
      out.ret = some 0xffff7dfffe800000 ∧ out.size = some (-2147483648) ∧
      fixmap_remap_fdt (blob_machine 0x40000000 0x80000000) zero_pgd_table 0x40000000 =
        .ok (some 0xffff7dfffe800000, out.pgd,
          out.m.log (.memblock_reserve 0x40000000 0xffffffff80000000)) := by
  have hb : be32 (blob_machine 0x40000000 0x80000000).bytes (0x40000000 + 4) = 0x80000000 := by
    decide
  obtain ⟨out, h1, h2, h3, h4⟩ := (C16_fdt_total_size_as_int (blob_machine 0x40000000 0x80000000)
    zero_pgd_table 0x40000000 (by decide) (by decide)
    (fun n => ⟨by show 0x80000000 + n * 4096 ≠ 0; omega, rfl⟩) (zero_pgd_WF _) (by decide)
    (by decide)).2 (by rw [hb]; decide)
  have e1 : __fix_to_virt FIX_FDT + 0x40000000 % SWAPPER_BLOCK_SIZE = 0xffff7dfffe800000 := by
    decide
  have e2 : (0x80000000 : Nat) + (2 ^ 64 - 2 ^ 32) = 0xffffffff80000000 := by decide
  have e3 : ((0x80000000 : Nat) : Int) - 2 ^ 32 = -2147483648 := by decide
  rw [hb] at h3 h4
  rw [e1] at h2 h4
  rw [e2] at h4
  rw [e3] at h3
  exact ⟨by decide, by rw [hb]; decide, out, h1, h2, h3, h4⟩

/-! ## Claims on allocation, table release and block removal -/

set_option maxRecDepth 100000 in
/-- C13, what the code does: `create_mapping_noalloc` hands `early_pgd_pgtable_alloc` to the
engine, so it allocates whenever a level is missing.  On empty kernel tables, the request of
`__fixmap_remap_fdt` for the 2 MiB window at `__fix_to_virt(FIX_FDT)` takes two pages from the
page provider and installs an upper-level and a middle-level table. -/
theorem C13_create_mapping_noalloc_allocates :
    ¬ (__fix_to_virt FIX_FDT < VMALLOC_START) ∧
    trace_of (create_mapping_noalloc boot_machine zero_pgd_table 0x40000000
        (__fix_to_virt FIX_FDT) SWAPPER_BLOCK_SIZE PAGE_KERNEL_RO) =
      some [.set_pmd 0 0x00E0000040000791, .flush_tlb_all, .set_pud 0 0x80001003,
        .page_alloc 0x80001000, .set_pgd 0 0x80000003, .page_alloc 0x80000000] := by
  decide

theorem not_all_none {α : Type} (n : Nat) (f : Nat → α) (p : α → Bool)
    (h : ∃ i, i < n ∧ p (f i) = false) :
    (List.range n).all (fun i => p (f i)) = false := by
  obtain ⟨i, hi, hp⟩ := h
  rw [Bool.eq_false_iff]
  intro hall
  rw [List.all_eq_true] at hall
  have := hall i (List.mem_range.2 hi)
  rw [hp] at this
  exact Bool.false_ne_true this

/-- C15: each of `free_pte_table`, `free_pmd_table` and `free_pud_table` frees the table page
and clears the parent entry when every entry of the table is empty, and leaves the parent entry
and the machine exactly as they were (nothing freed) when some entry of the table is
occupied. -/
theorem C15_free_table_iff_empty (m : Machine) (direct : Bool) (pmd : PmdEnt) (pud : PudEnt)
    (pgd : PgdEnt) :
    ((∀ i, i < PTRS_PER_PTE → pmd.tbl i = 0) →
      free_pte_table m pmd direct = (⟨0, pmd.tbl⟩,
        (free_pagetable m (pmd_page pmd.val) 0 direct).log (.set_pmd pmd.val 0))) ∧
    ((∃ i, i < PTRS_PER_PTE ∧ pmd.tbl i ≠ 0) → free_pte_table m pmd direct = (pmd, m)) ∧
    ((∀ i, i < PTRS_PER_PMD → (pud.tbl i).val = 0) →
      free_pmd_table m pud direct = (⟨0, pud.tbl⟩,
        (free_pagetable m (pud_page pud.val) 0 direct).log (.set_pud pud.val 0))) ∧
    ((∃ i, i < PTRS_PER_PMD ∧ (pud.tbl i).val ≠ 0) → free_pmd_table m pud direct = (pud, m)) ∧
    ((∀ i, i < PTRS_PER_PUD → (pgd.tbl i).val = 0) →
      free_pud_table m pgd direct = (⟨0, pgd.tbl⟩,
        (free_pagetable m (pgd_page pgd.val) 0 direct).log (.set_pgd pgd.val 0))) ∧
    ((∃ i, i < PTRS_PER_PUD ∧ (pgd.tbl i).val ≠ 0) → free_pud_table m pgd direct = (pgd, m)) := by
  refine ⟨?_, ?_, ?_, ?_, ?_, ?_⟩
  · intro h
    have hall := (all_none_iff pmd.tbl).2 (by unfold PTRS_PER_PTE at h; exact h)
    simp only [free_pte_table, hall, if_true]
  · rintro ⟨i, hi, hne⟩
    have hall := not_all_none PTRS_PER_PTE pmd.tbl pte_none
      ⟨i, hi, by simp [pte_none, hne]⟩
    simp only [free_pte_table, hall, Bool.false_eq_true, if_false]
  · intro h
    have hall := (all_pmd_none_iff pud.tbl).2 (by unfold PTRS_PER_PMD at h; exact h)
    simp only [free_pmd_table, hall, if_true]
  · rintro ⟨i, hi, hne⟩
    have hall := not_all_none PTRS_PER_PMD pud.tbl (fun e => pmd_none e.val)
      ⟨i, hi, by simp [pmd_none, hne]⟩
    simp only [free_pmd_table, hall, Bool.false_eq_true, if_false]
  · intro h
    have hall := (all_pud_none_iff pgd.tbl).2 (by unfold PTRS_PER_PUD at h; exact h)
    simp only [free_pud_table, hall, if_true]
  · rintro ⟨i, hi, hne⟩
    have hall := not_all_none PTRS_PER_PUD pgd.tbl (fun e => pud_none e.val)
      ⟨i, hi, by simp [pud_none, hne]⟩
    simp only [free_pud_table, hall, Bool.false_eq_true, if_false]

theorem C15_free_table_iff_empty_witness :
    free_pte_table boot_machine ⟨0x80002003, zero_pte_table⟩ false =
      (⟨0, zero_pte_table⟩,
        (free_pagetable boot_machine (pmd_page 0x80002003) 0 false).log
          (.set_pmd 0x80002003 0)) ∧
    free_pte_table boot_machine ⟨0x80002003, one_page_table⟩ false =
      (⟨0x80002003, one_page_table⟩, boot_machine) :=
  ⟨(C15_free_table_iff_empty boot_machine false ⟨0x80002003, zero_pte_table⟩
      ⟨0, zero_pmd_table⟩ ⟨0, zero_pud_table⟩).1 (fun _ _ => rfl),
    (C15_free_table_iff_empty boot_machine false ⟨0x80002003, one_page_table⟩
      ⟨0, zero_pmd_table⟩ ⟨0, zero_pud_table⟩).2.1 ⟨0, by decide, by decide⟩⟩

/-- C20, what the code does: on a block entry, `remove_pmd_table` and `remove_pud_table` take the
path without scan whenever the two ends of the sub-range are page aligned, whether or not the
sub-range covers the whole block.  For every page-aligned sub-range, also one that covers only
part of the block, the block entry is cleared and, with `direct` false, the whole block is
handed to `free_pagetable`; nothing is overwritten with the fill value and nothing is
scanned. -/
theorem C20_page_aligned_part_of_block_cleared (m : Machine) (pmd : PmdEnt) (pud : PudEnt)
    (addr next : Nat) (direct : Bool)
    (ha : addr % 2 ^ 12 = 0) (hn : next % 2 ^ 12 = 0) :
    (pmd_sect pmd.val = true →
      remove_pmd_table_body m pmd addr next direct = .ok (⟨0, pmd.tbl⟩,
        (if !direct then free_pagetable m (pmd_page pmd.val) (get_order PMD_SIZE) direct
          else m).log (.set_pmd pmd.val 0))) ∧
    (pud_sect pud.val = true →
      remove_pud_table_body m pud addr next direct = .ok (⟨0, pud.tbl⟩,
        (if !direct then free_pagetable m (pud_page pud.val) (get_order PUD_SIZE) direct
          else m).log (.set_pud pud.val 0))) := by
  have hal1 : PAGE_ALIGNED addr = true := (page_aligned_iff addr).2 ha
  have hal2 : PAGE_ALIGNED next = true := (page_aligned_iff next).2 hn
  constructor
  · intro hs
    simp only [remove_pmd_table_body, hs, if_true, hal1, hal2, Bool.and_self]
  · intro hs
    simp only [remove_pud_table_body, hs, if_true, hal1, hal2, Bool.and_self]

/-- The first page of the 2 MiB block mapped at `0xffff_0000_0000_0000` is removed with `direct`
false: the block entry is cleared and the whole block, order 9, is freed. -/
theorem C20_page_aligned_part_of_block_cleared_witness :
    pmd_sect 0x00E8000040000711 = true ∧ get_order PMD_SIZE = 9 ∧
    remove_pmd_table_body boot_machine ⟨0x00E8000040000711, zero_pte_table⟩
        0xffff000000000000 0xffff000000001000 false =
      .ok (⟨0, zero_pte_table⟩,
        (free_pagetable boot_machine (pmd_page 0x00E8000040000711) (get_order PMD_SIZE)
          false).log (.set_pmd 0x00E8000040000711 0)) :=
  ⟨by decide, by decide,
    (C20_page_aligned_part_of_block_cleared boot_machine ⟨0x00E8000040000711, zero_pte_table⟩
      ⟨0, zero_pmd_table⟩ 0xffff000000000000 0xffff000000001000 false (by decide)
      (by decide)).1 (by decide)⟩

/-- C19, the claim as stated fails: with no page left, `hotplug_paging` does not return a
failure, it halts in `BUG()`. -/
theorem C19_hotplug_halts_without_page :
    dry_machine.supply dry_machine.nalloc = 0 ∧
    hotplug_paging dry_machine zero_pgd_table 0x80000000 0x100000000 0x40000000 =
      .error .bug := by
  constructor <;> rfl

/-- C19, amended: when the page provider has no page, or `pgtable_page_ctor` fails on the page,
`pgd_pgtable_alloc` halts in `BUG()`; so does `hotplug_paging`, whose first step is a call of
it, and so does the engine when it calls it for a table level that is missing (a leaf table
below an empty or block middle-level entry).  None of them returns a failure. -/
theorem C19_late_allocator_failure_halts (m : Machine) (swapper_pg_dir : PgdTable)
    (memstart start size : Nat) (pmd : PmdEnt) (addr end_ pfn prot : Nat)
    (h : m.supply m.nalloc = 0 ∨ m.ctor_ok (m.supply m.nalloc) = false) :
    pgd_pgtable_alloc m = .error .bug ∧
    hotplug_paging m swapper_pg_dir memstart start size = .error .bug ∧
    (pmd_none pmd.val = true ∨ pmd_sect pmd.val = true →
      alloc_init_pte m pmd addr end_ pfn prot (some .pgd_pgtable_alloc) = .error .bug) := by
  have h1 : pgd_pgtable_alloc m = .error .bug := by
    unfold pgd_pgtable_alloc Machine.take
    rcases h with h | h
    · simp [h]
    · simp [h]
  refine ⟨h1, ?_, ?_⟩
  · rw [hotplug_paging, h1]
  · intro hp
    have hc : (pmd_none pmd.val || pmd_sect pmd.val) = true := by
      rcases hp with hp | hp
      · simp [hp]
      · simp [hp]
    rw [alloc_init_pte]
    simp only [hc, if_true, Allocator.call, h1]

theorem C19_late_allocator_failure_halts_witness :
    dry_machine.supply dry_machine.nalloc = 0 ∧
    pgd_pgtable_alloc dry_machine = .error .bug ∧
    hotplug_paging dry_machine zero_pgd_table 0x80000000 0x100000000 0x40000000 =
      .error .bug ∧
    (pmd_none (0 : Nat) = true ∨ pmd_sect (0 : Nat) = true →
      alloc_init_pte dry_machine ⟨0, zero_pte_table⟩ 0xffff800080000000 0xffff800080001000
        0x100000 PAGE_KERNEL (some .pgd_pgtable_alloc) = .error .bug) :=
  ⟨rfl, C19_late_allocator_failure_halts dry_machine zero_pgd_table 0x80000000 0x100000000
    0x40000000 ⟨0, zero_pte_table⟩ 0xffff800080000000 0xffff800080001000 0x100000 PAGE_KERNEL
    (Or.inl rfl)⟩

/-! ## What the mapping engine logs -/

theorem Machine.grows_refl (P : Event → Prop) (F : Prop) (m : Machine) : m.grows P F m :=
  ⟨⟨[], rfl, fun _ h => absurd h (List.not_mem_nil _)⟩, rfl, fun _ => rfl⟩

theorem Machine.grows_trans {P : Event → Prop} {F : Prop} {a b c : Machine}
    (h1 : a.grows P F b) (h2 : b.grows P F c) : a.grows P F c := by
  obtain ⟨⟨n1, e1, p1⟩, t1, f1⟩ := h1
  obtain ⟨⟨n2, e2, p2⟩, t2, f2⟩ := h2
  refine ⟨⟨n2 ++ n1, ?_, ?_⟩, t2.trans t1, fun hF => (f2 hF).trans (f1 hF)⟩
  · rw [e2, e1, List.append_assoc]
  · intro ev hev
    rcases List.mem_append.1 hev with h | h
    · exact p2 ev h
    · exact p1 ev h

theorem Machine.grows_log {P : Event → Prop} (F : Prop) (m : Machine) (e : Event) (h : P e) :
    m.grows P F (m.log e) :=
  ⟨⟨[e], rfl, fun ev hev => by rw [List.mem_singleton.1 hev]; exact h⟩, rfl, fun _ => rfl⟩

theorem range_loop_inv {E : Type} (addr_end : Nat → Nat → Nat)
    (body : Machine → E → Nat → Nat → Nat → Except Halt (E × Machine))
    (I : Machine → Machine → Prop) (A : Nat → Nat → Prop)
    (htrans : ∀ a b c, I a b → I b c → I a c)
    (hA1 : ∀ a e, A a e → A a (addr_end a e)) (hA2 : ∀ a e, A a e → A (addr_end a e) e)
    (hbody : ∀ m e a n p e' m', A a n → body m e a n p = .ok (e', m') → I m m') :
    ∀ (room : Nat) (m : Machine) (tbl : Nat → E) (i a n p : Nat) (tbl' : Nat → E)
      (m' : Machine), A a n →
      range_loop addr_end body room m tbl i a n p = .ok (tbl', m') → I m m' := by
  intro room
  induction room with
  | zero =>
    intro m tbl i a n p tbl' m' _ h
    rw [range_loop] at h
    exact absurd h (by simp)
  | succ r ih =>
    intro m tbl i a n p tbl' m' hA h
    rw [range_loop] at h
    cases hb : body m (tbl i) a (addr_end a n) p with
    | error e => rw [hb] at h; exact absurd h (by simp)
    | ok v =>
      obtain ⟨e, m1⟩ := v
      rw [hb] at h
      simp only [] at h
      have h1 := hbody m (tbl i) a (addr_end a n) p e m1 (hA1 a n hA) hb
      split at h
      · exact htrans _ _ _ h1 (ih _ _ _ _ _ _ _ _ (hA2 a n hA) h)
      · simp only [Except.ok.injEq, Prod.mk.injEq] at h
        rw [← h.2]; exact h1

theorem alloc_init_pte_loop_grows {P : Event → Prop} (F : Prop) (hP : ∀ o n, P (.set_pte o n)) :
    ∀ (room : Nat) (m : Machine) (pte : PteTable) (i addr end_ pfn prot : Nat)
      (pte' : PteTable) (m' : Machine),
      alloc_init_pte_loop room m pte i addr end_ pfn prot = .ok (pte', m') →
      m.grows P F m' := by
  intro room
  induction room with
  | zero =>
    intro m pte i addr end_ pfn prot pte' m' h
    rw [alloc_init_pte_loop] at h
    exact absurd h (by simp)
  | succ r ih =>
    intro m pte i addr end_ pfn prot pte' m' h
    rw [alloc_init_pte_loop] at h
    have h1 : m.grows P F (m.log (.set_pte (pte i) (pfn_pte pfn prot))) :=
      Machine.grows_log F m _ (hP _ _)
    split at h
    · exact Machine.grows_trans h1 (ih _ _ _ _ _ _ _ _ _ h)
    · simp only [Except.ok.injEq, Prod.mk.injEq] at h
      rw [← h.2]; exact h1

theorem split_pmd_loop_grows {P : Event → Prop} (F : Prop) (hP : ∀ o n, P (.set_pte o n)) :
    ∀ (n : Nat) (m : Machine) (pte : PteTable) (i pfn : Nat),
      m.grows P F (split_pmd_loop n m pte i pfn).2 := by
  intro n
  induction n with
  | zero => intro m pte i pfn; exact Machine.grows_refl P F m
  | succ k ih =>
    intro m pte i pfn
    rw [split_pmd_loop]
    have h1 : m.grows P F (m.log (.set_pte (pte i) (pfn_pte pfn PAGE_KERNEL_EXEC))) :=
      Machine.grows_log F m _ (hP _ _)
    split
    · exact Machine.grows_trans h1 (ih _ _ _ _)
    · exact h1

theorem split_pud_loop_grows {P : Event → Prop} (F : Prop) (hP : ∀ o n, P (.set_pmd o n)) :
    ∀ (n : Nat) (m : Machine) (pmd : PmdTable) (i addr prot : Nat),
      m.grows P F (split_pud_loop n m pmd i addr prot).2 := by
  intro n
  induction n with
  | zero => intro m pmd i addr prot; exact Machine.grows_refl P F m
  | succ k ih =>
    intro m pmd i addr prot
    rw [split_pud_loop]
    have h1 : m.grows P F (m.log (.set_pmd (pmd i).val (addr ||| prot))) :=
      Machine.grows_log F m _ (hP _ _)
    split
    · exact Machine.grows_trans h1 (ih _ _ _ _ _)
    · exact h1

theorem Allocator.call_grows {P : Event → Prop} (F : Prop) (hF : ¬ F)
    (hP : ∀ x, P (.page_alloc x)) (al : Allocator) (m m1 : Machine) (x : Nat)
    (h : al.call m = .ok (x, m1)) : m.grows P F m1 := by
  have key : ∀ (c : Bool), (if c = true then (Except.error Halt.bug : Except Halt (Nat × Machine))
      else .ok (m.take.1, m.take.2.log (.page_alloc m.take.1))) = .ok (x, m1) →
      m.grows P F m1 := by
    intro c hc
    split at hc
    · exact absurd hc (by simp)
    · simp only [Except.ok.injEq, Prod.mk.injEq] at hc
      rw [← hc.2]
      exact ⟨⟨[.page_alloc m.take.1], rfl,
        fun ev hev => by rw [List.mem_singleton.1 hev]; exact hP _⟩, rfl, fun hh => absurd hh hF⟩
  cases al with
  | early_pgtable_alloc =>
    simp only [Allocator.call, Arm64Mmu.early_pgtable_alloc] at h
    split at h
    · exact absurd h (by simp)
    · simp only [Except.ok.injEq, Prod.mk.injEq] at h
      rw [← h.2]
      exact ⟨⟨[.page_alloc m.take.1], rfl,
        fun ev hev => by rw [List.mem_singleton.1 hev]; exact hP _⟩, rfl, fun hh => absurd hh hF⟩
  | pgd_pgtable_alloc =>
    simp only [Allocator.call, Arm64Mmu.pgd_pgtable_alloc] at h
    exact key _ h
  | early_pgd_pgtable_alloc =>
    simp only [Allocator.call, Arm64Mmu.early_pgd_pgtable_alloc] at h
    exact key _ h

theorem alloc_init_pte_grows {P : Event → Prop} {pa : Option Allocator}
    (H : MappingEvents P pa) (m : Machine) (e : PmdEnt) (a n pfn prot : Nat) (e' : PmdEnt)
    (m' : Machine) (h : alloc_init_pte m e a n pfn prot pa = .ok (e', m')) :
    m.grows P (pa = none) m' := by
  have tail : ∀ (v : Nat) (t : PteTable) (m2 : Machine),
      (if pmd_bad v = true then (Except.error Halt.bug : Except Halt (PmdEnt × Machine))
        else
          match alloc_init_pte_loop (PTRS_PER_PTE - pte_index a) m2 t (pte_index a) a n pfn
              prot with
          | .error h => .error h
          | .ok (pte, m) => .ok (⟨v, pte⟩, m)) = .ok (e', m') → m2.grows P (pa = none) m' := by
    intro v t m2 ht
    split at ht
    · exact absurd ht (by simp)
    · cases hl : alloc_init_pte_loop (PTRS_PER_PTE - pte_index a) m2 t (pte_index a) a n pfn
          prot with
      | error x => rw [hl] at ht; exact absurd ht (by simp)
      | ok r =>
        obtain ⟨t3, m3⟩ := r
        rw [hl] at ht
        simp only [Except.ok.injEq, Prod.mk.injEq] at ht
        rw [← ht.2]
        exact alloc_init_pte_loop_grows _ H.set_pte _ _ _ _ _ _ _ _ _ _ hl
  unfold alloc_init_pte at h
  by_cases hc : (pmd_none e.val || pmd_sect e.val) = true
  · simp only [hc, if_true] at h
    cases pa with
    | none => exact absurd h (by simp)
    | some al =>
      have hne : (some al : Option Allocator) ≠ none := by simp
      simp only [] at h
      cases hcall : al.call m with
      | error x => rw [hcall] at h; exact absurd h (by simp)
      | ok r =>
        obtain ⟨p, m1⟩ := r
        rw [hcall] at h
        simp only [] at h
        have g1 := Allocator.call_grows (P := P) (some al = none) hne (H.page_alloc hne) al m m1 p
          hcall
        by_cases hs : pmd_sect e.val = true
        · simp only [hs, if_true] at h
          have g2 : m1.grows P (some al = none) (split_pmd m1 e.val zero_pte_table).2 :=
            split_pmd_loop_grows (some al = none) H.set_pte PTRS_PER_PTE m1
              zero_pte_table 0 (pmd_pfn e.val)
          generalize split_pmd m1 e.val zero_pte_table = sp at h g2
          have t := tail (p ||| PMD_TYPE_TABLE) sp.1
            ((sp.2.log (.set_pmd e.val (p ||| PMD_TYPE_TABLE))).log .flush_tlb_all) h
          have g3 := Machine.grows_log (P := P) (some al = none)
            sp.2 (.set_pmd e.val (p ||| PMD_TYPE_TABLE))
            (H.set_pmd hne _ _)
          have g4 := Machine.grows_log (P := P) (some al = none)
            (sp.2.log (.set_pmd e.val (p ||| PMD_TYPE_TABLE)))
            .flush_tlb_all H.flush
          exact Machine.grows_trans g1 (Machine.grows_trans g2 (Machine.grows_trans g3
            (Machine.grows_trans g4 t)))
        · simp only [hs, Bool.false_eq_true, if_false] at h
          have t := tail (p ||| PMD_TYPE_TABLE) zero_pte_table
            ((m1.log (.set_pmd e.val (p ||| PMD_TYPE_TABLE))).log .flush_tlb_all) h
          have g3 := Machine.grows_log (P := P) (some al = none) m1
            (.set_pmd e.val (p ||| PMD_TYPE_TABLE)) (H.set_pmd hne _ _)
          have g4 := Machine.grows_log (P := P) (some al = none)
            (m1.log (.set_pmd e.val (p ||| PMD_TYPE_TABLE))) .flush_tlb_all H.flush
          exact Machine.grows_trans g1 (Machine.grows_trans g3 (Machine.grows_trans g4 t))
  · simp only [hc, Bool.false_eq_true, if_false] at h
    exact tail e.val e.tbl m h

theorem pmd_free_old_grows {P : Event → Prop} {pa : Option Allocator}
    (H : MappingEvents P pa) (F : Prop) (m : Machine) (old : Nat) :
    m.grows P F (if (!pmd_none old) = true then
        if pmd_table old = true then
          if (!(m.log Event.flush_tlb_all).slab) = true then
            (m.log Event.flush_tlb_all).log (Event.memblock_free (pmd_page_paddr old) PAGE_SIZE)
          else (m.log Event.flush_tlb_all).log Event.warn
        else m.log Event.flush_tlb_all
      else m) := by
  split_ifs
  · exact Machine.grows_trans (Machine.grows_log F _ _ H.flush)
      (Machine.grows_log F _ _ (H.memblock_free _ _))
  · exact Machine.grows_trans (Machine.grows_log F _ _ H.flush) (Machine.grows_log F _ _ H.warn)
  · exact Machine.grows_log F _ _ H.flush
  · exact Machine.grows_refl P F m

theorem pud_free_old_grows {P : Event → Prop} {pa : Option Allocator}
    (H : MappingEvents P pa) (F : Prop) (m : Machine) (old : Nat) :
    m.grows P F (if (!pud_none old) = true then
        if pud_table old = true then
          if (!(m.log Event.flush_tlb_all).slab) = true then
            (m.log Event.flush_tlb_all).log (Event.memblock_free (pud_page_paddr old) PAGE_SIZE)
          else (m.log Event.flush_tlb_all).log Event.warn
        else m.log Event.flush_tlb_all
      else m) := by
  split_ifs
  · exact Machine.grows_trans (Machine.grows_log F _ _ H.flush)
      (Machine.grows_log F _ _ (H.memblock_free _ _))
  · exact Machine.grows_trans (Machine.grows_log F _ _ H.flush) (Machine.grows_log F _ _ H.warn)
  · exact Machine.grows_log F _ _ H.flush
  · exact Machine.grows_refl P F m

theorem alloc_init_pmd_body_grows {P : Event → Prop} {pa : Option Allocator}
    (H : MappingEvents P pa) (allow : Bool) (m : Machine) (e : PmdEnt) (a n p prot : Nat)
    (e' : PmdEnt) (m' : Machine)
    (h : alloc_init_pmd_body m e a n p prot pa allow = .ok (e', m')) :
    m.grows P (pa = none) m' := by
  unfold alloc_init_pmd_body at h
  split at h
  · unfold pmd_set_huge at h
    by_cases hb : (p &&& not64 PMD_MASK != 0) = true
    · simp only [hb, if_true] at h
      exact absurd h (by simp)
    · simp only [hb, Bool.false_eq_true, if_false, Except.ok.injEq, Prod.mk.injEq] at h
      rw [← h.2]
      have hp : p % 2 ^ 21 = 0 := by
        have hb' : p &&& not64 PMD_MASK = 0 := by simpa using hb
        rw [not64_PMD_MASK, Nat.and_pow_two_sub_one_eq_mod] at hb'
        exact hb'
      have hs : pmd_sect (p ||| PMD_TYPE_SECT ||| mk_sect_prot prot) = true := by
        rw [pmd_sect_iff]; exact sect_val_mod p prot (by omega)
      exact Machine.grows_trans (Machine.grows_log _ _ _ (H.pmd_block _ _ hs))
        (pmd_free_old_grows H _ _ _)
  · exact alloc_init_pte_grows H _ _ _ _ _ _ _ _ h

theorem split_pud_grows {P : Event → Prop} (F : Prop) (hP : ∀ o n, P (.set_pmd o n))
    (m : Machine) (v : Nat) (t : PmdTable) : m.grows P F (split_pud m v t).2 := by
  unfold split_pud
  exact split_pud_loop_grows F hP PTRS_PER_PMD m t 0 ((pud_pfn v <<< PAGE_SHIFT) % 2 ^ 64)
    (v ^^^ ((pud_pfn v <<< PAGE_SHIFT) % 2 ^ 64))

theorem alloc_init_pmd_grows {P : Event → Prop} {pa : Option Allocator}
    (H : MappingEvents P pa) (allow : Bool) (m : Machine) (e : PudEnt) (a n p prot : Nat)
    (e' : PudEnt) (m' : Machine)
    (h : alloc_init_pmd m e a n p prot pa allow = .ok (e', m')) :
    m.grows P (pa = none) m' := by
  have tail : ∀ (v : Nat) (t : PmdTable) (m2 : Machine),
      (if pud_bad v = true then (Except.error Halt.bug : Except Halt (PudEnt × Machine))
        else
          match alloc_init_pmd_loop (PTRS_PER_PMD - pmd_index a) m2 t (pmd_index a) a n p
              prot pa allow with
          | .error h => .error h
          | .ok (pmd, m) => .ok (⟨v, pmd⟩, m)) = .ok (e', m') → m2.grows P (pa = none) m' := by
    intro v t m2 ht
    split at ht
    · exact absurd ht (by simp)
    · cases hl : alloc_init_pmd_loop (PTRS_PER_PMD - pmd_index a) m2 t (pmd_index a) a n p
          prot pa allow with
      | error x => rw [hl] at ht; exact absurd ht (by simp)
      | ok r =>
        obtain ⟨t3, m3⟩ := r
        rw [hl] at ht
        simp only [Except.ok.injEq, Prod.mk.injEq] at ht
        rw [← ht.2]
        rw [alloc_init_pmd_loop_eq] at hl
        exact range_loop_inv pmd_addr_end _ (Machine.grows P (pa = none)) (fun _ _ => True)
          (fun _ _ _ h1 h2 => Machine.grows_trans h1 h2) (fun _ _ _ => trivial)
          (fun _ _ _ => trivial)
          (fun m e a n p e' m' _ hb => alloc_init_pmd_body_grows H allow m e a n p prot e' m' hb)
          _ _ _ _ _ _ _ _ _ trivial hl
  unfold alloc_init_pmd at h
  by_cases hc : (pud_none e.val || pud_sect e.val) = true
  · simp only [hc, if_true] at h
    cases pa with
    | none => exact absurd h (by simp)
    | some al =>
      have hne : (some al : Option Allocator) ≠ none := by simp
      simp only [] at h
      cases hcall : al.call m with
      | error x => rw [hcall] at h; exact absurd h (by simp)
      | ok r =>
        obtain ⟨q, m1⟩ := r
        rw [hcall] at h
        simp only [] at h
        have g1 := Allocator.call_grows (P := P) (some al = none) hne (H.page_alloc hne) al m m1 q
          hcall
        by_cases hs : pud_sect e.val = true
        · simp only [hs, if_true] at h
          have g2 : m1.grows P (some al = none) (split_pud m1 e.val zero_pmd_table).2 :=
            split_pud_grows (some al = none) (H.set_pmd hne) m1 e.val zero_pmd_table
          generalize split_pud m1 e.val zero_pmd_table = sp at h g2
          have t := tail (q ||| PUD_TYPE_TABLE) sp.1
            ((sp.2.log (.set_pud e.val (q ||| PUD_TYPE_TABLE))).log .flush_tlb_all) h
          have g3 := Machine.grows_log (P := P) (some al = none)
            sp.2 (.set_pud e.val (q ||| PUD_TYPE_TABLE)) (H.set_pud hne _ _)
          have g4 := Machine.grows_log (P := P) (some al = none)
            (sp.2.log (.set_pud e.val (q ||| PUD_TYPE_TABLE))) .flush_tlb_all H.flush
          exact Machine.grows_trans g1 (Machine.grows_trans g2 (Machine.grows_trans g3
            (Machine.grows_trans g4 t)))
        · simp only [hs, Bool.false_eq_true, if_false] at h
          have t := tail (q ||| PUD_TYPE_TABLE) zero_pmd_table
            ((m1.log (.set_pud e.val (q ||| PUD_TYPE_TABLE))).log .flush_tlb_all) h
          have g3 := Machine.grows_log (P := P) (some al = none) m1
            (.set_pud e.val (q ||| PUD_TYPE_TABLE)) (H.set_pud hne _ _)
          have g4 := Machine.grows_log (P := P) (some al = none)
            (m1.log (.set_pud e.val (q ||| PUD_TYPE_TABLE))) .flush_tlb_all H.flush
          exact Machine.grows_trans g1 (Machine.grows_trans g3 (Machine.grows_trans g4 t))
  · simp only [hc, Bool.false_eq_true, if_false] at h
    exact tail e.val e.tbl m h

theorem alloc_init_pud_body_grows {P : Event → Prop} {pa : Option Allocator}
    (H : MappingEvents P pa) (allow : Bool) (m : Machine) (e : PudEnt) (a n p prot : Nat)
    (e' : PudEnt) (m' : Machine)
    (h : alloc_init_pud_body m e a n p prot pa allow = .ok (e', m')) :
    m.grows P (pa = none) m' := by
  unfold alloc_init_pud_body at h
  split at h
  · rename_i hc
    rw [Bool.and_eq_true, use_1G_block_iff] at hc
    unfold pud_set_huge at h
    by_cases hb : (p &&& not64 PUD_MASK != 0) = true
    · simp only [hb, if_true] at h
      exact absurd h (by simp)
    · simp only [hb, Bool.false_eq_true, if_false, Except.ok.injEq, Prod.mk.injEq] at h
      rw [← h.2]
      have hs : pud_sect (p ||| PUD_TYPE_SECT ||| mk_sect_prot prot) = true := by
        rw [pud_sect_eq]; exact decide_eq_true (sect_val_mod p prot (by omega))
      exact Machine.grows_trans (Machine.grows_log _ _ _ (H.pud_block _ _ hs))
        (pud_free_old_grows H _ _ _)
  · exact alloc_init_pmd_grows H allow _ _ _ _ _ _ _ _ h

theorem alloc_init_pud_grows {P : Event → Prop} {pa : Option Allocator}
    (H : MappingEvents P pa) (allow : Bool) (m : Machine) (e : PgdEnt) (a n p prot : Nat)
    (e' : PgdEnt) (m' : Machine)
    (h : alloc_init_pud m e a n p prot pa allow = .ok (e', m')) :
    m.grows P (pa = none) m' := by
  have tail : ∀ (v : Nat) (t : PudTable) (m2 : Machine),
      (if pgd_bad v = true then (Except.error Halt.bug : Except Halt (PgdEnt × Machine))
        else
          match alloc_init_pud_loop (PTRS_PER_PUD - pud_index a) m2 t (pud_index a) a n p
              prot pa allow with
          | .error h => .error h
          | .ok (pud, m) => .ok (⟨v, pud⟩, m)) = .ok (e', m') → m2.grows P (pa = none) m' := by
    intro v t m2 ht
    split at ht
    · exact absurd ht (by simp)
    · cases hl : alloc_init_pud_loop (PTRS_PER_PUD - pud_index a) m2 t (pud_index a) a n p
          prot pa allow with
      | error x => rw [hl] at ht; exact absurd ht (by simp)
      | ok r =>
        obtain ⟨t3, m3⟩ := r
        rw [hl] at ht
        simp only [Except.ok.injEq, Prod.mk.injEq] at ht
        rw [← ht.2]
        rw [alloc_init_pud_loop_eq] at hl
        exact range_loop_inv pud_addr_end _ (Machine.grows P (pa = none)) (fun _ _ => True)
          (fun _ _ _ h1 h2 => Machine.grows_trans h1 h2) (fun _ _ _ => trivial)
          (fun _ _ _ => trivial)
          (fun m e a n p e' m' _ hb => alloc_init_pud_body_grows H allow m e a n p prot e' m' hb)
          _ _ _ _ _ _ _ _ _ trivial hl
  unfold alloc_init_pud at h
  by_cases hc : pgd_none e.val = true
  · simp only [hc, if_true] at h
    cases pa with
    | none => exact absurd h (by simp)
    | some al =>
      have hne : (some al : Option Allocator) ≠ none := by simp
      simp only [] at h
      cases hcall : al.call m with
      | error x => rw [hcall] at h; exact absurd h (by simp)
      | ok r =>
        obtain ⟨q, m1⟩ := r
        rw [hcall] at h
        simp only [] at h
        have g1 := Allocator.call_grows (P := P) (some al = none) hne (H.page_alloc hne) al m m1 q
          hcall
        have t := tail (q ||| PUD_TYPE_TABLE) zero_pud_table
          (m1.log (.set_pgd e.val (q ||| PUD_TYPE_TABLE))) h
        have g3 := Machine.grows_log (P := P) (some al = none) m1
          (.set_pgd e.val (q ||| PUD_TYPE_TABLE)) (H.set_pgd hne _ _)
        exact Machine.grows_trans g1 (Machine.grows_trans g3 t)
  · simp only [hc, Bool.false_eq_true, if_false] at h
    exact tail e.val e.tbl m h

theorem create_pgd_mapping_grows {P : Event → Prop} {pa : Option Allocator}
    (H : MappingEvents P pa) (allow : Bool) (m : Machine) (pgdir : PgdTable)
    (phys virt size prot : Nat) (pgd' : PgdTable) (m' : Machine)
    (h : __create_pgd_mapping m pgdir phys virt size prot pa allow = .ok (pgd', m')) :
    m.grows P (pa = none) m' := by
  unfold __create_pgd_mapping at h
  split at h
  · simp only [Except.ok.injEq, Prod.mk.injEq] at h
    rw [← h.2]
    exact Machine.grows_log _ _ _ H.warn
  · simp only [] at h
    rw [create_pgd_mapping_loop_eq] at h
    exact range_loop_inv pgd_addr_end _ (Machine.grows P (pa = none)) (fun _ _ => True)
      (fun _ _ _ h1 h2 => Machine.grows_trans h1 h2) (fun _ _ _ => trivial)
      (fun _ _ _ => trivial)
      (fun m e a n p e' m' _ hb => alloc_init_pud_grows H allow m e a n p prot e' m' hb)
      _ _ _ _ _ _ _ _ _ trivial h

/-- Two bodies that differ in the allocator handle only, run over the slots of a range: where
every slot is ready (`G`) the two loops do the same, and where one is not the first loop halts
on `BUG`. -/
theorem range_loop_none {E : Type} {addr_end : Nat → Nat → Nat} {c base bnd : Nat → Nat}
    (hcut : Cut addr_end c base bnd)
    (body1 body2 : Machine → E → Nat → Nat → Nat → Except Halt (E × Machine))
    (MP : Machine → Prop) (P : E → Prop) (A : Nat → Nat → Nat → Prop)
    (G : Nat → Nat → Nat → E → Prop)
    (hAw : ∀ a n p, A a n p → p + (n - a) ≤ 2 ^ 64)
    (hAs : ∀ a e p, A a e p → bnd a < e → A a (bnd a) p ∧ A (bnd a) e (p + (bnd a - a)))
    (hMP : ∀ m m', MP m → m.ext m' → MP m')
    (hbody2 : ∀ m e a n p, MP m → P e → a < n → n ≤ bnd a → n < 2 ^ 64 → A a n p →
      ∃ e' m', body2 m e a n p = .ok (e', m') ∧ m.ext m' ∧ P e')
    (hcongr : ∀ m e a n p, MP m → P e → a < n → n ≤ bnd a → n < 2 ^ 64 → A a n p →
      G a n p e → body1 m e a n p = body2 m e a n p)
    (hbad : ∀ m e a n p, MP m → P e → a < n → n ≤ bnd a → n < 2 ^ 64 → A a n p →
      ¬ G a n p e → body1 m e a n p = .error .bug) :
    ∀ (room : Nat) (m : Machine) (tbl : Nat → E) (i addr end_ phys : Nat),
      MP m → (∀ j, P (tbl j)) → addr < end_ → end_ < 2 ^ 64 →
      c (end_ - 1) - c addr < room → A addr end_ phys →
      ((∀ a, addr ≤ a → a < end_ →
          G (max addr (base a)) (min end_ (bnd a)) (phys + (max addr (base a) - addr))
            (tbl (i + (c a - c addr)))) →
        range_loop addr_end body1 room m tbl i addr end_ phys =
          range_loop addr_end body2 room m tbl i addr end_ phys) ∧
      ((¬ ∀ a, addr ≤ a → a < end_ →
          G (max addr (base a)) (min end_ (bnd a)) (phys + (max addr (base a) - addr))
            (tbl (i + (c a - c addr)))) →
        range_loop addr_end body1 room m tbl i addr end_ phys = .error .bug) := by
  intro room
  induction room with
  | zero => intro _ _ _ _ _ _ _ _ _ _ h; exact absurd h (Nat.not_lt_zero _)
  | succ r ih =>
    intro m tbl i addr end_ phys hm hP hlt hend hroom hphys
    have hw := hAw _ _ _ hphys
    have hae := hcut.addr_end_eq addr end_ hlt hend
    have hlb := hcut.lt_bnd addr
    have hsame0 := hcut.same addr addr (le_refl _) hlb
    by_cases hb : bnd addr < end_
    · rw [if_pos hb] at hae
      obtain ⟨hA1, hA2⟩ := hAs _ _ _ hphys hb
      have hfirst : ∀ a, addr ≤ a → a < bnd addr →
          G (max addr (base a)) (min end_ (bnd a)) (phys + (max addr (base a) - addr))
            (tbl (i + (c a - c addr))) = G addr (bnd addr) phys (tbl i) := by
        intro a ha1 ha2
        obtain ⟨s1, s2, s3⟩ := hcut.same addr a ha1 ha2
        have e1 : max addr (base a) = addr := max_eq_left s3
        have e2 : min end_ (bnd a) = bnd addr := by rw [s2]; exact min_eq_right (le_of_lt hb)
        rw [s1, e1, e2, Nat.sub_self, Nat.add_zero, Nat.sub_self, Nat.add_zero]
      have hph : add64 phys (sub64 (bnd addr) addr) = phys + (bnd addr - addr) := by
        unfold add64 sub64
        have h1 : addr % 2 ^ 64 = addr := Nat.mod_eq_of_lt (by omega)
        have h2 : (bnd addr + 2 ^ 64 - addr) % 2 ^ 64 = bnd addr - addr := by
          have : bnd addr + 2 ^ 64 - addr = (bnd addr - addr) + 2 ^ 64 := by omega
          rw [this, Nat.add_mod_right]; exact Nat.mod_eq_of_lt (by omega)
        rw [h1, h2]; exact Nat.mod_eq_of_lt (by omega)
      have hne : (bnd addr != end_) = true := by simp only [bne_iff_ne, ne_eq]; omega
      by_cases hg : G addr (bnd addr) phys (tbl i)
      · have hc := hcongr m (tbl i) addr (bnd addr) phys hm (hP i) hlb (le_refl _) (by omega) hA1 hg
        obtain ⟨e', m1, hb1, hx1, hP1'⟩ := hbody2 m (tbl i) addr (bnd addr) phys hm (hP i) hlb
          (le_refl _) (by omega) hA1
        have hP1 : ∀ j, P (Function.update tbl i e' j) := by
          intro j
          by_cases hj : j = i
          · subst hj; rw [Function.update_same]; exact hP1'
          · rw [Function.update_noteq hj]; exact hP j
        have hc1 := hcut.c_bnd addr
        have hc2 : c (bnd addr) ≤ c (end_ - 1) := hcut.c_mono _ _ (by omega)
        obtain ⟨i1, i2⟩ := ih m1 (Function.update tbl i e') (i + 1)
          (bnd addr) end_ (phys + (bnd addr - addr)) (hMP _ _ hm hx1) hP1 hb hend
          (by omega) hA2
        have hrest : ∀ a, bnd addr ≤ a → a < end_ →
            G (max (bnd addr) (base a)) (min end_ (bnd a))
              (phys + (bnd addr - addr) + (max (bnd addr) (base a) - bnd addr))
              (Function.update tbl i e' (i + 1 + (c a - c (bnd addr)))) =
            G (max addr (base a)) (min end_ (bnd a)) (phys + (max addr (base a) - addr))
              (tbl (i + (c a - c addr))) := by
          intro a hab' ha2
          have s1 := hcut.later addr a hab'
          have s2 := hcut.c_mono _ _ hab'
          have e1 : max (bnd addr) (base a) = base a := max_eq_right s1
          have e2 : max addr (base a) = base a := max_eq_right (by omega)
          have e3 : i + 1 + (c a - c (bnd addr)) = i + (c a - c addr) := by omega
          have e4 : phys + (bnd addr - addr) + (base a - bnd addr) = phys + (base a - addr) := by
            omega
          rw [e1, e2, e3, e4, Function.update_noteq (by omega)]
        have hstep : ∀ (body : Machine → E → Nat → Nat → Nat → Except Halt (E × Machine)),
            body m (tbl i) addr (bnd addr) phys = .ok (e', m1) →
            range_loop addr_end body (r + 1) m tbl i addr end_ phys =
              range_loop addr_end body r m1 (Function.update tbl i e') (i + 1) (bnd addr) end_
                (phys + (bnd addr - addr)) := by
          intro body hbd
          rw [range_loop]
          simp only [hae, hbd, hne, if_true, hph]
        rw [hstep body1 (hc.trans hb1), hstep body2 hb1]
        constructor
        · intro hall
          apply i1
          intro a ha1 ha2
          rw [hrest a ha1 ha2]
          exact hall a (by omega) ha2
        · intro hnot
          apply i2
          intro hall
          apply hnot
          intro a ha1 ha2
          by_cases hab : a < bnd addr
          · rw [hfirst a ha1 hab]; exact hg
          · rw [← hrest a (Nat.le_of_not_lt hab) ha2]
            exact hall a (Nat.le_of_not_lt hab) ha2
      · have hbd := hbad m (tbl i) addr (bnd addr) phys hm (hP i) hlb (le_refl _) (by omega) hA1 hg
        constructor
        · intro hall
          have := hall addr (le_refl _) hlt
          rw [hfirst addr (le_refl _) hlb] at this
          exact absurd this hg
        · intro _
          rw [range_loop]
          simp only [hae, hbd]
    · rw [if_neg hb] at hae
      have hfirst : ∀ a, addr ≤ a → a < end_ →
          G (max addr (base a)) (min end_ (bnd a)) (phys + (max addr (base a) - addr))
            (tbl (i + (c a - c addr))) = G addr end_ phys (tbl i) := by
        intro a ha1 ha2
        obtain ⟨s1, s2, s3⟩ := hcut.same addr a ha1 (by omega)
        have e1 : max addr (base a) = addr := max_eq_left s3
        have e2 : min end_ (bnd a) = end_ := by rw [s2]; exact min_eq_left (by omega)
        rw [s1, e1, e2, Nat.sub_self, Nat.add_zero, Nat.sub_self, Nat.add_zero]
      by_cases hg : G addr end_ phys (tbl i)
      · have hc := hcongr m (tbl i) addr end_ phys hm (hP i) hlt (by omega) hend hphys hg
        constructor
        · intro _
          rw [range_loop, range_loop]
          simp only [hae, hc, bne_self_eq_false, Bool.false_eq_true, if_false]
        · intro hnot
          exfalso
          apply hnot
          intro a ha1 ha2
          rw [hfirst a ha1 ha2]; exact hg
      · have hbd := hbad m (tbl i) addr end_ phys hm (hP i) hlt (by omega) hend hphys hg
        constructor
        · intro hall
          have := hall addr (le_refl _) hlt
          rw [hfirst addr (le_refl _) hlt] at this
          exact absurd this hg
        · intro _
          rw [range_loop]
          simp only [hae, hbd]


theorem slots21_iff (F : Nat → Nat → Nat → Prop) (i0 a n : Nat) (hlt : a < n) :
    (∀ j, in_slots (2 ^ 21) i0 a n j →
        F (slot_lo (2 ^ 21) i0 a j) (slot_hi (2 ^ 21) i0 a n j) j) ↔
      ∀ x, a ≤ x → x < n →
        F (max a (x / 2 ^ 21 * 2 ^ 21)) (min n (x / 2 ^ 21 * 2 ^ 21 + 2 ^ 21))
          (i0 + (x / 2 ^ 21 - a / 2 ^ 21)) := by
  constructor
  · intro h x hx1 hx2
    have hj : in_slots (2 ^ 21) i0 a n (i0 + (x / 2 ^ 21 - a / 2 ^ 21)) := by
      unfold in_slots; omega
    have e1 : slot_lo (2 ^ 21) i0 a (i0 + (x / 2 ^ 21 - a / 2 ^ 21)) =
        max a (x / 2 ^ 21 * 2 ^ 21) := by unfold slot_lo; omega
    have e2 : slot_hi (2 ^ 21) i0 a n (i0 + (x / 2 ^ 21 - a / 2 ^ 21)) =
        min n (x / 2 ^ 21 * 2 ^ 21 + 2 ^ 21) := by unfold slot_hi; omega
    have := h _ hj
    rw [e1, e2] at this
    exact this
  · intro h j hj
    unfold in_slots at hj
    have hx := h (slot_lo (2 ^ 21) i0 a j) (by unfold slot_lo; omega) (by unfold slot_lo; omega)
    have e1 : i0 + (slot_lo (2 ^ 21) i0 a j / 2 ^ 21 - a / 2 ^ 21) = j := by
      unfold slot_lo; omega
    have e2 : max a (slot_lo (2 ^ 21) i0 a j / 2 ^ 21 * 2 ^ 21) = slot_lo (2 ^ 21) i0 a j := by
      unfold slot_lo; omega
    have e3 : min n (slot_lo (2 ^ 21) i0 a j / 2 ^ 21 * 2 ^ 21 + 2 ^ 21) =
        slot_hi (2 ^ 21) i0 a n j := by unfold slot_lo slot_hi; omega
    simp only [e1, e2, e3] at hx
    exact hx

theorem slots30_iff (F : Nat → Nat → Nat → Prop) (i0 a n : Nat) (hlt : a < n) :
    (∀ j, in_slots (2 ^ 30) i0 a n j →
        F (slot_lo (2 ^ 30) i0 a j) (slot_hi (2 ^ 30) i0 a n j) j) ↔
      ∀ x, a ≤ x → x < n →
        F (max a (x / 2 ^ 30 * 2 ^ 30)) (min n (x / 2 ^ 30 * 2 ^ 30 + 2 ^ 30))
          (i0 + (x / 2 ^ 30 - a / 2 ^ 30)) := by
  constructor
  · intro h x hx1 hx2
    have hj : in_slots (2 ^ 30) i0 a n (i0 + (x / 2 ^ 30 - a / 2 ^ 30)) := by
      unfold in_slots; omega
    have e1 : slot_lo (2 ^ 30) i0 a (i0 + (x / 2 ^ 30 - a / 2 ^ 30)) =
        max a (x / 2 ^ 30 * 2 ^ 30) := by unfold slot_lo; omega
    have e2 : slot_hi (2 ^ 30) i0 a n (i0 + (x / 2 ^ 30 - a / 2 ^ 30)) =
        min n (x / 2 ^ 30 * 2 ^ 30 + 2 ^ 30) := by unfold slot_hi; omega
    have := h _ hj
    rw [e1, e2] at this
    exact this
  · intro h j hj
    unfold in_slots at hj
    have hx := h (slot_lo (2 ^ 30) i0 a j) (by unfold slot_lo; omega) (by unfold slot_lo; omega)
    have e1 : i0 + (slot_lo (2 ^ 30) i0 a j / 2 ^ 30 - a / 2 ^ 30) = j := by
      unfold slot_lo; omega
    have e2 : max a (slot_lo (2 ^ 30) i0 a j / 2 ^ 30 * 2 ^ 30) = slot_lo (2 ^ 30) i0 a j := by
      unfold slot_lo; omega
    have e3 : min n (slot_lo (2 ^ 30) i0 a j / 2 ^ 30 * 2 ^ 30 + 2 ^ 30) =
        slot_hi (2 ^ 30) i0 a n j := by unfold slot_lo slot_hi; omega
    simp only [e1, e2, e3] at hx
    exact hx

theorem slots39_iff (F : Nat → Nat → Nat → Prop) (i0 a n : Nat) (hlt : a < n) :
    (∀ j, in_slots (2 ^ 39) i0 a n j →
        F (slot_lo (2 ^ 39) i0 a j) (slot_hi (2 ^ 39) i0 a n j) j) ↔
      ∀ x, a ≤ x → x < n →
        F (max a (x / 2 ^ 39 * 2 ^ 39)) (min n (x / 2 ^ 39 * 2 ^ 39 + 2 ^ 39))
          (i0 + (x / 2 ^ 39 - a / 2 ^ 39)) := by
  constructor
  · intro h x hx1 hx2
    have hj : in_slots (2 ^ 39) i0 a n (i0 + (x / 2 ^ 39 - a / 2 ^ 39)) := by
      unfold in_slots; omega
    have e1 : slot_lo (2 ^ 39) i0 a (i0 + (x / 2 ^ 39 - a / 2 ^ 39)) =
        max a (x / 2 ^ 39 * 2 ^ 39) := by unfold slot_lo; omega
    have e2 : slot_hi (2 ^ 39) i0 a n (i0 + (x / 2 ^ 39 - a / 2 ^ 39)) =
        min n (x / 2 ^ 39 * 2 ^ 39 + 2 ^ 39) := by unfold slot_hi; omega
    have := h _ hj
    rw [e1, e2] at this
    exact this
  · intro h j hj
    unfold in_slots at hj
    have hx := h (slot_lo (2 ^ 39) i0 a j) (by unfold slot_lo; omega) (by unfold slot_lo; omega)
    have e1 : i0 + (slot_lo (2 ^ 39) i0 a j / 2 ^ 39 - a / 2 ^ 39) = j := by
      unfold slot_lo; omega
    have e2 : max a (slot_lo (2 ^ 39) i0 a j / 2 ^ 39 * 2 ^ 39) = slot_lo (2 ^ 39) i0 a j := by
      unfold slot_lo; omega
    have e3 : min n (slot_lo (2 ^ 39) i0 a j / 2 ^ 39 * 2 ^ 39 + 2 ^ 39) =
        slot_hi (2 ^ 39) i0 a n j := by unfold slot_lo slot_hi; omega
    simp only [e1, e2, e3] at hx
    exact hx

theorem alloc_init_pte_none_eq (m : Machine) (e : PmdEnt) (a n pfn prot : Nat) (al : Allocator)
    (h : pmd_table e.val = true) :
    alloc_init_pte m e a n pfn prot none = alloc_init_pte m e a n pfn prot (some al) := by
  have h' : e.val % 4 = 3 := by simpa [pmd_table_eq] using h
  have h0 : pmd_none e.val = false := by
    rw [pmd_none_eq]; exact decide_eq_false (by omega)
  have h1 : pmd_sect e.val = false := by
    rw [pmd_sect_eq]; exact decide_eq_false (by omega)
  unfold alloc_init_pte
  simp only [h0, h1, Bool.or_self, Bool.false_eq_true, if_false]

theorem alloc_init_pte_none_bug (m : Machine) (e : PmdEnt) (a n pfn prot : Nat)
    (h : pmd_none e.val = true ∨ pmd_sect e.val = true) :
    alloc_init_pte m e a n pfn prot none = .error .bug := by
  have hc : (pmd_none e.val || pmd_sect e.val) = true := by
    rcases h with h | h <;> simp [h]
  unfold alloc_init_pte
  simp only [hc, if_true]

theorem alloc_init_pmd_body_none (Q : Nat → Prop) (prot : Nat) (al : Allocator) (allow : Bool)
    (m : Machine) (e : PmdEnt) (a n p : Nat) (hwf : e.WF Q) :
    (Ready_pmd allow a n p e →
      alloc_init_pmd_body m e a n p prot none allow =
        alloc_init_pmd_body m e a n p prot (some al) allow) ∧
    (¬ Ready_pmd allow a n p e →
      alloc_init_pmd_body m e a n p prot none allow = .error .bug) := by
  unfold Ready_pmd
  by_cases hc : (((a ||| n ||| p) &&& not64 SECTION_MASK == 0) && allow) = true
  · refine ⟨fun _ => ?_, fun h => absurd (Or.inl hc) h⟩
    unfold alloc_init_pmd_body
    simp only [hc, if_true]
  · constructor
    · intro h
      have ht : pmd_table e.val = true := h.resolve_left hc
      unfold alloc_init_pmd_body
      simp only [hc, Bool.false_eq_true, if_false]
      exact alloc_init_pte_none_eq m e a n _ prot al ht
    · intro h
      have ht : ¬ pmd_table e.val = true := fun ht => h (Or.inr ht)
      unfold alloc_init_pmd_body
      simp only [hc, Bool.false_eq_true, if_false]
      apply alloc_init_pte_none_bug
      rcases hwf with h0 | h1 | ⟨h2, _⟩
      · exact Or.inl h0
      · exact Or.inr h1
      · exact absurd h2 ht

theorem alloc_init_pmd_none (Q : Nat → Prop) (prot : Nat) (al : Allocator) (allow : Bool)
    (hQ0 : Q 0) (hQx : ∀ pfn, Q (pfn_pte pfn PAGE_KERNEL_EXEC)) (hQp : ∀ pfn, Q (pfn_pte pfn prot))
    (hprot : prot ≠ 0)
    (m : Machine) (e : PudEnt) (a n p : Nat) (hm : m.alloc_ok) (hwf : e.WF Q) (han : a < n)
    (hn : n ≤ a / 2 ^ 30 * 2 ^ 30 + 2 ^ 30) (hn64 : n < 2 ^ 64) (hA : Aligned a n p) :
    ((pud_table e.val = true ∧
        ∀ j, in_slots (2 ^ 21) (pmd_index a) a n j →
          Ready_pmd allow (slot_lo (2 ^ 21) (pmd_index a) a j)
            (slot_hi (2 ^ 21) (pmd_index a) a n j)
            (p + (slot_lo (2 ^ 21) (pmd_index a) a j - a)) (e.tbl j)) →
      alloc_init_pmd m e a n p prot none allow = alloc_init_pmd m e a n p prot (some al) allow) ∧
    (¬ (pud_table e.val = true ∧
        ∀ j, in_slots (2 ^ 21) (pmd_index a) a n j →
          Ready_pmd allow (slot_lo (2 ^ 21) (pmd_index a) a j)
            (slot_hi (2 ^ 21) (pmd_index a) a n j)
            (p + (slot_lo (2 ^ 21) (pmd_index a) a j - a)) (e.tbl j)) →
      alloc_init_pmd m e a n p prot none allow = .error .bug) := by
  have hidx := pmd_index_eq a
  rcases hwf with h0 | h1 | ⟨h2, h3⟩
  · have h0' : e.val = 0 := by simpa [pud_none_eq] using h0
    have ht : ¬ pud_table e.val = true := by
      rw [pud_table_eq, decide_eq_true_iff]; omega
    refine ⟨fun h => absurd h.1 ht, fun _ => ?_⟩
    unfold alloc_init_pmd
    simp only [h0, Bool.true_or, if_true]
  · have h1' : e.val % 4 = 1 := by simpa [pud_sect_eq] using h1
    have ht : ¬ pud_table e.val = true := by
      rw [pud_table_eq, decide_eq_true_iff]; omega
    refine ⟨fun h => absurd h.1 ht, fun _ => ?_⟩
    unfold alloc_init_pmd
    simp only [h1, Bool.or_true, if_true]
  · have h2' : e.val % 4 = 3 := by simpa [pud_table_eq] using h2
    have h0 : pud_none e.val = false := by
      rw [pud_none_eq]; exact decide_eq_false (by omega)
    have h1 : pud_sect e.val = false := by
      rw [pud_sect_eq]; exact decide_eq_false (by omega)
    have hb : pud_bad e.val = false := by
      rw [pud_bad_eq]; exact decide_eq_false (by omega)
    obtain ⟨l1, l2⟩ := range_loop_none cut_pmd
      (fun m e a n p => alloc_init_pmd_body m e a n p prot none allow)
      (fun m e a n p => alloc_init_pmd_body m e a n p prot (some al) allow)
      Machine.alloc_ok (PmdEnt.WF Q) Aligned (Ready_pmd allow)
      (fun a n p h => h.2.2.2) aligned_step21 (fun _ _ h hx => alloc_ok_ext h hx)
      (fun m e a n p hm he han hn hn64 hA => by
        obtain ⟨e', m', r1, r2, r3, _⟩ :=
          alloc_init_pmd_body_spec Q prot al allow hQ0 hQx hQp hprot m e a n p hm he han hn hn64 hA
        exact ⟨e', m', r1, r2, r3.1⟩)
      (fun m e a n p _ he _ _ _ _ hg =>
        (alloc_init_pmd_body_none Q prot al allow m e a n p he).1 hg)
      (fun m e a n p _ he _ _ _ _ hg =>
        (alloc_init_pmd_body_none Q prot al allow m e a n p he).2 hg)
      (PTRS_PER_PMD - pmd_index a) m e.tbl (pmd_index a) a n p hm h3 han hn64
      (by show (n - 1) / 2 ^ 21 - a / 2 ^ 21 < PTRS_PER_PMD - pmd_index a
          unfold PTRS_PER_PMD; omega) hA
    have hiff := slots21_iff
      (fun lo hi j => Ready_pmd allow lo hi (p + (lo - a)) (e.tbl j)) (pmd_index a) a n han
    constructor
    · intro h
      unfold alloc_init_pmd
      simp only [h0, h1, Bool.or_self, Bool.false_eq_true, if_false, hb]
      rw [alloc_init_pmd_loop_eq, alloc_init_pmd_loop_eq, l1 (hiff.mp h.2)]
    · intro h
      have h' : ¬ ∀ j, in_slots (2 ^ 21) (pmd_index a) a n j →
          Ready_pmd allow (slot_lo (2 ^ 21) (pmd_index a) a j)
            (slot_hi (2 ^ 21) (pmd_index a) a n j)
            (p + (slot_lo (2 ^ 21) (pmd_index a) a j - a)) (e.tbl j) := fun hx => h ⟨h2, hx⟩
      unfold alloc_init_pmd
      simp only [h0, h1, Bool.or_self, Bool.false_eq_true, if_false, hb]
      rw [alloc_init_pmd_loop_eq, l2 (fun hx => h' (hiff.mpr hx))]

theorem alloc_init_pud_body_none (Q : Nat → Prop) (prot : Nat) (al : Allocator) (allow : Bool)
    (hQ0 : Q 0) (hQx : ∀ pfn, Q (pfn_pte pfn PAGE_KERNEL_EXEC)) (hQp : ∀ pfn, Q (pfn_pte pfn prot))
    (hprot : prot ≠ 0)
    (m : Machine) (e : PudEnt) (a n p : Nat) (hm : m.alloc_ok) (hwf : e.WF Q) (han : a < n)
    (hn : n ≤ a / 2 ^ 30 * 2 ^ 30 + 2 ^ 30) (hn64 : n < 2 ^ 64) (hA : Aligned a n p) :
    (Ready_pud allow a n p e →
      alloc_init_pud_body m e a n p prot none allow =
        alloc_init_pud_body m e a n p prot (some al) allow) ∧
    (¬ Ready_pud allow a n p e →
      alloc_init_pud_body m e a n p prot none allow = .error .bug) := by
  unfold Ready_pud
  by_cases hc : (use_1G_block a n p && allow) = true
  · refine ⟨fun _ => ?_, fun h => absurd (Or.inl hc) h⟩
    unfold alloc_init_pud_body
    simp only [hc, if_true]
  · obtain ⟨l1, l2⟩ := alloc_init_pmd_none Q prot al allow hQ0 hQx hQp hprot m e a n p hm hwf han
      hn hn64 hA
    constructor
    · intro h
      unfold alloc_init_pud_body
      simp only [hc, Bool.false_eq_true, if_false]
      exact l1 (h.resolve_left hc)
    · intro h
      unfold alloc_init_pud_body
      simp only [hc, Bool.false_eq_true, if_false]
      exact l2 (fun hx => h (Or.inr hx))

theorem alloc_init_pud_none (Q : Nat → Prop) (prot : Nat) (al : Allocator) (allow : Bool)
    (hQ0 : Q 0) (hQx : ∀ pfn, Q (pfn_pte pfn PAGE_KERNEL_EXEC)) (hQp : ∀ pfn, Q (pfn_pte pfn prot))
    (hprot : prot ≠ 0)
    (m : Machine) (e : PgdEnt) (a n p : Nat) (hm : m.alloc_ok) (hwf : e.WF Q) (han : a < n)
    (hn : n ≤ a / 2 ^ 39 * 2 ^ 39 + 2 ^ 39) (hn64 : n < 2 ^ 64) (hA : Aligned a n p) :
    (Ready_pgd allow a n p e →
      alloc_init_pud m e a n p prot none allow = alloc_init_pud m e a n p prot (some al) allow) ∧
    (¬ Ready_pgd allow a n p e →
      alloc_init_pud m e a n p prot none allow = .error .bug) := by
  have hidx := pud_index_eq a
  unfold Ready_pgd
  rcases hwf with h0 | ⟨hb, h3⟩
  · refine ⟨fun h => ?_, fun _ => ?_⟩
    · rw [h0] at h; exact absurd h.1 (by simp)
    · unfold alloc_init_pud
      simp only [h0, if_true]
  · have hb' : ¬ e.val % 4 < 2 := by simpa [pgd_bad_eq] using hb
    have h0 : pgd_none e.val = false := by
      rw [pgd_none_eq]; exact decide_eq_false (by omega)
    obtain ⟨l1, l2⟩ := range_loop_none cut_pud
      (fun m e a n p => alloc_init_pud_body m e a n p prot none allow)
      (fun m e a n p => alloc_init_pud_body m e a n p prot (some al) allow)
      Machine.alloc_ok (PudEnt.WF Q) Aligned (Ready_pud allow)
      (fun a n p h => h.2.2.2) aligned_step30 (fun _ _ h hx => alloc_ok_ext h hx)
      (fun m e a n p hm he han hn hn64 hA => by
        obtain ⟨e', m', r1, r2, r3, _⟩ :=
          alloc_init_pud_body_spec Q prot al allow hQ0 hQx hQp hprot m e a n p hm he han hn hn64 hA
        exact ⟨e', m', r1, r2, r3.1⟩)
      (fun m e a n p hm he h1 h2 h3 h4 hg =>
        (alloc_init_pud_body_none Q prot al allow hQ0 hQx hQp hprot m e a n p hm he h1 h2 h3
          h4).1 hg)
      (fun m e a n p hm he h1 h2 h3 h4 hg =>
        (alloc_init_pud_body_none Q prot al allow hQ0 hQx hQp hprot m e a n p hm he h1 h2 h3
          h4).2 hg)
      (PTRS_PER_PUD - pud_index a) m e.tbl (pud_index a) a n p hm h3 han hn64
      (by show (n - 1) / 2 ^ 30 - a / 2 ^ 30 < PTRS_PER_PUD - pud_index a
          unfold PTRS_PER_PUD; omega) hA
    have hiff := slots30_iff
      (fun lo hi j => Ready_pud allow lo hi (p + (lo - a)) (e.tbl j)) (pud_index a) a n han
    constructor
    · intro h
      unfold alloc_init_pud
      simp only [h0, Bool.false_eq_true, if_false, hb]
      rw [alloc_init_pud_loop_eq, alloc_init_pud_loop_eq, l1 (hiff.mp h.2)]
    · intro h
      have h' : ¬ ∀ j, in_slots (2 ^ 30) (pud_index a) a n j →
          Ready_pud allow (slot_lo (2 ^ 30) (pud_index a) a j)
            (slot_hi (2 ^ 30) (pud_index a) a n j)
            (p + (slot_lo (2 ^ 30) (pud_index a) a j - a)) (e.tbl j) := fun hx => h ⟨h0, hx⟩
      unfold alloc_init_pud
      simp only [h0, Bool.false_eq_true, if_false, hb]
      rw [alloc_init_pud_loop_eq, l2 (fun hx => h' (hiff.mpr hx))]


theorem create_pgd_mapping_loop_none (Q : Nat → Prop) (prot : Nat) (al : Allocator)
    (allow : Bool) (hQ0 : Q 0) (hQx : ∀ pfn, Q (pfn_pte pfn PAGE_KERNEL_EXEC))
    (hQp : ∀ pfn, Q (pfn_pte pfn prot)) (hprot : prot ≠ 0)
    (m : Machine) (pgd : PgdTable) (a n p : Nat) (hm : m.alloc_ok) (hwf : WF Q pgd)
    (han : a < n) (hn64 : n < 2 ^ 64) (hwin : a / 2 ^ 48 = (n - 1) / 2 ^ 48)
    (hA : Aligned a n p) :
    (Ready allow a n p pgd →
      create_pgd_mapping_loop (PTRS_PER_PGD - pgd_index a) m pgd (pgd_index a) a n p prot none
          allow =
        create_pgd_mapping_loop (PTRS_PER_PGD - pgd_index a) m pgd (pgd_index a) a n p prot
          (some al) allow) ∧
    (¬ Ready allow a n p pgd →
      create_pgd_mapping_loop (PTRS_PER_PGD - pgd_index a) m pgd (pgd_index a) a n p prot none
          allow = .error .bug) := by
  have hidx := pgd_index_eq a
  obtain ⟨l1, l2⟩ := range_loop_none cut_pgd
    (fun m e a n p => alloc_init_pud m e a n p prot none allow)
    (fun m e a n p => alloc_init_pud m e a n p prot (some al) allow)
    Machine.alloc_ok (PgdEnt.WF Q) Aligned (Ready_pgd allow)
    (fun a n p h => h.2.2.2) aligned_step39 (fun _ _ h hx => alloc_ok_ext h hx)
    (fun m e a n p hm he han hn hn64 hA => by
      obtain ⟨e', m', r1, r2, r3, _⟩ :=
        alloc_init_pud_spec Q prot al allow hQ0 hQx hQp hprot m e a n p hm he han hn hn64 hA
      exact ⟨e', m', r1, r2, r3.1⟩)
    (fun m e a n p hm he h1 h2 h3 h4 hg =>
      (alloc_init_pud_none Q prot al allow hQ0 hQx hQp hprot m e a n p hm he h1 h2 h3 h4).1 hg)
    (fun m e a n p hm he h1 h2 h3 h4 hg =>
      (alloc_init_pud_none Q prot al allow hQ0 hQx hQp hprot m e a n p hm he h1 h2 h3 h4).2 hg)
    (PTRS_PER_PGD - pgd_index a) m pgd (pgd_index a) a n p hm hwf han hn64
    (by show (n - 1) / 2 ^ 39 - a / 2 ^ 39 < PTRS_PER_PGD - pgd_index a
        unfold PTRS_PER_PGD; omega) hA
  have hiff := slots39_iff
    (fun lo hi j => Ready_pgd allow lo hi (p + (lo - a)) (pgd j)) (pgd_index a) a n han
  unfold Ready
  constructor
  · intro h
    rw [create_pgd_mapping_loop_eq, create_pgd_mapping_loop_eq, l1 (hiff.mp h)]
  · intro h
    rw [create_pgd_mapping_loop_eq, l2 (fun hx => h (hiff.mpr hx))]

theorem create_pgd_mapping_none (Q : Nat → Prop) (prot : Nat) (al : Allocator)
    (allow : Bool) (hQ0 : Q 0) (hQx : ∀ pfn, Q (pfn_pte pfn PAGE_KERNEL_EXEC))
    (hQp : ∀ pfn, Q (pfn_pte pfn prot)) (hprot : prot ≠ 0)
    (m : Machine) (pgdir : PgdTable) (phys virt size : Nat) (hm : m.alloc_ok)
    (hwf : WF Q pgdir) (hoff : (phys ^^^ virt) &&& not64 PAGE_MASK = 0) (hsize : 0 < size)
    (hv : virt + size + 2 ^ 12 ≤ 2 ^ 64) (hp : phys + size + 2 ^ 12 ≤ 2 ^ 64)
    (hwin : virt / 2 ^ 48 = (virt + size - 1) / 2 ^ 48) :
    (Ready allow (virt / 2 ^ 12 * 2 ^ 12) ((virt + size + (2 ^ 12 - 1)) / 2 ^ 12 * 2 ^ 12)
        (phys / 2 ^ 12 * 2 ^ 12) pgdir →
      __create_pgd_mapping m pgdir phys virt size prot none allow =
        __create_pgd_mapping m pgdir phys virt size prot (some al) allow) ∧
    (¬ Ready allow (virt / 2 ^ 12 * 2 ^ 12) ((virt + size + (2 ^ 12 - 1)) / 2 ^ 12 * 2 ^ 12)
        (phys / 2 ^ 12 * 2 ^ 12) pgdir →
      __create_pgd_mapping m pgdir phys virt size prot none allow = .error .bug) := by
  have hoff' := (same_offset_iff phys virt).mp hoff
  rw [__create_pgd_mapping, __create_pgd_mapping]
  have hc : ((phys ^^^ virt) &&& not64 PAGE_MASK != 0) = false := by rw [hoff]; rfl
  simp only [hc, Bool.false_eq_true, if_false]
  have e1 : phys &&& PAGE_MASK = phys / 2 ^ 12 * 2 ^ 12 :=
    land_mask_hi phys 12 (by omega) (by norm_num)
  have e2 : virt &&& PAGE_MASK = virt / 2 ^ 12 * 2 ^ 12 :=
    land_mask_hi virt 12 (by omega) (by norm_num)
  have e3 : virt &&& not64 PAGE_MASK = virt % 2 ^ 12 := by
    rw [not64_PAGE_MASK, Nat.and_pow_two_sub_one_eq_mod]
  have e4 : add64 size (virt % 2 ^ 12) = size + virt % 2 ^ 12 := by
    unfold add64; exact Nat.mod_eq_of_lt (by omega)
  have e5 : PAGE_ALIGN (size + virt % 2 ^ 12) =
      (size + virt % 2 ^ 12 + (2 ^ 12 - 1)) / 2 ^ 12 * 2 ^ 12 := by
    unfold PAGE_ALIGN PAGE_SIZE
    have : (size + virt % 2 ^ 12 + (2 ^ 12 - 1)) % 2 ^ 64 = size + virt % 2 ^ 12 + (2 ^ 12 - 1) :=
      Nat.mod_eq_of_lt (by omega)
    rw [this]
    exact land_mask_hi _ 12 (by omega) (by norm_num)
  have e6 : add64 (virt / 2 ^ 12 * 2 ^ 12)
      ((size + virt % 2 ^ 12 + (2 ^ 12 - 1)) / 2 ^ 12 * 2 ^ 12) =
      (virt + size + (2 ^ 12 - 1)) / 2 ^ 12 * 2 ^ 12 := by
    unfold add64
    rw [Nat.mod_eq_of_lt (by omega)]
    omega
  have e7 : pgd_index virt = pgd_index (virt / 2 ^ 12 * 2 ^ 12) := by
    rw [pgd_index_eq, pgd_index_eq]; omega
  rw [e1, e2, e3, e4, e5, e6, e7]
  exact create_pgd_mapping_loop_none Q prot al allow hQ0 hQx hQp hprot m pgdir
    (virt / 2 ^ 12 * 2 ^ 12) ((virt + size + (2 ^ 12 - 1)) / 2 ^ 12 * 2 ^ 12)
    (phys / 2 ^ 12 * 2 ^ 12) hm hwf (by omega) (by omega) (by omega)
    (by unfold Aligned; omega)

/-! ## Claims on the absent allocator handle -/

theorem mapping_events_none :
    MappingEvents (fun ev => ev.installs_table = false) (none : Option Allocator) where
  warn := rfl
  flush := rfl
  memblock_free := fun _ _ => rfl
  set_pte := fun _ _ => rfl
  pmd_block := fun _ n h => by simp only [Event.installs_table, h, Bool.not_true]
  pud_block := fun _ n h => by simp only [Event.installs_table, h, Bool.not_true]
  page_alloc := fun h => absurd rfl h
  set_pmd := fun h => absurd rfl h
  set_pud := fun h => absurd rfl h
  set_pgd := fun h => absurd rfl h

theorem leaf_tree_WF : WF (fun _ => True) leaf_tree := by
  intro i
  unfold leaf_tree
  by_cases hi : i = 0
  · rw [if_pos hi]
    refine Or.inr ⟨by decide, fun j => ?_⟩
    by_cases hj : j = 0
    · simp only [hj, if_true]
      refine Or.inr (Or.inr ⟨by decide, fun k => ?_⟩)
      by_cases hk : k = 0
      · simp only [hk, if_true]
        exact Or.inr (Or.inr ⟨by decide, fun _ => trivial⟩)
      · simp only [hk, if_false]
        exact Or.inl rfl
    · simp only [hj, if_false]
      exact Or.inl rfl
  · rw [if_neg hi]
    exact Or.inl rfl

theorem leaf_tree_ready :
    Ready false (0xffff000000000000 / 2 ^ 12 * 2 ^ 12)
      ((0xffff000000000000 + 0x1000 + (2 ^ 12 - 1)) / 2 ^ 12 * 2 ^ 12)
      (0x40000000 / 2 ^ 12 * 2 ^ 12) leaf_tree := by
  have eA : 0xffff000000000000 / 2 ^ 12 * 2 ^ 12 = 0xffff000000000000 := by norm_num
  have eN : (0xffff000000000000 + 0x1000 + (2 ^ 12 - 1)) / 2 ^ 12 * 2 ^ 12 =
      0xffff000000001000 := by norm_num
  have eP : 0x40000000 / 2 ^ 12 * 2 ^ 12 = 0x40000000 := by norm_num
  rw [eA, eN, eP]
  have i39 : pgd_index 0xffff000000000000 = 0 := by decide
  have i30 : pud_index 0xffff000000000000 = 0 := by decide
  have i21 : pmd_index 0xffff000000000000 = 0 := by decide
  intro i hi
  rw [i39] at hi ⊢
  have hi0 : i = 0 := by unfold in_slots at hi; omega
  subst hi0
  have l39 : slot_lo (2 ^ 39) 0 0xffff000000000000 0 = 0xffff000000000000 := by decide
  have h39 : slot_hi (2 ^ 39) 0 0xffff000000000000 0xffff000000001000 0 =
      0xffff000000001000 := by decide
  rw [l39, h39]
  refine ⟨by decide, ?_⟩
  intro j hj
  rw [i30] at hj ⊢
  have hj0 : j = 0 := by unfold in_slots at hj; omega
  subst hj0
  have l30 : slot_lo (2 ^ 30) 0 0xffff000000000000 0 = 0xffff000000000000 := by decide
  have h30 : slot_hi (2 ^ 30) 0 0xffff000000000000 0xffff000000001000 0 =
      0xffff000000001000 := by decide
  rw [l30, h30]
  refine Or.inr ⟨by decide, ?_⟩
  intro k hk
  rw [i21] at hk ⊢
  have hk0 : k = 0 := by unfold in_slots at hk; omega
  subst hk0
  exact Or.inr (by decide)

theorem zero_tree_not_ready (allow : Bool) :
    ¬ Ready allow (0xffff000000000000 / 2 ^ 12 * 2 ^ 12)
      ((0xffff000000000000 + 0x1000 + (2 ^ 12 - 1)) / 2 ^ 12 * 2 ^ 12)
      (0x40000000 / 2 ^ 12 * 2 ^ 12) zero_pgd_table := by
  intro h
  have := (h 0 (by decide)).1
  exact absurd this (by decide)

/-- C12: with no allocator handle (`NULL`, as `create_mapping_late` passes), each level of the
walk halts on `BUG` when the entry it has to descend through is empty or a block: no entry and
no machine state comes back from the call.  For a request in one half of the address space on
well-formed tables, `__create_pgd_mapping` halts on `BUG` when a table level that the range
needs is missing or is a block (`¬ Ready`); when every level is there (`Ready`) it returns, takes
no page from the page provider, every event it logs stores a leaf or block descriptor or is a
flush, a release of a replaced table or a warning (none installs a table), and every address of
the range resolves as requested.  The page provider is one that never fails, as for the run with
a handle that this run is compared with. -/
theorem C12_absent_allocator_handle (m : Machine) (pgdir : PgdTable)
    (phys virt size prot : Nat) (allow : Bool)
    (hm : m.alloc_ok) (hwf : WF (fun _ => True) pgdir)
    (hoff : (phys ^^^ virt) &&& not64 PAGE_MASK = 0) (hsize : 0 < size)
    (hv : virt + size + 2 ^ 12 ≤ 2 ^ 64) (hp : phys + size + 2 ^ 12 ≤ 2 ^ 64)
    (hwin : virt / 2 ^ 48 = (virt + size - 1) / 2 ^ 48) (hprot0 : prot ≠ 0) :
    (∀ (m1 : Machine) (e : PmdEnt) (a n pfn : Nat),
      pmd_none e.val = true ∨ pmd_sect e.val = true →
        alloc_init_pte m1 e a n pfn prot none = .error .bug) ∧
    (∀ (m1 : Machine) (e : PudEnt) (a n p : Nat),
      pud_none e.val = true ∨ pud_sect e.val = true →
        alloc_init_pmd m1 e a n p prot none allow = .error .bug) ∧
    (∀ (m1 : Machine) (e : PgdEnt) (a n p : Nat),
      pgd_none e.val = true → alloc_init_pud m1 e a n p prot none allow = .error .bug) ∧
    (¬ Ready allow (virt / 2 ^ 12 * 2 ^ 12) ((virt + size + (2 ^ 12 - 1)) / 2 ^ 12 * 2 ^ 12)
        (phys / 2 ^ 12 * 2 ^ 12) pgdir →
      __create_pgd_mapping m pgdir phys virt size prot none allow = .error .bug) ∧
    (Ready allow (virt / 2 ^ 12 * 2 ^ 12) ((virt + size + (2 ^ 12 - 1)) / 2 ^ 12 * 2 ^ 12)
        (phys / 2 ^ 12 * 2 ^ 12) pgdir →
      ∃ pgd' m', __create_pgd_mapping m pgdir phys virt size prot none allow = .ok (pgd', m') ∧
        m'.nalloc = m.nalloc ∧
        (∃ new, m'.trace = new ++ m.trace ∧ ∀ ev ∈ new, ev.installs_table = false) ∧
        (∀ x, virt / 2 ^ 12 * 2 ^ 12 ≤ x → x < (virt + size + (2 ^ 12 - 1)) / 2 ^ 12 * 2 ^ 12 →
          lookup pgd' x = some (target allow (virt / 2 ^ 12 * 2 ^ 12)
            ((virt + size + (2 ^ 12 - 1)) / 2 ^ 12 * 2 ^ 12) (phys / 2 ^ 12 * 2 ^ 12) prot x)) ∧
        MapRel prot (virt / 2 ^ 12 * 2 ^ 12) ((virt + size + (2 ^ 12 - 1)) / 2 ^ 12 * 2 ^ 12)
          (phys / 2 ^ 12 * 2 ^ 12) pgdir pgd') := by
  obtain ⟨l1, l2⟩ := create_pgd_mapping_none (fun _ => True) prot Allocator.early_pgtable_alloc
    allow trivial (fun _ => trivial) (fun _ => trivial) hprot0 m pgdir phys virt size hm hwf hoff
    hsize hv hp hwin
  refine ⟨fun m1 e a n pfn h => alloc_init_pte_none_bug m1 e a n pfn prot h, ?_, ?_, l2, ?_⟩
  · intro m1 e a n p h
    have hc : (pud_none e.val || pud_sect e.val) = true := by
      rcases h with h | h <;> simp [h]
    unfold alloc_init_pmd
    simp only [hc, if_true]
  · intro m1 e a n p h
    unfold alloc_init_pud
    simp only [h, if_true]
  · intro hr
    obtain ⟨pgd', m', h1, _, _, h4, h5⟩ := create_pgd_mapping_spec (fun _ => True) prot
      Allocator.early_pgtable_alloc allow trivial (fun _ => trivial) (fun _ => trivial) hprot0 m
      pgdir phys virt size hm hwf hoff hsize hv hp hwin
    rw [← l1 hr] at h1
    obtain ⟨g1, _, g3⟩ := create_pgd_mapping_grows mapping_events_none allow m pgdir phys virt size
      prot pgd' m' h1
    exact ⟨pgd', m', h1, g3 rfl, g1, h4, h5⟩

theorem C12_absent_allocator_handle_witness :
    __create_pgd_mapping boot_machine zero_pgd_table 0x40000000 0xffff000000000000 0x1000
        PAGE_KERNEL none false = .error .bug ∧
    ∃ pgd' m', __create_pgd_mapping boot_machine leaf_tree 0x40000000 0xffff000000000000 0x1000
        PAGE_KERNEL none false = .ok (pgd', m') ∧
      m'.nalloc = boot_machine.nalloc ∧
      (∃ new, m'.trace = new ++ boot_machine.trace ∧ ∀ ev ∈ new, ev.installs_table = false) ∧
      (∀ x, 0xffff000000000000 / 2 ^ 12 * 2 ^ 12 ≤ x →
        x < (0xffff000000000000 + 0x1000 + (2 ^ 12 - 1)) / 2 ^ 12 * 2 ^ 12 →
          lookup pgd' x = some (target false (0xffff000000000000 / 2 ^ 12 * 2 ^ 12)
            ((0xffff000000000000 + 0x1000 + (2 ^ 12 - 1)) / 2 ^ 12 * 2 ^ 12)
            (0x40000000 / 2 ^ 12 * 2 ^ 12) PAGE_KERNEL x)) ∧
      MapRel PAGE_KERNEL (0xffff000000000000 / 2 ^ 12 * 2 ^ 12)
        ((0xffff000000000000 + 0x1000 + (2 ^ 12 - 1)) / 2 ^ 12 * 2 ^ 12)
        (0x40000000 / 2 ^ 12 * 2 ^ 12) leaf_tree pgd' :=
  ⟨(C12_absent_allocator_handle boot_machine zero_pgd_table 0x40000000 0xffff000000000000 0x1000
      PAGE_KERNEL false boot_machine_alloc_ok (zero_pgd_WF _) (by decide) (by decide) (by decide)
      (by decide) (by decide) (by decide)).2.2.2.1 (zero_tree_not_ready false),
    (C12_absent_allocator_handle boot_machine leaf_tree 0x40000000 0xffff000000000000 0x1000
      PAGE_KERNEL false boot_machine_alloc_ok leaf_tree_WF (by decide) (by decide) (by decide)
      (by decide) (by decide) (by decide)).2.2.2.2 leaf_tree_ready⟩

/-! ## Claims on memory hotplug -/

theorem mapping_events_late :
    MappingEvents (fun ev => ev.of_mapping = true) (some Allocator.pgd_pgtable_alloc) where
  warn := rfl
  flush := rfl
  memblock_free := fun _ _ => rfl
  set_pte := fun _ _ => rfl
  pmd_block := fun _ _ _ => rfl
  pud_block := fun _ _ _ => rfl
  page_alloc := fun _ _ => rfl
  set_pmd := fun _ _ _ => rfl
  set_pud := fun _ _ _ => rfl
  set_pgd := fun _ _ _ => rfl

theorem root_installs_append (l1 l2 : List Event) :
    root_installs (l1 ++ l2) = root_installs l1 ++ root_installs l2 := by
  induction l1 with
  | nil => rfl
  | cons ev l ih =>
    cases ev <;> simp [root_installs, ih]

theorem root_installs_of_mapping (l : List Event) (h : ∀ ev ∈ l, ev.of_mapping = true) :
    root_installs l = [] := by
  induction l with
  | nil => rfl
  | cons ev l ih =>
    have h1 := h ev (List.mem_cons_self _ _)
    have h2 := ih (fun e he => h e (List.mem_cons_of_mem _ he))
    cases ev <;> first
      | (simp only [root_installs]; exact h2)
      | (simp [Event.of_mapping] at h1)

/-- C18: `hotplug_paging(start, size)` returns (with a page provider that never fails, on
well-formed tables, for a range that lies in one half of the address space), and then the active
translation root is the permanent root `swapper_pg_dir`; the root-install primitive
`cpu_replace_ttbr1` was called exactly twice, first with the shadow root (the page taken at the
start) and last with the permanent root; and the content of the permanent root is what the mapping
engine left in the shadow copy of the previous content: the engine run on the previous content
returns it, every address of the added range resolves in it as requested (leaf pages, blocks
being disallowed), and it is the previous content outside the slots of the range (`MapRel`). -/
theorem C18_hotplug_restores_permanent_root (m : Machine) (swapper_pg_dir : PgdTable)
    (memstart start size : Nat)
    (hm : m.alloc_ok) (hwf : WF (fun _ => True) swapper_pg_dir)
    (hoff : (start ^^^ __phys_to_virt memstart start) &&& not64 PAGE_MASK = 0) (hsize : 0 < size)
    (hv : __phys_to_virt memstart start + size + 2 ^ 12 ≤ 2 ^ 64)
    (hp : start + size + 2 ^ 12 ≤ 2 ^ 64)
    (hwin : __phys_to_virt memstart start / 2 ^ 48 =
      (__phys_to_virt memstart start + size - 1) / 2 ^ 48) :
    ∃ out pgd_phys new m1 m2,
      hotplug_paging m swapper_pg_dir memstart start size = .ok out ∧
      out.m.ttbr1 = .swapper_pg_dir ∧
      out.m.trace = new ++ m.trace ∧
      root_installs new = [.swapper_pg_dir, .page pgd_phys] ∧
      pgd_pgtable_alloc m = .ok (pgd_phys, m1) ∧
      __create_pgd_mapping (m1.log (.pgd_set_fixmap pgd_phys)) swapper_pg_dir start
        (__phys_to_virt memstart start) size PAGE_KERNEL (some .pgd_pgtable_alloc) false =
          .ok (out.swapper, m2) ∧
      (∀ x, __phys_to_virt memstart start / 2 ^ 12 * 2 ^ 12 ≤ x →
        x < (__phys_to_virt memstart start + size + (2 ^ 12 - 1)) / 2 ^ 12 * 2 ^ 12 →
          lookup out.swapper x = some (target false
            (__phys_to_virt memstart start / 2 ^ 12 * 2 ^ 12)
            ((__phys_to_virt memstart start + size + (2 ^ 12 - 1)) / 2 ^ 12 * 2 ^ 12)
            (start / 2 ^ 12 * 2 ^ 12) PAGE_KERNEL x)) ∧
      MapRel PAGE_KERNEL (__phys_to_virt memstart start / 2 ^ 12 * 2 ^ 12)
        ((__phys_to_virt memstart start + size + (2 ^ 12 - 1)) / 2 ^ 12 * 2 ^ 12)
        (start / 2 ^ 12 * 2 ^ 12) swapper_pg_dir out.swapper := by
  obtain ⟨pgd_phys, m1, hc, hx⟩ := Allocator.call_ok .pgd_pgtable_alloc m hm
  have hc' : pgd_pgtable_alloc m = .ok (pgd_phys, m1) := hc
  have g0 := Allocator.call_grows (P := fun ev => ev.of_mapping = true) False (fun h => h)
    (fun _ => rfl) .pgd_pgtable_alloc m m1 pgd_phys hc
  have hm1 : (m1.log (.pgd_set_fixmap pgd_phys)).alloc_ok :=
    alloc_ok_ext hm (Machine.ext_trans hx (Machine.ext_log _ _))
  obtain ⟨pgd', m2, h1, _, _, h4, h5⟩ := create_pgd_mapping_spec (fun _ => True) PAGE_KERNEL
    .pgd_pgtable_alloc false trivial (fun _ => trivial) (fun _ => trivial) (by decide)
    (m1.log (.pgd_set_fixmap pgd_phys)) swapper_pg_dir start (__phys_to_virt memstart start) size
    hm1 hwf hoff hsize hv hp hwin
  obtain ⟨⟨new2, t2, p2⟩, _, _⟩ := create_pgd_mapping_grows mapping_events_late false _ _ _ _ _ _
    _ _ h1
  obtain ⟨⟨new0, t0, p0⟩, _, _⟩ := g0
  refine ⟨⟨pgd', (((cpu_replace_ttbr1 (cpu_replace_ttbr1 m2 (.page pgd_phys))
      .swapper_pg_dir).log .pgd_clear_fixmap).log (.free_pages pgd_phys 0))⟩, pgd_phys,
    [.free_pages pgd_phys 0, .pgd_clear_fixmap, .cpu_replace_ttbr1 .swapper_pg_dir,
      .cpu_replace_ttbr1 (.page pgd_phys)] ++ new2 ++ [.pgd_set_fixmap pgd_phys] ++ new0,
    m1, m2, ?_, rfl, ?_, ?_, hc', h1, h4, h5⟩
  · rw [hotplug_paging, hc']
    simp only [h1]
  · show Event.free_pages pgd_phys 0 :: Event.pgd_clear_fixmap ::
      Event.cpu_replace_ttbr1 .swapper_pg_dir :: Event.cpu_replace_ttbr1 (.page pgd_phys) ::
        m2.trace = _
    rw [t2]
    show _ = _ ++ new2 ++ _ ++ new0 ++ m.trace
    have : (m1.log (.pgd_set_fixmap pgd_phys)).trace = .pgd_set_fixmap pgd_phys :: m1.trace := rfl
    rw [this, t0]
    simp only [List.append_assoc, List.cons_append, List.nil_append]
  · rw [root_installs_append, root_installs_append, root_installs_append,
      root_installs_of_mapping new2 p2, root_installs_of_mapping new0 p0]
    rfl

theorem C18_hotplug_restores_permanent_root_witness :
    ∃ out pgd_phys new m1 m2,
      hotplug_paging boot_machine zero_pgd_table 0x80000000 0x100000000 0x2000 = .ok out ∧
      out.m.ttbr1 = .swapper_pg_dir ∧
      out.m.trace = new ++ boot_machine.trace ∧
      root_installs new = [.swapper_pg_dir, .page pgd_phys] ∧
      pgd_pgtable_alloc boot_machine = .ok (pgd_phys, m1) ∧
      __create_pgd_mapping (m1.log (.pgd_set_fixmap pgd_phys)) zero_pgd_table 0x100000000
        (__phys_to_virt 0x80000000 0x100000000) 0x2000 PAGE_KERNEL (some .pgd_pgtable_alloc)
        false = .ok (out.swapper, m2) ∧
      (∀ x, __phys_to_virt 0x80000000 0x100000000 / 2 ^ 12 * 2 ^ 12 ≤ x →
        x < (__phys_to_virt 0x80000000 0x100000000 + 0x2000 + (2 ^ 12 - 1)) / 2 ^ 12 * 2 ^ 12 →
          lookup out.swapper x = some (target false
            (__phys_to_virt 0x80000000 0x100000000 / 2 ^ 12 * 2 ^ 12)
            ((__phys_to_virt 0x80000000 0x100000000 + 0x2000 + (2 ^ 12 - 1)) / 2 ^ 12 * 2 ^ 12)
            (0x100000000 / 2 ^ 12 * 2 ^ 12) PAGE_KERNEL x)) ∧
      MapRel PAGE_KERNEL (__phys_to_virt 0x80000000 0x100000000 / 2 ^ 12 * 2 ^ 12)
        ((__phys_to_virt 0x80000000 0x100000000 + 0x2000 + (2 ^ 12 - 1)) / 2 ^ 12 * 2 ^ 12)
        (0x100000000 / 2 ^ 12 * 2 ^ 12) zero_pgd_table out.swapper :=
  C18_hotplug_restores_permanent_root boot_machine zero_pgd_table 0x80000000 0x100000000 0x2000
    boot_machine_alloc_ok (zero_pgd_WF _) (by decide) (by decide) (by decide) (by decide)
    (by decide)

/-! ## What the teardown engine logs -/

theorem RemovalLog.append {direct : Bool} {l1 l2 : List Event} (h1 : RemovalLog direct l1)
    (h2 : RemovalLog direct l2) : RemovalLog direct (l1 ++ l2) := by
  induction h1 with
  | nil => exact h2
  | flush l _ ih => exact RemovalLog.flush _ ih
  | leaf_kept v l hd hv _ ih => exact RemovalLog.leaf_kept v _ hd hv ih
  | leaf_freed v l hd hv _ ih => exact RemovalLog.leaf_freed v _ hd hv ih
  | pmd_block_kept v l hd hv _ ih => exact RemovalLog.pmd_block_kept v _ hd hv ih
  | pmd_block_freed v l hd hv _ ih => exact RemovalLog.pmd_block_freed v _ hd hv ih
  | pud_block_kept v l hd hv _ ih => exact RemovalLog.pud_block_kept v _ hd hv ih
  | pud_block_freed v l hd hv _ ih => exact RemovalLog.pud_block_freed v _ hd hv ih
  | pte_table_freed v l hv _ ih => exact RemovalLog.pte_table_freed v _ hv ih
  | pmd_table_freed v l hv _ ih => exact RemovalLog.pmd_table_freed v _ hv ih
  | pud_table_freed v l hv _ ih => exact RemovalLog.pud_table_freed v _ hv ih

theorem Machine.removes_refl (direct : Bool) (m : Machine) : m.removes direct m :=
  ⟨[], rfl, RemovalLog.nil⟩

theorem Machine.removes_trans {direct : Bool} {a b c : Machine} (h1 : a.removes direct b)
    (h2 : b.removes direct c) : a.removes direct c := by
  obtain ⟨n1, e1, p1⟩ := h1
  obtain ⟨n2, e2, p2⟩ := h2
  exact ⟨n2 ++ n1, by rw [e2, e1, List.append_assoc], RemovalLog.append p2 p1⟩

theorem Machine.removes_flush (direct : Bool) (m : Machine) :
    m.removes direct (m.log .flush_tlb_all) :=
  ⟨[.flush_tlb_all], rfl, RemovalLog.flush _ RemovalLog.nil⟩

theorem removes_leaf (direct : Bool) (m : Machine) (v : Nat) (hv : pte_present v = true) :
    m.removes direct ((if (!direct) = true then free_pagetable m (pte_page v) 0 direct
      else m).log (.set_pte v 0)) := by
  cases direct with
  | false => exact ⟨[.set_pte v 0, .free_pagetable (pte_page v) 0 false], rfl,
      RemovalLog.leaf_freed v _ rfl hv RemovalLog.nil⟩
  | true => exact ⟨[.set_pte v 0], rfl, RemovalLog.leaf_kept v _ rfl hv RemovalLog.nil⟩

theorem removes_pmd_block (direct : Bool) (m : Machine) (v : Nat) (hv : pmd_sect v = true) :
    m.removes direct ((if (!direct) = true then
      free_pagetable m (pmd_page v) (get_order PMD_SIZE) direct else m).log (.set_pmd v 0)) := by
  cases direct with
  | false => exact ⟨[.set_pmd v 0, .free_pagetable (pmd_page v) (get_order PMD_SIZE) false], rfl,
      RemovalLog.pmd_block_freed v _ rfl hv RemovalLog.nil⟩
  | true => exact ⟨[.set_pmd v 0], rfl, RemovalLog.pmd_block_kept v _ rfl hv RemovalLog.nil⟩

theorem removes_pud_block (direct : Bool) (m : Machine) (v : Nat) (hv : pud_sect v = true) :
    m.removes direct ((if (!direct) = true then
      free_pagetable m (pud_page v) (get_order PUD_SIZE) direct else m).log (.set_pud v 0)) := by
  cases direct with
  | false => exact ⟨[.set_pud v 0, .free_pagetable (pud_page v) (get_order PUD_SIZE) false], rfl,
      RemovalLog.pud_block_freed v _ rfl hv RemovalLog.nil⟩
  | true => exact ⟨[.set_pud v 0], rfl, RemovalLog.pud_block_kept v _ rfl hv RemovalLog.nil⟩

theorem free_pte_table_removes (direct : Bool) (m : Machine) (e : PmdEnt)
    (h : pmd_table e.val = true) : m.removes direct (free_pte_table m e direct).2 := by
  unfold free_pte_table
  split
  · exact ⟨[.set_pmd e.val 0, .free_pagetable (pmd_page e.val) 0 direct], rfl,
      RemovalLog.pte_table_freed e.val _ h RemovalLog.nil⟩
  · exact Machine.removes_refl direct m

theorem free_pmd_table_removes (direct : Bool) (m : Machine) (e : PudEnt)
    (h : pud_table e.val = true) : m.removes direct (free_pmd_table m e direct).2 := by
  unfold free_pmd_table
  split
  · exact ⟨[.set_pud e.val 0, .free_pagetable (pud_page e.val) 0 direct], rfl,
      RemovalLog.pmd_table_freed e.val _ h RemovalLog.nil⟩
  · exact Machine.removes_refl direct m

theorem free_pud_table_removes (direct : Bool) (m : Machine) (e : PgdEnt)
    (h : e.val ≠ 0) : m.removes direct (free_pud_table m e direct).2 := by
  unfold free_pud_table
  split
  · exact ⟨[.set_pgd e.val 0, .free_pagetable (pgd_page e.val) 0 direct], rfl,
      RemovalLog.pud_table_freed e.val _ h RemovalLog.nil⟩
  · exact Machine.removes_refl direct m

theorem land_page_mask_mod (x : Nat) (hx : x < 2 ^ 64) : (x &&& PAGE_MASK) % 2 ^ 12 = 0 := by
  unfold PAGE_MASK
  rw [land_mask_hi x 12 hx (by norm_num)]
  omega

theorem add64_lt (a b : Nat) : add64 a b < 2 ^ 64 := Nat.mod_lt _ (by norm_num)

theorem remove_pte_table_loop_removes (direct : Bool) :
    ∀ (room : Nat) (m : Machine) (t : PteTable) (i a n : Nat) (t' : PteTable) (m' : Machine),
      a % 2 ^ 12 = 0 → n % 2 ^ 12 = 0 →
      remove_pte_table_loop room m t i a n direct = .ok (t', m') → m.removes direct m' := by
  intro room
  induction room with
  | zero =>
    intro m t i a n t' m' _ _ h
    rw [remove_pte_table_loop] at h
    split at h
    · exact absurd h (by simp)
    · simp only [Except.ok.injEq, Prod.mk.injEq] at h
      rw [← h.2]; exact Machine.removes_refl direct m
  | succ r ih =>
    intro m t i a n t' m' ha hn h
    rw [remove_pte_table_loop] at h
    by_cases hlt : a < n
    · rw [if_pos hlt] at h
      have hnext : (if add64 a PAGE_SIZE &&& PAGE_MASK > n then n
          else add64 a PAGE_SIZE &&& PAGE_MASK) % 2 ^ 12 = 0 := by
        split
        · exact hn
        · exact land_page_mask_mod _ (add64_lt _ _)
      dsimp only at h
      generalize (if add64 a PAGE_SIZE &&& PAGE_MASK > n then n
          else add64 a PAGE_SIZE &&& PAGE_MASK) = next at h hnext
      have hal1 : PAGE_ALIGNED a = true := (page_aligned_iff a).2 ha
      have hal2 : PAGE_ALIGNED next = true := (page_aligned_iff next).2 hnext
      by_cases hp : pte_present (t i) = true
      · simp only [hp, Bool.not_true, Bool.false_eq_true, if_false, hal1, hal2, Bool.and_self,
          if_true] at h
        exact Machine.removes_trans (removes_leaf direct m (t i) hp)
          (ih _ _ _ _ _ _ _ hnext hn h)
      · simp only [hp, Bool.not_false, if_true] at h
        exact ih _ _ _ _ _ _ _ hnext hn h
    · rw [if_neg hlt] at h
      simp only [Except.ok.injEq, Prod.mk.injEq] at h
      rw [← h.2]; exact Machine.removes_refl direct m

theorem remove_pte_table_removes (direct : Bool) (m : Machine) (t : PteTable) (i a n : Nat)
    (t' : PteTable) (m' : Machine) (ha : a % 2 ^ 12 = 0) (hn : n % 2 ^ 12 = 0)
    (h : remove_pte_table m t i a n direct = .ok (t', m')) : m.removes direct m' := by
  unfold remove_pte_table at h
  cases hl : remove_pte_table_loop (PTRS_PER_PTE - i) m t i a n direct with
  | error x => rw [hl] at h; exact absurd h (by simp)
  | ok r =>
    obtain ⟨t1, m1⟩ := r
    rw [hl] at h
    simp only [Except.ok.injEq, Prod.mk.injEq] at h
    rw [← h.2]
    exact Machine.removes_trans (remove_pte_table_loop_removes direct _ _ _ _ _ _ _ _ ha hn hl)
      (Machine.removes_flush direct m1)

theorem for_loop_inv {E : Type} (addr_end : Nat → Nat → Nat)
    (step : Machine → E → Nat → Nat → Except Halt (E × Machine))
    (I : Machine → Machine → Prop) (A : Nat → Nat → Prop)
    (hrefl : ∀ m, I m m) (htrans : ∀ a b c, I a b → I b c → I a c)
    (hA1 : ∀ a e, A a e → A a (addr_end a e)) (hA2 : ∀ a e, A a e → A (addr_end a e) e)
    (hstep : ∀ m e a n e' m', A a n → step m e a n = .ok (e', m') → I m m') :
    ∀ (room : Nat) (m : Machine) (tbl : Nat → E) (i a n : Nat) (tbl' : Nat → E)
      (m' : Machine), A a n →
      for_loop addr_end step room m tbl i a n = .ok (tbl', m') → I m m' := by
  intro room
  induction room with
  | zero =>
    intro m tbl i a n tbl' m' _ h
    rw [for_loop] at h
    split at h
    · exact absurd h (by simp)
    · simp only [Except.ok.injEq, Prod.mk.injEq] at h
      rw [← h.2]; exact hrefl m
  | succ r ih =>
    intro m tbl i a n tbl' m' hA h
    rw [for_loop] at h
    by_cases hlt : a < n
    · rw [if_pos hlt] at h
      cases hs : step m (tbl i) a (addr_end a n) with
      | error x => rw [hs] at h; exact absurd h (by simp)
      | ok r1 =>
        obtain ⟨e1, m1⟩ := r1
        rw [hs] at h
        simp only [] at h
        exact htrans _ _ _ (hstep _ _ _ _ _ _ (hA1 _ _ hA) hs) (ih _ _ _ _ _ _ _ (hA2 _ _ hA) h)
    · rw [if_neg hlt] at h
      simp only [Except.ok.injEq, Prod.mk.injEq] at h
      rw [← h.2]; exact hrefl m

theorem pmd_addr_end_aligned (a e : Nat) (he : e % 2 ^ 12 = 0) :
    pmd_addr_end a e % 2 ^ 12 = 0 := by
  unfold pmd_addr_end
  dsimp only
  split
  · unfold PMD_MASK
    rw [land_mask_hi _ 21 (add64_lt _ _) (by norm_num)]
    omega
  · exact he

theorem pud_addr_end_aligned (a e : Nat) (he : e % 2 ^ 12 = 0) :
    pud_addr_end a e % 2 ^ 12 = 0 := by
  unfold pud_addr_end
  dsimp only
  split
  · unfold PUD_MASK
    rw [land_mask_hi _ 30 (add64_lt _ _) (by norm_num)]
    omega
  · exact he

theorem pgd_addr_end_aligned (a e : Nat) (he : e % 2 ^ 12 = 0) :
    pgd_addr_end a e % 2 ^ 12 = 0 := by
  unfold pgd_addr_end
  dsimp only
  split
  · unfold PGDIR_MASK
    rw [land_mask_hi _ 39 (add64_lt _ _) (by norm_num)]
    omega
  · exact he

theorem remove_pmd_table_body_removes (direct : Bool) (m : Machine) (e : PmdEnt) (a n : Nat)
    (e' : PmdEnt) (m' : Machine) (ha : a % 2 ^ 12 = 0) (hn : n % 2 ^ 12 = 0)
    (h : remove_pmd_table_body m e a n direct = .ok (e', m')) : m.removes direct m' := by
  have hal1 : PAGE_ALIGNED a = true := (page_aligned_iff a).2 ha
  have hal2 : PAGE_ALIGNED n = true := (page_aligned_iff n).2 hn
  unfold remove_pmd_table_body at h
  by_cases hs : pmd_sect e.val = true
  · simp only [hs, if_true, hal1, hal2, Bool.and_self, Except.ok.injEq, Prod.mk.injEq] at h
    rw [← h.2]
    exact removes_pmd_block direct m e.val hs
  · simp only [hs, Bool.false_eq_true, if_false] at h
    by_cases ht : pmd_table e.val = true
    · simp only [ht, Bool.not_true, Bool.false_eq_true, if_false] at h
      cases hl : remove_pte_table m e.tbl (pte_index a) a n direct with
      | error x => rw [hl] at h; exact absurd h (by simp)
      | ok r =>
        obtain ⟨t1, m1⟩ := r
        rw [hl] at h
        simp only [Except.ok.injEq] at h
        have h2 : (free_pte_table m1 ⟨e.val, t1⟩ direct).2 = m' := by rw [h]
        rw [← h2]
        exact Machine.removes_trans (remove_pte_table_removes direct _ _ _ _ _ _ _ ha hn hl)
          (free_pte_table_removes direct m1 ⟨e.val, t1⟩ ht)
    · simp only [ht, Bool.not_false, if_true] at h
      exact absurd h (by simp)

theorem remove_pmd_table_removes (direct : Bool) (m : Machine) (t : PmdTable) (i a n : Nat)
    (t' : PmdTable) (m' : Machine) (ha : a % 2 ^ 12 = 0) (hn : n % 2 ^ 12 = 0)
    (h : remove_pmd_table m t i a n direct = .ok (t', m')) : m.removes direct m' := by
  unfold remove_pmd_table at h
  rw [remove_pmd_table_loop_eq] at h
  have hA1 : ∀ a e : Nat, (a % 2 ^ 12 = 0 ∧ e % 2 ^ 12 = 0) →
      (a % 2 ^ 12 = 0 ∧ pmd_addr_end a e % 2 ^ 12 = 0) :=
    fun a e hA => And.intro hA.1 (pmd_addr_end_aligned a e hA.2)
  have hA2 : ∀ a e : Nat, (a % 2 ^ 12 = 0 ∧ e % 2 ^ 12 = 0) →
      (pmd_addr_end a e % 2 ^ 12 = 0 ∧ e % 2 ^ 12 = 0) :=
    fun a e hA => And.intro (pmd_addr_end_aligned a e hA.2) hA.2
  refine for_loop_inv pmd_addr_end (fun m e a n =>
      if !pmd_present e.val then .ok (e, m) else remove_pmd_table_body m e a n direct)
    (Machine.removes direct)
    (fun a n => a % 2 ^ 12 = 0 ∧ n % 2 ^ 12 = 0) (Machine.removes_refl direct)
    (fun _ _ _ h1 h2 => Machine.removes_trans h1 h2)
    hA1 hA2
    ?_ (PTRS_PER_PMD - i) m t i a n t' m' ⟨ha, hn⟩ h
  intro m e a n e' m' hA hs
  dsimp only at hs
  split at hs
  · simp only [Except.ok.injEq, Prod.mk.injEq] at hs
    rw [← hs.2]; exact Machine.removes_refl direct m
  · exact remove_pmd_table_body_removes direct m e a n e' m' hA.1 hA.2 hs

theorem remove_pud_table_body_removes (direct : Bool) (m : Machine) (e : PudEnt) (a n : Nat)
    (e' : PudEnt) (m' : Machine) (ha : a % 2 ^ 12 = 0) (hn : n % 2 ^ 12 = 0)
    (h : remove_pud_table_body m e a n direct = .ok (e', m')) : m.removes direct m' := by
  have hal1 : PAGE_ALIGNED a = true := (page_aligned_iff a).2 ha
  have hal2 : PAGE_ALIGNED n = true := (page_aligned_iff n).2 hn
  unfold remove_pud_table_body at h
  by_cases hs : pud_sect e.val = true
  · simp only [hs, if_true, hal1, hal2, Bool.and_self, Except.ok.injEq, Prod.mk.injEq] at h
    rw [← h.2]
    exact removes_pud_block direct m e.val hs
  · simp only [hs, Bool.false_eq_true, if_false] at h
    by_cases ht : pud_table e.val = true
    · simp only [ht, Bool.not_true, Bool.false_eq_true, if_false] at h
      cases hl : remove_pmd_table m e.tbl (pmd_index a) a n direct with
      | error x => rw [hl] at h; exact absurd h (by simp)
      | ok r =>
        obtain ⟨t1, m1⟩ := r
        rw [hl] at h
        simp only [Except.ok.injEq] at h
        have h2 : (free_pmd_table m1 ⟨e.val, t1⟩ direct).2 = m' := by rw [h]
        rw [← h2]
        exact Machine.removes_trans (remove_pmd_table_removes direct _ _ _ _ _ _ _ ha hn hl)
          (free_pmd_table_removes direct m1 ⟨e.val, t1⟩ ht)
    · simp only [ht, Bool.not_false, if_true] at h
      exact absurd h (by simp)

theorem remove_pud_table_removes (direct : Bool) (m : Machine) (t : PudTable) (i a n : Nat)
    (t' : PudTable) (m' : Machine) (ha : a % 2 ^ 12 = 0) (hn : n % 2 ^ 12 = 0)
    (h : remove_pud_table m t i a n direct = .ok (t', m')) : m.removes direct m' := by
  unfold remove_pud_table at h
  rw [remove_pud_table_loop_eq] at h
  have hA1 : ∀ a e : Nat, (a % 2 ^ 12 = 0 ∧ e % 2 ^ 12 = 0) →
      (a % 2 ^ 12 = 0 ∧ pud_addr_end a e % 2 ^ 12 = 0) :=
    fun a e hA => And.intro hA.1 (pud_addr_end_aligned a e hA.2)
  have hA2 : ∀ a e : Nat, (a % 2 ^ 12 = 0 ∧ e % 2 ^ 12 = 0) →
      (pud_addr_end a e % 2 ^ 12 = 0 ∧ e % 2 ^ 12 = 0) :=
    fun a e hA => And.intro (pud_addr_end_aligned a e hA.2) hA.2
  refine for_loop_inv pud_addr_end (fun m e a n =>
      if !pud_present e.val then .ok (e, m) else remove_pud_table_body m e a n direct)
    (Machine.removes direct)
    (fun a n => a % 2 ^ 12 = 0 ∧ n % 2 ^ 12 = 0) (Machine.removes_refl direct)
    (fun _ _ _ h1 h2 => Machine.removes_trans h1 h2)
    hA1 hA2
    ?_ (PTRS_PER_PUD - i) m t i a n t' m' ⟨ha, hn⟩ h
  intro m e a n e' m' hA hs
  dsimp only at hs
  split at hs
  · simp only [Except.ok.injEq, Prod.mk.injEq] at hs
    rw [← hs.2]; exact Machine.removes_refl direct m
  · exact remove_pud_table_body_removes direct m e a n e' m' hA.1 hA.2 hs

theorem remove_pagetable_body_removes (direct : Bool) (m : Machine) (e : PgdEnt) (a n : Nat)
    (e' : PgdEnt) (m' : Machine) (ha : a % 2 ^ 12 = 0) (hn : n % 2 ^ 12 = 0)
    (h : remove_pagetable_body m e a n direct = .ok (e', m')) : m.removes direct m' := by
  unfold remove_pagetable_body at h
  by_cases h0 : pgd_none e.val = true
  · simp only [h0, if_true, Except.ok.injEq, Prod.mk.injEq] at h
    rw [← h.2]; exact Machine.removes_refl direct m
  · simp only [h0, Bool.false_eq_true, if_false] at h
    have hne : e.val ≠ 0 := by
      intro hz; apply h0; rw [pgd_none_eq]; exact decide_eq_true hz
    cases hl : remove_pud_table m e.tbl (pud_index a) a n direct with
    | error x => rw [hl] at h; exact absurd h (by simp)
    | ok r =>
      obtain ⟨t1, m1⟩ := r
      rw [hl] at h
      simp only [Except.ok.injEq] at h
      have h2 : (free_pud_table m1 ⟨e.val, t1⟩ direct).2 = m' := by rw [h]
      rw [← h2]
      exact Machine.removes_trans (remove_pud_table_removes direct _ _ _ _ _ _ _ ha hn hl)
        (free_pud_table_removes direct m1 ⟨e.val, t1⟩ hne)

theorem remove_pagetable_loop_removes (direct : Bool) :
    ∀ (fuel : Nat) (m : Machine) (t : PgdTable) (a n : Nat) (t' : PgdTable) (m' : Machine),
      a % 2 ^ 12 = 0 → n % 2 ^ 12 = 0 →
      remove_pagetable_loop fuel m t a n direct = .ok (t', m') → m.removes direct m' := by
  intro fuel
  induction fuel with
  | zero =>
    intro m t a n t' m' _ _ h
    rw [remove_pagetable_loop] at h
    split at h
    · exact absurd h (by simp)
    · simp only [Except.ok.injEq, Prod.mk.injEq] at h
      rw [← h.2]; exact Machine.removes_refl direct m
  | succ r ih =>
    intro m t a n t' m' ha hn h
    rw [remove_pagetable_loop] at h
    by_cases hlt : a < n
    · rw [if_pos hlt] at h
      dsimp only at h
      have hnext := pgd_addr_end_aligned a n hn
      cases hs : remove_pagetable_body m (t (pgd_index a)) a (pgd_addr_end a n) direct with
      | error x => rw [hs] at h; exact absurd h (by simp)
      | ok r1 =>
        obtain ⟨e1, m1⟩ := r1
        rw [hs] at h
        dsimp only at h
        exact Machine.removes_trans
          (remove_pagetable_body_removes direct _ _ _ _ _ _ ha hnext hs)
          (ih _ _ _ _ _ _ hnext hn h)
    · rw [if_neg hlt] at h
      simp only [Except.ok.injEq, Prod.mk.injEq] at h
      rw [← h.2]; exact Machine.removes_refl direct m

theorem remove_pagetable_removes (direct : Bool) (m : Machine) (t : PgdTable) (a n : Nat)
    (t' : PgdTable) (m' : Machine) (ha : a % 2 ^ 12 = 0) (hn : n % 2 ^ 12 = 0)
    (h : remove_pagetable m t a n direct = .ok (t', m')) : m.removes direct m' := by
  unfold remove_pagetable at h
  cases hl : remove_pagetable_loop (2 ^ 25 + 1) m t a n direct with
  | error x => rw [hl] at h; exact absurd h (by simp)
  | ok r =>
    obtain ⟨t1, m1⟩ := r
    rw [hl] at h
    simp only [Except.ok.injEq, Prod.mk.injEq] at h
    rw [← h.2]
    exact Machine.removes_trans (remove_pagetable_loop_removes direct _ _ _ _ _ _ _ ha hn hl)
      (Machine.removes_flush direct m1)

/-! ## What a teardown leaves of a range -/

/-- C25: for every slot index `idx` with `FIX_HOLE < idx < __end_of_fixed_addresses`,
`__set_fixmap(idx, phys, flags)` with non-zero `flags` returns, stores the page entry of the frame
`phys >> PAGE_SHIFT` with those flags in the slot `bm_pte[pte_index(__fix_to_virt(idx))]` and
leaves every other slot as it was (one `set_pte` is all it logs); with zero `flags` it returns,
clears that slot and leaves every other slot as it was (one `set_pte` to `0`, then the range
flush of the page); so after acquire and release the slot is empty and every other slot is as
before the acquire.  For `idx` outside the interval it halts on `BUG`: no table comes back. -/
theorem C25_set_fixmap_one_slot (m : Machine) (bm_pte : PteTable) (idx phys flags : Nat) :
    (FIX_HOLE < idx → idx < __end_of_fixed_addresses → flags ≠ 0 →
      ∃ t1 m1, __set_fixmap m bm_pte idx phys flags = .ok (t1, m1) ∧
        t1 (pte_index (__fix_to_virt idx)) = pfn_pte (phys >>> PAGE_SHIFT) flags ∧
        (∀ j, j ≠ pte_index (__fix_to_virt idx) → t1 j = bm_pte j) ∧
        m1.trace = .set_pte (bm_pte (pte_index (__fix_to_virt idx)))
          (pfn_pte (phys >>> PAGE_SHIFT) flags) :: m.trace ∧
        ∃ t2 m2, __set_fixmap m1 t1 idx phys 0 = .ok (t2, m2) ∧
          t2 (pte_index (__fix_to_virt idx)) = 0 ∧
          (∀ j, j ≠ pte_index (__fix_to_virt idx) → t2 j = bm_pte j)) ∧
    (FIX_HOLE < idx → idx < __end_of_fixed_addresses →
      ∃ t1 m1, __set_fixmap m bm_pte idx phys 0 = .ok (t1, m1) ∧
        t1 (pte_index (__fix_to_virt idx)) = 0 ∧
        (∀ j, j ≠ pte_index (__fix_to_virt idx) → t1 j = bm_pte j) ∧
        m1.trace = .flush_tlb_kernel_range (__fix_to_virt idx)
            (add64 (__fix_to_virt idx) PAGE_SIZE) ::
          .set_pte (bm_pte (pte_index (__fix_to_virt idx))) 0 :: m.trace) ∧
    (idx ≤ FIX_HOLE ∨ __end_of_fixed_addresses ≤ idx →
      __set_fixmap m bm_pte idx phys flags = .error .bug) := by
  have hrel : ∀ (m0 : Machine) (t0 : PteTable), FIX_HOLE < idx → idx < __end_of_fixed_addresses →
      __set_fixmap m0 t0 idx phys 0 = .ok (Function.update t0 (pte_index (__fix_to_virt idx)) 0,
        (m0.log (.set_pte (t0 (pte_index (__fix_to_virt idx))) 0)).log
          (.flush_tlb_kernel_range (__fix_to_virt idx) (add64 (__fix_to_virt idx) PAGE_SIZE))) := by
    intro m0 t0 h1 h2
    have hc : (decide (idx ≤ FIX_HOLE) || decide (idx ≥ __end_of_fixed_addresses)) = false := by
      simp only [Bool.or_eq_false_iff, decide_eq_false_iff_not]
      exact ⟨by omega, by omega⟩
    unfold __set_fixmap fixmap_pte
    simp only [hc, Bool.false_eq_true, if_false, bne_self_eq_false]
  refine ⟨?_, ?_, ?_⟩
  · intro h1 h2 hf
    have hc : (decide (idx ≤ FIX_HOLE) || decide (idx ≥ __end_of_fixed_addresses)) = false := by
      simp only [Bool.or_eq_false_iff, decide_eq_false_iff_not]
      exact ⟨by omega, by omega⟩
    have hfl : (flags != 0) = true := by simpa using hf
    refine ⟨Function.update bm_pte (pte_index (__fix_to_virt idx))
        (pfn_pte (phys >>> PAGE_SHIFT) flags),
      m.log (.set_pte (bm_pte (pte_index (__fix_to_virt idx)))
        (pfn_pte (phys >>> PAGE_SHIFT) flags)), ?_, Function.update_same _ _ _,
      fun j hj => Function.update_noteq hj _ _, rfl, ?_⟩
    · unfold __set_fixmap fixmap_pte
      simp only [hc, Bool.false_eq_true, if_false, hfl, if_true]
    · refine ⟨_, _, hrel _ _ h1 h2, Function.update_same _ _ _, fun j hj => ?_⟩
      rw [Function.update_noteq hj, Function.update_noteq hj]
  · intro h1 h2
    exact ⟨_, _, hrel m bm_pte h1 h2, Function.update_same _ _ _,
      fun j hj => Function.update_noteq hj _ _, rfl⟩
  · intro h
    have hc : (decide (idx ≤ FIX_HOLE) || decide (idx ≥ __end_of_fixed_addresses)) = true := by
      rcases h with h | h
      · simp [h]
      · simp [h]
    unfold __set_fixmap
    simp only [hc, if_true]

/-- The slot `FIX_PTE` (index 1475) is acquired for the page at `0x8000_0000`, then
released. -/
theorem C25_set_fixmap_one_slot_witness :
    FIX_HOLE < 1475 ∧ 1475 < __end_of_fixed_addresses ∧ PAGE_KERNEL ≠ 0 ∧
    ∃ t1 m1, __set_fixmap boot_machine zero_pte_table 1475 0x80000000 PAGE_KERNEL =
        .ok (t1, m1) ∧
      t1 (pte_index (__fix_to_virt 1475)) = pfn_pte (0x80000000 >>> PAGE_SHIFT) PAGE_KERNEL ∧
      (∀ j, j ≠ pte_index (__fix_to_virt 1475) → t1 j = zero_pte_table j) ∧
      m1.trace = .set_pte (zero_pte_table (pte_index (__fix_to_virt 1475)))
        (pfn_pte (0x80000000 >>> PAGE_SHIFT) PAGE_KERNEL) :: boot_machine.trace ∧
      ∃ t2 m2, __set_fixmap m1 t1 1475 0x80000000 0 = .ok (t2, m2) ∧
        t2 (pte_index (__fix_to_virt 1475)) = 0 ∧
        (∀ j, j ≠ pte_index (__fix_to_virt 1475) → t2 j = zero_pte_table j) :=
  ⟨by decide, by decide, by decide,
    (C25_set_fixmap_one_slot boot_machine zero_pte_table 1475 0x80000000 PAGE_KERNEL).1
      (by decide) (by decide) (by decide)⟩

/-! ## Claims on the order of stores, invalidations and releases -/

theorem alloc_init_pte_table_logs (m : Machine) (e : PmdEnt) (a n pfn prot : Nat)
    (pa : Option Allocator) (e' : PmdEnt) (m' : Machine) (ht : pmd_table e.val = true)
    (h : alloc_init_pte m e a n pfn prot pa = .ok (e', m')) :
    ∃ new, m'.trace = new ++ m.trace ∧ ∀ ev ∈ new, ∃ o v, ev = Event.set_pte o v := by
  have ht' : e.val % 4 = 3 := by simpa [pmd_table_eq] using ht
  have h0 : pmd_none e.val = false := by
    rw [pmd_none_eq]; exact decide_eq_false (by omega)
  have h1 : pmd_sect e.val = false := by
    rw [pmd_sect_eq]; exact decide_eq_false (by omega)
  have hb : pmd_bad e.val = false := by
    rw [pmd_bad_eq]; exact decide_eq_false (by omega)
  unfold alloc_init_pte at h
  simp only [h0, h1, Bool.or_self, Bool.false_eq_true, if_false, hb] at h
  cases hl : alloc_init_pte_loop (PTRS_PER_PTE - pte_index a) m e.tbl (pte_index a) a n pfn
      prot with
  | error x => rw [hl] at h; exact absurd h (by simp)
  | ok r =>
    obtain ⟨t3, m3⟩ := r
    rw [hl] at h
    simp only [Except.ok.injEq, Prod.mk.injEq] at h
    rw [← h.2]
    exact (alloc_init_pte_loop_grows (P := fun ev => ∃ o v, ev = Event.set_pte o v) True
      (fun o v => ⟨o, v, rfl⟩) _ _ _ _ _ _ _ _ _ _ hl).1

/-- C21, what the code does.  A block entry stored over a non-empty entry by the loop of
`alloc_init_pmd` or `alloc_init_pud` is followed at once by `flush_tlb_all`, and the page of the
table that the old entry pointed to, if any, is handed to `memblock_free` only after that (or a
warning is logged in its place when the slab allocator is up).  A leaf entry stored by
`alloc_init_pte` in an existing leaf table is followed by no invalidation: whatever the entries
it overwrites, the call logs nothing but its `set_pte` stores; for one page over a slot that held
`old`, the log gains the single event `set_pte old new`. -/
theorem C21_block_flushed_leaf_not (m : Machine) (pmd : PmdEnt) (pud : PudEnt)
    (addr next phys pfn prot : Nat) (pa : Option Allocator) :
    ((addr ||| next ||| phys) &&& not64 SECTION_MASK = 0 → pmd.val ≠ 0 →
      ∃ v m' rest, alloc_init_pmd_body m pmd addr next phys prot pa true =
          .ok (⟨v, pmd.tbl⟩, m') ∧ pmd_sect v = true ∧
        m'.trace = rest ++ .flush_tlb_all :: .set_pmd pmd.val v :: m.trace ∧
        rest = (if pmd_table pmd.val then
          (if m.slab then [Event.warn]
            else [Event.memblock_free (pmd_page_paddr pmd.val) PAGE_SIZE])
          else [])) ∧
    (use_1G_block addr next phys = true → pud.val ≠ 0 →
      ∃ v m' rest, alloc_init_pud_body m pud addr next phys prot pa true =
          .ok (⟨v, pud.tbl⟩, m') ∧ pud_sect v = true ∧
        m'.trace = rest ++ .flush_tlb_all :: .set_pud pud.val v :: m.trace ∧
        rest = (if pud_table pud.val then
          (if m.slab then [Event.warn]
            else [Event.memblock_free (pud_page_paddr pud.val) PAGE_SIZE])
          else [])) ∧
    (pmd_table pmd.val = true →
      (∀ e' m', alloc_init_pte m pmd addr next pfn prot pa = .ok (e', m') →
        ∃ new, m'.trace = new ++ m.trace ∧ ∀ ev ∈ new, ∃ o v, ev = Event.set_pte o v) ∧
      alloc_init_pte m pmd addr (add64 addr PAGE_SIZE) pfn prot pa =
        .ok (⟨pmd.val, Function.update pmd.tbl (pte_index addr) (pfn_pte pfn prot)⟩,
          m.log (.set_pte (pmd.tbl (pte_index addr)) (pfn_pte pfn prot)))) := by
  refine ⟨?_, ?_, ?_⟩
  · intro hal hne
    have hc : (((addr ||| next ||| phys) &&& not64 SECTION_MASK == 0) && true) = true := by
      rw [hal]; rfl
    have hc' := hc
    rw [Bool.and_true, not64_SECTION_MASK, align3] at hc'
    obtain ⟨ca, cn, cp⟩ := hc'
    have hbug : (phys &&& not64 PMD_MASK != 0) = false := by
      rw [not64_PMD_MASK, Nat.and_pow_two_sub_one_eq_mod, cp]; rfl
    have hs : pmd_sect (phys ||| PMD_TYPE_SECT ||| mk_sect_prot prot) = true := by
      rw [pmd_sect_iff]; exact sect_val_mod phys prot (by omega)
    have h0 : pmd_none pmd.val = false := by
      rw [pmd_none_eq]; exact decide_eq_false hne
    unfold alloc_init_pmd_body
    simp only [hc, if_true, pmd_set_huge, hbug, Bool.false_eq_true, if_false, h0, Bool.not_false]
    by_cases ht : pmd_table pmd.val = true
    · by_cases hsl : m.slab = true
      · refine ⟨_, _, _, rfl, hs, ?_, rfl⟩
        simp only [ht, if_true, Machine.log, hsl, Bool.not_true, Bool.false_eq_true, if_false,
          List.singleton_append]
      · have hsl' : m.slab = false := by simpa using hsl
        refine ⟨_, _, _, rfl, hs, ?_, rfl⟩
        simp only [ht, if_true, Machine.log, hsl', Bool.not_false, Bool.false_eq_true, if_false,
          List.singleton_append]
    · have ht' : pmd_table pmd.val = false := by simpa using ht
      refine ⟨_, _, _, rfl, hs, ?_, rfl⟩
      simp only [ht', Bool.false_eq_true, if_false, Machine.log, List.nil_append]
  · intro hal hne
    have hc : (use_1G_block addr next phys && true) = true := by rw [hal]; rfl
    obtain ⟨ca, cn, cp⟩ := (use_1G_block_iff addr next phys).1 hal
    have hbug : (phys &&& not64 PUD_MASK != 0) = false := by
      rw [not64_PUD_MASK, Nat.and_pow_two_sub_one_eq_mod, cp]; rfl
    have hs : pud_sect (phys ||| PUD_TYPE_SECT ||| mk_sect_prot prot) = true := by
      rw [pud_sect_eq]; exact decide_eq_true (sect_val_mod phys prot (by omega))
    have h0 : pud_none pud.val = false := by
      rw [pud_none_eq]; exact decide_eq_false hne
    unfold alloc_init_pud_body
    simp only [hc, if_true, pud_set_huge, hbug, Bool.false_eq_true, if_false, h0, Bool.not_false]
    by_cases ht : pud_table pud.val = true
    · by_cases hsl : m.slab = true
      · refine ⟨_, _, _, rfl, hs, ?_, rfl⟩
        simp only [ht, if_true, Machine.log, hsl, Bool.not_true, Bool.false_eq_true, if_false,
          List.singleton_append]
      · have hsl' : m.slab = false := by simpa using hsl
        refine ⟨_, _, _, rfl, hs, ?_, rfl⟩
        simp only [ht, if_true, Machine.log, hsl', Bool.not_false, Bool.false_eq_true, if_false,
          List.singleton_append]
    · have ht' : pud_table pud.val = false := by simpa using ht
      refine ⟨_, _, _, rfl, hs, ?_, rfl⟩
      simp only [ht', Bool.false_eq_true, if_false, Machine.log, List.nil_append]
  · intro ht
    refine ⟨fun e' m' h => alloc_init_pte_table_logs m pmd addr next pfn prot pa e' m' ht h, ?_⟩
    have ht' : pmd.val % 4 = 3 := by simpa [pmd_table_eq] using ht
    have h0 : pmd_none pmd.val = false := by
      rw [pmd_none_eq]; exact decide_eq_false (by omega)
    have h1 : pmd_sect pmd.val = false := by
      rw [pmd_sect_eq]; exact decide_eq_false (by omega)
    have hb : pmd_bad pmd.val = false := by
      rw [pmd_bad_eq]; exact decide_eq_false (by omega)
    have hidx := pte_index_eq addr
    obtain ⟨r, hr⟩ : ∃ r, PTRS_PER_PTE - pte_index addr = r + 1 :=
      ⟨PTRS_PER_PTE - pte_index addr - 1, by unfold PTRS_PER_PTE; omega⟩
    unfold alloc_init_pte
    simp only [h0, h1, Bool.or_self, Bool.false_eq_true, if_false, hb]
    rw [hr, alloc_init_pte_loop]
    simp only [bne_self_eq_false, Bool.false_eq_true, if_false]

/-- The leaf slot that maps frame `0x12345` read/write is rewritten read-only by
`alloc_init_pte`: the log gains the store and no invalidation. -/
theorem C21_block_flushed_leaf_not_witness :
    pmd_table 0x80002003 = true ∧
    one_page_table (pte_index 0xffff000000000000) = pfn_pte 0x12345 PAGE_KERNEL ∧
    pfn_pte 0x12345 PAGE_KERNEL ≠ 0 ∧
    alloc_init_pte boot_machine ⟨0x80002003, one_page_table⟩ 0xffff000000000000
        (add64 0xffff000000000000 PAGE_SIZE) 0x12345 PAGE_KERNEL_RO none =
      .ok (⟨0x80002003, Function.update one_page_table (pte_index 0xffff000000000000)
          (pfn_pte 0x12345 PAGE_KERNEL_RO)⟩,
        boot_machine.log (.set_pte (one_page_table (pte_index 0xffff000000000000))
          (pfn_pte 0x12345 PAGE_KERNEL_RO))) :=
  ⟨by decide, by decide, by decide,
    ((C21_block_flushed_leaf_not boot_machine ⟨0x80002003, one_page_table⟩ ⟨0, zero_pmd_table⟩
      0xffff000000000000 0 0 0x12345 PAGE_KERNEL_RO none).2.2 (by decide)).2⟩

theorem flushes_cons_flush (l : List Event) : flushes (.flush_tlb_all :: l) = flushes l + 1 := by
  unfold flushes; exact List.count_cons_self _ _

theorem flushes_cons_ne (e : Event) (l : List Event) (h : e ≠ .flush_tlb_all) :
    flushes (e :: l) = flushes l := by
  unfold flushes; exact List.count_cons_of_ne (Ne.symm h) _

theorem flushes_append (l1 l2 : List Event) : flushes (l1 ++ l2) = flushes l1 + flushes l2 := by
  unfold flushes; exact List.count_append _ _ _

theorem for_sum_update {E : Type} (addr_end : Nat → Nat → Nat) (f : E → Nat → Nat → Nat) :
    ∀ (room : Nat) (tbl : Nat → E) (i j : Nat) (e : E) (a n : Nat), j < i →
      for_sum addr_end f room (Function.update tbl j e) i a n = for_sum addr_end f room tbl i a n := by
  intro room
  induction room with
  | zero => intros; rfl
  | succ r ih =>
    intro tbl i j e a n hj
    rw [for_sum, for_sum, Function.update_noteq (by omega), ih _ _ _ _ _ _ (by omega)]

theorem for_loop_count {E : Type} (addr_end : Nat → Nat → Nat)
    (step : Machine → E → Nat → Nat → Except Halt (E × Machine))
    (mu : Machine → Nat) (f : E → Nat → Nat → Nat)
    (hstep : ∀ m e a n e' m', step m e a n = .ok (e', m') → mu m' = mu m + f e a n) :
    ∀ (room : Nat) (m : Machine) (tbl : Nat → E) (i a n : Nat) (tbl' : Nat → E)
      (m' : Machine),
      for_loop addr_end step room m tbl i a n = .ok (tbl', m') →
      mu m' = mu m + for_sum addr_end f room tbl i a n := by
  intro room
  induction room with
  | zero =>
    intro m tbl i a n tbl' m' h
    rw [for_loop] at h
    split at h
    · exact absurd h (by simp)
    · simp only [Except.ok.injEq, Prod.mk.injEq] at h
      rw [← h.2]; rfl
  | succ r ih =>
    intro m tbl i a n tbl' m' h
    rw [for_loop] at h
    rw [for_sum]
    by_cases hlt : a < n
    · rw [if_pos hlt] at h
      rw [if_pos hlt]
      cases hs : step m (tbl i) a (addr_end a n) with
      | error x => rw [hs] at h; exact absurd h (by simp)
      | ok r1 =>
        obtain ⟨e1, m1⟩ := r1
        rw [hs] at h
        dsimp only at h
        have h1 := hstep _ _ _ _ _ _ hs
        have h2 := ih _ _ _ _ _ _ _ h
        rw [for_sum_update addr_end f r tbl (i + 1) i e1 _ _ (by omega)] at h2
        omega
    · rw [if_neg hlt] at h
      rw [if_neg hlt]
      simp only [Except.ok.injEq, Prod.mk.injEq] at h
      rw [← h.2]; rfl

theorem remove_pte_table_loop_flushes (direct : Bool) :
    ∀ (room : Nat) (m : Machine) (t : PteTable) (i a n : Nat) (t' : PteTable) (m' : Machine),
      remove_pte_table_loop room m t i a n direct = .ok (t', m') →
      flushes m'.trace = flushes m.trace := by
  intro room
  induction room with
  | zero =>
    intro m t i a n t' m' h
    rw [remove_pte_table_loop] at h
    split at h
    · exact absurd h (by simp)
    · simp only [Except.ok.injEq, Prod.mk.injEq] at h
      rw [← h.2]
  | succ r ih =>
    intro m t i a n t' m' h
    rw [remove_pte_table_loop] at h
    by_cases hlt : a < n
    · rw [if_pos hlt] at h
      dsimp only at h
      have hfree : ∀ (m0 : Machine) (c : Bool), flushes
          ((if c = true then free_pagetable m0 (pte_page (t i)) 0 direct else m0).log
            (.set_pte (t i) 0)).trace = flushes m0.trace := by
        intro m0 c
        cases c
        · exact flushes_cons_ne _ _ (by intro h; cases h)
        · show flushes (_ :: _ :: m0.trace) = _
          rw [flushes_cons_ne _ _ (by intro h; cases h),
            flushes_cons_ne _ _ (by intro h; cases h)]
      generalize (if add64 a PAGE_SIZE &&& PAGE_MASK > n then n
          else add64 a PAGE_SIZE &&& PAGE_MASK) = next at h
      by_cases hp : pte_present (t i) = true
      · simp only [hp, Bool.not_true, Bool.false_eq_true, if_false] at h
        by_cases hal : (PAGE_ALIGNED a && PAGE_ALIGNED next) = true
        · simp only [hal, if_true] at h
          rw [ih _ _ _ _ _ _ _ h]
          exact hfree m _
        · simp only [hal, Bool.false_eq_true, if_false] at h
          split at h
          · rw [ih _ _ _ _ _ _ _ h]
            show flushes (_ :: _ :: _ :: m.trace) = _
            rw [flushes_cons_ne _ _ (by intro h; cases h),
              flushes_cons_ne _ _ (by intro h; cases h),
              flushes_cons_ne _ _ (by intro h; cases h)]
          · rw [ih _ _ _ _ _ _ _ h]
            show flushes (_ :: m.trace) = _
            rw [flushes_cons_ne _ _ (by intro h; cases h)]
      · simp only [hp, Bool.not_false, if_true] at h
        exact ih _ _ _ _ _ _ _ h
    · rw [if_neg hlt] at h
      simp only [Except.ok.injEq, Prod.mk.injEq] at h
      rw [← h.2]

theorem remove_pte_table_flushes (direct : Bool) (m : Machine) (t : PteTable) (i a n : Nat)
    (t' : PteTable) (m' : Machine) (h : remove_pte_table m t i a n direct = .ok (t', m')) :
    flushes m'.trace = flushes m.trace + 1 := by
  unfold remove_pte_table at h
  cases hl : remove_pte_table_loop (PTRS_PER_PTE - i) m t i a n direct with
  | error x => rw [hl] at h; exact absurd h (by simp)
  | ok r =>
    obtain ⟨t1, m1⟩ := r
    rw [hl] at h
    simp only [Except.ok.injEq, Prod.mk.injEq] at h
    rw [← h.2, ← remove_pte_table_loop_flushes direct _ _ _ _ _ _ _ _ hl]
    exact flushes_cons_flush _

theorem free_pte_table_flushes (direct : Bool) (m : Machine) (e : PmdEnt) :
    flushes (free_pte_table m e direct).2.trace = flushes m.trace := by
  unfold free_pte_table
  split
  · show flushes (_ :: _ :: m.trace) = _
    rw [flushes_cons_ne _ _ (by intro h; cases h), flushes_cons_ne _ _ (by intro h; cases h)]
  · rfl

theorem free_pmd_table_flushes (direct : Bool) (m : Machine) (e : PudEnt) :
    flushes (free_pmd_table m e direct).2.trace = flushes m.trace := by
  unfold free_pmd_table
  split
  · show flushes (_ :: _ :: m.trace) = _
    rw [flushes_cons_ne _ _ (by intro h; cases h), flushes_cons_ne _ _ (by intro h; cases h)]
  · rfl

theorem free_pud_table_flushes (direct : Bool) (m : Machine) (e : PgdEnt) :
    flushes (free_pud_table m e direct).2.trace = flushes m.trace := by
  unfold free_pud_table
  split
  · show flushes (_ :: _ :: m.trace) = _
    rw [flushes_cons_ne _ _ (by intro h; cases h), flushes_cons_ne _ _ (by intro h; cases h)]
  · rfl

theorem remove_pmd_step_flushes (direct : Bool) (m : Machine) (e : PmdEnt) (a n : Nat)
    (e' : PmdEnt) (m' : Machine)
    (h : (if !pmd_present e.val then .ok (e, m) else remove_pmd_table_body m e a n direct) =
      .ok (e', m')) :
    flushes m'.trace = flushes m.trace +
      (if pmd_present e.val && !pmd_sect e.val then 1 else 0) := by
  by_cases hp : pmd_present e.val = true
  · simp only [hp, Bool.not_true, Bool.false_eq_true, if_false] at h
    unfold remove_pmd_table_body at h
    by_cases hs : pmd_sect e.val = true
    · simp only [hs, if_true] at h
      simp only [hp, hs, Bool.not_true, Bool.and_false, Bool.false_eq_true, if_false,
        Nat.add_zero]
      split at h
      · simp only [Except.ok.injEq, Prod.mk.injEq] at h
        rw [← h.2]
        cases direct
        · show flushes (_ :: _ :: m.trace) = _
          rw [flushes_cons_ne _ _ (by intro h; cases h),
            flushes_cons_ne _ _ (by intro h; cases h)]
        · exact flushes_cons_ne _ _ (by intro h; cases h)
      · split at h
        · simp only [Except.ok.injEq, Prod.mk.injEq] at h
          rw [← h.2]
          show flushes (_ :: _ :: _ :: m.trace) = _
          rw [flushes_cons_ne _ _ (by intro h; cases h),
            flushes_cons_ne _ _ (by intro h; cases h),
            flushes_cons_ne _ _ (by intro h; cases h)]
        · simp only [Except.ok.injEq, Prod.mk.injEq] at h
          rw [← h.2]
          exact flushes_cons_ne _ _ (by intro h; cases h)
    · simp only [hs, Bool.false_eq_true, if_false] at h
      have hs' : pmd_sect e.val = false := by simpa using hs
      simp only [hp, hs', Bool.not_false, Bool.and_self, if_true]
      split at h
      · exact absurd h (by simp)
      · cases hl : remove_pte_table m e.tbl (pte_index a) a n direct with
        | error x => rw [hl] at h; exact absurd h (by simp)
        | ok r =>
          obtain ⟨t1, m1⟩ := r
          rw [hl] at h
          simp only [Except.ok.injEq] at h
          have h2 : (free_pte_table m1 ⟨e.val, t1⟩ direct).2 = m' := by rw [h]
          rw [← h2, free_pte_table_flushes]
          exact remove_pte_table_flushes direct _ _ _ _ _ _ _ hl
  · have hp' : pmd_present e.val = false := by simpa using hp
    simp only [hp', Bool.not_false, if_true, Except.ok.injEq, Prod.mk.injEq] at h
    rw [← h.2]
    simp only [hp', Bool.false_and, Bool.false_eq_true, if_false, Nat.add_zero]

theorem remove_pmd_table_flushes (direct : Bool) (m : Machine) (t : PmdTable) (a n : Nat)
    (t' : PmdTable) (m' : Machine)
    (h : remove_pmd_table m t (pmd_index a) a n direct = .ok (t', m')) :
    flushes m'.trace = flushes m.trace + leaf_tables_pmd t a n := by
  unfold remove_pmd_table at h
  rw [remove_pmd_table_loop_eq] at h
  exact for_loop_count pmd_addr_end (fun m e a n =>
      if !pmd_present e.val then .ok (e, m) else remove_pmd_table_body m e a n direct)
    (fun m => flushes m.trace)
    (fun e _ _ => if pmd_present e.val && !pmd_sect e.val then 1 else 0)
    (fun m e a n e' m' hs => remove_pmd_step_flushes direct m e a n e' m' hs)
    (PTRS_PER_PMD - pmd_index a) m t (pmd_index a) a n t' m' h

theorem remove_pud_step_flushes (direct : Bool) (m : Machine) (e : PudEnt) (a n : Nat)
    (e' : PudEnt) (m' : Machine)
    (h : (if !pud_present e.val then .ok (e, m) else remove_pud_table_body m e a n direct) =
      .ok (e', m')) :
    flushes m'.trace = flushes m.trace +
      (if pud_present e.val && !pud_sect e.val then leaf_tables_pmd e.tbl a n else 0) := by
  by_cases hp : pud_present e.val = true
  · simp only [hp, Bool.not_true, Bool.false_eq_true, if_false] at h
    unfold remove_pud_table_body at h
    by_cases hs : pud_sect e.val = true
    · simp only [hs, if_true] at h
      simp only [hp, hs, Bool.not_true, Bool.and_false, Bool.false_eq_true, if_false,
        Nat.add_zero]
      split at h
      · simp only [Except.ok.injEq, Prod.mk.injEq] at h
        rw [← h.2]
        cases direct
        · show flushes (_ :: _ :: m.trace) = _
          rw [flushes_cons_ne _ _ (by intro h; cases h),
            flushes_cons_ne _ _ (by intro h; cases h)]
        · exact flushes_cons_ne _ _ (by intro h; cases h)
      · split at h
        · simp only [Except.ok.injEq, Prod.mk.injEq] at h
          rw [← h.2]
          show flushes (_ :: _ :: _ :: m.trace) = _
          rw [flushes_cons_ne _ _ (by intro h; cases h),
            flushes_cons_ne _ _ (by intro h; cases h),
            flushes_cons_ne _ _ (by intro h; cases h)]
        · simp only [Except.ok.injEq, Prod.mk.injEq] at h
          rw [← h.2]
          exact flushes_cons_ne _ _ (by intro h; cases h)
    · simp only [hs, Bool.false_eq_true, if_false] at h
      have hs' : pud_sect e.val = false := by simpa using hs
      simp only [hp, hs', Bool.not_false, Bool.and_self, if_true]
      split at h
      · exact absurd h (by simp)
      · cases hl : remove_pmd_table m e.tbl (pmd_index a) a n direct with
        | error x => rw [hl] at h; exact absurd h (by simp)
        | ok r =>
          obtain ⟨t1, m1⟩ := r
          rw [hl] at h
          simp only [Except.ok.injEq] at h
          have h2 : (free_pmd_table m1 ⟨e.val, t1⟩ direct).2 = m' := by rw [h]
          rw [← h2, free_pmd_table_flushes]
          exact remove_pmd_table_flushes direct _ _ _ _ _ _ hl
  · have hp' : pud_present e.val = false := by simpa using hp
    simp only [hp', Bool.not_false, if_true, Except.ok.injEq, Prod.mk.injEq] at h
    rw [← h.2]
    simp only [hp', Bool.false_and, Bool.false_eq_true, if_false, Nat.add_zero]

theorem remove_pud_table_flushes (direct : Bool) (m : Machine) (t : PudTable) (a n : Nat)
    (t' : PudTable) (m' : Machine)
    (h : remove_pud_table m t (pud_index a) a n direct = .ok (t', m')) :
    flushes m'.trace = flushes m.trace + leaf_tables_pud t a n := by
  unfold remove_pud_table at h
  rw [remove_pud_table_loop_eq] at h
  exact for_loop_count pud_addr_end (fun m e a n =>
      if !pud_present e.val then .ok (e, m) else remove_pud_table_body m e a n direct)
    (fun m => flushes m.trace)
    (fun e a n => if pud_present e.val && !pud_sect e.val then leaf_tables_pmd e.tbl a n else 0)
    (fun m e a n e' m' hs => remove_pud_step_flushes direct m e a n e' m' hs)
    (PTRS_PER_PUD - pud_index a) m t (pud_index a) a n t' m' h

theorem remove_pagetable_body_flushes (direct : Bool) (m : Machine) (e : PgdEnt) (a n : Nat)
    (e' : PgdEnt) (m' : Machine)
    (h : remove_pagetable_body m e a n direct = .ok (e', m')) :
    flushes m'.trace = flushes m.trace +
      (if pgd_none e.val then 0 else leaf_tables_pud e.tbl a n) := by
  unfold remove_pagetable_body at h
  by_cases h0 : pgd_none e.val = true
  · simp only [h0, if_true, Except.ok.injEq, Prod.mk.injEq] at h
    rw [← h.2]
    simp only [h0, if_true, Nat.add_zero]
  · simp only [h0, Bool.false_eq_true, if_false] at h
    simp only [h0, Bool.false_eq_true, if_false]
    cases hl : remove_pud_table m e.tbl (pud_index a) a n direct with
    | error x => rw [hl] at h; exact absurd h (by simp)
    | ok r =>
      obtain ⟨t1, m1⟩ := r
      rw [hl] at h
      simp only [Except.ok.injEq] at h
      have h2 : (free_pud_table m1 ⟨e.val, t1⟩ direct).2 = m' := by rw [h]
      rw [← h2, free_pud_table_flushes]
      exact remove_pud_table_flushes direct _ _ _ _ _ _ hl

theorem remove_pagetable_flushes (direct : Bool) (m : Machine) (t : PgdTable) (a n : Nat)
    (t' : PgdTable) (m' : Machine) (hlt : a < n) (hb : a / 2 ^ 48 = (n - 1) / 2 ^ 48)
    (h64 : n < 2 ^ 64) (h : remove_pagetable m t a n direct = .ok (t', m')) :
    ∃ m1 : Machine, m'.trace = .flush_tlb_all :: m1.trace ∧
      flushes m1.trace = flushes m.trace + leaf_tables t a n := by
  have hidx := pgd_index_eq a
  unfold remove_pagetable at h
  rw [remove_pagetable_loop_range direct (512 - pgd_index a) (2 ^ 25 + 1) m t a n 0 (by omega)
    hlt h64 (by omega) (le_refl _),
    ← for_loop_range cut_pgd (fun m e a n => remove_pagetable_body m e a n direct) _ _ _ _ _ _ 0
      hlt h64] at h
  cases hl : for_loop pgd_addr_end (fun m e a n => remove_pagetable_body m e a n direct)
      (512 - pgd_index a) m t (pgd_index a) a n with
  | error x => rw [hl] at h; exact absurd h (by simp)
  | ok r =>
    obtain ⟨t1, m1⟩ := r
    rw [hl] at h
    simp only [Except.ok.injEq, Prod.mk.injEq] at h
    refine ⟨m1, by rw [← h.2]; rfl, ?_⟩
    exact for_loop_count pgd_addr_end (fun m e a n => remove_pagetable_body m e a n direct)
      (fun m => flushes m.trace)
      (fun e a n => if pgd_none e.val then 0 else leaf_tables_pud e.tbl a n)
      (fun m e a n e' m' hs => remove_pagetable_body_flushes direct m e a n e' m' hs)
      (512 - pgd_index a) m t (pgd_index a) a n t1 m1 hl

set_option maxRecDepth 100000 in
/-- C23, the claim as stated fails: `remove_pte_table` ends with a `flush_tlb_all` of its own.
Removing the 2 MiB range under the one leaf table of `leaf_tree` issues two invalidations: one
when the leaf table has been walked, one at the end of the top-level walk. -/
theorem C23_two_invalidations_for_one_leaf_table :
    trace_of (remove_pagetable boot_machine leaf_tree 0xffff000000000000
        0xffff000000200000 true) =
      some [.flush_tlb_all, .set_pgd 0x80000003 0, .free_pagetable 0x80000 0 true,
        .set_pud 0x80001003 0, .free_pagetable 0x80001 0 true, .set_pmd 0x80002003 0,
        .free_pagetable 0x80002 0 true, .flush_tlb_all] ∧
    flushes [.flush_tlb_all, .set_pgd 0x80000003 0, .free_pagetable 0x80000 0 true,
        .set_pud 0x80001003 0, .free_pagetable 0x80001 0 true, .set_pmd 0x80002003 0,
        .free_pagetable 0x80002 0 true, .flush_tlb_all] = 2 := by
  decide

/-- C23, amended: for every page-aligned range in one half of the address space, on
well-formed tables, `remove_pagetable` returns; the last thing it does is the `flush_tlb_all`
at the end of the top-level walk; and the number of invalidations it issues is one plus the
number of leaf tables that the walk passes (`leaf_tables`), because every call of
`remove_pte_table` that returns has issued exactly one.  None is issued per entry. -/
theorem C23_invalidations_counted (direct : Bool) (m : Machine) (t : PgdTable) (a n : Nat)
    (hwf : WF (fun _ => True) t) (ha : a % 2 ^ 12 = 0) (hn : n % 2 ^ 12 = 0) (hlt : a < n)
    (hb : a / 2 ^ 48 = (n - 1) / 2 ^ 48) (h64 : n < 2 ^ 64) :
    (∃ pgd' m' new, remove_pagetable m t a n direct = .ok (pgd', m') ∧
      m'.trace = new ++ m.trace ∧ new.head? = some .flush_tlb_all ∧
      flushes new = 1 + leaf_tables t a n) ∧
    (∀ (m0 : Machine) (pte : PteTable) (i addr end_ : Nat) (pte' : PteTable) (m1 : Machine),
      remove_pte_table m0 pte i addr end_ direct = .ok (pte', m1) →
        flushes m1.trace = flushes m0.trace + 1) := by
  refine ⟨?_, fun m0 pte i addr end_ pte' m1 h =>
    remove_pte_table_flushes direct m0 pte i addr end_ pte' m1 h⟩
  obtain ⟨m', h1, _, _⟩ := remove_pagetable_aligned (fun _ => True) trivial direct m t a n hwf
    ha hn hlt hb h64
  obtain ⟨new, h2, _⟩ := remove_pagetable_removes direct m t a n _ m' ha hn h1
  obtain ⟨m1, h3, h4⟩ := remove_pagetable_flushes direct m t a n _ m' hlt hb h64 h1
  have h5 : flushes m'.trace = flushes new + flushes m.trace := by
    rw [h2, flushes_append]
  have h6 : flushes m'.trace = flushes m1.trace + 1 := by
    rw [h3]; exact flushes_cons_flush _
  have hcount : flushes new = 1 + leaf_tables t a n := by omega
  refine ⟨_, m', new, h1, h2, ?_, hcount⟩
  cases new with
  | nil =>
    have : flushes ([] : List Event) = 0 := rfl
    omega
  | cons e l =>
    rw [h3] at h2
    simp only [List.cons_append, List.cons.injEq] at h2
    rw [← h2.1]; rfl

set_option maxRecDepth 100000 in
theorem C23_invalidations_counted_witness :
    leaf_tables leaf_tree 0xffff000000000000 0xffff000000200000 = 1 ∧
    ∃ pgd' m' new, remove_pagetable boot_machine leaf_tree 0xffff000000000000
        0xffff000000200000 true = .ok (pgd', m') ∧
      m'.trace = new ++ boot_machine.trace ∧ new.head? = some .flush_tlb_all ∧
      flushes new = 1 + leaf_tables leaf_tree 0xffff000000000000 0xffff000000200000 :=
  ⟨by decide,
    (C23_invalidations_counted true boot_machine leaf_tree 0xffff000000000000
      0xffff000000200000 leaf_tree_WF (by decide) (by decide) (by decide) (by decide)
      (by decide)).1⟩

/-! ## Addresses outside a request -/

theorem Kept.mono {lo hi a n x : Nat} {o0 o1 : Option Terminal} (h : Kept lo hi x o0 o1)
    (h1 : a ≤ lo) (h2 : hi ≤ n) : Kept a n x o0 o1 := by
  rcases h with h | ⟨t, t', e0, e1, hp, hv, hl⟩
  · exact Or.inl h
  · refine Or.inr ⟨t, t', e0, e1, hp, hv, ?_⟩
    rcases hl with ⟨l, c1, c2⟩ | ⟨l, c1, c2⟩
    · exact Or.inl ⟨l, by omega, by omega⟩
    · exact Or.inr ⟨l, by omega, by omega⟩

theorem pte_base_sect_phys (e : PmdEnt) (x : Nat) (hs : pmd_sect e.val = true) :
    pte_base e (pte_index x) ≠ 0 ∧
      Terminal.phys ⟨3, pte_base e (pte_index x)⟩ x = Terminal.phys ⟨2, e.val⟩ x := by
  have hs' : e.val % 4 = 1 := by simpa [pmd_sect_eq] using hs
  have h0 : pmd_none e.val = false := by
    rw [pmd_none_eq]; exact decide_eq_false (by omega)
  have hidx := pte_index_eq x
  have hlt : pte_index x < PTRS_PER_PTE := by unfold PTRS_PER_PTE; omega
  have hpf := pmd_pfn_eq e.val
  have hq : pmd_pfn e.val + pte_index x < 2 ^ 36 := by omega
  have hx : PAGE_KERNEL_EXEC &&& ADDR_MASK = 0 := by decide
  have h1 := pte_pfn_pfn_pte _ _ hq hx
  have hb : pte_base e (pte_index x) = pfn_pte (pmd_pfn e.val + pte_index x) PAGE_KERNEL_EXEC := by
    simp only [pte_base, h0, hs, Bool.false_eq_true, if_false, if_true, hlt]
  rw [hb]
  constructor
  · unfold pfn_pte
    exact lor_ne_zero_right _ _ (by decide)
  · simp only [Terminal.phys, show (3 : Nat) ≠ 1 by decide, show (3 : Nat) ≠ 2 by decide,
      show (2 : Nat) ≠ 1 by decide, if_false, if_true, h1, not64_PAGE_MASK, not64_PMD_MASK,
      Nat.and_pow_two_sub_one_eq_mod, Nat.shiftLeft_eq, PAGE_SHIFT]
    omega

theorem pmd_base_sect_phys (e : PudEnt) (x : Nat) (hs : pud_sect e.val = true)
    (hal : e.val % 2 ^ 30 < 2 ^ 12) :
    pmd_sect (pmd_base e (pmd_index x)).val = true ∧
      Terminal.phys ⟨2, (pmd_base e (pmd_index x)).val⟩ x = Terminal.phys ⟨1, e.val⟩ x := by
  have hs' : e.val % 4 = 1 := by simpa [pud_sect_eq] using hs
  have h0 : pud_none e.val = false := by
    rw [pud_none_eq]; exact decide_eq_false (by omega)
  have hidx := pmd_index_eq x
  have hx : pmd_index x < 512 := by omega
  have hc := split_pud_prot_mod e.val
  have key : ((e.val % 2 ^ 48 / 2 ^ 30 * 2 ^ 30 + pmd_index x * 2 ^ 21) |||
        (e.val ^^^ (e.val % 2 ^ 48 / 2 ^ 30 * 2 ^ 30))) % 2 ^ 48 =
      e.val % 2 ^ 48 / 2 ^ 30 * 2 ^ 30 + pmd_index x * 2 ^ 21 + e.val % 2 ^ 30 := by
    have := desc_addr (e.val % 2 ^ 48 / 2 ^ 30 * 2 ^ 30 + pmd_index x * 2 ^ 21)
      (e.val ^^^ (e.val % 2 ^ 48 / 2 ^ 30 * 2 ^ 30)) (by omega) (by omega) (by omega)
    rw [this, hc]
  have hb : (pmd_base e (pmd_index x)).val =
      (e.val % 2 ^ 48 / 2 ^ 30 * 2 ^ 30 + pmd_index x * 2 ^ 21) |||
        (e.val ^^^ (e.val % 2 ^ 48 / 2 ^ 30 * 2 ^ 30)) := by
    simp only [pmd_base, h0, hs, Bool.false_eq_true, if_false, if_true, hx]
  rw [hb]
  constructor
  · rw [pmd_sect_iff]; exact split_pud_entry_sect e.val _ hs'
  · simp only [Terminal.phys, show (2 : Nat) ≠ 1 by decide, if_false, if_true, pmd_pfn_eq,
      pud_pfn_eq, key, not64_PMD_MASK, not64_PUD_MASK, Nat.and_pow_two_sub_one_eq_mod,
      Nat.shiftLeft_eq, PAGE_SHIFT]
    omega

theorem frame_pmd (Q : Nat → Prop) (prot a n p : Nat) (e0 e1 : PmdEnt) (hwf : e0.WF Q)
    (hR : MapRel_pmd prot a n p e0 e1) (ha : a % 2 ^ 12 = 0) (hn : n % 2 ^ 12 = 0)
    (hlt : a < n) (hb : n ≤ a / 2 ^ 21 * 2 ^ 21 + 2 ^ 21) :
    ∀ x, a / 2 ^ 21 * 2 ^ 21 ≤ x → x < a / 2 ^ 21 * 2 ^ 21 + 2 ^ 21 → (x < a ∨ n ≤ x) →
      Kept a n x (e0.lookup x) (e1.lookup x) := by
  intro x hx1 hx2 hout
  rcases hR with ⟨_, c1, c2⟩ | ⟨ht, htbl⟩
  · exfalso; omega
  · have ht' : e1.val % 4 = 3 := by simpa [pmd_table_eq] using ht
    have h10 : pmd_none e1.val = false := by
      rw [pmd_none_eq]; exact decide_eq_false (by omega)
    have h1s : pmd_sect e1.val = false := by
      rw [pmd_sect_eq]; exact decide_eq_false (by omega)
    have hia := pte_index_eq a
    have hix := pte_index_eq x
    have hnin : ¬ in_ptes a n (pte_index x) := by unfold in_ptes; omega
    have hl1 : e1.lookup x = if pte_none (pte_base e0 (pte_index x)) then none
        else some ⟨3, pte_base e0 (pte_index x)⟩ := by
      simp only [PmdEnt.lookup, h10, h1s, Bool.false_eq_true, if_false, htbl, if_neg hnin]
    rw [hl1]
    rcases hwf with h0 | hs | ⟨h2, _⟩
    · left
      simp only [PmdEnt.lookup, pte_base, h0, if_true, zero_pte_table, pte_none,
        beq_self_eq_true]
    · right
      have hs' : e0.val % 4 = 1 := by simpa [pmd_sect_eq] using hs
      have h0 : pmd_none e0.val = false := by
        rw [pmd_none_eq]; exact decide_eq_false (by omega)
      obtain ⟨q1, q2⟩ := pte_base_sect_phys e0 x hs
      have hpn : pte_none (pte_base e0 (pte_index x)) = false := by
        simp only [pte_none, beq_eq_false_iff_ne, ne_eq]; exact q1
      refine ⟨⟨2, e0.val⟩, ⟨3, pte_base e0 (pte_index x)⟩, ?_, ?_, q2,
        Nat.lt_succ_self 2, Or.inl ⟨rfl, ?_, ?_⟩⟩
      · simp only [PmdEnt.lookup, h0, hs, Bool.false_eq_true, if_false, if_true]
      · simp only [hpn, Bool.false_eq_true, if_false]
      · omega
      · omega
    · left
      have h2' : e0.val % 4 = 3 := by simpa [pmd_table_eq] using h2
      have h0 : pmd_none e0.val = false := by
        rw [pmd_none_eq]; exact decide_eq_false (by omega)
      have hs : pmd_sect e0.val = false := by
        rw [pmd_sect_eq]; exact decide_eq_false (by omega)
      simp only [PmdEnt.lookup, h0, hs, Bool.false_eq_true, if_false, pte_base_table e0 h2]

theorem frame_pud (Q : Nat → Prop) (prot a n p : Nat) (e0 e1 : PudEnt) (hwf : e0.WF Q)
    (hR : MapRel_pud prot a n p e0 e1) (ha : a % 2 ^ 12 = 0) (hn : n % 2 ^ 12 = 0)
    (hlt : a < n) (hb : n ≤ a / 2 ^ 30 * 2 ^ 30 + 2 ^ 30) (x : Nat)
    (hx1 : a / 2 ^ 30 * 2 ^ 30 ≤ x) (hx2 : x < a / 2 ^ 30 * 2 ^ 30 + 2 ^ 30)
    (hout : x < a ∨ n ≤ x)
    (hal : ∀ t, e0.lookup x = some t → t.level = 1 → t.val % 2 ^ 30 < 2 ^ 12) :
    Kept a n x (e0.lookup x) (e1.lookup x) := by
  rcases hR with ⟨_, c1, c2⟩ | ⟨ht, htbl⟩
  · exfalso; omega
  · have ht' : e1.val % 4 = 3 := by simpa [pud_table_eq] using ht
    have h10 : pud_none e1.val = false := by
      rw [pud_none_eq]; exact decide_eq_false (by omega)
    have h1s : pud_sect e1.val = false := by
      rw [pud_sect_eq]; exact decide_eq_false (by omega)
    have hl1 : e1.lookup x = (e1.tbl (pmd_index x)).lookup x := by
      simp only [PudEnt.lookup, h10, h1s, Bool.false_eq_true, if_false]
    have hmid : Kept a n x ((pmd_base e0 (pmd_index x)).lookup x) (e1.lookup x) := by
      rw [hl1]
      by_cases hj : in_slots (2 ^ 21) (pmd_index a) a n (pmd_index x)
      · obtain ⟨f1, f2, f3, f4, f5, f6, _⟩ := slot21_facts a n _ ha hn hlt hb hj
        have hia := pmd_index_eq a
        have hix := pmd_index_eq x
        have hw1 : slot_lo (2 ^ 21) (pmd_index a) a (pmd_index x) / 2 ^ 21 * 2 ^ 21 ≤ x := by
          unfold in_slots at hj
          unfold slot_lo
          omega
        have hw2 : x < slot_lo (2 ^ 21) (pmd_index a) a (pmd_index x) / 2 ^ 21 * 2 ^ 21
            + 2 ^ 21 := by
          unfold in_slots at hj
          unfold slot_lo
          omega
        have hw3 : x < slot_lo (2 ^ 21) (pmd_index a) a (pmd_index x) ∨
            slot_hi (2 ^ 21) (pmd_index a) a n (pmd_index x) ≤ x := by
          unfold in_slots at hj
          unfold slot_lo slot_hi
          omega
        exact Kept.mono (frame_pmd Q prot _ _ _ _ _ (pmd_base_WF Q e0 hwf _)
          ((htbl _).1 hj) f1 f2 f3 f4 x hw1 hw2 hw3) f5 f6
      · rw [(htbl _).2 hj]; exact Or.inl rfl
    rcases hwf with h0 | hs | ⟨h2, _⟩
    · have hb0 : (pmd_base e0 (pmd_index x)).lookup x = e0.lookup x := by
        simp only [PudEnt.lookup, pmd_base, h0, if_true, zero_pmd_table, PmdEnt.lookup,
          pmd_none, beq_self_eq_true]
      rw [← hb0]; exact hmid
    · have hs' : e0.val % 4 = 1 := by simpa [pud_sect_eq] using hs
      have h0 : pud_none e0.val = false := by
        rw [pud_none_eq]; exact decide_eq_false (by omega)
      have hl0 : e0.lookup x = some ⟨1, e0.val⟩ := by
        simp only [PudEnt.lookup, h0, hs, Bool.false_eq_true, if_false, if_true]
      obtain ⟨q1, q2⟩ := pmd_base_sect_phys e0 x hs (hal _ hl0 rfl)
      have q1' : (pmd_base e0 (pmd_index x)).val % 4 = 1 := by simpa [pmd_sect_eq] using q1
      have hq0 : pmd_none (pmd_base e0 (pmd_index x)).val = false := by
        rw [pmd_none_eq]; exact decide_eq_false (by omega)
      have hlb : (pmd_base e0 (pmd_index x)).lookup x =
          some ⟨2, (pmd_base e0 (pmd_index x)).val⟩ := by
        simp only [PmdEnt.lookup, hq0, q1, Bool.false_eq_true, if_false, if_true]
      rw [hl0]
      rw [hlb] at hmid
      rcases hmid with h | ⟨t, t', e0', e1', hp, hv, _⟩
      · exact Or.inr ⟨_, _, rfl, h, q2, Nat.lt_succ_self 1, Or.inr ⟨rfl, by omega, by omega⟩⟩
      · have : t = ⟨2, (pmd_base e0 (pmd_index x)).val⟩ := (Option.some.inj e0').symm
        rw [this] at hp hv
        have hv' : 2 < t'.level := hv
        exact Or.inr ⟨_, t', rfl, e1', hp.trans q2, show 1 < t'.level by omega,
          Or.inr ⟨rfl, by omega, by omega⟩⟩
    · have h2' : e0.val % 4 = 3 := by simpa [pud_table_eq] using h2
      have h0 : pud_none e0.val = false := by
        rw [pud_none_eq]; exact decide_eq_false (by omega)
      have hs : pud_sect e0.val = false := by
        rw [pud_sect_eq]; exact decide_eq_false (by omega)
      have hb0 : (pmd_base e0 (pmd_index x)).lookup x = e0.lookup x := by
        simp only [PudEnt.lookup, pmd_base, h0, hs, Bool.false_eq_true, if_false]
      rw [← hb0]; exact hmid

theorem frame_pgd (Q : Nat → Prop) (prot a n p : Nat) (e0 e1 : PgdEnt) (hwf : e0.WF Q)
    (hR : MapRel_pgd prot a n p e0 e1) (ha : a % 2 ^ 12 = 0) (hn : n % 2 ^ 12 = 0)
    (hlt : a < n) (hb : n ≤ a / 2 ^ 39 * 2 ^ 39 + 2 ^ 39) (x : Nat)
    (hx1 : a / 2 ^ 39 * 2 ^ 39 ≤ x) (hx2 : x < a / 2 ^ 39 * 2 ^ 39 + 2 ^ 39)
    (hout : x < a ∨ n ≤ x)
    (hal : ∀ t, e0.lookup x = some t → t.level = 1 → t.val % 2 ^ 30 < 2 ^ 12) :
    Kept a n x (e0.lookup x) (e1.lookup x) := by
  obtain ⟨hn1, htbl⟩ := hR
  have hl1 : e1.lookup x = (e1.tbl (pud_index x)).lookup x := by
    simp only [PgdEnt.lookup, hn1, Bool.false_eq_true, if_false]
  have hb0 : (pud_base e0 (pud_index x)).lookup x = e0.lookup x := by
    rcases hwf with h0 | ⟨h2, _⟩
    · simp only [PgdEnt.lookup, pud_base, h0, if_true, zero_pud_table, PudEnt.lookup,
        pud_none, beq_self_eq_true]
    · have h2' : ¬ e0.val % 4 < 2 := by simpa [pgd_bad_eq] using h2
      have h0 : pgd_none e0.val = false := by
        rw [pgd_none_eq]; exact decide_eq_false (by omega)
      simp only [PgdEnt.lookup, pud_base, h0, Bool.false_eq_true, if_false]
  rw [← hb0, hl1]
  by_cases hj : in_slots (2 ^ 30) (pud_index a) a n (pud_index x)
  · obtain ⟨f1, f2, f3, f4, f5, f6, _⟩ := slot30_facts a n _ ha hn hlt hb hj
    have hia := pud_index_eq a
    have hix := pud_index_eq x
    have hw1 : slot_lo (2 ^ 30) (pud_index a) a (pud_index x) / 2 ^ 30 * 2 ^ 30 ≤ x := by
      unfold in_slots at hj
      unfold slot_lo
      omega
    have hw2 : x < slot_lo (2 ^ 30) (pud_index a) a (pud_index x) / 2 ^ 30 * 2 ^ 30
        + 2 ^ 30 := by
      unfold in_slots at hj
      unfold slot_lo
      omega
    have hw3 : x < slot_lo (2 ^ 30) (pud_index a) a (pud_index x) ∨
        slot_hi (2 ^ 30) (pud_index a) a n (pud_index x) ≤ x := by
      unfold in_slots at hj
      unfold slot_lo slot_hi
      omega
    exact Kept.mono (frame_pud Q prot _ _ _ _ _ (pud_base_WF Q e0 hwf _)
      ((htbl _).1 hj) f1 f2 f3 f4 x hw1 hw2 hw3 (by rw [hb0]; exact hal)) f5 f6
  · rw [(htbl _).2 hj]; exact Or.inl rfl

/-- A request over the page-aligned range `[a, n)` keeps the walk of every address `x` of the
same 48-bit window outside the range, up to the split of a block that reaches into the range. -/
theorem frame (Q : Nat → Prop) (prot a n p : Nat) (pgd0 pgd1 : PgdTable) (hwf : WF Q pgd0)
    (hR : MapRel prot a n p pgd0 pgd1) (ha : a % 2 ^ 12 = 0) (hn : n % 2 ^ 12 = 0)
    (hlt : a < n) (hb : a / 2 ^ 48 = (n - 1) / 2 ^ 48) (x : Nat)
    (hxw : x / 2 ^ 48 = a / 2 ^ 48) (hout : x < a ∨ n ≤ x)
    (hal : ∀ t, lookup pgd0 x = some t → t.level = 1 → t.val % 2 ^ 30 < 2 ^ 12) :
    Kept a n x (lookup pgd0 x) (lookup pgd1 x) := by
  unfold lookup
  by_cases hj : in_slots (2 ^ 39) (pgd_index a) a n (pgd_index x)
  · obtain ⟨f1, f2, f3, f4, f5, f6, _⟩ := slot39_facts a n _ ha hn hlt hb hj
    have hia := pgd_index_eq a
    have hix := pgd_index_eq x
    have hw1 : slot_lo (2 ^ 39) (pgd_index a) a (pgd_index x) / 2 ^ 39 * 2 ^ 39 ≤ x := by
      unfold in_slots at hj
      unfold slot_lo
      omega
    have hw2 : x < slot_lo (2 ^ 39) (pgd_index a) a (pgd_index x) / 2 ^ 39 * 2 ^ 39
        + 2 ^ 39 := by
      unfold in_slots at hj
      unfold slot_lo
      omega
    have hw3 : x < slot_lo (2 ^ 39) (pgd_index a) a (pgd_index x) ∨
        slot_hi (2 ^ 39) (pgd_index a) a n (pgd_index x) ≤ x := by
      unfold in_slots at hj
      unfold slot_lo slot_hi
      omega
    exact Kept.mono (frame_pgd Q prot _ _ _ _ _ (hwf _) ((hR _).1 hj) f1 f2 f3 f4 x hw1 hw2 hw3
      hal) f5 f6
  · rw [(hR _).2 hj]; exact Or.inl rfl

/-- The page-rounded request that `__create_pgd_mapping` works on, for every request whose
page-rounded length is not zero. -/
theorem create_pgd_mapping_spec_len (Q : Nat → Prop) (prot : Nat) (al : Allocator)
    (allow : Bool) (hQ0 : Q 0) (hQx : ∀ pfn, Q (pfn_pte pfn PAGE_KERNEL_EXEC))
    (hQp : ∀ pfn, Q (pfn_pte pfn prot)) (hprot : prot ≠ 0)
    (m : Machine) (pgdir : PgdTable) (phys virt size : Nat) (hm : m.alloc_ok)
    (hwf : WF Q pgdir) (hoff : (phys ^^^ virt) &&& not64 PAGE_MASK = 0) (hsize : 0 < size + virt % 2 ^ 12)
    (hv : virt + size + 2 ^ 12 ≤ 2 ^ 64) (hp : phys + size + 2 ^ 12 ≤ 2 ^ 64)
    (hwin : virt / 2 ^ 48 = (virt + size - 1) / 2 ^ 48) :
    ∃ pgd' m', __create_pgd_mapping m pgdir phys virt size prot (some al) allow =
        .ok (pgd', m') ∧ m.ext m' ∧ WF Q pgd' ∧
      (∀ x, virt / 2 ^ 12 * 2 ^ 12 ≤ x → x < (virt + size + (2 ^ 12 - 1)) / 2 ^ 12 * 2 ^ 12 →
        lookup pgd' x = some (target allow (virt / 2 ^ 12 * 2 ^ 12)
          ((virt + size + (2 ^ 12 - 1)) / 2 ^ 12 * 2 ^ 12) (phys / 2 ^ 12 * 2 ^ 12) prot x)) ∧
      MapRel prot (virt / 2 ^ 12 * 2 ^ 12) ((virt + size + (2 ^ 12 - 1)) / 2 ^ 12 * 2 ^ 12)
        (phys / 2 ^ 12 * 2 ^ 12) pgdir pgd' := by
  have hoff' := (same_offset_iff phys virt).mp hoff
  rw [__create_pgd_mapping]
  have hc : ((phys ^^^ virt) &&& not64 PAGE_MASK != 0) = false := by rw [hoff]; rfl
  simp only [hc, Bool.false_eq_true, if_false]
  have e1 : phys &&& PAGE_MASK = phys / 2 ^ 12 * 2 ^ 12 :=
    land_mask_hi phys 12 (by omega) (by norm_num)
  have e2 : virt &&& PAGE_MASK = virt / 2 ^ 12 * 2 ^ 12 :=
    land_mask_hi virt 12 (by omega) (by norm_num)
  have e3 : virt &&& not64 PAGE_MASK = virt % 2 ^ 12 := by
    rw [not64_PAGE_MASK, Nat.and_pow_two_sub_one_eq_mod]
  have e4 : add64 size (virt % 2 ^ 12) = size + virt % 2 ^ 12 := by
    unfold add64; exact Nat.mod_eq_of_lt (by omega)
  have e5 : PAGE_ALIGN (size + virt % 2 ^ 12) =
      (size + virt % 2 ^ 12 + (2 ^ 12 - 1)) / 2 ^ 12 * 2 ^ 12 := by
    unfold PAGE_ALIGN PAGE_SIZE
    have : (size + virt % 2 ^ 12 + (2 ^ 12 - 1)) % 2 ^ 64 = size + virt % 2 ^ 12 + (2 ^ 12 - 1) :=
      Nat.mod_eq_of_lt (by omega)
    rw [this]
    exact land_mask_hi _ 12 (by omega) (by norm_num)
  have e6 : add64 (virt / 2 ^ 12 * 2 ^ 12)
      ((size + virt % 2 ^ 12 + (2 ^ 12 - 1)) / 2 ^ 12 * 2 ^ 12) =
      (virt + size + (2 ^ 12 - 1)) / 2 ^ 12 * 2 ^ 12 := by
    unfold add64
    rw [Nat.mod_eq_of_lt (by omega)]
    omega
  have e7 : pgd_index virt = pgd_index (virt / 2 ^ 12 * 2 ^ 12) := by
    rw [pgd_index_eq, pgd_index_eq]; omega
  rw [e1, e2, e3, e4, e5, e6, e7]
  obtain ⟨pgd', m', r1, r2, r3, _, r5, r6⟩ := create_pgd_mapping_loop_spec Q prot al allow hQ0
    hQx hQp hprot m pgdir (virt / 2 ^ 12 * 2 ^ 12)
    ((virt + size + (2 ^ 12 - 1)) / 2 ^ 12 * 2 ^ 12)
    (phys / 2 ^ 12 * 2 ^ 12) hm hwf (by omega) (by omega) (by omega)
    (by unfold Aligned; omega)
  exact ⟨pgd', m', r1, r2, r3, r5, r6⟩

/-! ## Claims on the frame of a request -/

theorem sect_tree_WF : WF (fun _ => True) sect_tree := by
  intro i
  unfold sect_tree
  by_cases hi : i = 0
  · rw [if_pos hi]
    refine Or.inr ⟨by decide, fun j => ?_⟩
    by_cases hj : j = 0
    · simp only [hj, if_true]
      refine Or.inr (Or.inr ⟨by decide, fun k => ?_⟩)
      by_cases hk : k = 0
      · simp only [hk, if_true]
        exact Or.inr (Or.inl (by decide))
      · simp only [hk, if_false]
        exact Or.inl rfl
    · simp only [hj, if_false]
      exact Or.inl rfl
  · rw [if_neg hi]
    exact Or.inl rfl

theorem page_align_eq (x : Nat) (h : x + 2 ^ 12 ≤ 2 ^ 64) :
    PAGE_ALIGN x = (x + (2 ^ 12 - 1)) / 2 ^ 12 * 2 ^ 12 := by
  unfold PAGE_ALIGN PAGE_SIZE
  rw [Nat.mod_eq_of_lt (by omega)]
  exact land_mask_hi _ 12 (by omega) (by norm_num)

theorem page_mask_eq (x : Nat) (h : x < 2 ^ 64) : x &&& PAGE_MASK = x / 2 ^ 12 * 2 ^ 12 :=
  land_mask_hi x 12 h (by norm_num)

/-- The engine on a request of non-zero page-rounded length: what it leaves inside the rounded
range, and that it keeps the walk of every address of the window outside the range. -/
theorem create_pgd_mapping_frame (Q : Nat → Prop) (prot : Nat) (al : Allocator)
    (allow : Bool) (hQ0 : Q 0) (hQx : ∀ pfn, Q (pfn_pte pfn PAGE_KERNEL_EXEC))
    (hQp : ∀ pfn, Q (pfn_pte pfn prot)) (hprot : prot ≠ 0)
    (m : Machine) (pgdir : PgdTable) (phys virt size : Nat) (hm : m.alloc_ok)
    (hwf : WF Q pgdir) (hoff : (phys ^^^ virt) &&& not64 PAGE_MASK = 0)
    (hsize : 0 < size + virt % 2 ^ 12)
    (hv : virt + size + 2 ^ 12 ≤ 2 ^ 64) (hp : phys + size + 2 ^ 12 ≤ 2 ^ 64)
    (hwin : virt / 2 ^ 48 = (virt + size - 1) / 2 ^ 48) :
    ∃ pgd' m', __create_pgd_mapping m pgdir phys virt size prot (some al) allow =
        .ok (pgd', m') ∧ m.ext m' ∧ WF Q pgd' ∧
      (∀ x, virt / 2 ^ 12 * 2 ^ 12 ≤ x → x < (virt + size + (2 ^ 12 - 1)) / 2 ^ 12 * 2 ^ 12 →
        lookup pgd' x = some (target allow (virt / 2 ^ 12 * 2 ^ 12)
          ((virt + size + (2 ^ 12 - 1)) / 2 ^ 12 * 2 ^ 12) (phys / 2 ^ 12 * 2 ^ 12) prot x)) ∧
      (∀ x, x / 2 ^ 48 = virt / 2 ^ 48 →
        (x < virt / 2 ^ 12 * 2 ^ 12 ∨ (virt + size + (2 ^ 12 - 1)) / 2 ^ 12 * 2 ^ 12 ≤ x) →
        (∀ t, lookup pgdir x = some t → t.level = 1 → t.val % 2 ^ 30 < 2 ^ 12) →
        Kept (virt / 2 ^ 12 * 2 ^ 12) ((virt + size + (2 ^ 12 - 1)) / 2 ^ 12 * 2 ^ 12) x
          (lookup pgdir x) (lookup pgd' x)) := by
  obtain ⟨pgd', m', h1, h2, h3, h4, h5⟩ := create_pgd_mapping_spec_len Q prot al allow hQ0 hQx
    hQp hprot m pgdir phys virt size hm hwf hoff hsize hv hp hwin
  refine ⟨pgd', m', h1, h2, h3, h4, ?_⟩
  intro x hxw hout hal
  exact frame Q prot _ _ _ pgdir pgd' hwf h5 (by omega) (by omega) (by omega) (by omega) x
    (by omega) hout hal

set_option maxRecDepth 100000 in
/-- C27, the claim as stated fails for an empty request.  With `size = 0` and `virt` on a 2 MiB
boundary the rounded range `[virt & PAGE_MASK, PAGE_ALIGN(virt + size))` is empty, so every
address is outside it; the do-while loops still run once, `next` equals `addr`, the alignment
test of the section branch passes, and a 2 MiB section is stored: the address
`0xffff_0000_0020_0000`, which resolved nowhere, now resolves. -/
theorem C27_empty_request_maps_a_block :
    (0x40200000 ^^^ 0xffff000000200000) &&& not64 PAGE_MASK = 0 ∧
    0xffff000000200000 &&& PAGE_MASK = PAGE_ALIGN (0xffff000000200000 + 0) ∧
    lookup zero_pgd_table 0xffff000000200000 = none ∧
    walk_after (__create_pgd_mapping boot_machine zero_pgd_table 0x40200000 0xffff000000200000 0
        PAGE_KERNEL (some Allocator.early_pgtable_alloc) true) 0xffff000000200000 =
      some (some ⟨2, 0x00E8000040200711⟩) := by
  decide

/-- C27, amended: for every request with matching page offsets whose page-rounded length is not
zero, that does not wrap and lies in one 2^48 window, on well-formed tables and with an allocator
that never fails, `__create_pgd_mapping` returns, and every address `x` of that window outside
`[virt & PAGE_MASK, PAGE_ALIGN(virt + size))` keeps its translation target: if it resolved
nowhere it resolves nowhere, and if it resolved through the entry `t` it resolves through an
entry that gives it the same physical address, which is `t` itself or, when `t` was a block that
the call had to split, an entry of a lower table.  (A 1 GiB block is taken to hold a 1 GiB
aligned output address, as the architecture has it.) -/
theorem C27_outside_addresses_keep_target (m : Machine) (pgdir : PgdTable)
    (phys virt size prot : Nat) (al : Allocator) (allow : Bool) (x : Nat)
    (hm : m.alloc_ok) (hwf : WF (fun _ => True) pgdir)
    (hoff : (phys ^^^ virt) &&& not64 PAGE_MASK = 0) (hlen : 0 < size + virt % 2 ^ 12)
    (hv : virt + size + 2 ^ 12 ≤ 2 ^ 64) (hp : phys + size + 2 ^ 12 ≤ 2 ^ 64)
    (hprot0 : prot ≠ 0) (hwin : virt / 2 ^ 48 = (virt + size - 1) / 2 ^ 48)
    (hxw : x / 2 ^ 48 = virt / 2 ^ 48)
    (hout : x < virt &&& PAGE_MASK ∨ PAGE_ALIGN (virt + size) ≤ x)
    (hal : ∀ t, lookup pgdir x = some t → t.level = 1 → t.val % 2 ^ 30 < 2 ^ 12) :
    ∃ pgd' m', __create_pgd_mapping m pgdir phys virt size prot (some al) allow =
        .ok (pgd', m') ∧
      (lookup pgdir x = none → lookup pgd' x = none) ∧
      (∀ t, lookup pgdir x = some t →
        ∃ t', lookup pgd' x = some t' ∧ t'.phys x = t.phys x ∧ (t' = t ∨ t.level < t'.level)) := by
  obtain ⟨pgd', m', h1, _, _, _, h5⟩ := create_pgd_mapping_frame (fun _ => True) prot al allow
    trivial (fun _ => trivial) (fun _ => trivial) hprot0 m pgdir phys virt size hm hwf hoff hlen
    hv hp hwin
  rw [page_mask_eq virt (by omega), page_align_eq (virt + size) (by omega)] at hout
  have hk := h5 x hxw hout hal
  refine ⟨pgd', m', h1, ?_, ?_⟩
  · intro h0
    rcases hk with h | ⟨t, t', e0, _⟩
    · rw [h, h0]
    · rw [h0] at e0; exact absurd e0 (by simp)
  · intro t ht
    rcases hk with h | ⟨t0, t', e0, e1, hp', hv', _⟩
    · exact ⟨t, by rw [h, ht], rfl, Or.inl rfl⟩
    · have : t0 = t := Option.some.inj (e0.symm.trans ht)
      rw [this] at hp' hv'
      exact ⟨t', e1, hp', Or.inr hv'⟩

set_option maxRecDepth 100000 in
/-- One page is mapped inside the 2 MiB block of `sect_tree`, with blocks disallowed: the first
page of the block, outside the request, resolved through the block and still resolves to the
same physical address. -/
theorem C27_outside_addresses_keep_target_witness :
    lookup sect_tree 0xffff000000000000 = some ⟨2, 0x00E8000040000711⟩ ∧
    (0xffff000000000000 < 0xffff000000001000 &&& PAGE_MASK ∨
      PAGE_ALIGN (0xffff000000001000 + 0x1000) ≤ 0xffff000000000000) ∧
    ∃ pgd' m', __create_pgd_mapping boot_machine sect_tree 0x40001000 0xffff000000001000 0x1000
        PAGE_KERNEL_RO (some Allocator.early_pgtable_alloc) false = .ok (pgd', m') ∧
      (lookup sect_tree 0xffff000000000000 = none → lookup pgd' 0xffff000000000000 = none) ∧
      (∀ t, lookup sect_tree 0xffff000000000000 = some t →
        ∃ t', lookup pgd' 0xffff000000000000 = some t' ∧
          t'.phys 0xffff000000000000 = t.phys 0xffff000000000000 ∧
          (t' = t ∨ t.level < t'.level)) :=
  ⟨by decide, by decide,
    C27_outside_addresses_keep_target boot_machine sect_tree 0x40001000 0xffff000000001000 0x1000
      PAGE_KERNEL_RO Allocator.early_pgtable_alloc false 0xffff000000000000
      boot_machine_alloc_ok sect_tree_WF (by decide) (by decide) (by decide) (by decide)
      (by decide) (by decide) (by decide) (by decide)
      (fun t ht hl => by
        have h : lookup sect_tree 0xffff000000000000 = some ⟨2, 0x00E8000040000711⟩ := by decide
        rw [h] at ht
        have := Option.some.inj ht
        rw [← this] at hl
        exact absurd hl (by decide))⟩

set_option maxRecDepth 100000 in
/-- C24, the claim as stated fails for an empty request.  With `size = 0` and `virt`, `phys` on a
1 GiB boundary the rounded range `[virt & PAGE_MASK, PAGE_ALIGN(virt + size))` holds no page,
yet the call stores a 1 GiB block: the page at `virt + 0x1000`, which is not in the range and
resolved nowhere, is mapped afterwards. -/
theorem C24_empty_request_maps_one_gigabyte :
    (0x40000000 ^^^ 0xffff000040000000) &&& not64 PAGE_MASK = 0 ∧
    0xffff000040000000 &&& PAGE_MASK = PAGE_ALIGN (0xffff000040000000 + 0) ∧
    lookup zero_pgd_table 0xffff000040001000 = none ∧
    walk_after (__create_pgd_mapping boot_machine zero_pgd_table 0x40000000 0xffff000040000000 0
        PAGE_KERNEL (some Allocator.early_pgtable_alloc) true) 0xffff000040001000 =
      some (some ⟨1, 0x00E8000040000711⟩) := by
  decide

/-- C24, amended: for every request with matching page offsets whose page-rounded length is not
zero, that does not wrap, lies in one 2^48 window and has its physical side below 2^48, with
attributes that carry no address bits, on well-formed tables and with an allocator that never
fails, `__create_pgd_mapping` returns and has mapped exactly the pages of
`[virt & PAGE_MASK, PAGE_ALIGN(virt + size))`: every address `x` of that range resolves to
`(phys & PAGE_MASK) + (x - (virt & PAGE_MASK))`, so the physical address advances as the virtual
one does from `phys & PAGE_MASK`, whatever levels the entries are at; and no address of the
window outside the range that resolved nowhere before resolves afterwards. -/
theorem C24_maps_exactly_the_rounded_pages (m : Machine) (pgdir : PgdTable)
    (phys virt size prot : Nat) (al : Allocator) (allow : Bool)
    (hm : m.alloc_ok) (hwf : WF (fun _ => True) pgdir)
    (hoff : (phys ^^^ virt) &&& not64 PAGE_MASK = 0) (hlen : 0 < size + virt % 2 ^ 12)
    (hv : virt + size + 2 ^ 12 ≤ 2 ^ 64) (hp : phys + size + 2 ^ 12 ≤ 2 ^ 48)
    (hprot0 : prot ≠ 0) (hprot : prot &&& ADDR_MASK = 0)
    (hwin : virt / 2 ^ 48 = (virt + size - 1) / 2 ^ 48) :
    ∃ pgd' m', __create_pgd_mapping m pgdir phys virt size prot (some al) allow =
        .ok (pgd', m') ∧
      (∀ x, virt &&& PAGE_MASK ≤ x → x < PAGE_ALIGN (virt + size) →
        ∃ t, lookup pgd' x = some t ∧
          t.phys x = (phys &&& PAGE_MASK) + (x - (virt &&& PAGE_MASK))) ∧
      (∀ x, x / 2 ^ 48 = virt / 2 ^ 48 →
        (x < virt &&& PAGE_MASK ∨ PAGE_ALIGN (virt + size) ≤ x) →
        lookup pgdir x = none → lookup pgd' x = none) := by
  have hoff' := (same_offset_iff phys virt).mp hoff
  obtain ⟨pgd', m', h1, _, _, h4, h5⟩ := create_pgd_mapping_frame (fun _ => True) prot al allow
    trivial (fun _ => trivial) (fun _ => trivial) hprot0 m pgdir phys virt size hm hwf hoff hlen
    hv (by omega) hwin
  rw [page_mask_eq virt (by omega), page_align_eq (virt + size) (by omega),
    page_mask_eq phys (by omega)]
  refine ⟨pgd', m', h1, ?_, ?_⟩
  · intro x hx1 hx2
    obtain ⟨r1, _, _, _⟩ := target_reads allow (virt / 2 ^ 12 * 2 ^ 12)
      ((virt + size + (2 ^ 12 - 1)) / 2 ^ 12 * 2 ^ 12) (phys / 2 ^ 12 * 2 ^ 12) prot x
      (by unfold Aligned; omega) hx1 hx2 (by omega) hprot
    exact ⟨_, h4 x hx1 hx2, r1⟩
  · intro x hxw hout h0
    have hk := h5 x hxw hout (fun t ht => by rw [h0] at ht; exact absurd ht (by simp))
    rcases hk with h | ⟨t, t', e0, _⟩
    · rw [h, h0]
    · rw [h0] at e0; exact absurd e0 (by simp)

set_option maxRecDepth 100000 in
/-- The 2 MiB at `0xffff_0000_0000_0000` are mapped to the frames from `0x4000_0000`. -/
theorem C24_maps_exactly_the_rounded_pages_witness :
    (0x40000000 ^^^ 0xffff000000000000) &&& not64 PAGE_MASK = 0 ∧
    ∃ pgd' m', __create_pgd_mapping boot_machine zero_pgd_table 0x40000000 0xffff000000000000
        0x200000 PAGE_KERNEL (some Allocator.early_pgtable_alloc) true = .ok (pgd', m') ∧
      (∀ x, 0xffff000000000000 &&& PAGE_MASK ≤ x →
        x < PAGE_ALIGN (0xffff000000000000 + 0x200000) →
        ∃ t, lookup pgd' x = some t ∧
          t.phys x = (0x40000000 &&& PAGE_MASK) + (x - (0xffff000000000000 &&& PAGE_MASK))) ∧
      (∀ x, x / 2 ^ 48 = 0xffff000000000000 / 2 ^ 48 →
        (x < 0xffff000000000000 &&& PAGE_MASK ∨
          PAGE_ALIGN (0xffff000000000000 + 0x200000) ≤ x) →
        lookup zero_pgd_table x = none → lookup pgd' x = none) :=
  ⟨by decide,
    C24_maps_exactly_the_rounded_pages boot_machine zero_pgd_table 0x40000000
      0xffff000000000000 0x200000 PAGE_KERNEL Allocator.early_pgtable_alloc true
      boot_machine_alloc_ok (zero_pgd_WF _) (by decide) (by decide) (by decide) (by decide)
      (by decide) (by decide) (by decide)⟩

/-! ## Claims on the linear map of a memory bank -/

theorem phys_to_virt_eq (memstart x : Nat) (h1 : memstart ≤ x) (h2 : x - memstart < 2 ^ 47)
    (hx : x < 2 ^ 64) : __phys_to_virt memstart x = 0xffff800000000000 + (x - memstart) := by
  unfold __phys_to_virt sub64 PAGE_OFFSET
  have e1 : (x + 2 ^ 64 - memstart % 2 ^ 64) % 2 ^ 64 = x - memstart := by
    rw [Nat.mod_eq_of_lt (show memstart < 2 ^ 64 by omega)]
    omega
  rw [e1, Nat.lor_comm]
  have := Nat.mul_add_lt_is_or h2 131071
  have e : (2 : Nat) ^ 47 * 131071 = 0xffff800000000000 := by norm_num
  rw [e] at this
  omega

theorem target_within (allow : Bool) (a n p prot x : Nat) :
    (target allow a n p prot x).within x a n := by
  unfold target
  by_cases h1 : (allow && fits PUD_SIZE a n p x) = true
  · rw [if_pos h1]
    rw [Bool.and_eq_true] at h1
    have hf := h1.2
    simp only [fits, PUD_SIZE, Bool.and_eq_true, decide_eq_true_eq] at hf
    exact ⟨fun _ => ⟨hf.1.1, hf.1.2⟩, fun h => by simp at h⟩
  · rw [if_neg h1]
    unfold target_pmd
    by_cases h2 : (allow && fits PMD_SIZE a n p x) = true
    · rw [if_pos h2]
      rw [Bool.and_eq_true] at h2
      have hf := h2.2
      simp only [fits, PMD_SIZE, Bool.and_eq_true, decide_eq_true_eq] at hf
      exact ⟨fun h => by simp at h, fun _ => ⟨hf.1.1, hf.1.2⟩⟩
    · rw [if_neg h2]
      exact ⟨fun h => by simp [target_pte] at h, fun h => by simp [target_pte] at h⟩

theorem target_block_aligned (allow : Bool) (a n p prot x : Nat) (hA : Aligned a n p)
    (hax : a ≤ x) (hp48 : p + (n - a) ≤ 2 ^ 48) (hprot : prot &&& ADDR_MASK = 0)
    (hl : (target allow a n p prot x).level = 1) :
    (target allow a n p prot x).val % 2 ^ 30 < 2 ^ 12 := by
  obtain ⟨ha, hn, hp, _⟩ := hA
  have hsl := sect_prot_low prot hprot
  unfold target at hl ⊢
  by_cases h1 : (allow && fits PUD_SIZE a n p x) = true
  · rw [if_pos h1]
    rw [Bool.and_eq_true] at h1
    have hf := h1.2
    simp only [fits, PUD_SIZE, Bool.and_eq_true, decide_eq_true_eq] at hf
    have hB : (p + (x - a)) / 2 ^ 30 * 2 ^ 30 < 2 ^ 48 := by omega
    have hv := desc_addr ((p + (x - a)) / 2 ^ 30 * 2 ^ 30) (1 ||| mk_sect_prot prot) hB
      (by omega) hsl
    rw [← Nat.lor_assoc] at hv
    simp only [PUD_SIZE, PUD_TYPE_SECT]
    omega
  · rw [if_neg h1] at hl
    unfold target_pmd at hl
    by_cases h2 : (allow && fits PMD_SIZE a n p x) = true
    · rw [if_pos h2] at hl; simp at hl
    · rw [if_neg h2] at hl; simp [target_pte] at hl

/-- A walk that ended at an entry whose block lies away from the range of a request ends at the
same entry after the request. -/
theorem Kept.exact {a n x lo hi : Nat} {t : Terminal} {o1 : Option Terminal}
    (h : Kept a n x (some t) o1) (hw : t.within x lo hi) (hd : hi ≤ a ∨ n ≤ lo) :
    o1 = some t := by
  rcases h with h | ⟨t0, t', e0, _, _, _, hl⟩
  · exact h
  · have : t0 = t := (Option.some.inj e0).symm
    rw [this] at hl
    exfalso
    rcases hl with ⟨l, c1, c2⟩ | ⟨l, c1, c2⟩
    · have := hw.2 l; omega
    · have := hw.1 l; omega

theorem Kept.none {a n x : Nat} {o1 : Option Terminal} (h : Kept a n x none o1) : o1 = none := by
  rcases h with h | ⟨t0, t', e0, _⟩
  · exact h
  · exact absurd e0 (by simp)

theorem sub64_eq (a b : Nat) (h : b ≤ a) (ha : a < 2 ^ 64) : sub64 a b = a - b := by
  unfold sub64
  rw [Nat.mod_eq_of_lt (show b < 2 ^ 64 by omega)]
  omega

/-- One call of the engine on the linear alias of the physical range `[s, e)`. -/
theorem map_linear (m : Machine) (pgd : PgdTable) (memstart s e prot : Nat) (allow : Bool)
    (hm : m.alloc_ok) (hwf : WF (fun _ => True) pgd) (hms : memstart % 2 ^ 12 = 0)
    (h1 : memstart ≤ s) (h2 : s < e) (h3 : e + 2 ^ 12 ≤ memstart + 2 ^ 47)
    (h4 : e + 2 ^ 12 ≤ 2 ^ 48) (hprot0 : prot ≠ 0) (hprot : prot &&& ADDR_MASK = 0) :
    ∃ pgd' m', __create_pgd_mapping m pgd s (__phys_to_virt memstart s) (sub64 e s) prot
        (some .early_pgtable_alloc) allow = .ok (pgd', m') ∧ m'.alloc_ok ∧
      WF (fun _ => True) pgd' ∧
      (∀ x, s / 2 ^ 12 * 2 ^ 12 ≤ x → x < (e + (2 ^ 12 - 1)) / 2 ^ 12 * 2 ^ 12 →
        LinearMapped memstart prot (s / 2 ^ 12 * 2 ^ 12)
          ((e + (2 ^ 12 - 1)) / 2 ^ 12 * 2 ^ 12) pgd' x) ∧
      (∀ vx, vx / 2 ^ 48 = 0xffff →
        (vx < 0xffff800000000000 + (s / 2 ^ 12 * 2 ^ 12 - memstart) ∨
          0xffff800000000000 + ((e + (2 ^ 12 - 1)) / 2 ^ 12 * 2 ^ 12 - memstart) ≤ vx) →
        (∀ t, lookup pgd vx = some t → t.level = 1 → t.val % 2 ^ 30 < 2 ^ 12) →
        Kept (0xffff800000000000 + (s / 2 ^ 12 * 2 ^ 12 - memstart))
          (0xffff800000000000 + ((e + (2 ^ 12 - 1)) / 2 ^ 12 * 2 ^ 12 - memstart)) vx
          (lookup pgd vx) (lookup pgd' vx)) := by
  have eV := phys_to_virt_eq memstart s h1 (by omega) (by omega)
  have eS := sub64_eq e s (by omega) (by omega)
  rw [eV, eS]
  have hoff : (s ^^^ (0xffff800000000000 + (s - memstart))) &&& not64 PAGE_MASK = 0 := by
    rw [same_offset_iff]; omega
  obtain ⟨pgd', m', r1, r2, r3, r4, r5⟩ := create_pgd_mapping_frame (fun _ => True) prot
    Allocator.early_pgtable_alloc allow trivial (fun _ => trivial) (fun _ => trivial) hprot0 m
    pgd s (0xffff800000000000 + (s - memstart)) (e - s) hm hwf hoff (by omega) (by omega)
    (by omega) (by omega)
  have eA : (0xffff800000000000 + (s - memstart)) / 2 ^ 12 * 2 ^ 12 =
      0xffff800000000000 + (s / 2 ^ 12 * 2 ^ 12 - memstart) := by omega
  have eN : (0xffff800000000000 + (s - memstart) + (e - s) + (2 ^ 12 - 1)) / 2 ^ 12 * 2 ^ 12 =
      0xffff800000000000 + ((e + (2 ^ 12 - 1)) / 2 ^ 12 * 2 ^ 12 - memstart) := by omega
  rw [eA, eN] at r4 r5
  refine ⟨pgd', m', r1, alloc_ok_ext hm r2, r3, ?_, ?_⟩
  · intro x hx1 hx2
    have eX := phys_to_virt_eq memstart x (by omega) (by omega) (by omega)
    have eL := phys_to_virt_eq memstart (s / 2 ^ 12 * 2 ^ 12) (by omega) (by omega) (by omega)
    have eH := phys_to_virt_eq memstart ((e + (2 ^ 12 - 1)) / 2 ^ 12 * 2 ^ 12) (by omega)
      (by omega) (by omega)
    unfold LinearMapped
    rw [eX, eL, eH]
    have hA : Aligned (0xffff800000000000 + (s / 2 ^ 12 * 2 ^ 12 - memstart))
        (0xffff800000000000 + ((e + (2 ^ 12 - 1)) / 2 ^ 12 * 2 ^ 12 - memstart))
        (s / 2 ^ 12 * 2 ^ 12) := by
      unfold Aligned; omega
    have hl := r4 (0xffff800000000000 + (x - memstart)) (by omega) (by omega)
    obtain ⟨q1, q2, _, _⟩ := target_reads allow _ _ _ prot (0xffff800000000000 + (x - memstart))
      hA (by omega) (by omega) (by omega) hprot
    refine ⟨_, hl, by omega, q2, target_within allow _ _ _ prot _, ?_⟩
    exact target_block_aligned allow _ _ _ prot _ hA (by omega) (by omega) hprot
  · intro vx hw hout hal
    exact r5 vx (by omega) hout hal

theorem linear_mapped_kept {memstart prot lo hi a n x vx vlo vhi : Nat} {pgd pgd' : PgdTable}
    (h : LinearMapped memstart prot lo hi pgd x) (ex : __phys_to_virt memstart x = vx)
    (el : __phys_to_virt memstart lo = vlo) (eh : __phys_to_virt memstart hi = vhi)
    (hk : (∀ t, lookup pgd vx = some t → t.level = 1 → t.val % 2 ^ 30 < 2 ^ 12) →
      Kept a n vx (lookup pgd vx) (lookup pgd' vx))
    (hd : vhi ≤ a ∨ n ≤ vlo) : LinearMapped memstart prot lo hi pgd' x := by
  subst ex el eh
  obtain ⟨t, hl, hp, hat, hw, hal⟩ := h
  have k := hk (fun t' ht' hl' => by
    rw [hl] at ht'
    have := Option.some.inj ht'
    subst this
    exact hal hl')
  rw [hl] at k
  exact ⟨t, k.exact hw hd, hp, hat, hw, hal⟩

theorem map_linear_opt (c : Prop) [Decidable c] (m : Machine) (pgd : PgdTable)
    (memstart s e prot : Nat) (allow : Bool)
    (hm : m.alloc_ok) (hwf : WF (fun _ => True) pgd) (hms : memstart % 2 ^ 12 = 0)
    (h1 : c → memstart ≤ s) (h2 : c → s < e) (h3 : c → e + 2 ^ 12 ≤ memstart + 2 ^ 47)
    (h4 : c → e + 2 ^ 12 ≤ 2 ^ 48) (hprot0 : prot ≠ 0) (hprot : prot &&& ADDR_MASK = 0) :
    ∃ pgd' m', (if c then __create_pgd_mapping m pgd s (__phys_to_virt memstart s) (sub64 e s)
          prot (some .early_pgtable_alloc) allow else .ok (pgd, m)) = .ok (pgd', m') ∧
      m'.alloc_ok ∧ WF (fun _ => True) pgd' ∧
      (c → ∀ x, s / 2 ^ 12 * 2 ^ 12 ≤ x → x < (e + (2 ^ 12 - 1)) / 2 ^ 12 * 2 ^ 12 →
        LinearMapped memstart prot (s / 2 ^ 12 * 2 ^ 12)
          ((e + (2 ^ 12 - 1)) / 2 ^ 12 * 2 ^ 12) pgd' x) ∧
      (∀ vx, vx / 2 ^ 48 = 0xffff →
        (c → vx < 0xffff800000000000 + (s / 2 ^ 12 * 2 ^ 12 - memstart) ∨
          0xffff800000000000 + ((e + (2 ^ 12 - 1)) / 2 ^ 12 * 2 ^ 12 - memstart) ≤ vx) →
        (∀ t, lookup pgd vx = some t → t.level = 1 → t.val % 2 ^ 30 < 2 ^ 12) →
        Kept (0xffff800000000000 + (s / 2 ^ 12 * 2 ^ 12 - memstart))
          (0xffff800000000000 + ((e + (2 ^ 12 - 1)) / 2 ^ 12 * 2 ^ 12 - memstart)) vx
          (lookup pgd vx) (lookup pgd' vx)) := by
  by_cases hc : c
  · rw [if_pos hc]
    obtain ⟨pgd', m', r1, r2, r3, r4, r5⟩ := map_linear m pgd memstart s e prot allow hm hwf hms
      (h1 hc) (h2 hc) (h3 hc) (h4 hc) hprot0 hprot
    exact ⟨pgd', m', r1, r2, r3, fun _ => r4, fun vx hw ho hal => r5 vx hw (ho hc) hal⟩
  · rw [if_neg hc]
    exact ⟨pgd, m, rfl, hm, hwf, fun h => absurd h hc, fun vx _ _ _ => Or.inl rfl⟩

/-- C26: `__map_memblock` on a bank `[start, end)` of the linear map creates no writable alias
of the kernel text and rodata `[kernel_start, kernel_end)`.  The kernel bounds and `PHYS_OFFSET`
are page aligned, the bank is not empty, both lie in the linear map and below 2^48, the tables
are well formed and the allocator never fails.  Then the call returns, and
(a) every physical address of the pages of the bank that is outside the kernel range is mapped
at its linear address with the attributes of `PAGE_KERNEL`;
(b) when the bank overlaps the kernel range (the second path), every physical address of the
kernel range is mapped at its linear address with the attributes of `PAGE_KERNEL_RO`, which has
the read-only bit;
(c) when it does not (the first path), the linear alias of the kernel range is not touched: an
address that resolved nowhere resolves nowhere, and one that resolved through an entry whose
block lies inside the alias of the kernel range resolves through the same entry;
(d) no other address of the linear map that resolved nowhere resolves afterwards. -/
theorem C26_no_writable_alias_of_kernel_text (m : Machine) (pgd : PgdTable)
    (memstart kernel_start kernel_end start end_ : Nat) (debug_pagealloc : Bool)
    (hm : m.alloc_ok) (hwf : WF (fun _ => True) pgd)
    (hms : memstart % 2 ^ 12 = 0) (hks : kernel_start % 2 ^ 12 = 0)
    (hke : kernel_end % 2 ^ 12 = 0) (hk : kernel_start < kernel_end) (hse : start < end_)
    (hs0 : memstart ≤ start) (hk0 : memstart ≤ kernel_start)
    (he1 : end_ + 2 ^ 12 ≤ memstart + 2 ^ 47) (hk1 : kernel_end + 2 ^ 12 ≤ memstart + 2 ^ 47)
    (he2 : end_ + 2 ^ 12 ≤ 2 ^ 48) (hk2 : kernel_end + 2 ^ 12 ≤ 2 ^ 48) :
    ∃ pgd' m', __map_memblock m pgd memstart kernel_start kernel_end start end_
        debug_pagealloc = .ok (pgd', m') ∧
      (∀ x, start / 2 ^ 12 * 2 ^ 12 ≤ x → x < (end_ + (2 ^ 12 - 1)) / 2 ^ 12 * 2 ^ 12 →
        ¬ (kernel_start ≤ x ∧ x < kernel_end) →
        ∃ t, lookup pgd' (__phys_to_virt memstart x) = some t ∧
          t.phys (__phys_to_virt memstart x) = x ∧ t.attrs = PAGE_KERNEL &&& ATTR_MASK) ∧
      (¬ (end_ < kernel_start ∨ kernel_end ≤ start) →
        ∀ x, kernel_start ≤ x → x < kernel_end →
          ∃ t, lookup pgd' (__phys_to_virt memstart x) = some t ∧
            t.phys (__phys_to_virt memstart x) = x ∧
            t.attrs = PAGE_KERNEL_RO &&& ATTR_MASK ∧ t.attrs &&& PTE_RDONLY ≠ 0) ∧
      ((end_ < kernel_start ∨ kernel_end ≤ start) →
        ∀ x, kernel_start ≤ x → x < kernel_end →
          (lookup pgd (__phys_to_virt memstart x) = none →
            lookup pgd' (__phys_to_virt memstart x) = none) ∧
          (∀ t, lookup pgd (__phys_to_virt memstart x) = some t →
            t.within (__phys_to_virt memstart x) (__phys_to_virt memstart kernel_start)
              (__phys_to_virt memstart kernel_end) →
            (t.level = 1 → t.val % 2 ^ 30 < 2 ^ 12) →
            lookup pgd' (__phys_to_virt memstart x) = some t)) ∧
      (∀ x, memstart ≤ x → x < memstart + 2 ^ 47 →
        (x < start / 2 ^ 12 * 2 ^ 12 ∨ (end_ + (2 ^ 12 - 1)) / 2 ^ 12 * 2 ^ 12 ≤ x) →
        (x < kernel_start ∨ kernel_end ≤ x) →
        lookup pgd (__phys_to_virt memstart x) = none →
        lookup pgd' (__phys_to_virt memstart x) = none) := by
  have hpk0 : PAGE_KERNEL ≠ 0 := by decide
  have hpk : PAGE_KERNEL &&& ADDR_MASK = 0 := by decide
  have hro0 : PAGE_KERNEL_RO ≠ 0 := by decide
  have hro : PAGE_KERNEL_RO &&& ADDR_MASK = 0 := by decide
  have eL := phys_to_virt_eq memstart kernel_start (by omega) (by omega) (by omega)
  have eH := phys_to_virt_eq memstart kernel_end (by omega) (by omega) (by omega)
  unfold __map_memblock
  by_cases hc : end_ < kernel_start ∨ kernel_end ≤ start
  · have hb : (decide (end_ < kernel_start) || decide (start ≥ kernel_end)) = true := by
      simp only [Bool.or_eq_true, decide_eq_true_eq, ge_iff_le]; exact hc
    rw [if_pos hb]
    obtain ⟨pgd', m', r1, _, _, r4, r5⟩ := map_linear m pgd memstart start end_ PAGE_KERNEL
      (!debug_pagealloc) hm hwf hms hs0 hse he1 he2 hpk0 hpk
    refine ⟨pgd', m', r1, ?_, fun h => absurd hc h, fun _ => ?_, ?_⟩
    · intro x hx1 hx2 _
      obtain ⟨t, q1, q2, q3, _⟩ := r4 x hx1 hx2
      exact ⟨t, q1, q2, q3⟩
    · intro x hx1 hx2
      have eX := phys_to_virt_eq memstart x (by omega) (by omega) (by omega)
      rw [eX, eL, eH]
      have hout : 0xffff800000000000 + (x - memstart) <
            0xffff800000000000 + (start / 2 ^ 12 * 2 ^ 12 - memstart) ∨
          0xffff800000000000 + ((end_ + (2 ^ 12 - 1)) / 2 ^ 12 * 2 ^ 12 - memstart) ≤
            0xffff800000000000 + (x - memstart) := by omega
      constructor
      · intro h0
        have k := r5 (0xffff800000000000 + (x - memstart)) (by omega) hout (fun t ht => by rw [h0] at ht; exact absurd ht (by simp))
        rw [h0] at k; exact k.none
      · intro t ht hw hal
        have k := r5 (0xffff800000000000 + (x - memstart)) (by omega) hout (fun t' ht' hl' => by
          rw [ht] at ht'
          have := Option.some.inj ht'
          subst this
          exact hal hl')
        rw [ht] at k
        exact k.exact hw (by omega)
    · intro x hx1 hx2 ho1 _ h0
      have eX := phys_to_virt_eq memstart x (by omega) (by omega) (by omega)
      rw [eX] at h0 ⊢
      have k := r5 (0xffff800000000000 + (x - memstart)) (by omega) (by omega)
        (fun t ht => by rw [h0] at ht; exact absurd ht (by simp))
      rw [h0] at k; exact k.none
  · have hb : ¬ (decide (end_ < kernel_start) || decide (start ≥ kernel_end)) = true := by
      simp only [Bool.or_eq_true, decide_eq_true_eq, ge_iff_le]; exact hc
    rw [if_neg hb]
    obtain ⟨pgd1, m1, s1, a1, w1, l1, k1⟩ := map_linear_opt (start < kernel_start) m pgd
      memstart start kernel_start PAGE_KERNEL (!debug_pagealloc) hm hwf hms (fun _ => hs0)
      (fun h => h) (fun _ => by omega) (fun _ => by omega) hpk0 hpk
    obtain ⟨pgd2, m2, s2, a2, w2, l2, k2⟩ := map_linear_opt (kernel_end < end_) m1 pgd1
      memstart kernel_end end_ PAGE_KERNEL (!debug_pagealloc) a1 w1 hms (fun _ => by omega)
      (fun h => h) (fun _ => he1) (fun _ => he2) hpk0 hpk
    obtain ⟨pgd3, m3, s3, _, _, l3, k3⟩ := map_linear m2 pgd2 memstart kernel_start kernel_end
      PAGE_KERNEL_RO (!debug_pagealloc) a2 w2 hms hk0 hk hk1 hk2 hro0 hro
    simp only [s1, s2]
    refine ⟨pgd3, m3, s3, ?_, fun _ => ?_, fun h => absurd h hc, ?_⟩
    · intro x hx1 hx2 hxk
      have eX := phys_to_virt_eq memstart x (by omega) (by omega) (by omega)
      by_cases hlow : x < kernel_start
      · have hc1 : start < kernel_start := by omega
        have L1 := l1 hc1 x hx1 (by omega)
        have eA := phys_to_virt_eq memstart (start / 2 ^ 12 * 2 ^ 12) (by omega) (by omega)
          (by omega)
        have eB := phys_to_virt_eq memstart ((kernel_start + (2 ^ 12 - 1)) / 2 ^ 12 * 2 ^ 12)
          (by omega) (by omega) (by omega)
        have L2 := linear_mapped_kept L1 eX eA eB
          (fun hal => k2 (0xffff800000000000 + (x - memstart)) (by omega) (fun _ => by omega) hal) (by omega)
        have L3 := linear_mapped_kept L2 eX eA eB
          (fun hal => k3 (0xffff800000000000 + (x - memstart)) (by omega) (by omega) hal) (by omega)
        obtain ⟨t, q1, q2, q3, _⟩ := L3
        exact ⟨t, q1, q2, q3⟩
      · have hc2 : kernel_end < end_ := by omega
        have L2 := l2 hc2 x (by omega) hx2
        have eA := phys_to_virt_eq memstart (kernel_end / 2 ^ 12 * 2 ^ 12) (by omega) (by omega)
          (by omega)
        have eB := phys_to_virt_eq memstart ((end_ + (2 ^ 12 - 1)) / 2 ^ 12 * 2 ^ 12)
          (by omega) (by omega) (by omega)
        have L3 := linear_mapped_kept L2 eX eA eB
          (fun hal => k3 (0xffff800000000000 + (x - memstart)) (by omega) (by omega) hal) (by omega)
        obtain ⟨t, q1, q2, q3, _⟩ := L3
        exact ⟨t, q1, q2, q3⟩
    · intro x hx1 hx2
      obtain ⟨t, q1, q2, q3, _⟩ := l3 x (by omega) (by omega)
      refine ⟨t, q1, q2, q3, ?_⟩
      rw [q3]; decide
    · intro x hx1 hx2 ho1 ho2 h0
      have eX := phys_to_virt_eq memstart x (by omega) (by omega) (by omega)
      rw [eX] at h0 ⊢
      have j1 := k1 (0xffff800000000000 + (x - memstart)) (by omega) (fun _ => by omega)
        (fun t ht => by rw [h0] at ht; exact absurd ht (by simp))
      rw [h0] at j1
      have h1 := j1.none
      have j2 := k2 (0xffff800000000000 + (x - memstart)) (by omega) (fun _ => by omega)
        (fun t ht => by rw [h1] at ht; exact absurd ht (by simp))
      rw [h1] at j2
      have h2 := j2.none
      have j3 := k3 (0xffff800000000000 + (x - memstart)) (by omega) (by omega)
        (fun t ht => by rw [h2] at ht; exact absurd ht (by simp))
      rw [h2] at j3
      exact j3.none

set_option maxRecDepth 100000 in
/-- A bank of 8 MiB at `0x8000_0000` with the kernel text and rodata in its second and third
2 MiB: the kernel range is mapped read-only, the rest of the bank read/write. -/
theorem C26_no_writable_alias_of_kernel_text_witness :
    ¬ (0x80800000 < 0x80200000 ∨ 0x80400000 ≤ 0x80000000) ∧
    walk_after (__map_memblock boot_machine zero_pgd_table 0x80000000 0x80200000 0x80400000
        0x80000000 0x80800000 false) (__phys_to_virt 0x80000000 0x80200000) =
      some (some ⟨2, 0x00E0000080200791⟩) ∧
    ∃ pgd' m', __map_memblock boot_machine zero_pgd_table 0x80000000 0x80200000 0x80400000
        0x80000000 0x80800000 false = .ok (pgd', m') ∧
      (∀ x, 0x80200000 ≤ x → x < 0x80400000 →
        ∃ t, lookup pgd' (__phys_to_virt 0x80000000 x) = some t ∧
          t.phys (__phys_to_virt 0x80000000 x) = x ∧
          t.attrs = PAGE_KERNEL_RO &&& ATTR_MASK ∧ t.attrs &&& PTE_RDONLY ≠ 0) ∧
      (∀ x, 0x80000000 / 2 ^ 12 * 2 ^ 12 ≤ x →
        x < (0x80800000 + (2 ^ 12 - 1)) / 2 ^ 12 * 2 ^ 12 →
        ¬ (0x80200000 ≤ x ∧ x < 0x80400000) →
        ∃ t, lookup pgd' (__phys_to_virt 0x80000000 x) = some t ∧
          t.phys (__phys_to_virt 0x80000000 x) = x ∧ t.attrs = PAGE_KERNEL &&& ATTR_MASK) :=
  ⟨by decide, by decide, by
    obtain ⟨pgd', m', h1, h2, h3, _, _⟩ := C26_no_writable_alias_of_kernel_text boot_machine
      zero_pgd_table 0x80000000 0x80200000 0x80400000 0x80000000 0x80800000 false
      boot_machine_alloc_ok (zero_pgd_WF _) (by decide) (by decide) (by decide) (by decide)
      (by decide) (by decide) (by decide) (by decide) (by decide) (by decide) (by decide)
    exact ⟨pgd', m', h1, h3 (by decide), h2⟩⟩

/-! ## Claims on termination and the number of leaf stores -/

theorem Counted.refl (m : Machine) : Counted 0 m m := by
  unfold Counted; omega

theorem Counted.trans {j k : Nat} {a b c : Machine} (h1 : Counted j a b) (h2 : Counted k b c) :
    Counted (j + k) a c := by
  unfold Counted at *; omega

theorem Counted.cast {j k : Nat} {a b : Machine} (h : Counted j a b) (e : j = k) :
    Counted k a b := by
  rw [← e]; exact h

theorem counted_log (m : Machine) (e : Event) (h1 : e.is_leaf_store = false)
    (h2 : e.splits_section = false) : Counted 0 m (m.log e) := by
  unfold Counted leaf_stores sections_split Machine.log
  simp only [List.countP_cons, h1, h2, Bool.false_eq_true, if_false]
  omega

theorem counted_log_pte (m : Machine) (o v : Nat) : Counted 1 m (m.log (.set_pte o v)) := by
  unfold Counted leaf_stores sections_split Machine.log
  simp only [List.countP_cons, Event.is_leaf_store, Event.splits_section, Bool.false_eq_true,
    if_false, if_true]
  omega

theorem counted_log_split (m0 m : Machine) (o v : Nat) (hs : pmd_sect o = true)
    (h : Counted 512 m0 m) : Counted 0 m0 (m.log (.set_pmd o v)) := by
  unfold Counted leaf_stores sections_split Machine.log at *
  simp only [List.countP_cons, Event.is_leaf_store, Event.splits_section, hs,
    Bool.false_eq_true, if_false, if_true]
  omega

theorem range_loop_acc {E : Type} (addr_end : Nat → Nat → Nat)
    (body : Machine → E → Nat → Nat → Nat → Except Halt (E × Machine))
    (I : Nat → Nat → Machine → Machine → Prop) (A : Nat → Nat → Prop)
    (hstep : ∀ a n m1 m2 m3, A a n → addr_end a n ≠ n → I a (addr_end a n) m1 m2 →
      I (addr_end a n) n m2 m3 → I a n m1 m3)
    (hA1 : ∀ a e, A a e → A a (addr_end a e))
    (hA2 : ∀ a e, A a e → addr_end a e ≠ e → A (addr_end a e) e)
    (hbody : ∀ m e a n p e' m', A a n → body m e a n p = .ok (e', m') → I a n m m') :
    ∀ (room : Nat) (m : Machine) (tbl : Nat → E) (i a n p : Nat) (tbl' : Nat → E)
      (m' : Machine), A a n →
      range_loop addr_end body room m tbl i a n p = .ok (tbl', m') → I a n m m' := by
  intro room
  induction room with
  | zero =>
    intro m tbl i a n p tbl' m' _ h
    rw [range_loop] at h
    exact absurd h (by simp)
  | succ r ih =>
    intro m tbl i a n p tbl' m' hA h
    rw [range_loop] at h
    cases hb : body m (tbl i) a (addr_end a n) p with
    | error e => rw [hb] at h; exact absurd h (by simp)
    | ok v =>
      obtain ⟨e, m1⟩ := v
      rw [hb] at h
      simp only [] at h
      have h1 := hbody m (tbl i) a (addr_end a n) p e m1 (hA1 a n hA) hb
      by_cases hne : addr_end a n = n
      · have hc : (addr_end a n != n) = false := by rw [hne]; simp
        simp only [hc, Bool.false_eq_true, if_false, Except.ok.injEq, Prod.mk.injEq] at h
        rw [← h.2]
        rw [hne] at h1
        exact h1
      · have hc : (addr_end a n != n) = true := by simpa using hne
        simp only [hc, if_true] at h
        exact hstep a n m m1 m' hA hne h1 (ih _ _ _ _ _ _ _ _ (hA2 a n hA hne) h)

theorem counted_step (a b n : Nat) (m1 m2 m3 : Machine) (h1 : a % 2 ^ 12 = 0)
    (h2 : b % 2 ^ 12 = 0) (h3 : a ≤ b) (h4 : b ≤ n)
    (c1 : Counted ((b - a) / 2 ^ 12) m1 m2) (c2 : Counted ((n - b) / 2 ^ 12) m2 m3) :
    Counted ((n - a) / 2 ^ 12) m1 m3 := by
  exact (c1.trans c2).cast (by omega)

theorem page_range_pmd (a e : Nat) (h : PageRange a e) :
    PageRange a (pmd_addr_end a e) ∧ (pmd_addr_end a e ≠ e → PageRange (pmd_addr_end a e) e) := by
  obtain ⟨h1, h2, h3, h4⟩ := h
  rw [pmd_addr_end_eq a e h3 h4]
  unfold PageRange
  split <;> refine ⟨⟨by omega, by omega, by omega, by omega⟩, fun hne => ?_⟩
  · exact ⟨by omega, by omega, by omega, by omega⟩
  · exact absurd rfl hne

theorem page_range_pud (a e : Nat) (h : PageRange a e) :
    PageRange a (pud_addr_end a e) ∧ (pud_addr_end a e ≠ e → PageRange (pud_addr_end a e) e) := by
  obtain ⟨h1, h2, h3, h4⟩ := h
  rw [pud_addr_end_eq a e h3 h4]
  unfold PageRange
  split <;> refine ⟨⟨by omega, by omega, by omega, by omega⟩, fun hne => ?_⟩
  · exact ⟨by omega, by omega, by omega, by omega⟩
  · exact absurd rfl hne

theorem page_range_pgd (a e : Nat) (h : PageRange a e) :
    PageRange a (pgd_addr_end a e) ∧ (pgd_addr_end a e ≠ e → PageRange (pgd_addr_end a e) e) := by
  obtain ⟨h1, h2, h3, h4⟩ := h
  rw [pgd_addr_end_eq a e h3 h4]
  unfold PageRange
  split <;> refine ⟨⟨by omega, by omega, by omega, by omega⟩, fun hne => ?_⟩
  · exact ⟨by omega, by omega, by omega, by omega⟩
  · exact absurd rfl hne

/-- The generic accumulation for the three upper loops. -/
theorem range_loop_counted {E : Type} (addr_end : Nat → Nat → Nat)
    (body : Machine → E → Nat → Nat → Nat → Except Halt (E × Machine))
    (hA : ∀ a e, PageRange a e →
      PageRange a (addr_end a e) ∧ (addr_end a e ≠ e → PageRange (addr_end a e) e))
    (hbody : ∀ m e a n p e' m', PageRange a n → body m e a n p = .ok (e', m') →
      Counted ((n - a) / 2 ^ 12) m m')
    (room : Nat) (m : Machine) (tbl : Nat → E) (i a n p : Nat) (tbl' : Nat → E)
    (m' : Machine) (hr : PageRange a n)
    (h : range_loop addr_end body room m tbl i a n p = .ok (tbl', m')) :
    Counted ((n - a) / 2 ^ 12) m m' := by
  refine range_loop_acc addr_end body (fun a n m m' => Counted ((n - a) / 2 ^ 12) m m')
    PageRange ?_ (fun a e h => (hA a e h).1) (fun a e h => (hA a e h).2) hbody
    room m tbl i a n p tbl' m' hr h
  intro a n m1 m2 m3 hr' hne c1 c2
  have q1 := (hA a n hr').1
  have q2 := (hA a n hr').2 hne
  exact counted_step a (addr_end a n) n m1 m2 m3 hr'.1 q1.2.1 (by have := q1.2.2.1; omega)
    (by have := q2.2.2.1; omega) c1 c2

theorem split_pmd_loop_counted :
    ∀ (n : Nat) (m : Machine) (pte : PteTable) (i pfn : Nat), 0 < n → i + n = PTRS_PER_PTE →
      Counted n m (split_pmd_loop n m pte i pfn).2 := by
  intro n
  induction n with
  | zero => intro m pte i pfn h; exact absurd h (by decide)
  | succ k ih =>
    intro m pte i pfn _ hi
    rw [split_pmd_loop]
    have h1 := counted_log_pte m (pte i) (pfn_pte pfn PAGE_KERNEL_EXEC)
    by_cases hc : i + 1 < PTRS_PER_PTE
    · rw [if_pos hc]
      have hk : 0 < k := by omega
      exact (h1.trans (ih _ _ (i + 1) _ hk (by omega))).cast (by omega)
    · rw [if_neg hc]
      exact h1.cast (by omega)

theorem split_pud_loop_counted :
    ∀ (n : Nat) (m : Machine) (pmd : PmdTable) (i addr prot : Nat),
      (∀ j, i ≤ j → (pmd j).val = 0) →
      Counted 0 m (split_pud_loop n m pmd i addr prot).2 := by
  intro n
  induction n with
  | zero => intro m pmd i addr prot _; exact Counted.refl m
  | succ k ih =>
    intro m pmd i addr prot hz
    rw [split_pud_loop]
    have h0 : (pmd i).val = 0 := hz i (le_refl _)
    have h1 : Counted 0 m (m.log (.set_pmd (pmd i).val (addr ||| prot))) := by
      apply counted_log
      · rfl
      · show pmd_sect (pmd i).val = false
        rw [h0]; decide
    have hz' : ∀ j, i + 1 ≤ j →
        ((Function.update pmd i ⟨addr ||| prot, (pmd i).tbl⟩ : PmdTable) j).val = 0 := by
      intro j hj
      rw [Function.update_noteq (by omega)]
      exact hz j (by omega)
    split
    · exact (h1.trans (ih _ _ (i + 1) _ _ hz')).cast rfl
    · exact h1

theorem split_pud_counted (m : Machine) (v : Nat) :
    Counted 0 m (split_pud m v zero_pmd_table).2 := by
  unfold split_pud
  exact split_pud_loop_counted PTRS_PER_PMD m zero_pmd_table 0
    ((pud_pfn v <<< PAGE_SHIFT) % 2 ^ 64) (v ^^^ ((pud_pfn v <<< PAGE_SHIFT) % 2 ^ 64))
    (fun _ _ => rfl)

theorem counted_of_grows {P : Event → Prop} {F : Prop} {m m' : Machine}
    (h : m.grows P F m')
    (hP : ∀ e, P e → e.is_leaf_store = false ∧ e.splits_section = false) :
    Counted 0 m m' := by
  obtain ⟨⟨new, e1, p1⟩, _, _⟩ := h
  have z1 : new.countP Event.is_leaf_store = 0 := by
    rw [List.countP_eq_zero]
    intro e he; rw [(hP e (p1 e he)).1]; simp
  have z2 : new.countP Event.splits_section = 0 := by
    rw [List.countP_eq_zero]
    intro e he; rw [(hP e (p1 e he)).2]; simp
  unfold Counted leaf_stores sections_split
  rw [e1, List.countP_append, List.countP_append, z1, z2]
  omega

theorem Allocator.call_counted (al : Allocator) (m m1 : Machine) (x : Nat)
    (h : al.call m = .ok (x, m1)) : Counted 0 m m1 := by
  have g := Allocator.call_grows (P := fun ev => ∃ y, ev = Event.page_alloc y) False
    (fun hh => hh) (fun y => ⟨y, rfl⟩) al m m1 x h
  exact counted_of_grows g (fun e he => by obtain ⟨y, rfl⟩ := he; exact ⟨rfl, rfl⟩)

theorem alloc_init_pte_loop_counted :
    ∀ (room : Nat) (m : Machine) (pte : PteTable) (i addr end_ pfn prot : Nat)
      (pte' : PteTable) (m' : Machine), PageRange addr end_ →
      alloc_init_pte_loop room m pte i addr end_ pfn prot = .ok (pte', m') →
      Counted ((end_ - addr) / 2 ^ 12) m m' := by
  intro room
  induction room with
  | zero =>
    intro m pte i addr end_ pfn prot pte' m' _ h
    rw [alloc_init_pte_loop] at h
    exact absurd h (by simp)
  | succ r ih =>
    intro m pte i addr end_ pfn prot pte' m' hr h
    obtain ⟨r1, r2, r3, r4⟩ := hr
    rw [alloc_init_pte_loop] at h
    have h1 := counted_log_pte m (pte i) (pfn_pte pfn prot)
    have ea : add64 addr PAGE_SIZE = addr + 2 ^ 12 := by
      unfold add64 PAGE_SIZE; exact Nat.mod_eq_of_lt (by omega)
    rw [ea] at h
    by_cases hne : addr + 2 ^ 12 = end_
    · have hc : (addr + 2 ^ 12 != end_) = false := by rw [hne]; simp
      simp only [hc, Bool.false_eq_true, if_false, Except.ok.injEq, Prod.mk.injEq] at h
      rw [← h.2]
      exact h1.cast (by omega)
    · have hc : (addr + 2 ^ 12 != end_) = true := by simpa using hne
      simp only [hc, if_true] at h
      have := ih _ _ _ _ _ _ _ _ _ ⟨by omega, r2, by omega, r4⟩ h
      exact (h1.trans this).cast (by omega)

theorem alloc_init_pte_counted (pa : Option Allocator) (m : Machine) (e : PmdEnt)
    (a n pfn prot : Nat) (e' : PmdEnt) (m' : Machine) (hr : PageRange a n)
    (h : alloc_init_pte m e a n pfn prot pa = .ok (e', m')) :
    Counted ((n - a) / 2 ^ 12) m m' := by
  have tail : ∀ (v : Nat) (t : PteTable) (m2 : Machine),
      (if pmd_bad v = true then (Except.error Halt.bug : Except Halt (PmdEnt × Machine))
        else
          match alloc_init_pte_loop (PTRS_PER_PTE - pte_index a) m2 t (pte_index a) a n pfn
              prot with
          | .error h => .error h
          | .ok (pte, m) => .ok (⟨v, pte⟩, m)) = .ok (e', m') →
        Counted ((n - a) / 2 ^ 12) m2 m' := by
    intro v t m2 ht
    split at ht
    · exact absurd ht (by simp)
    · cases hl : alloc_init_pte_loop (PTRS_PER_PTE - pte_index a) m2 t (pte_index a) a n pfn
          prot with
      | error x => rw [hl] at ht; exact absurd ht (by simp)
      | ok r =>
        obtain ⟨t3, m3⟩ := r
        rw [hl] at ht
        simp only [Except.ok.injEq, Prod.mk.injEq] at ht
        rw [← ht.2]
        exact alloc_init_pte_loop_counted _ _ _ _ _ _ _ _ _ _ hr hl
  unfold alloc_init_pte at h
  by_cases hc : (pmd_none e.val || pmd_sect e.val) = true
  · simp only [hc, if_true] at h
    cases pa with
    | none => exact absurd h (by simp)
    | some al =>
      simp only [] at h
      cases hcall : al.call m with
      | error x => rw [hcall] at h; exact absurd h (by simp)
      | ok r =>
        obtain ⟨p, m1⟩ := r
        rw [hcall] at h
        simp only [] at h
        have g1 := Allocator.call_counted al m m1 p hcall
        by_cases hs : pmd_sect e.val = true
        · simp only [hs, if_true] at h
          have g2 : Counted 512 m1 (split_pmd m1 e.val zero_pte_table).2 :=
            split_pmd_loop_counted PTRS_PER_PTE m1 zero_pte_table 0 (pmd_pfn e.val)
              (by decide) (by decide)
          generalize split_pmd m1 e.val zero_pte_table = sp at h g2
          have t := tail (p ||| PMD_TYPE_TABLE) sp.1
            ((sp.2.log (.set_pmd e.val (p ||| PMD_TYPE_TABLE))).log .flush_tlb_all) h
          have g3 := counted_log_split m1 sp.2 e.val (p ||| PMD_TYPE_TABLE) hs g2
          have g4 := counted_log (sp.2.log (.set_pmd e.val (p ||| PMD_TYPE_TABLE)))
            .flush_tlb_all rfl rfl
          exact (g1.trans (g3.trans (g4.trans t))).cast (by omega)
        · simp only [hs, Bool.false_eq_true, if_false] at h
          have t := tail (p ||| PMD_TYPE_TABLE) zero_pte_table
            ((m1.log (.set_pmd e.val (p ||| PMD_TYPE_TABLE))).log .flush_tlb_all) h
          have hs' : pmd_sect e.val = false := by simpa using hs
          have g3 := counted_log m1 (.set_pmd e.val (p ||| PMD_TYPE_TABLE)) rfl hs'
          have g4 := counted_log (m1.log (.set_pmd e.val (p ||| PMD_TYPE_TABLE)))
            .flush_tlb_all rfl rfl
          exact (g1.trans (g3.trans (g4.trans t))).cast (by omega)
  · simp only [hc, Bool.false_eq_true, if_false] at h
    exact tail e.val e.tbl m h

theorem alloc_init_pmd_body_counted (pa : Option Allocator) (m : Machine) (e : PmdEnt)
    (a n p prot : Nat) (e' : PmdEnt) (m' : Machine) (hr : PageRange a n)
    (h : alloc_init_pmd_body m e a n p prot pa false = .ok (e', m')) :
    Counted ((n - a) / 2 ^ 12) m m' := by
  unfold alloc_init_pmd_body at h
  simp only [Bool.and_false, Bool.false_eq_true, if_false] at h
  exact alloc_init_pte_counted pa m e a n _ prot e' m' hr h

theorem alloc_init_pmd_counted (pa : Option Allocator) (m : Machine) (e : PudEnt)
    (a n p prot : Nat) (e' : PudEnt) (m' : Machine) (hr : PageRange a n)
    (h : alloc_init_pmd m e a n p prot pa false = .ok (e', m')) :
    Counted ((n - a) / 2 ^ 12) m m' := by
  have tail : ∀ (v : Nat) (t : PmdTable) (m2 : Machine),
      (if pud_bad v = true then (Except.error Halt.bug : Except Halt (PudEnt × Machine))
        else
          match alloc_init_pmd_loop (PTRS_PER_PMD - pmd_index a) m2 t (pmd_index a) a n p
              prot pa false with
          | .error h => .error h
          | .ok (pmd, m) => .ok (⟨v, pmd⟩, m)) = .ok (e', m') →
        Counted ((n - a) / 2 ^ 12) m2 m' := by
    intro v t m2 ht
    split at ht
    · exact absurd ht (by simp)
    · cases hl : alloc_init_pmd_loop (PTRS_PER_PMD - pmd_index a) m2 t (pmd_index a) a n p
          prot pa false with
      | error x => rw [hl] at ht; exact absurd ht (by simp)
      | ok r =>
        obtain ⟨t3, m3⟩ := r
        rw [hl] at ht
        simp only [Except.ok.injEq, Prod.mk.injEq] at ht
        rw [← ht.2]
        rw [alloc_init_pmd_loop_eq] at hl
        exact range_loop_counted pmd_addr_end
          (fun m e a n p => alloc_init_pmd_body m e a n p prot pa false) page_range_pmd
          (fun m e a n p e' m' hr' hb => alloc_init_pmd_body_counted pa m e a n p prot e' m' hr' hb)
          (PTRS_PER_PMD - pmd_index a) m2 t (pmd_index a) a n p t3 m3 hr hl
  unfold alloc_init_pmd at h
  by_cases hc : (pud_none e.val || pud_sect e.val) = true
  · simp only [hc, if_true] at h
    cases pa with
    | none => exact absurd h (by simp)
    | some al =>
      simp only [] at h
      cases hcall : al.call m with
      | error x => rw [hcall] at h; exact absurd h (by simp)
      | ok r =>
        obtain ⟨q, m1⟩ := r
        rw [hcall] at h
        simp only [] at h
        have g1 := Allocator.call_counted al m m1 q hcall
        by_cases hs : pud_sect e.val = true
        · simp only [hs, if_true] at h
          have g2 : Counted 0 m1 (split_pud m1 e.val zero_pmd_table).2 :=
            split_pud_counted m1 e.val
          generalize split_pud m1 e.val zero_pmd_table = sp at h g2
          have t := tail (q ||| PUD_TYPE_TABLE) sp.1
            ((sp.2.log (.set_pud e.val (q ||| PUD_TYPE_TABLE))).log .flush_tlb_all) h
          have g3 := counted_log sp.2 (.set_pud e.val (q ||| PUD_TYPE_TABLE)) rfl rfl
          have g4 := counted_log (sp.2.log (.set_pud e.val (q ||| PUD_TYPE_TABLE)))
            .flush_tlb_all rfl rfl
          exact (g1.trans (g2.trans (g3.trans (g4.trans t)))).cast (by omega)
        · simp only [hs, Bool.false_eq_true, if_false] at h
          have t := tail (q ||| PUD_TYPE_TABLE) zero_pmd_table
            ((m1.log (.set_pud e.val (q ||| PUD_TYPE_TABLE))).log .flush_tlb_all) h
          have g3 := counted_log m1 (.set_pud e.val (q ||| PUD_TYPE_TABLE)) rfl rfl
          have g4 := counted_log (m1.log (.set_pud e.val (q ||| PUD_TYPE_TABLE)))
            .flush_tlb_all rfl rfl
          exact (g1.trans (g3.trans (g4.trans t))).cast (by omega)
  · simp only [hc, Bool.false_eq_true, if_false] at h
    exact tail e.val e.tbl m h

theorem alloc_init_pud_body_counted (pa : Option Allocator) (m : Machine) (e : PudEnt)
    (a n p prot : Nat) (e' : PudEnt) (m' : Machine) (hr : PageRange a n)
    (h : alloc_init_pud_body m e a n p prot pa false = .ok (e', m')) :
    Counted ((n - a) / 2 ^ 12) m m' := by
  unfold alloc_init_pud_body at h
  simp only [Bool.and_false, Bool.false_eq_true, if_false] at h
  exact alloc_init_pmd_counted pa m e a n p prot e' m' hr h

theorem alloc_init_pud_counted (pa : Option Allocator) (m : Machine) (e : PgdEnt)
    (a n p prot : Nat) (e' : PgdEnt) (m' : Machine) (hr : PageRange a n)
    (h : alloc_init_pud m e a n p prot pa false = .ok (e', m')) :
    Counted ((n - a) / 2 ^ 12) m m' := by
  have tail : ∀ (v : Nat) (t : PudTable) (m2 : Machine),
      (if pgd_bad v = true then (Except.error Halt.bug : Except Halt (PgdEnt × Machine))
        else
          match alloc_init_pud_loop (PTRS_PER_PUD - pud_index a) m2 t (pud_index a) a n p
              prot pa false with
          | .error h => .error h
          | .ok (pud, m) => .ok (⟨v, pud⟩, m)) = .ok (e', m') →
        Counted ((n - a) / 2 ^ 12) m2 m' := by
    intro v t m2 ht
    split at ht
    · exact absurd ht (by simp)
    · cases hl : alloc_init_pud_loop (PTRS_PER_PUD - pud_index a) m2 t (pud_index a) a n p
          prot pa false with
      | error x => rw [hl] at ht; exact absurd ht (by simp)
      | ok r =>
        obtain ⟨t3, m3⟩ := r
        rw [hl] at ht
        simp only [Except.ok.injEq, Prod.mk.injEq] at ht
        rw [← ht.2]
        rw [alloc_init_pud_loop_eq] at hl
        exact range_loop_counted pud_addr_end
          (fun m e a n p => alloc_init_pud_body m e a n p prot pa false) page_range_pud
          (fun m e a n p e' m' hr' hb => alloc_init_pud_body_counted pa m e a n p prot e' m' hr' hb)
          (PTRS_PER_PUD - pud_index a) m2 t (pud_index a) a n p t3 m3 hr hl
  unfold alloc_init_pud at h
  by_cases hc : pgd_none e.val = true
  · simp only [hc, if_true] at h
    cases pa with
    | none => exact absurd h (by simp)
    | some al =>
      simp only [] at h
      cases hcall : al.call m with
      | error x => rw [hcall] at h; exact absurd h (by simp)
      | ok r =>
        obtain ⟨q, m1⟩ := r
        rw [hcall] at h
        simp only [] at h
        have g1 := Allocator.call_counted al m m1 q hcall
        have t := tail (q ||| PUD_TYPE_TABLE) zero_pud_table
          (m1.log (.set_pgd e.val (q ||| PUD_TYPE_TABLE))) h
        have g3 := counted_log m1 (.set_pgd e.val (q ||| PUD_TYPE_TABLE)) rfl rfl
        exact (g1.trans (g3.trans t)).cast (by omega)
  · simp only [hc, Bool.false_eq_true, if_false] at h
    exact tail e.val e.tbl m h

theorem create_pgd_mapping_loop_counted (pa : Option Allocator) (room : Nat) (m : Machine)
    (pgd : PgdTable) (i a n p prot : Nat) (pgd' : PgdTable) (m' : Machine)
    (hr : PageRange a n)
    (h : create_pgd_mapping_loop room m pgd i a n p prot pa false = .ok (pgd', m')) :
    Counted ((n - a) / 2 ^ 12) m m' := by
  rw [create_pgd_mapping_loop_eq] at h
  exact range_loop_counted pgd_addr_end
    (fun m e a n p => alloc_init_pud m e a n p prot pa false) page_range_pgd
    (fun m e a n p e' m' hr' hb => alloc_init_pud_counted pa m e a n p prot e' m' hr' hb)
    room m pgd i a n p pgd' m' hr h

theorem mapping_events_any (pa : Option Allocator) : MappingEvents (fun _ => True) pa where
  warn := trivial
  flush := trivial
  memblock_free := fun _ _ => trivial
  set_pte := fun _ _ => trivial
  pmd_block := fun _ _ _ => trivial
  pud_block := fun _ _ _ => trivial
  page_alloc := fun _ _ => trivial
  set_pmd := fun _ _ _ => trivial
  set_pud := fun _ _ _ => trivial
  set_pgd := fun _ _ _ => trivial

theorem page_align_mod (x : Nat) : PAGE_ALIGN x % 2 ^ 12 = 0 ∧ PAGE_ALIGN x < 2 ^ 64 := by
  unfold PAGE_ALIGN
  have h := land_mask_hi ((x + (PAGE_SIZE - 1)) % 2 ^ 64) 12 (Nat.mod_lt _ (by norm_num))
    (by norm_num)
  unfold PAGE_MASK
  rw [h]
  have := Nat.mod_lt (x + (PAGE_SIZE - 1)) (show 0 < 2 ^ 64 by norm_num)
  omega

set_option maxRecDepth 1000000 in
/-- C28, the count as stated fails when a section has to be split.  One page is mapped inside
the 2 MiB section of `sect_tree` with blocks disallowed: the page-rounded length is one page, and
the log gains 513 leaf stores, the 512 of `split_pmd` and the one of the loop of
`alloc_init_pte`. -/
theorem C28_split_adds_leaf_stores :
    PAGE_ALIGN (add64 0x1000 (0xffff000000001000 &&& not64 PAGE_MASK)) / PAGE_SIZE = 1 ∧
    (trace_of (__create_pgd_mapping boot_machine sect_tree 0x40001000 0xffff000000001000 0x1000
        PAGE_KERNEL_RO (some Allocator.early_pgtable_alloc) false)).map leaf_stores =
      some 513 := by
  decide

/-- C28, amended: for every request with matching page offsets whose page-rounded length
`PAGE_ALIGN(size + (virt & ~PAGE_MASK))` is not zero and whose end `virt_page + length` does not
wrap, inside one 2^48 window, on well-formed tables and with an allocator that never fails,
`__create_pgd_mapping` returns: the nested loops of `__create_pgd_mapping`, `alloc_init_pud`,
`alloc_init_pmd` and `alloc_init_pte` all leave through `addr == end` (none steps past its
table).  With block mappings disabled, the number of leaf stores that the call logs is
`length / PAGE_SIZE`, the stores of the loop of `alloc_init_pte`, plus 512 for every section
that the call replaces by a leaf table, the stores of `split_pmd`. -/
theorem C28_loops_terminate_and_leaf_stores (m : Machine) (pgdir : PgdTable)
    (phys virt size prot : Nat) (al : Allocator) (allow : Bool)
    (hm : m.alloc_ok) (hwf : WF (fun _ => True) pgdir)
    (hoff : (phys ^^^ virt) &&& not64 PAGE_MASK = 0) (hprot0 : prot ≠ 0)
    (hv64 : virt < 2 ^ 64) (hp64 : phys < 2 ^ 64)
    (hlen : 0 < PAGE_ALIGN (add64 size (virt &&& not64 PAGE_MASK)))
    (hend : (virt &&& PAGE_MASK) + PAGE_ALIGN (add64 size (virt &&& not64 PAGE_MASK)) < 2 ^ 64)
    (hphys : (phys &&& PAGE_MASK) + PAGE_ALIGN (add64 size (virt &&& not64 PAGE_MASK)) ≤ 2 ^ 64)
    (hwin : (virt &&& PAGE_MASK) / 2 ^ 48 =
      ((virt &&& PAGE_MASK) + PAGE_ALIGN (add64 size (virt &&& not64 PAGE_MASK)) - 1) / 2 ^ 48) :
    ∃ pgd' m', __create_pgd_mapping m pgdir phys virt size prot (some al) allow =
        .ok (pgd', m') ∧
      (allow = false → ∃ new, m'.trace = new ++ m.trace ∧
        leaf_stores new =
          PAGE_ALIGN (add64 size (virt &&& not64 PAGE_MASK)) / PAGE_SIZE +
            512 * sections_split new) := by
  obtain ⟨hL1, hL2⟩ := page_align_mod (add64 size (virt &&& not64 PAGE_MASK))
  generalize hLdef : PAGE_ALIGN (add64 size (virt &&& not64 PAGE_MASK)) = L at *
  have e1 : phys &&& PAGE_MASK = phys / 2 ^ 12 * 2 ^ 12 := page_mask_eq phys hp64
  have e2 : virt &&& PAGE_MASK = virt / 2 ^ 12 * 2 ^ 12 := page_mask_eq virt hv64
  rw [e1] at hphys
  rw [e2] at hend hwin
  have e6 : add64 (virt / 2 ^ 12 * 2 ^ 12) L = virt / 2 ^ 12 * 2 ^ 12 + L := by
    unfold add64; exact Nat.mod_eq_of_lt hend
  have e7 : pgd_index virt = pgd_index (virt / 2 ^ 12 * 2 ^ 12) := by
    rw [pgd_index_eq, pgd_index_eq]; omega
  have hrun : __create_pgd_mapping m pgdir phys virt size prot (some al) allow =
      create_pgd_mapping_loop (PTRS_PER_PGD - pgd_index (virt / 2 ^ 12 * 2 ^ 12)) m pgdir
        (pgd_index (virt / 2 ^ 12 * 2 ^ 12)) (virt / 2 ^ 12 * 2 ^ 12)
        (virt / 2 ^ 12 * 2 ^ 12 + L) (phys / 2 ^ 12 * 2 ^ 12) prot (some al) allow := by
    rw [__create_pgd_mapping]
    have hc : ((phys ^^^ virt) &&& not64 PAGE_MASK != 0) = false := by rw [hoff]; rfl
    simp only [hc, Bool.false_eq_true, if_false]
    rw [hLdef, e1, e2, e6, e7]
  obtain ⟨pgd', m', r1, _⟩ := create_pgd_mapping_loop_spec (fun _ => True) prot al allow trivial
    (fun _ => trivial) (fun _ => trivial) hprot0 m pgdir (virt / 2 ^ 12 * 2 ^ 12)
    (virt / 2 ^ 12 * 2 ^ 12 + L) (phys / 2 ^ 12 * 2 ^ 12) hm hwf (by omega) hend hwin
    (by unfold Aligned; omega)
  rw [hrun]
  refine ⟨pgd', m', r1, ?_⟩
  intro ha
  subst ha
  have hc := create_pgd_mapping_loop_counted (some al) _ m pgdir _ _ _ _ prot pgd' m'
    ⟨by omega, by omega, by omega, hend⟩ r1
  have hg := create_pgd_mapping_grows (mapping_events_any (some al)) false m pgdir phys virt
    size prot pgd' m' (by rw [hrun]; exact r1)
  obtain ⟨⟨new, en, _⟩, _, _⟩ := hg
  refine ⟨new, en, ?_⟩
  unfold Counted leaf_stores sections_split at hc
  rw [en, List.countP_append, List.countP_append] at hc
  unfold leaf_stores sections_split PAGE_SIZE
  omega

set_option maxRecDepth 100000 in
/-- One page is mapped on the empty tables with blocks disallowed: the call returns and the log
gains one leaf store. -/
theorem C28_loops_terminate_and_leaf_stores_witness :
    0 < PAGE_ALIGN (add64 0x1000 (0xffff000000000000 &&& not64 PAGE_MASK)) ∧
    PAGE_ALIGN (add64 0x1000 (0xffff000000000000 &&& not64 PAGE_MASK)) / PAGE_SIZE = 1 ∧
    ∃ pgd' m', __create_pgd_mapping boot_machine zero_pgd_table 0x40000000 0xffff000000000000
        0x1000 PAGE_KERNEL (some Allocator.early_pgtable_alloc) false = .ok (pgd', m') ∧
      (false = false → ∃ new, m'.trace = new ++ boot_machine.trace ∧
        leaf_stores new =
          PAGE_ALIGN (add64 0x1000 (0xffff000000000000 &&& not64 PAGE_MASK)) / PAGE_SIZE +
            512 * sections_split new) :=
  ⟨by decide, by decide,
    C28_loops_terminate_and_leaf_stores boot_machine zero_pgd_table 0x40000000
      0xffff000000000000 0x1000 PAGE_KERNEL Allocator.early_pgtable_alloc false
      boot_machine_alloc_ok (zero_pgd_WF _) (by decide) (by decide) (by decide) (by decide)
      (by decide) (by decide) (by decide) (by decide)⟩

end Arm64Mmu
